import Mathlib

/-!
# Everyday Expressions (Evex): a shallow embedding of the regex engine

The development follows the C++ sources file by file:

* `EvexTranslator.h`  : `RegexTranslator<char>` (infix pattern to postfix instruction stream),
* `EvexCharacterClass.h`, `EvexNode.h`, `EvexGroupNode.h`, `EvexChunk.h` : the node model and
  the matching step `RegexChunk::Match` / `CanEnter` / `GetNexts`,
* `Evex.h` : `RegexAssembler::AssembleAutomaton` (with `Collapse` and
  `PruneIntermediaryGhosts`) and `Regex::Match`, `MatchFrom`, `MatchAll`.

Conventions of the embedding.

* A `std::string` that is walked with iterators is a `List Char` together with `Nat` indices;
  `*iter` at the end position reads the terminating NUL (`peek`).
* Heap objects are kept in arenas: a `RegexNode*` is an index into `Regex.nodes`, a
  `RegexChunk*` an index into `Regex.chunks`, and a pointer to a ghost node `&chunk->Ins[i]`
  or `&chunk->Outs[i]` is a `GhostPtr`.  `delete` marks the object as deleted.
* `std::unordered_set` / `std::unordered_map` are lists without duplicates, iterated in
  insertion order.  The automata of the worked examples are chains: every set that the
  construction or the match iterates over has one element, so the order plays no part.
* The vector `Regex::Tickers` hands out pointers to its elements; a `TickerPtr` carries the
  generation of the storage it points into, and a `push_back` at full capacity starts a new
  generation (the capacity grows by doubling).
* A user hook `std::function<void(RegexRangeIterator<T>&)>` is a function from the text and
  the position of the iterator to the position it leaves the iterator at.
* The translator and the assembler return `none` where the C++ program has no defined
  result (a read outside a container, a pop of an empty stack, an exception of `std::stoi`)
  or where the fuel does not suffice; the matcher reports both separately (`Interrupt`).
* Input positions (`RegexRangeIterator::Current - Begin`) are integers, so that the
  position one before the beginning of the text (`IsPreBegin`) exists.  The constructor of
  the iterator computes `End` as `&*(--e) + 1`; for the empty text this passes through that
  position and gives `End = Begin`.
* Loops and recursion that the C++ code does not bound are given a fuel argument; running
  out of fuel is reported as such and never as a result of the program.
* Where the source converts a text or a size to `int` (`std::stoi`, `(int)Captures.size()`,
  the sums of the relative references) the range of `int` is kept.  The counters of the
  translator (`NextIndex` of the two index tables, `LastGroup`, `NumNodes`) are `int` in the
  source and integers here: they count the symbols, classes, groups and nodes that the
  pattern makes, and a pattern would have to make 2^31 of them to leave the range.
* What happens in the course of a match, at any depth of nesting, is stated over the calls of
  the matcher: a `Frame` is a call of one of its functions with its arguments, `Calls` relates
  a call to the calls its body makes (one rule for every call site, under the conditions on
  which the body reaches it, with the calls that have returned before), and `Attempts` is the
  closure of `Calls`.
-/

namespace Evex

/-! ## C library helpers on `char` -/

/-- The C function isdigit on the ASCII range. -/
def isdigit (c : Char) : Bool := decide (48 ≤ c.toNat ∧ c.toNat ≤ 57)

/-- The C function isupper on the ASCII range. -/
def isupper (c : Char) : Bool := decide (65 ≤ c.toNat ∧ c.toNat ≤ 90)

/-- The C function islower on the ASCII range. -/
def islower (c : Char) : Bool := decide (97 ≤ c.toNat ∧ c.toNat ≤ 122)

/-- The C function isalpha on the ASCII range. -/
def isalpha (c : Char) : Bool := isupper c || islower c

/-- The C function tolower on the ASCII range. -/
def tolower (c : Char) : Char := if isupper c then Char.ofNat (c.toNat + 32) else c

/-- The NUL character that terminates a `std::string` buffer. -/
def NUL : Char := Char.ofNat 0

/-- The apostrophe character. -/
def APOS : Char := Char.ofNat 39

/-- The opening curly bracket. -/
def LBRACE : Char := Char.ofNat 123

/-- The closing curly bracket. -/
def RBRACE : Char := Char.ofNat 125

/-- Dereference of a string iterator: `*iter`.  At the end position the buffer holds NUL. -/
def peek (s : List Char) (i : Nat) : Char := s.getD i NUL

/-- `std::to_string` on an `int`. -/
def to_string (n : Int) : String := toString n

/-- Value of the leading decimal digits of a character list, given the value so far. -/
def digitsValue : List Char → Nat → Nat
  | [], acc => acc
  | c :: cs, acc => if isdigit c then digitsValue cs (acc * 10 + (c.toNat - 48)) else acc

/-- Keep a parsed value only when it fits the 32-bit `int`. -/
def intInRange (v : Int) : Option Int :=
  if -2147483648 ≤ v ∧ v ≤ 2147483647 then some v else none

/-- `std::stoi`: optional sign, then at least one digit; trailing text is ignored.
`none` stands for the exceptions `std::invalid_argument` and `std::out_of_range`. -/
def stoi (s : String) : Option Int :=
  match s.data with
  | [] => none
  | c :: cs =>
    if c = '-' then
      (match cs with
       | [] => none
       | d :: _ => if isdigit d then intInRange (- (digitsValue cs 0 : Int)) else none)
    else if c = '+' then
      (match cs with
       | [] => none
       | d :: _ => if isdigit d then intInRange (digitsValue cs 0 : Int) else none)
    else if isdigit c then intInRange (digitsValue (c :: cs) 0 : Int)
    else none

/-- The value of a `char` as the signed 8-bit integer the comparisons of the source see. -/
def charVal (c : Char) : Int := if c.toNat < 128 then (c.toNat : Int) else (c.toNat : Int) - 256

/-! ## Instruction stream (`EvexTranslator.h`) -/

/-- The opcodes of the postfix instruction stream. -/
inductive RegexInstructionType where
  | MakeCapture
  | MakeCaptureCollection
  | MakeCharClassSymbol
  | MakeCharClassLigatureSymbol
  | MakeLiteralCharClass
  | MakeUnitedCharClass
  | MakeSubtractedCharClass
  | MakeIntersectedCharClass
  | Literal
  | StartCheck
  | EndCheck
  | WordBoundary
  | Backref_Numbered
  | Backref_Named
  | Subroutine_Numbered
  | Subroutine_Named
  | Recursion
  | CaptureGroup_Numbered
  | CaptureGroup_Named
  | NonCaptureGroup
  | LookAhead
  | LookBehind
  | DefineAsSubroutine
  | CodeHook
  | Conditional
  | NOnce
  | NOnceLazy
  | NPlus
  | NPlusLazy
  | OPlus
  | OPlusLazy
  | Repeat
  | RepeatLazy
  | Concat
  | Alternate
  | MAX
  deriving DecidableEq, Repr

/-- One instruction: an opcode and its string arguments. -/
structure RegexInstruction where
  InstructionType : RegexInstructionType
  InstructionData : List String
  deriving DecidableEq, Repr

abbrev InstructionSet := List RegexInstruction

/-- The translator's table from a written form to the index it was emitted under. -/
structure IndexTracker where
  NextIndex : Int := 0
  Indices : List (List Char × Int) := []
  deriving DecidableEq, Repr

/-- `Indices.find(key)`. -/
def IndexTracker.find (t : IndexTracker) (key : List Char) : Option Int :=
  (t.Indices.find? (fun p => p.1 = key)).map (fun p => p.2)

/-- `Indices[key] = NextIndex` (insert or overwrite); the counter is not moved. -/
def IndexTracker.assignNext (t : IndexTracker) (key : List Char) : IndexTracker :=
  if (t.Indices.find? (fun p => p.1 = key)).isSome then
    { t with Indices := t.Indices.map (fun p => if p.1 = key then (p.1, t.NextIndex) else p) }
  else
    { t with Indices := t.Indices ++ [(key, t.NextIndex)] }

/-- `NextIndex++`. -/
def IndexTracker.bump (t : IndexTracker) : IndexTracker := { t with NextIndex := t.NextIndex + 1 }

/-- The inline modifier flags. -/
structure Modifiers where
  CaseInsensitive : Bool := false
  DotAll : Bool := false
  SingleLine : Bool := false
  NoAutoCap : Bool := false
  UnixLines : Bool := false
  LazyGroups : Bool := false
  deriving DecidableEq, Repr

/-- The by-reference arguments shared by every function of the translator. -/
structure Tables where
  error : String := ""
  CCSymbsToInds : IndexTracker := {}
  CCsToInds : IndexTracker := {}
  deriving DecidableEq, Repr

/-- The strings "t" and "f" used for boolean arguments. -/
def tf (b : Bool) : String := if b then "t" else "f"

/-- Shorthand for building an instruction. -/
def instr (t : RegexInstructionType) (d : List String) : RegexInstruction := ⟨t, d⟩

/-! ### `MunchCharClassSymbol` -/

/-- The loop `while (*(++EndDot) != '.' && EndDot != endIter) Munched += *EndDot;`.
Returns the final `EndDot` and `Munched`. -/
def ligatureScan (s : List Char) (endIter : Nat) : Nat → Nat → List Char → Option (Nat × List Char)
  | 0, _, _ => none
  | fuel + 1, EndDot, Munched =>
    let e := EndDot + 1
    if peek s e ≠ '.' ∧ e ≠ endIter then ligatureScan s endIter fuel e (Munched ++ [peek s e])
    else some (e, Munched)

/-- What `MunchCharClassSymbol` hands back: the returned index string, the iterator, the
tables and the instruction list. -/
structure SymbolResult where
  ret : String
  iter : Nat
  tb : Tables
  Out : InstructionSet
  deriving DecidableEq, Repr

/-- The range / single-character part of `MunchCharClassSymbol` (after `Munched.clear()`). -/
def MunchCharClassSymbol_plain (s : List Char) (iter endIter : Nat) (tb : Tables)
    (Out : InstructionSet) : SymbolResult :=
  let a1 := iter + 1
  let a2 := iter + 2
  let IsRange : Bool :=
    (decide (a1 ≠ endIter) && decide (peek s a1 = '-')) &&
    (decide (a2 ≠ endIter) && decide (peek s a2 ≠ '[') && decide (peek s a2 ≠ '\\'))
  if IsRange then
    let min := peek s iter
    let max := peek s a2
    let Munched := [min, '-', max]
    match tb.CCSymbsToInds.find Munched with
    | some ind => ⟨to_string ind, a2, tb, Out⟩
    | none =>
      if charVal min < charVal max then
        let syms := tb.CCSymbsToInds.assignNext Munched
        ⟨to_string syms.NextIndex, a2, { tb with CCSymbsToInds := syms.bump },
          Out ++ [instr .MakeCharClassSymbol [String.singleton min, String.singleton max]]⟩
      else
        ⟨"-1", iter,
          { tb with error := "Regex Compile Error: Character range invalid. (#" ++
              to_string (charVal min) ++ "-#" ++ to_string (charVal max) ++ ")" }, Out⟩
  else
    let Munched := [peek s iter]
    match tb.CCSymbsToInds.find Munched with
    | some ind => ⟨to_string ind, iter, tb, Out⟩
    | none =>
      let syms := tb.CCSymbsToInds.assignNext Munched
      ⟨to_string syms.NextIndex, iter, { tb with CCSymbsToInds := syms.bump },
        Out ++ [instr .MakeCharClassSymbol [String.mk Munched, String.mk Munched]]⟩

/-- `RegexTranslator<char>::MunchCharClassSymbol`: handles creation of character class
symbols (ligature `.ab.`, range `a-b`, single `a`). -/
def MunchCharClassSymbol (s : List Char) (iter endIter : Nat) (tb : Tables)
    (Out : InstructionSet) : Option SymbolResult :=
  if peek s iter = '.' then
    match ligatureScan s endIter (s.length + 2) iter [peek s iter] with
    | none => none
    | some (EndDot, Munched0) =>
      let Munched := Munched0 ++ [peek s EndDot]
      match tb.CCSymbsToInds.find Munched with
      | some ind => some ⟨to_string ind, EndDot, tb, Out⟩
      | none =>
        if EndDot - 1 ≠ iter then
          let Snipped := (Munched.drop 1).dropLast
          let Pieces := Snipped.map String.singleton
          let syms := tb.CCSymbsToInds.assignNext Munched
          some ⟨to_string syms.NextIndex, EndDot, { tb with CCSymbsToInds := syms.bump },
            Out ++ [instr .MakeCharClassLigatureSymbol Pieces]⟩
        else some (MunchCharClassSymbol_plain s iter endIter tb Out)
  else some (MunchCharClassSymbol_plain s iter endIter tb Out)

/-! ### `MunchLiteral` -/

/-- `RegexTranslator<char>::MunchLiteral`: a direct literal node such as `a`.  The iterator is
only read. -/
def MunchLiteral (s : List Char) (iter : Nat) (tb : Tables) (Out : InstructionSet)
    (Modifs : Modifiers) : Tables × InstructionSet :=
  let CCName := [peek s iter]
  match tb.CCsToInds.find CCName with
  | some ind => (tb, Out ++ [instr .Literal [to_string ind]])
  | none =>
    let CCSymbName := [peek s iter]
    let Out1 := Out ++ [instr .MakeCharClassSymbol [String.mk CCSymbName, String.mk CCSymbName]]
    let syms := tb.CCSymbsToInds.assignNext CCSymbName
    let Ind := to_string syms.NextIndex
    let Out2 := Out1 ++ [instr .MakeLiteralCharClass ["f", tf Modifs.CaseInsensitive, Ind]]
    let ccs := tb.CCsToInds.assignNext CCName
    let Out3 := Out2 ++ [instr .Literal [to_string ccs.NextIndex]]
    ({ tb with CCSymbsToInds := syms.bump, CCsToInds := ccs.bump }, Out3)

/-! ### `ExpandShorthand` and `FindEnd` -/

/-- `RegexTranslator<char>::ExpandShorthand`: the written class behind a shorthand letter, or
the empty string. -/
def ExpandShorthand (c : Char) : List Char :=
  let Pre : List Char := if isupper c then ['^'] else []
  let TrueChecked := tolower c
  if TrueChecked = 'l' then Pre ++ "a-z".data
  else if TrueChecked = 'u' then Pre ++ "A-Z".data
  else if TrueChecked = 'd' then Pre ++ "0-9".data
  else if TrueChecked = 'w' then Pre ++ "A-Za-z0-9_".data
  else if TrueChecked = 's' then Pre ++ [' ', '\t', '\r', '\n', Char.ofNat 11, Char.ofNat 12]
  else if TrueChecked = 'h' then Pre ++ [' ', '\t']
  else if TrueChecked = 'v' then Pre ++ ['\r', '\n', Char.ofNat 11, Char.ofNat 12]
  else if TrueChecked = 'n' then Pre ++ ['\n']
  else if TrueChecked = 'r' then
    Pre ++ ['.', '\r', '\n', '.', '\r', '\n', Char.ofNat 11, Char.ofNat 12]
  else []

/-- `RegexTranslator<char>::FindEnd`: walks to the closing bracket that matches, appending
every character it passes to `Output` when one is given.  Returns the iterator and the
output. -/
def FindEnd (s : List Char) (endIter : Nat) (startBracket endBracket : Char) (wantOutput : Bool) :
    Nat → Nat → Int → List Char → Option (Nat × List Char)
  | 0, _, _, _ => none
  | fuel + 1, iter, Depth, Output =>
    let i := iter + 1
    if i = endIter then some (i, Output)
    else
      let c := peek s i
      let add : List Char := if wantOutput then Output ++ [c] else Output
      if c = startBracket then
        let Depth1 := if peek s (i - 1) ≠ '\\' then Depth + 1 else Depth
        FindEnd s endIter startBracket endBracket wantOutput fuel i Depth1 add
      else if c = endBracket then
        if peek s (i - 1) ≠ '\\' then
          if Depth = 0 then some (i, Output)
          else FindEnd s endIter startBracket endBracket wantOutput fuel i (Depth - 1) add
        else FindEnd s endIter startBracket endBracket wantOutput fuel i Depth add
      else FindEnd s endIter startBracket endBracket wantOutput fuel i Depth add

/-! ### `MunchCharClass` -/

/-- The locals of the scanning loop of `MunchCharClass`. -/
structure ClassScan where
  iter : Nat
  Types : List RegexInstructionType
  Chunks : List (List Char)
  Stragglers : List Char
  deriving DecidableEq, Repr

/-- How the scanning loop of `MunchCharClass` ends: normally, or by an early return that sets
the error. -/
inductive ClassScanExit where
  | finished (st : ClassScan)
  | failed (error : String) (iter : Nat)
  deriving DecidableEq, Repr

/-- The block `if (!Stragglers.empty()) { Chunks.push_back(Stragglers); Stragglers.clear();
if (Chunks.size() > 1) Types.push_back(MakeUnitedCharClass); }`. -/
def ClassScan.flush (st : ClassScan) : ClassScan :=
  if st.Stragglers.isEmpty then st
  else
    let Chunks := st.Chunks ++ [st.Stragglers]
    { st with
      Chunks := Chunks
      Stragglers := []
      Types := if Chunks.length > 1 then st.Types ++ [.MakeUnitedCharClass] else st.Types }

/-- The block `Chunks.push_back(""); FindEnd(iter, endIter, '[', ']', &Chunks.back());
Types.push_back(T);` with the iterator standing on the opening bracket. -/
def ClassScan.nested (s : List Char) (endIter : Nat) (st : ClassScan) (iter : Nat)
    (T : RegexInstructionType) : Option ClassScan :=
  match FindEnd s endIter '[' ']' true (s.length + 2) iter 0 [] with
  | none => none
  | some (iter1, chunk) =>
    some { iter := iter1, Chunks := st.Chunks ++ [chunk], Types := st.Types ++ [T],
           Stragglers := st.Stragglers }

/-- The many-escape loop of `MunchCharClass` (`\Q ... \E` inside a class).  Returns the
iterator and the stragglers. -/
def classQuoteScan (s : List Char) (endIter : Nat) : Nat → Nat → List Char → Option (Nat × List Char)
  | 0, _, _ => none
  | fuel + 1, iter, Stragglers =>
    let i := iter + 1
    if i = endIter then some (i, Stragglers)
    else if peek s i = '\\' then
      if peek s (i + 1) = 'E' then some (i + 1, Stragglers)
      else classQuoteScan s endIter fuel i (Stragglers ++ [peek s i])
    else
      let Str1 := if peek s i = '[' ∨ peek s i = ']' then Stragglers ++ ['\\'] else Stragglers
      classQuoteScan s endIter fuel i (Str1 ++ [peek s i])

/-- The loop `while (iter != endIter) { ... ++iter; }` of `MunchCharClass`. -/
def classScanLoop (s : List Char) (endIter : Nat) : Nat → ClassScan → Option ClassScanExit
  | 0, _ => none
  | fuel + 1, st =>
    if st.iter = endIter then some (.finished st)
    else if st.iter > endIter then none
    else
      let c := peek s st.iter
      let i1 := st.iter + 1
      if c = '\\' then
        if peek s i1 = 'Q' then
          match classQuoteScan s endIter (s.length + 2) i1 st.Stragglers with
          | none => none
          | some (i2, Str) =>
            if i2 = endIter then some (.finished { st with iter := i2, Stragglers := Str })
            else classScanLoop s endIter fuel { st with iter := i2 + 1, Stragglers := Str }
        else
          let Short := ExpandShorthand (peek s i1)
          if Short.isEmpty then
            classScanLoop s endIter fuel
              { st with iter := i1 + 1, Stragglers := st.Stragglers ++ [peek s st.iter, peek s i1] }
          else if st.Stragglers.isEmpty ∧ st.Chunks.isEmpty then
            classScanLoop s endIter fuel { st with iter := i1 + 1, Stragglers := Short }
          else
            let st1 := st.flush
            classScanLoop s endIter fuel
              { st1 with iter := i1 + 1, Chunks := st1.Chunks ++ [Short],
                         Types := st1.Types ++ [.MakeUnitedCharClass] }
      else if c = '&' then
        if peek s i1 = '&' then
          let i2 := i1 + 1
          if peek s i2 = '[' then
            if st.Stragglers.isEmpty ∧ st.Chunks.isEmpty then
              some (.failed "Regex Compile Error: Malformed character class intersect." i2)
            else
              match st.flush.nested s endIter i2 .MakeIntersectedCharClass with
              | none => none
              | some st2 => classScanLoop s endIter fuel { st2 with iter := st2.iter + 1 }
          else
            classScanLoop s endIter fuel
              { st with iter := i2, Stragglers := st.Stragglers ++ [peek s st.iter, peek s i1] }
        else
          classScanLoop s endIter fuel
            { st with iter := i1, Stragglers := st.Stragglers ++ [peek s st.iter] }
      else if c = '-' then
        if peek s i1 = '[' then
          if st.Stragglers.isEmpty ∧ st.Chunks.isEmpty then
            some (.failed "Regex Compile Error: Malformed character class subtract." i1)
          else
            match st.flush.nested s endIter i1 .MakeSubtractedCharClass with
            | none => none
            | some st2 => classScanLoop s endIter fuel { st2 with iter := st2.iter + 1 }
        else
          classScanLoop s endIter fuel
            { st with iter := i1, Stragglers := st.Stragglers ++ [peek s st.iter] }
      else if c = '[' then
        if st.Stragglers.isEmpty ∧ st.Chunks.isEmpty then
          match ClassScan.nested s endIter { st with Chunks := st.Chunks ++ [[]] } st.iter
              .MakeLiteralCharClass with
          | none => none
          | some st2 => classScanLoop s endIter fuel { st2 with iter := st2.iter + 1 }
        else
          match st.flush.nested s endIter st.iter .MakeUnitedCharClass with
          | none => none
          | some st2 => classScanLoop s endIter fuel { st2 with iter := st2.iter + 1 }
      else
        classScanLoop s endIter fuel { st with iter := i1, Stragglers := st.Stragglers ++ [c] }

/-- The loop `for (; TrueIter != Stragglers.end(); ++TrueIter)` of `MunchCharClass` that
munches one symbol per round.  Returns the symbol indices, the tables and the instructions. -/
def classSymbolLoop (Stragglers : List Char) :
    Nat → Nat → List String → Tables → InstructionSet → Option (List String × Tables × InstructionSet)
  | 0, _, _, _, _ => none
  | fuel + 1, TrueIter, Rolling, tb, Out =>
    if TrueIter = Stragglers.length then some (Rolling, tb, Out)
    else if TrueIter > Stragglers.length then none
    else
      let it := if peek Stragglers TrueIter = '\\' then TrueIter + 1 else TrueIter
      match MunchCharClassSymbol Stragglers it Stragglers.length tb Out with
      | none => none
      | some r => classSymbolLoop Stragglers fuel (r.iter + 1) (Rolling ++ [r.ret]) r.tb r.Out

/-- What `MunchCharClass` hands back: the returned index string, the iterator, the tables and
the instruction list. -/
structure ClassResult where
  ret : String
  iter : Nat
  tb : Tables
  Out : InstructionSet
  deriving DecidableEq, Repr

/-- `RegexTranslator<char>::MunchCharClass`: handles construction of character classes from
the text between `iter` and `endIter` of `s`. -/
def MunchCharClass : Nat → List Char → Nat → Nat → Tables → InstructionSet → Modifiers → Int →
    Option ClassResult
  | 0, _, _, _, _, _, _, _ => none
  | fuel + 1, s, iter, endIter, tb, Out, Modifs, MaxDepth =>
    if MaxDepth ≤ 0 then
      some ⟨"", iter,
        { tb with error :=
            "Regex Compile Error: Char class nesting surpasses the Max Nesting Depth limit." },
        Out⟩
    else
      let FullCCName : List Char :=
        if iter + 1 ≠ endIter then (s.drop iter).take (endIter - iter) else [peek s iter]
      match tb.CCsToInds.find FullCCName with
      | some ind => some ⟨to_string ind, iter, tb, Out⟩
      | none =>
        match classScanLoop s endIter (s.length + 2) ⟨iter, [], [], []⟩ with
        | none => none
        | some (.failed e it) => some ⟨"", it, { tb with error := e }, Out⟩
        | some (.finished st) =>
          if ¬ st.Types.isEmpty then
            let sub (chunk : List Char) (tb : Tables) (Out : InstructionSet) : Option ClassResult :=
              MunchCharClass fuel chunk 0 chunk.length tb Out Modifs (MaxDepth - 1)
            let Chunk0 := st.Chunks.getD 0 []
            let Chunk1 := st.Chunks.getD 1 []
            if st.Chunks.length < 2 then none
            else
              let first : Option (String × List Char × Tables × InstructionSet) :=
                if Chunk0.isEmpty then
                  (sub Chunk1 tb Out).map (fun r => (r.ret, Chunk1, r.tb, r.Out))
                else
                  match sub Chunk0 tb Out with
                  | none => none
                  | some l =>
                    match sub Chunk1 l.tb l.Out with
                    | none => none
                    | some r =>
                      let RollingName := Chunk0 ++ Chunk1
                      let ccs := r.tb.CCsToInds.assignNext RollingName
                      some (to_string ccs.NextIndex, RollingName,
                        { r.tb with CCsToInds := ccs.bump },
                        r.Out ++ [instr (st.Types.getD 0 .MAX) [l.ret, r.ret]])
              let rest : List (List Char × RegexInstructionType) :=
                (st.Chunks.drop 2).zip (st.Types.drop 1)
              if (st.Chunks.drop 2).length ≠ (st.Types.drop 1).length then none
              else
                (rest.foldl
                  (fun (acc : Option (String × List Char × Tables × InstructionSet)) ct =>
                    match acc with
                    | none => none
                    | some (Ind, RollingName, tb1, Out1) =>
                      match sub ct.1 tb1 Out1 with
                      | none => none
                      | some r =>
                        let RollingName1 := RollingName ++ ct.1
                        let ccs := r.tb.CCsToInds.assignNext RollingName1
                        some (to_string ccs.NextIndex, RollingName1,
                          { r.tb with CCsToInds := ccs.bump },
                          r.Out ++ [instr ct.2 [Ind, r.ret]]))
                  first).map (fun p => ⟨p.1, st.iter, p.2.2.1, p.2.2.2⟩)
          else if ¬ st.Stragglers.isEmpty then
            let negated := decide (peek st.Stragglers 0 = '^')
            let Rolling0 : List String := [tf negated, tf Modifs.CaseInsensitive]
            match classSymbolLoop st.Stragglers (st.Stragglers.length + 2)
                (if negated then 1 else 0) Rolling0 tb Out with
            | none => none
            | some (Rolling, tb1, Out1) =>
              let ccs := tb1.CCsToInds.assignNext FullCCName
              some ⟨to_string ccs.NextIndex, st.iter, { tb1 with CCsToInds := ccs.bump },
                Out1 ++ [instr .MakeLiteralCharClass Rolling]⟩
          else
            some ⟨"", st.iter, { tb with error := "Regex Compile Error: Empty Character Class." },
              Out⟩

/-! ### `MunchBackref` and `MunchSubroutine` -/

/-- The loop `while (iter != endIter && Pred(iter)) { Munch += *iter; ++iter; }`. -/
def munchWhile (s : List Char) (endIter : Nat) (Pred : Char → Bool) :
    Nat → Nat → List Char → Option (Nat × List Char)
  | 0, _, _ => none
  | fuel + 1, iter, Munch =>
    if iter ≠ endIter ∧ Pred (peek s iter) = true then
      munchWhile s endIter Pred fuel (iter + 1) (Munch ++ [peek s iter])
    else some (iter, Munch)

/-- What the reference parsers hand back: the iterator, the tables and the instructions. -/
structure MunchResult where
  iter : Nat
  tb : Tables
  Out : InstructionSet
  deriving DecidableEq, Repr

/-- The opening of `MunchBackref` and `MunchSubroutine`: decides between a numbered (`sign = 0`
with the digit predicate), relative (`-1`), forward (`+1`) and named reference (`sign = 0` with
the always-true predicate), or fails.  Returns the iterator, the sign and whether the
predicate is the always-true one. -/
def referenceHead (s : List Char) (iter : Nat) : Except Nat (Nat × Int × Bool) :=
  let c := peek s iter
  if isdigit c then .ok (iter, 0, false)
  else if c = '-' then
    if isdigit (peek s (iter + 1)) then .ok (iter + 1, -1, false) else .error (iter + 1)
  else if c = '+' then
    if isdigit (peek s (iter + 1)) then .ok (iter + 1, 1, false) else .error (iter + 1)
  else if isalpha c then .ok (iter, 0, true)
  else .error iter

/-- `RegexTranslator<char>::MunchBackref`: numbered, named, relative and forward
back-references.  The result is `none` where `std::stoi` throws and where a sum leaves the
range of `int`. -/
def MunchBackref (s : List Char) (iter endIter : Nat) (tb : Tables) (Out : InstructionSet)
    (NextCapGroup : Int) : Option MunchResult :=
  match referenceHead s iter with
  | .error it => some ⟨it, { tb with error := "Regex Compile Error: Malformed backreference." }, Out⟩
  | .ok (it, sign, named) =>
    match munchWhile s endIter (fun c => named || isdigit c) (s.length + 2) it [] with
    | none => none
    | some (it1, Munch) =>
      if isdigit (peek Munch 0) then
        match stoi (String.mk Munch) with
        | none => none
        | some n =>
          if sign ≠ 0 then
            if sign > 0 then
              (intInRange (n + NextCapGroup)).map (fun TrueCap =>
                ⟨it1, tb, Out ++ [instr .Backref_Numbered [to_string TrueCap]]⟩)
            else
              (intInRange (NextCapGroup + 1)).map (fun Next =>
                let TrueCap := Next + (-n)
                if TrueCap > 0 then
                  ⟨it1, tb, Out ++ [instr .Backref_Numbered [to_string TrueCap]]⟩
                else
                  ⟨it1, { tb with error := ("Regex Compile Error: Capture Group '" ++
                      to_string TrueCap ++ "' does not and cannot exist. " ++
                      "The relative backreference given is malformed.") }, Out⟩)
          else if n > 0 then
            some ⟨it1, tb, Out ++ [instr .Backref_Numbered [String.mk Munch]]⟩
          else
            some ⟨it1, { tb with error := ("Regex Compile Error: Capture Group '" ++
              String.mk Munch ++ "' does not and cannot exist. " ++
              "The relative backreference given is malformed.") }, Out⟩
      else
        some ⟨it1, tb, Out ++ [instr .Backref_Named [String.mk Munch]]⟩

/-- `RegexTranslator<char>::MunchSubroutine`: numbered, named, relative and forward
subroutine calls, and recursion. -/
def MunchSubroutine (s : List Char) (iter endIter : Nat) (tb : Tables) (Out : InstructionSet)
    (NextCapGroup : Int) (MaxDepth : Int) (Modifs : Modifiers) : Option MunchResult :=
  if peek s iter = 'R' ∨ peek s iter = '0' then
    some ⟨iter + 1, tb, Out ++ [instr .Recursion [to_string MaxDepth, tf Modifs.LazyGroups]]⟩
  else
    match referenceHead s iter with
    | .error it => some ⟨it, { tb with error := "Regex Compile Error: Malformed subroutine." }, Out⟩
    | .ok (it, sign, named) =>
      match munchWhile s endIter (fun c => named || isdigit c) (s.length + 2) it [] with
      | none => none
      | some (it1, Munch) =>
        if isdigit (peek Munch 0) then
          match stoi (String.mk Munch) with
          | none => none
          | some n =>
            if sign ≠ 0 then
              if sign > 0 then
                (intInRange (n + NextCapGroup)).map (fun TrueCap =>
                  ⟨it1, tb, Out ++
                    [instr .Subroutine_Numbered [String.mk Munch, to_string TrueCap]]⟩)
              else
                (intInRange (NextCapGroup + 1)).map (fun Next =>
                  let TrueCap := Next + (-n)
                  if TrueCap > 0 then
                    ⟨it1, tb, Out ++
                      [instr .Subroutine_Numbered [String.mk Munch, to_string TrueCap]]⟩
                  else
                    ⟨it1, { tb with error := ("Regex Compile Error: Capture Group '" ++
                        to_string TrueCap ++ "' does not and cannot exist. " ++
                        "The relative subroutine given is malformed.") }, Out⟩)
            else if n > 0 then
              some ⟨it1, tb, Out ++
                [instr .Subroutine_Numbered [String.mk Munch, to_string MaxDepth]]⟩
            else
              some ⟨it1, { tb with error := ("Regex Compile Error: Capture Group '" ++
                String.mk Munch ++ "' does not and cannot exist. " ++
                "The relative subroutine given is malformed.") }, Out⟩
        else
          some ⟨it1, tb, Out ++ [instr .Subroutine_Named [String.mk Munch, to_string MaxDepth]]⟩

/-! ### `MunchEscaped` -/

/-- The written class of the line delimiters, CR LF VT FF. -/
def LineChars : List Char := ['\r', '\n', Char.ofNat 11, Char.ofNat 12]

/-- The written class of the word characters. -/
def WordChars : List Char := "A-Za-z0-9_".data

/-- `MunchCharClass` over a whole temporary string, with fuel that the nesting limit bounds. -/
def MunchCharClassOf (chars : List Char) (tb : Tables) (Out : InstructionSet)
    (Modifs : Modifiers) (MaxDepth : Int) : Option ClassResult :=
  MunchCharClass (MaxDepth.toNat + 1) chars 0 chars.length tb Out Modifs MaxDepth

/-- The loop `while (++Copy != endIter && *Copy != EndGlyph);`: the position of the closing
glyph, or `endIter`. -/
def findGlyph (s : List Char) (endIter : Nat) (EndGlyph : Char) : Nat → Nat → Option Nat
  | 0, _ => none
  | fuel + 1, Copy =>
    let c := Copy + 1
    if c ≠ endIter ∧ peek s c ≠ EndGlyph then findGlyph s endIter EndGlyph fuel c else some c

/-- The many-escape loop of `MunchEscaped` (`\Q ... \E` outside a class): one literal per
character, joined by `Concat`.  Returns the iterator, the tables, the instructions and
whether the loop was left by `break`. -/
def escapedQuoteLoop (s : List Char) (endIter : Nat) (Modifs : Modifiers) :
    Nat → Nat → Nat → Tables → InstructionSet → Option (Nat × Tables × InstructionSet × Bool)
  | 0, _, _, _, _ => none
  | fuel + 1, iter, Lits, tb, Out =>
    let i := iter + 1
    if i = endIter then some (i, tb, Out, false)
    else if i > endIter then none
    else if peek s i = '\\' ∧ peek s (i + 1) = 'E' then some (i + 1, tb, Out, true)
    else
      let r := MunchLiteral s i tb Out Modifs
      let Out1 := if Lits + 1 > 1 then r.2 ++ [instr .Concat []] else r.2
      escapedQuoteLoop s endIter Modifs fuel i (Lits + 1) r.1 Out1

/-- The closing glyph that belongs to an opening `<`, apostrophe or curly bracket. -/
def closingGlyph (c : Char) : Char := if c = '<' then '>' else if c = APOS then APOS else RBRACE

/-- `RegexTranslator<char>::MunchEscaped`: special characters and escapes.  The iterator
stands on the backslash. -/
def MunchEscaped (s : List Char) (iter endIter : Nat) (tb : Tables) (Out : InstructionSet)
    (NextCapGroup : Int) (Modifs : Modifiers) (MaxDepth : Int) : Option MunchResult :=
  let i := iter + 1
  let c := peek s i
  let anchor (chars : List Char) (t : RegexInstructionType) (a b : String) : Option MunchResult :=
    (MunchCharClassOf chars tb Out Modifs (MaxDepth - 1)).map
      (fun r => ⟨i, r.tb, r.Out ++ [instr t [a, b, r.ret]]⟩)
  if c = 'A' then
    (MunchCharClass ((MaxDepth - 1).toNat + 1) (LineChars ++ [']']) 0 LineChars.length tb Out
        Modifs (MaxDepth - 1)).map
      (fun r => ⟨i, r.tb, r.Out ++ [instr .StartCheck ["t", "f", r.ret]]⟩)
  else if c = 'z' then anchor LineChars .EndCheck "t" "f"
  else if c = 'Z' then anchor LineChars .EndCheck "t" "t"
  else if c = 'b' then
    (MunchCharClassOf WordChars tb Out Modifs (MaxDepth - 1)).map
      (fun r => ⟨i, r.tb, r.Out ++ [instr .WordBoundary ["f", r.ret]]⟩)
  else if c = 'B' then
    (MunchCharClassOf WordChars tb Out Modifs (MaxDepth - 1)).map
      (fun r => ⟨i, r.tb, r.Out ++ [instr .WordBoundary ["t", r.ret]]⟩)
  else if c = 'G' then anchor LineChars .StartCheck "t" "t"
  else if c = 'Q' then
    match escapedQuoteLoop s endIter Modifs (s.length + 2) i 0 tb Out with
    | none => none
    | some (it, tb1, Out1, _) =>
      if it = endIter then some ⟨it - 1, tb1, Out1⟩ else some ⟨it, tb1, Out1⟩
  else if c = 'k' ∨ c = 'g' then
    let j := i + 1
    let d := peek s j
    if d = '<' ∨ d = APOS ∨ d = LBRACE then
      let EndGlyph := closingGlyph d
      match findGlyph s endIter EndGlyph (s.length + 2) j with
      | none => none
      | some Copy =>
        if Copy ≠ endIter then
          if c = 'k' then MunchBackref s (j + 1) Copy tb Out NextCapGroup
          else MunchSubroutine s (j + 1) Copy tb Out NextCapGroup MaxDepth Modifs
        else
          some ⟨j, { tb with error :=
            ((if c = 'k' then
                "Regex Compile Error: Couldn't find closing bracket to backreference. (Was expecting: "
              else
                "Regex Compile Error: Couldn't find closing bracket to subroutine. (Was expecting: ")
              ++ String.singleton EndGlyph ++ " )") }, Out⟩
    else
      let r := MunchLiteral s (j - 2) tb Out Modifs
      some ⟨j - 2, r.1, r.2⟩
  else if isdigit c then
    (MunchBackref s i endIter tb Out NextCapGroup).map (fun r => { r with iter := r.iter - 1 })
  else
    let Short := ExpandShorthand c
    if Short.isEmpty then
      let r := MunchLiteral s i tb Out Modifs
      some ⟨i, r.1, r.2⟩
    else
      match tb.CCsToInds.find Short with
      | some ind => some ⟨i, tb, Out ++ [instr .Literal [to_string ind]]⟩
      | none =>
        (MunchCharClassOf Short tb Out Modifs MaxDepth).map
          (fun r => ⟨i, r.tb, r.Out ++ [instr .Literal [r.ret]]⟩)

/-! ### `ReverseGroup` -/

/-- The inner loop of `ReverseGroup` that copies a bracketed piece unreversed.  `Copy`
stands on the opening bracket at the start.  Returns `Copy` (on the closing bracket) and the
piece. -/
def reverseSubChunk (s : List Char) (endIter : Nat) (closing : Char) :
    Nat → Nat → List Char → Option (Nat × List Char)
  | 0, _, _ => none
  | fuel + 1, Copy, SubChunk =>
    let c := Copy + 1
    if c = endIter then some (c + 1, SubChunk ++ [peek s (c + 1)])
    else if peek s c = closing then
      if peek s (c - 1) ≠ '\\' then some (c, SubChunk ++ [peek s c])
      else reverseSubChunk s endIter closing fuel c (SubChunk ++ [peek s c])
    else reverseSubChunk s endIter closing fuel c (SubChunk ++ [peek s c])

/-- `RegexTranslator<char>::ReverseGroup`: the text of a look-behind group, reversed piece by
piece.  Returns the iterator and the reversed text. -/
def ReverseGroup (s : List Char) (endIter : Nat) : Nat → Nat → List Char → Option (Nat × List Char)
  | 0, _, _ => none
  | fuel + 1, iter, Munch =>
    let i := iter + 1
    if i = endIter then some (i, Munch)
    else if i > endIter then none
    else
      let c := peek s i
      if c = '\\' then
        ReverseGroup s endIter fuel (i + 1) ([c, peek s (i + 1)] ++ Munch)
      else if (c = '[' ∨ c = '(') ∧ peek s (i - 1) ≠ '\\' then
        match reverseSubChunk s endIter (if c = '[' then ']' else ')') (s.length + 2) i [c] with
        | none => none
        | some (Copy, SubChunk) => ReverseGroup s endIter fuel Copy (SubChunk ++ Munch)
      else ReverseGroup s endIter fuel i (c :: Munch)

/-! ### `MunchOp` -/

/-- The test `if (++iter != endIter && *iter == '?') Lazy = true; else --iter;` with the
iterator standing on the last character of the quantifier.  Returns the iterator and the
laziness. -/
def lazySuffix (s : List Char) (iter endIter : Nat) : Nat × Bool :=
  if iter + 1 ≠ endIter ∧ peek s (iter + 1) = '?' then (iter + 1, true) else (iter, false)

/-- `RegexTranslator<char>::MunchOp`: operators and their lazy variants.  The iterator stands
on the operator character `Op`. -/
def MunchOp (s : List Char) (iter endIter : Nat) (tb : Tables) (Out : InstructionSet)
    (Modifs : Modifiers) (Op : Char) : MunchResult :=
  if Op = '?' ∨ Op = '*' ∨ Op = '+' then
    let l := lazySuffix s iter endIter
    let t : RegexInstructionType :=
      if Op = '?' then (if l.2 then .NOnceLazy else .NOnce)
      else if Op = '*' then (if l.2 then .NPlusLazy else .NPlus)
      else (if l.2 then .OPlusLazy else .OPlus)
    ⟨l.1, tb, Out ++ [instr t []]⟩
  else if Op = LBRACE then
    let i1 := iter + 1
    if i1 ≠ endIter ∧ isdigit (peek s i1) = true then
      let Min := String.singleton (peek s i1)
      let i2 := i1 + 1
      if i2 ≠ endIter ∧ peek s i2 = ',' then
        let i3 := i2 + 1
        if i3 ≠ endIter ∧ isdigit (peek s i3) = true then
          let Max := String.singleton (peek s i3)
          let i4 := i3 + 1
          if i4 ≠ endIter ∧ peek s i4 = RBRACE then
            let l := lazySuffix s i4 endIter
            ⟨l.1, tb, Out ++ [instr (if l.2 then .RepeatLazy else .Repeat) ["MinMax", Min, Max]]⟩
          else
            ⟨i4, { tb with error :=
              "Regex Compile Error: Min-Max Repeat quantifier is missing closing bracket." }, Out⟩
        else if i3 ≠ endIter ∧ peek s i3 = RBRACE then
          let l := lazySuffix s i3 endIter
          ⟨l.1, tb, Out ++ [instr (if l.2 then .RepeatLazy else .Repeat) ["Min", Min, Min]]⟩
        else
          ⟨i3, { tb with error :=
            "Regex Compile Error: Min Repeat quantifier is missing closing bracket." }, Out⟩
      else if peek s i2 = RBRACE then
        let l := lazySuffix s i2 endIter
        ⟨l.1, tb, Out ++ [instr (if l.2 then .RepeatLazy else .Repeat) ["Exact", Min, Min]]⟩
      else
        ⟨i2, { tb with error :=
          "Regex Compile Error: Exact repeat quantifier is missing closing bracket." }, Out⟩
    else
      let r := MunchLiteral s iter tb Out Modifs
      ⟨iter, r.1, r.2⟩
  else
    ⟨iter, { tb with error := "Regex Compile Error: Invalid quantifier." }, Out⟩

/-! ### `MunchGroup` and `TranslateInternal` -/

/-- What `MunchGroup` hands back through its reference arguments. -/
structure GroupResult where
  iter : Nat
  tb : Tables
  Out : InstructionSet
  NextCapGroup : Int
  Modifs : Modifiers
  deriving DecidableEq, Repr

/-- The recursive call `TranslateInternal(Regex, Regex.begin(), error, ..., Modifs, MaxDepth - 1)`
as the helpers of `MunchGroup` see it: from a text, the tables and the modifiers to the
instructions and the tables. -/
abbrev SubTranslate := List Char → Tables → Modifiers → Option (InstructionSet × Tables)

/-- The loop `while (++iter != endIter) Regex += *iter;`: the text strictly between the
iterator and the end. -/
def sliceAfter (s : List Char) (iter endIter : Nat) : Option (List Char) :=
  if iter < endIter then some ((List.range (endIter - (iter + 1))).map (fun k => peek s (iter + 1 + k)))
  else none

/-- The loop `while (iter != endIter) { Regex += *iter; ++iter; }`: the text from the iterator
to the end. -/
def sliceFrom (s : List Char) (iter endIter : Nat) : Option (List Char) :=
  if iter ≤ endIter then some ((List.range (endIter - iter)).map (fun k => peek s (iter + k)))
  else none

/-- The loop `while (iter != endIter) { if (*iter == stop) break; Name += *iter; ++iter; }`. -/
def nameScanFrom (s : List Char) (endIter : Nat) (stop : Char) :
    Nat → Nat → List Char → Option (Nat × List Char)
  | 0, _, _ => none
  | fuel + 1, iter, Name =>
    if iter = endIter then some (iter, Name)
    else if iter > endIter then none
    else if peek s iter = stop then some (iter, Name)
    else nameScanFrom s endIter stop fuel (iter + 1) (Name ++ [peek s iter])

/-- The loop `while (++iter != endIter) { if (*iter == stop) break; Name += *iter; }`. -/
def nameScan (s : List Char) (endIter : Nat) (stop : Char) (iter : Nat) : Option (Nat × List Char) :=
  if iter < endIter then nameScanFrom s endIter stop (s.length + 2) (iter + 1) [] else none

/-- Split of the text of a branch-reset group at every `|`. -/
def splitBranches : List Char → List Char → List (List Char)
  | [], cur => [cur]
  | c :: cs, cur => if c = '|' then cur :: splitBranches cs [] else splitBranches cs (cur ++ [c])

/-- The capture-making instructions of one branch of a branch-reset group, seen in order:
those beyond the ones already declared are declared anew with the argument "f".  Returns the
new declarations and the number of capture-making instructions seen. -/
def branchCaps : InstructionSet → Nat → Nat → InstructionSet × Nat
  | [], _, CurrCap => ([], CurrCap)
  | ins :: rest, CapsSize, CurrCap =>
    if ins.InstructionType = .MakeCapture ∨ ins.InstructionType = .MakeCaptureCollection then
      let r := branchCaps rest CapsSize (CurrCap + 1)
      if CurrCap ≥ CapsSize then (instr ins.InstructionType ["f"] :: r.1, r.2) else r
    else branchCaps rest CapsSize CurrCap

/-- The branch-reset group `(?|a|b|c)`, with the iterator on the `|` after the question
mark. -/
def branchResetGroup (tr : SubTranslate) (s : List Char) (iter endIter : Nat) (tb : Tables)
    (Out : InstructionSet) (NextCapGroup : Int) (Modifs : Modifiers) : Option GroupResult :=
  match sliceAfter s iter endIter with
  | none => none
  | some body =>
    let Branches := splitBranches body []
    let step (acc : Option (Tables × InstructionSet × Int × Nat × Int)) (currBranch : List Char) :
        Option (Tables × InstructionSet × Int × Nat × Int) :=
      match acc with
      | none => none
      | some (tb1, Out1, Next1, CapsSize, AltCount) =>
        match tr currBranch tb1 Modifs with
        | none => none
        | some (Chunks, tb2) =>
          if Chunks.isEmpty then some (tb2, Out1, Next1, CapsSize, AltCount - 1)
          else
            let caps := branchCaps Chunks CapsSize 0
            let kept := Chunks.filter (fun ins =>
              ins.InstructionType ≠ .MakeCapture ∧ ins.InstructionType ≠ .MakeCaptureCollection)
            some (tb2, Out1 ++ caps.1 ++ kept, Next1 + caps.1.length,
              CapsSize + caps.1.length, AltCount)
    match Branches.foldl step (some (tb, Out, NextCapGroup, 0, (Branches.length : Int) - 1)) with
    | none => none
    | some (tb1, Out1, Next1, _, AltCount) =>
      some ⟨endIter, tb1,
        Out1 ++ List.replicate AltCount.toNat (instr .Alternate []) ++
          [instr .NonCaptureGroup [tf Modifs.LazyGroups]],
        Next1, Modifs⟩

/-- A group whose whole remaining text is translated and closed by one instruction:
look-ahead, look-behind, non-capturing group. -/
def wrappedGroup (tr : SubTranslate) (body : List Char) (endIter : Nat) (tb : Tables)
    (Out : InstructionSet) (NextCapGroup : Int) (Modifs : Modifiers) (closing : RegexInstruction) :
    Option GroupResult :=
  match tr body tb Modifs with
  | none => none
  | some (NewInsts, tb1) => some ⟨endIter, tb1, Out ++ NewInsts ++ [closing], NextCapGroup, Modifs⟩

/-- The named capture group `(?<name>regex)` or subroutine call `(?<name>)`, with the iterator
on the first character of the name. -/
def namedGroup (tr : SubTranslate) (s : List Char) (iter endIter : Nat) (stop : Char)
    (tb : Tables) (Out : InstructionSet) (NextCapGroup : Int) (Modifs : Modifiers)
    (MaxDepth : Int) : Option GroupResult :=
  match nameScanFrom s endIter stop (s.length + 2) iter [] with
  | none => none
  | some (it, Name) =>
    if it = endIter then
      some ⟨it, { tb with error :=
        "Regex Compile Error: Couldn't find closing bracket for Named Capture Group or Subroutine." },
        Out, NextCapGroup, Modifs⟩
    else if it + 1 = endIter then
      some ⟨it + 1, tb,
        Out ++ [instr .Subroutine_Named [String.mk Name, to_string MaxDepth]], NextCapGroup, Modifs⟩
    else
      match sliceAfter s it endIter with
      | none => none
      | some body =>
        wrappedGroup tr body endIter tb (Out ++ [instr .MakeCapture ["f", String.mk Name]])
          (NextCapGroup + 1) Modifs
          (instr .CaptureGroup_Named [String.mk Name, tf Modifs.LazyGroups])

/-- The loop of a conditional that splits the remaining text into the then-piece and the
else-piece, dropping parentheses.  `Except.error` carries the iterator at which a third branch
was met. -/
def conditionalPieces (s : List Char) (endIter : Nat) :
    Nat → Nat → List Char → List Char → Int → Option (Except Nat (List Char × List Char))
  | 0, _, _, _, _ => none
  | fuel + 1, iter, prevPiece, currPiece, Depth =>
    let i := iter + 1
    if i = endIter then some (.ok (prevPiece, currPiece))
    else if i > endIter then none
    else
      let c := peek s i
      if c = '|' ∧ Depth = 0 then
        if ¬ prevPiece.isEmpty then some (.error i)
        else conditionalPieces s endIter fuel i currPiece [] Depth
      else if c = '(' then conditionalPieces s endIter fuel i prevPiece currPiece (Depth + 1)
      else if c = ')' then conditionalPieces s endIter fuel i prevPiece currPiece (Depth - 1)
      else conditionalPieces s endIter fuel i prevPiece (currPiece ++ [c]) Depth

/-- The part of a conditional after its condition: the then-branch, the optional
else-branch and the `Conditional` instruction. -/
def conditionalTail (tr : SubTranslate) (s : List Char) (iter endIter : Nat) (tb : Tables)
    (Out : InstructionSet) (NextCapGroup : Int) (Modifs : Modifiers) : Option GroupResult :=
  match conditionalPieces s endIter (s.length + 2) iter [] [] 0 with
  | none => none
  | some (.error it) =>
    some ⟨it, { tb with error := "Regex Compile Error: too many branches in conditional." },
      Out, NextCapGroup, Modifs⟩
  | some (.ok (prev0, curr0)) =>
    let prevPiece := if prev0.isEmpty then curr0 else prev0
    let currPiece := if prev0.isEmpty then [] else curr0
    match tr prevPiece tb Modifs with
    | none => none
    | some (ThenSet, tb1) =>
      let Out1 := Out ++ ThenSet ++ [instr .NonCaptureGroup [tf Modifs.LazyGroups]]
      if ¬ currPiece.isEmpty then
        match tr currPiece tb1 Modifs with
        | none => none
        | some (ElseSet, tb2) =>
          some ⟨endIter, tb2,
            Out1 ++ ElseSet ++ [instr .NonCaptureGroup [tf Modifs.LazyGroups],
              instr .Conditional ["2", tf Modifs.LazyGroups]],
            NextCapGroup, Modifs⟩
      else
        some ⟨endIter, tb1, Out1 ++ [instr .Conditional ["1", tf Modifs.LazyGroups]],
          NextCapGroup, Modifs⟩

/-- One case of the modifier switch: `enable` is true for `(?i)` and false for `(?-i)`. -/
def applyModifier (enable : Bool) (c : Char) (M : Modifiers) : Option Modifiers :=
  if c = 'i' then some { M with CaseInsensitive := enable }
  else if c = 'c' then some { M with CaseInsensitive := !enable }
  else if c = 's' then some { M with SingleLine := enable }
  else if c = 'm' then some { M with SingleLine := !enable }
  else if c = 'n' then some { M with NoAutoCap := enable }
  else if c = 'd' then some { M with UnixLines := enable }
  else if c = 'l' then some { M with LazyGroups := enable }
  else if c = 'a' then some { M with DotAll := enable }
  else if c = '^' then
    some { CaseInsensitive := !enable, SingleLine := !enable, NoAutoCap := !enable, UnixLines := !enable,
           LazyGroups := !enable, DotAll := !enable }
  else none

/-- The loop `while (!Out && Further != endIter)` over modifier letters.  Returns `Further`, the
modifiers and the flag `Out`. -/
def scanModifiers (s : List Char) (endIter : Nat) (enable : Bool) :
    Nat → Nat → Modifiers → Option (Nat × Modifiers × Bool)
  | 0, _, _ => none
  | fuel + 1, Further, M =>
    if Further = endIter then some (Further, M, false)
    else
      match applyModifier enable (peek s Further) M with
      | none => some (Further, M, true)
      | some M1 => scanModifiers s endIter enable fuel (Further + 1) M1

/-- Inline modifiers `(?i)`, `(?-i)` or a modifier group `(?i:regex)`, with the iterator on
the first modifier letter. -/
def modifierGroup (tr : SubTranslate) (s : List Char) (iter endIter : Nat) (enable : Bool)
    (tb : Tables) (Out : InstructionSet) (NextCapGroup : Int) (Modifs : Modifiers) :
    Option GroupResult :=
  let Old := Modifs
  match scanModifiers s endIter enable (s.length + 2) iter Modifs with
  | none => none
  | some (Further, M, OutFlag) =>
    if OutFlag = true ∧ Further ≠ iter ∧ peek s Further = ':' then
      match sliceAfter s Further endIter with
      | none => none
      | some body =>
        match tr body tb M with
        | none => none
        | some (NewInsts, tb1) =>
          some ⟨endIter, tb1, Out ++ NewInsts ++ [instr .NonCaptureGroup [tf M.LazyGroups]],
            NextCapGroup, Old⟩
    else if OutFlag = true then
      some ⟨iter, { tb with error :=
        ("Regex Compile Error: '" ++ String.singleton (peek s iter) ++ "' is not a valid modifier.") },
        Out, NextCapGroup, M⟩
    else some ⟨Further, tb, Out, NextCapGroup, M⟩

/-- The capture collection group `(?@regex)`, `(?@<name>regex)`, with the iterator on the
at-sign. -/
def collectionGroup (tr : SubTranslate) (s : List Char) (iter endIter : Nat) (tb : Tables)
    (Out : InstructionSet) (NextCapGroup : Int) (Modifs : Modifiers) : Option GroupResult :=
  let j := iter + 1
  let d := peek s j
  if d = '<' ∨ d = APOS then
    let endBracket : Char := if d = '<' then '>' else APOS
    match nameScan s endIter endBracket j with
    | none => none
    | some (it, Name) =>
      if it = endIter then
        some ⟨it, { tb with error :=
          "Regex Compile Error: Couldn't find closing bracket for Named Capture Collection Group." },
          Out, NextCapGroup, Modifs⟩
      else
        match sliceAfter s it endIter with
        | none => none
        | some body =>
          wrappedGroup tr body endIter tb
            (Out ++ [instr .MakeCaptureCollection ["f", String.mk Name]]) (NextCapGroup + 1) Modifs
            (instr .CaptureGroup_Named [String.mk Name, tf Modifs.LazyGroups])
  else
    match sliceFrom s j endIter with
    | none => none
    | some body =>
      if ¬ Modifs.NoAutoCap then
        wrappedGroup tr body endIter tb (Out ++ [instr .MakeCaptureCollection ["f"]])
          (NextCapGroup + 1) Modifs
          (instr .CaptureGroup_Numbered [to_string (NextCapGroup + 1), tf Modifs.LazyGroups])
      else
        wrappedGroup tr body endIter tb Out NextCapGroup Modifs
          (instr .NonCaptureGroup [tf Modifs.LazyGroups])

/-- The manual capture `(?$)`, `(?$@)`, `(?$<name>)`, with the iterator on the dollar sign. -/
def manualCapture (s : List Char) (iter endIter : Nat) (tb : Tables) (Out : InstructionSet)
    (NextCapGroup : Int) (Modifs : Modifiers) : Option GroupResult :=
  let isColl := decide (peek s (iter + 1) = '@')
  let CapType : RegexInstructionType := if isColl then .MakeCaptureCollection else .MakeCapture
  let it := if isColl then iter + 1 else iter
  let j := it + 1
  let d := peek s j
  if d = '<' ∨ d = APOS then
    let endBracket : Char := if d = '<' then '>' else APOS
    match nameScan s endIter endBracket j with
    | none => none
    | some (it1, Name) =>
      if it1 = endIter then
        some ⟨it1, { tb with error :=
          "Regex Compile Error: Couldn't find closing bracket for Named Manual Capture." },
          Out, NextCapGroup, Modifs⟩
      else
        some ⟨it1 + 1, tb, Out ++ [instr CapType ["t", String.mk Name]], NextCapGroup + 1, Modifs⟩
  else
    some ⟨j, tb, Out ++ [instr CapType ["t"]], NextCapGroup + 1, Modifs⟩

/-- The code hook `(?{funcname})`, with the iterator on the opening curly bracket. -/
def codeHookGroup (s : List Char) (iter endIter : Nat) (tb : Tables) (Out : InstructionSet)
    (NextCapGroup : Int) (Modifs : Modifiers) : Option GroupResult :=
  match nameScan s endIter RBRACE iter with
  | none => none
  | some (it, FuncName) =>
    if it = endIter then
      some ⟨it, { tb with error := "Regex Compile Error: Couldn't find closing bracket for Code Hook." },
        Out, NextCapGroup, Modifs⟩
    else some ⟨it + 1, tb, Out ++ [instr .CodeHook [String.mk FuncName]], NextCapGroup, Modifs⟩

/-- Lift of a reference parser's result to the result of `MunchGroup`. -/
def MunchResult.toGroup (r : MunchResult) (NextCapGroup : Int) (Modifs : Modifiers) : GroupResult :=
  ⟨r.iter, r.tb, r.Out, NextCapGroup, Modifs⟩

/-- The error a conditional reports when the closing parenthesis of its condition is
missing. -/
def conditionalParenError : String :=
  "Regex Compile Error: Malformed Conditional; Missing closing parenthesis in conditional statement."

/-- The subroutine definition `(?(DEFINE)(?<name>regex))`, with the iterator on the closing
parenthesis of `(DEFINE)`. -/
def defineGroup (tr : SubTranslate) (s : List Char) (iter endIter : Nat) (tb : Tables)
    (Out : InstructionSet) (NextCapGroup : Int) (Modifs : Modifiers) : Option GroupResult :=
  let malformed (it : Nat) : Option GroupResult :=
    some ⟨it, { tb with error := "Regex Compile Error: Malformed subroutine definition." },
      Out, NextCapGroup, Modifs⟩
  if peek s (iter + 1) ≠ '(' then malformed (iter + 1)
  else if peek s (iter + 2) ≠ '?' then malformed (iter + 2)
  else
    let j := iter + 3
    let d := peek s j
    if ¬ (d = '<' ∨ d = APOS ∨ d = LBRACE) then malformed j
    else
      match nameScan s endIter (closingGlyph d) j with
      | none => none
      | some (it, Name) =>
        if it = endIter then
          some ⟨it, { tb with error :=
            "Regex Compile Error: Failed to find closing bracket for subroutine definition name." },
            Out, NextCapGroup, Modifs⟩
        else
          match FindEnd s endIter '(' ')' true (s.length + 2) it 0 [] with
          | none => none
          | some (it1, Regex) =>
            if it1 = endIter then
              some ⟨it1, { tb with error :=
                "Regex Compile Error: Failed to find closing bracket for subroutine definition internal regex." },
                Out, NextCapGroup, Modifs⟩
            else
              match tr Regex tb Modifs with
              | none => none
              | some (NewInsts, tb1) =>
                some ⟨it1 + 1, tb1,
                  Out ++ NewInsts ++ [instr .NonCaptureGroup [tf Modifs.LazyGroups],
                    instr .DefineAsSubroutine [String.mk Name]],
                  NextCapGroup, Modifs⟩

mutual

/-- `RegexTranslator<char>::MunchGroup`: special and regular groups.  The iterator stands on
the first character after the opening parenthesis, `endIter` on the closing one. -/
def MunchGroup : Nat → List Char → Nat → Nat → Tables → InstructionSet → Int → Modifiers → Int →
    Option GroupResult
  | 0, _, _, _, _, _, _, _, _ => none
  | fuel + 1, s, iter, endIter, tb, Out, NextCapGroup, Modifs, MaxDepth =>
    let tr : SubTranslate := fun Regex tb1 M =>
      (TranslateInternal fuel Regex 0 tb1 M (MaxDepth - 1)).map (fun r => (r.1, r.2.2))
    if MaxDepth ≤ 0 then
      some ⟨iter, { tb with error :=
        "Regex Compile Error: Group nesting surpasses the Max Nesting Depth limit." },
        Out, NextCapGroup, Modifs⟩
    else if peek s iter = '?' then
      let i := iter + 1
      let c := peek s i
      if c = '|' then branchResetGroup tr s i endIter tb Out NextCapGroup Modifs
      else if c = '=' ∨ c = '!' then
        match sliceAfter s i endIter with
        | none => none
        | some Munch =>
          wrappedGroup tr Munch endIter tb Out NextCapGroup Modifs
            (instr .LookAhead [tf (decide (c = '!')), tf Modifs.LazyGroups])
      else if c = '<' then
        let j := i + 1
        let d := peek s j
        if d = '=' ∨ d = '!' then
          match ReverseGroup s endIter (s.length + 2) j [] with
          | none => none
          | some (_, Munch) =>
            wrappedGroup tr Munch endIter tb Out NextCapGroup Modifs
              (instr .LookBehind [tf (decide (d = '!')), tf Modifs.LazyGroups])
        else namedGroup tr s j endIter '>' tb Out NextCapGroup Modifs MaxDepth
      else if c = ':' then
        match sliceAfter s i endIter with
        | none => none
        | some Regex =>
          wrappedGroup tr Regex endIter tb Out NextCapGroup Modifs
            (instr .NonCaptureGroup [tf Modifs.LazyGroups])
      else if c = '(' then
        let j := i + 1
        let d := peek s j
        if d = '<' ∨ d = APOS ∨ d = LBRACE then
          match nameScan s endIter (closingGlyph d) j with
          | none => none
          | some (it, Name) =>
            if it = endIter then
              some ⟨it, { tb with error :=
                "Regex Compile Error: Couldn't find closing bracket for Named Capture Collection Group." },
                Out, NextCapGroup, Modifs⟩
            else if peek s (it + 1) ≠ ')' then
              some ⟨it + 1, { tb with error := conditionalParenError }, Out, NextCapGroup, Modifs⟩
            else
              match MunchBackref Name 0 Name.length tb Out NextCapGroup with
              | none => none
              | some r => conditionalTail tr s (it + 1) endIter r.tb r.Out NextCapGroup Modifs
        else if d = '-' ∨ d = '+' ∨ isdigit d = true then
          match findGlyph s endIter ')' (s.length + 2) j with
          | none => none
          | some CondEdge =>
            if CondEdge = endIter then
              some ⟨j, { tb with error := conditionalParenError }, Out, NextCapGroup, Modifs⟩
            else
              match MunchBackref s j CondEdge tb Out NextCapGroup with
              | none => none
              | some r => conditionalTail tr s r.iter endIter r.tb r.Out NextCapGroup Modifs
        else
          match FindEnd s endIter '(' ')' true (s.length + 2) j 0 [d] with
          | none => none
          | some (it, Regex) =>
            if Regex = "DEFINE".data then defineGroup tr s it endIter tb Out NextCapGroup Modifs
            else
              let Regex1 : List Char :=
                if ¬ (peek Regex 0 = '(' ∨ peek Regex 0 = '?') then "?:".data ++ Regex else Regex
              match MunchGroup fuel Regex1 0 Regex1.length tb Out NextCapGroup Modifs
                  (MaxDepth - 1) with
              | none => none
              | some g => conditionalTail tr s it endIter g.tb g.Out g.NextCapGroup g.Modifs
      else if c = APOS then namedGroup tr s (i + 1) endIter APOS tb Out NextCapGroup Modifs MaxDepth
      else if c = '@' then collectionGroup tr s i endIter tb Out NextCapGroup Modifs
      else if c = LBRACE then codeHookGroup s i endIter tb Out NextCapGroup Modifs
      else if c = '$' then manualCapture s i endIter tb Out NextCapGroup Modifs
      else if (isalpha c = true ∧ c ≠ 'R') ∨ c = '^' then
        modifierGroup tr s i endIter true tb Out NextCapGroup Modifs
      else if c = '-' then
        if isdigit (peek s (i + 1)) = true then
          (MunchSubroutine s (i + 1) endIter tb Out NextCapGroup MaxDepth Modifs).map
            (fun r => r.toGroup NextCapGroup Modifs)
        else modifierGroup tr s (i + 1) endIter false tb Out NextCapGroup Modifs
      else
        (MunchSubroutine s i endIter tb Out NextCapGroup MaxDepth Modifs).map
          (fun r => r.toGroup NextCapGroup Modifs)
    else
      match sliceFrom s iter endIter with
      | none => none
      | some Regex =>
        if ¬ Modifs.NoAutoCap then
          wrappedGroup tr Regex endIter tb (Out ++ [instr .MakeCapture ["f"]]) (NextCapGroup + 1)
            Modifs (instr .CaptureGroup_Numbered [to_string (NextCapGroup + 1), tf Modifs.LazyGroups])
        else
          wrappedGroup tr Regex endIter tb Out NextCapGroup Modifs
            (instr .NonCaptureGroup [tf Modifs.LazyGroups])

/-- `RegexTranslator<char>::TranslateInternal`: the inlet of the recursive descent parser.
Returns the instructions together with the iterator and the tables it leaves behind. -/
def TranslateInternal : Nat → List Char → Nat → Tables → Modifiers → Int →
    Option (InstructionSet × Nat × Tables)
  | 0, _, _, _, _, _ => none
  | fuel + 1, Infix, iter, tb, Modifs, MaxDepth =>
    TranslateLoop fuel Infix MaxDepth iter [] 0 0 0 Modifs tb

/-- The loop `while (iter != Infix.end())` of `TranslateInternal`, over its locals `iter`,
`Out`, `NumNodes`, `LastGroup`, `PrevNumNodes`, `Modifs` and the shared tables. -/
def TranslateLoop : Nat → List Char → Int → Nat → InstructionSet → Int → Int → Int → Modifiers →
    Tables → Option (InstructionSet × Nat × Tables)
  | 0, _, _, _, _, _, _, _, _, _ => none
  | fuel + 1, Infix, MaxDepth, iter, Out, NumNodes, LastGroup, PrevNumNodes, Modifs, tb =>
    let endI := Infix.length
    if iter = endI then some (Out, iter, tb)
    else if iter > endI then none
    else
      let c := peek Infix iter
      if c = '|' then
        match TranslateInternal fuel Infix (iter + 1) tb Modifs MaxDepth with
        | none => none
        | some (SecondPart, it, tb1) =>
          if ¬ Out.isEmpty ∧ ¬ SecondPart.isEmpty then
            some (Out ++ SecondPart ++ [instr .Alternate []], it, tb1)
          else some (Out ++ SecondPart, it, tb1)
      else
        let lineClass : List Char :=
          if Modifs.UnixLines then "[\n]".data else ['['] ++ LineChars ++ [']']
        let stepped : Option (GroupResult × Int) :=
          if c = '[' then
            match FindEnd Infix endI '[' ']' false (endI + 2) iter 0 [] with
            | none => none
            | some (EndBracket, _) =>
              if EndBracket ≠ endI then
                (MunchCharClass (MaxDepth.toNat + 1) Infix (iter + 1) EndBracket tb Out Modifs
                    MaxDepth).map
                  (fun r => (⟨r.iter, r.tb, r.Out ++ [instr .Literal [r.ret]], LastGroup, Modifs⟩,
                    NumNodes + 1))
              else
                some (⟨iter, { tb with error :=
                  "Regex Compile Error: Couldn't find closing bracket for character class." },
                  Out, LastGroup, Modifs⟩, NumNodes + 1)
          else if c = '\\' then
            (MunchEscaped Infix iter endI tb Out LastGroup Modifs MaxDepth).map
              (fun r => (r.toGroup LastGroup Modifs, NumNodes + 1))
          else if c = '^' then
            if ¬ Out.isEmpty ∧ iter ≠ 0 then
              let r := MunchLiteral Infix iter tb Out Modifs
              some (⟨iter, r.1, r.2, LastGroup, Modifs⟩, NumNodes + 1)
            else
              (MunchCharClass (MaxDepth.toNat + 1) lineClass 1 (lineClass.length - 1) tb Out Modifs
                  MaxDepth).map
                (fun r => (⟨iter, r.tb,
                  r.Out ++ [instr .StartCheck [tf Modifs.SingleLine, "f", r.ret]], LastGroup, Modifs⟩,
                  NumNodes + 1))
          else if c = '$' then
            if iter + 1 ≠ endI then
              let r := MunchLiteral Infix iter tb Out Modifs
              some (⟨iter, r.1, r.2, LastGroup, Modifs⟩, NumNodes + 1)
            else
              (MunchCharClass (MaxDepth.toNat + 1) lineClass 1 (lineClass.length - 1) tb Out Modifs
                  MaxDepth).map
                (fun r => (⟨iter, r.tb,
                  r.Out ++ [instr .EndCheck [tf Modifs.SingleLine, "f", r.ret]], LastGroup, Modifs⟩,
                  NumNodes + 1))
          else if c = '.' then
            let DotClass : List Char :=
              ['['] ++
                (if Modifs.DotAll then [NUL, '-', Char.ofNat 127]
                 else if Modifs.UnixLines then ['^', '\n']
                 else ['^'] ++ LineChars) ++ [']']
            (MunchCharClass (MaxDepth.toNat + 1) DotClass 1 (DotClass.length - 1) tb Out Modifs
                MaxDepth).map
              (fun r => (⟨iter, r.tb, r.Out ++ [instr .Literal [r.ret]], LastGroup, Modifs⟩,
                NumNodes + 1))
          else if c = '?' ∨ c = '*' ∨ c = '+' ∨ c = LBRACE then
            some ((MunchOp Infix iter endI tb Out Modifs c).toGroup LastGroup Modifs, NumNodes)
          else if c = '(' then
            match FindEnd Infix endI '(' ')' false (endI + 2) iter 0 [] with
            | none => none
            | some (EndBracket, _) =>
              let grouped : Option GroupResult :=
                if EndBracket ≠ endI then
                  MunchGroup fuel Infix (iter + 1) EndBracket tb Out LastGroup Modifs MaxDepth
                else
                  some ⟨iter, { tb with error :=
                    "Regex Compile Error: Couldn't find closing bracket for group." },
                    Out, LastGroup, Modifs⟩
              grouped.map (fun g =>
                let counts : Bool :=
                  decide (g.Out.length > Out.length) &&
                  (match g.Out.getLast? with
                   | none => false
                   | some last =>
                     decide (last.InstructionType ≠ .MakeCapture ∧
                       last.InstructionType ≠ .MakeCaptureCollection ∧
                       last.InstructionType ≠ .DefineAsSubroutine))
                (g, if counts then NumNodes + 1 else NumNodes))
          else
            let r := MunchLiteral Infix iter tb Out Modifs
            some (⟨iter, r.1, r.2, LastGroup, Modifs⟩, NumNodes + 1)
        match stepped with
        | none => none
        | some (g, NumNodes1) =>
          let Copy := g.iter + 1
          let ShouldConcat : Bool :=
            decide (Copy = endI) ||
            (decide (peek Infix Copy ≠ '?') && decide (peek Infix Copy ≠ '*') &&
             decide (peek Infix Copy ≠ '+') &&
             !(decide (peek Infix Copy = LBRACE) &&
               (decide (Copy + 1 ≠ endI) && isdigit (peek Infix (Copy + 1)))))
          if g.tb.error ≠ "" then some ([], g.iter, g.tb)
          else if NumNodes1 > 1 ∧ NumNodes1 > PrevNumNodes ∧ ShouldConcat = true then
            TranslateLoop fuel Infix MaxDepth (g.iter + 1) (g.Out ++ [instr .Concat []]) NumNodes1
              g.NextCapGroup NumNodes1 g.Modifs g.tb
          else
            TranslateLoop fuel Infix MaxDepth (g.iter + 1) g.Out NumNodes1 g.NextCapGroup
              PrevNumNodes g.Modifs g.tb

end

/-- `RegexTranslator<char>::Translate`: translates a pattern into the instructions for the
assembler.  Returns the instruction stream and the error string; `none` when `fuel` does not
suffice or the source reads outside the pattern. -/
def Translate (fuel : Nat) (Infix : String) (MaxDepth : Int) : Option (InstructionSet × String) :=
  (TranslateInternal fuel Infix.data 0 {} {} MaxDepth).map (fun r => (r.1, r.2.2.error))

/-! ## The data model (`EvexCharacterClass.h`, `EvexNode.h`, `EvexGroupNode.h`, `EvexChunk.h`) -/

/-- A `RegexNode<T>*`: the position of the node in the arena `Regex.nodes`. -/
abbrev NodeId := Nat

/-- A `RegexChunk<T>*`: the position of the chunk in the arena `Regex.chunks`. -/
abbrev ChunkId := Nat

/-- A pointer to a ghost node stored inside a chunk: `&chunk->Ins[index]` or
`&chunk->Outs[index]`. -/
structure GhostPtr where
  chunk : ChunkId
  index : Nat
  deriving DecidableEq, Repr

/-- A `RegexCaptureBase<T>*`: an element of `Regex::Captures` or of
`Regex::DefinedSubroutines`. -/
inductive CapturePtr where
  | capture (i : Nat)
  | subroutine (i : Nat)
  deriving DecidableEq, Repr

/-- A pointer to an element of the vector `Regex::Tickers`.  A reallocation of the vector
starts a new generation and leaves the pointers of the older ones dangling. -/
structure TickerPtr where
  generation : Nat
  index : Nat
  deriving DecidableEq, Repr

/-- `RegexCharacterClassSymbol<T>`: a single character or range (two characters), or a
ligature (a sequence of characters). -/
structure RegexCharacterClassSymbol where
  Ligature : Bool
  Characters : List Char
  deriving DecidableEq, Repr

/-- `RegexCharacterClassBase<T>` and its four subclasses.  The operands of the composite
classes are the classes they point to. -/
inductive RegexCharacterClassBase where
  | Literal (Symbols : List RegexCharacterClassSymbol) (Negate : Bool) (CaseInsensitive : Bool)
  | Subtract (lhs rhs : RegexCharacterClassBase)
  | Intersect (lhs rhs : RegexCharacterClassBase)
  | Union (lhs rhs : RegexCharacterClassBase)
  deriving DecidableEq, Repr

/-- The dynamic type of a node, with the fields its class adds to `RegexNode` (and, for the
group classes, to `RegexGroupNode`). -/
inductive NodeKind where
  | Plain
  | Group
  | LookAhead (Negative : Bool)
  | LookBehind (Negative : Bool)
  | Capture (CaptureName : String) (BoundCapture : Option CapturePtr)
  | Backreference (CaptureName : String) (BoundCapture : Option CapturePtr)
  | NoneOrMore (OnceOnly : Bool) (Lazy : Bool)
  | Loop (BoundTicker : Option TickerPtr) (Lazy : Bool)
  | Recursion (MaxDepth : Int)
  | Subroutine (MaxDepth : Int) (CaptureName : String) (BoundCapture : Option CapturePtr)
  | AtBeginning (ExclusivelyBeginning : Bool) (LastMatchEnd : Bool)
  | AtEnd (ExclusivelyEnd : Bool) (LastNewline : Bool)
  | WordBoundary (Negated : Bool)
  | Conditional (Cond : ChunkId) (IfTrue : ChunkId) (IfFalse : Option ChunkId)
  | CodeHook (HookedName : String) (Hooked : Option (List Char → Int → Int))

/-- Whether the class of the node derives from `RegexGroupNode`. -/
def NodeKind.isGroup : NodeKind → Bool
  | .Group => true
  | .LookAhead _ => true
  | .LookBehind _ => true
  | .Capture _ _ => true
  | .NoneOrMore _ _ => true
  | .Loop _ _ => true
  | .Recursion _ => true
  | .Conditional _ _ _ => true
  | _ => false

/-- The value of `unsigned int Index = -1`. -/
def NoIndex : Nat := 4294967295

/-- `RegexNode<T>` with the fields of `RegexGroupNode<T>`; `kind` holds the dynamic type.
The depth counter `CurrDepth` of recursion and subroutine nodes is kept in `MatchState`. -/
structure RegexNode where
  Index : Nat := NoIndex
  Nexts : List NodeId := []
  GhostNexts : List GhostPtr := []
  Comparators : List Nat := []
  Chunks : List ChunkId := []
  Ins : List GhostPtr := []
  Outs : List GhostPtr := []
  LazyGroup : Bool := false
  kind : NodeKind := .Plain
  deleted : Bool := false

/-- `RegexNodeGhostIn<T>`. -/
structure RegexNodeGhostIn where
  Index : Nat := NoIndex
  Nexts : List NodeId := []
  deriving DecidableEq, Repr

/-- `RegexNodeGhostOut<T>`. -/
structure RegexNodeGhostOut where
  Index : Nat := NoIndex
  GhostNexts : List GhostPtr := []
  deriving DecidableEq, Repr

/-- `RegexChunk<T>`. -/
structure RegexChunk where
  Nodes : List NodeId := []
  Ins : List RegexNodeGhostIn := []
  Outs : List RegexNodeGhostOut := []
  ConnectedTos : List ChunkId := []
  deleted : Bool := false
  deriving DecidableEq, Repr

/-- The captured text of a `RegexCapture` (one string) or of a `RegexCaptureCollection` (a
list of strings). -/
inductive CapturedInputs where
  | single (text : List Char)
  | collection (texts : List (List Char))
  deriving DecidableEq, Repr

/-- `RegexCaptureBase<T>` with the `CapturedInputs` of its two subclasses. -/
structure RegexCaptureBase where
  InitialCapture : Option NodeId := none
  LastCapture : Option NodeId := none
  Succeeded : Bool := false
  Manual : Bool := false
  CapturedInputs : CapturedInputs := .single []
  deriving DecidableEq, Repr

/-- `RegexCapture::GetCapture` and `RegexCaptureCollection::GetCapture` (the latest text). -/
def RegexCaptureBase.GetCapture (c : RegexCaptureBase) : List Char :=
  match c.CapturedInputs with
  | .single t => t
  | .collection l => l.getLastD []

/-- `SetCapture(NewCapture, Reset)`. -/
def RegexCaptureBase.SetCapture (c : RegexCaptureBase) (NewCapture : List Char)
    (Reset : Bool := false) : RegexCaptureBase :=
  match c.CapturedInputs with
  | .single _ => { c with CapturedInputs := .single NewCapture, Succeeded := true }
  | .collection l =>
    { c with CapturedInputs := .collection ((if Reset then [] else l) ++ [NewCapture]),
             Succeeded := true }

/-- `Reset()`: `LastCapture = InitialCapture; CapturedInputs.clear();`. -/
def RegexCaptureBase.Reset (c : RegexCaptureBase) : RegexCaptureBase :=
  { c with
    LastCapture := c.InitialCapture
    CapturedInputs :=
      match c.CapturedInputs with
      | .single _ => .single []
      | .collection _ => .collection [] }

/-- `RegexTicker<T>`. -/
structure RegexTicker where
  MaxTimes : Int := 0
  CurrTimes : Int := 0
  deriving DecidableEq, Repr

/-- `RegexTicker(int Max)`. -/
def RegexTicker.make (Max : Int) : RegexTicker := ⟨Max, Max⟩

/-- `IsExhausted()`. -/
def RegexTicker.IsExhausted (t : RegexTicker) : Bool := decide (t.CurrTimes = 0)

/-- `IsMandatory()`. -/
def RegexTicker.IsMandatory (t : RegexTicker) : Bool := decide (t.MaxTimes > 0)

/-- `Tick()`. -/
def RegexTicker.Tick (t : RegexTicker) : RegexTicker :=
  if t.MaxTimes > 0 then { t with CurrTimes := t.CurrTimes - 1 }
  else { t with CurrTimes := t.CurrTimes + 1 }

/-- `Reset()` of a ticker. -/
def RegexTicker.Reset (t : RegexTicker) : RegexTicker := { t with CurrTimes := t.MaxTimes }

/-- `Evex::Regex<T>`: the automaton.  `nodes` and `chunks` are the arenas of the heap objects
it owns; `CurrDepth` holds the depth counter of every node; `TickerCapacity` and
`TickerGeneration` describe the storage of the vector `Tickers`. -/
structure Regex where
  nodes : List RegexNode := []
  chunks : List RegexChunk := []
  CurrDepth : List Int := []
  Captures : List RegexCaptureBase := []
  DefinedSubroutines : List RegexCaptureBase := []
  NamesToCaptures : List (String × CapturePtr) := []
  CharClassSymbols : List RegexCharacterClassSymbol := []
  CharacterClasses : List RegexCharacterClassBase := []
  Tickers : List RegexTicker := []
  TickerCapacity : Nat := 0
  TickerGeneration : Nat := 0
  Chunks : List ChunkId := []
  StartNodes : List GhostPtr := []
  EndNodes : List GhostPtr := []
  CompileError : String := ""
  RuntimeErrors : List String := []
  StartsWithLineCheck : Bool := false
  EndsWithLineCheck : Bool := false
  LastMatchEnd : Option Int := none

/-- The part of the automaton that a match writes to: the captures, the tickers and the depth
counters of the recursion and subroutine nodes. -/
structure MatchState where
  Captures : List RegexCaptureBase
  DefinedSubroutines : List RegexCaptureBase
  Tickers : List RegexTicker
  CurrDepth : List Int
  deriving DecidableEq, Repr

/-- The mutable part of an automaton. -/
def Regex.state (A : Regex) : MatchState := ⟨A.Captures, A.DefinedSubroutines, A.Tickers, A.CurrDepth⟩

/-- The automaton with its mutable part replaced. -/
def Regex.withState (A : Regex) (σ : MatchState) : Regex :=
  { A with Captures := σ.Captures, DefinedSubroutines := σ.DefinedSubroutines,
           Tickers := σ.Tickers, CurrDepth := σ.CurrDepth }

/-- Insertion into a `std::unordered_set`. -/
def setInsert {α : Type} [DecidableEq α] (s : List α) (a : α) : List α :=
  if a ∈ s then s else s ++ [a]

/-- Insertion of a range into a `std::unordered_set`. -/
def setInsertAll {α : Type} [DecidableEq α] (s : List α) (l : List α) : List α :=
  l.foldl setInsert s

/-- Replacement of the element at a position of a list (no change when out of range). -/
def setAt {α : Type} : List α → Nat → α → List α
  | [], _, _ => []
  | _ :: xs, 0, a => a :: xs
  | x :: xs, n + 1, a => x :: setAt xs n a

/-! ## Matching: reading the text and the heap -/

/-- Why a run of the matcher does not come back with a result: the runtime exception of the
recursion and subroutine nodes (with the state at the throw), exhausted fuel, or an access the
C++ program has no defined behaviour for (a read outside the text, a null or dangling
pointer). -/
inductive Interrupt where
  | runtime (msg : String) (σ : MatchState)
  | outOfFuel
  | invalidAccess
  deriving DecidableEq, Repr

/-- A computation of the matcher. -/
abbrev Run (α : Type) := Except Interrupt α

/-- `*Input` for an input position: the characters of the text, and NUL at the end
position. -/
def deref (text : List Char) (p : Int) : Run Char :=
  if 0 ≤ p ∧ p < text.length then .ok (text.getD p.toNat NUL)
  else if p = text.length then .ok NUL
  else .error .invalidAccess

/-- Dereference of a node pointer. -/
def Regex.node (A : Regex) (n : NodeId) : Run RegexNode :=
  match A.nodes.get? n with
  | some nd => if nd.deleted then .error .invalidAccess else .ok nd
  | none => .error .invalidAccess

/-- Dereference of a chunk pointer. -/
def Regex.chunk (A : Regex) (c : ChunkId) : Run RegexChunk :=
  match A.chunks.get? c with
  | some ch => if ch.deleted then .error .invalidAccess else .ok ch
  | none => .error .invalidAccess

/-- Dereference of a pointer to a ghost-in. -/
def Regex.ghostIn (A : Regex) (g : GhostPtr) : Run RegexNodeGhostIn :=
  match A.chunk g.chunk with
  | .error e => .error e
  | .ok ch =>
    match ch.Ins.get? g.index with
    | some i => .ok i
    | none => .error .invalidAccess

/-- Dereference of a pointer to a ghost-out. -/
def Regex.ghostOut (A : Regex) (g : GhostPtr) : Run RegexNodeGhostOut :=
  match A.chunk g.chunk with
  | .error e => .error e
  | .ok ch =>
    match ch.Outs.get? g.index with
    | some o => .ok o
    | none => .error .invalidAccess

/-- Dereference of a capture pointer. -/
def MatchState.capture (σ : MatchState) (p : CapturePtr) : Run RegexCaptureBase :=
  match p with
  | .capture i =>
    (match σ.Captures.get? i with
     | some c => .ok c
     | none => .error .invalidAccess)
  | .subroutine i =>
    (match σ.DefinedSubroutines.get? i with
     | some c => .ok c
     | none => .error .invalidAccess)

/-- Write through a capture pointer. -/
def MatchState.setCapture (σ : MatchState) (p : CapturePtr) (c : RegexCaptureBase) : MatchState :=
  match p with
  | .capture i => { σ with Captures := setAt σ.Captures i c }
  | .subroutine i => { σ with DefinedSubroutines := setAt σ.DefinedSubroutines i c }

/-- Dereference of a ticker pointer. -/
def MatchState.ticker (A : Regex) (σ : MatchState) (p : TickerPtr) : Run RegexTicker :=
  if p.generation ≠ A.TickerGeneration then .error .invalidAccess
  else
    match σ.Tickers.get? p.index with
    | some t => .ok t
    | none => .error .invalidAccess

/-- The depth counter `CurrDepth` of a node. -/
def MatchState.depth (σ : MatchState) (n : NodeId) : Int := σ.CurrDepth.getD n 0

/-- Assignment to the depth counter of a node. -/
def MatchState.setDepth (σ : MatchState) (n : NodeId) (d : Int) : MatchState :=
  { σ with CurrDepth := setAt (σ.CurrDepth ++ List.replicate (n + 1 - σ.CurrDepth.length) 0) n d }

/-! ### `RegexCharacterClassSymbol::Matches` and the classes -/

/-- The ligature loop of `RegexCharacterClassSymbol::Matches`: `chars` are the characters
still to compare, `Next` the running iterator, `input` the iterator at the call. -/
def ligatureMatch (text : List Char) (ci : Bool) (input : Int) : List Char → Int → Run (Bool × Int)
  | [], Next => .ok (true, Next - 1)
  | c :: cs, Next =>
    if Next = text.length then .ok (false, Next - 1)
    else
      match deref text Next with
      | .error e => .error e
      | .ok x =>
        if (if ci then tolower x else x) ≠ (if ci then tolower c else c) then .ok (false, input)
        else ligatureMatch text ci input cs (Next + 1)

/-- `RegexCharacterClassSymbol::Matches(input, CaseInsensitive)`; returns the answer and the
iterator. -/
def RegexCharacterClassSymbol.Matches (text : List Char) (sym : RegexCharacterClassSymbol)
    (input : Int) (ci : Bool) : Run (Bool × Int) :=
  if ¬ sym.Ligature then
    match deref text input with
    | .error e => .error e
    | .ok x =>
      let lo := sym.Characters.getD 0 NUL
      let hi := sym.Characters.getD 1 NUL
      if ci then
        .ok (decide (charVal (tolower lo) ≤ charVal (tolower x) ∧
                     charVal (tolower x) ≤ charVal (tolower hi)), input)
      else .ok (decide (charVal lo ≤ charVal x ∧ charVal x ≤ charVal hi), input)
  else ligatureMatch text ci input sym.Characters input

/-- The loop over the symbols of `RegexCharacterClass::Matches`. -/
def symbolsMatch (text : List Char) (ci : Bool) :
    List RegexCharacterClassSymbol → Int → Run (Bool × Int)
  | [], input => .ok (false, input)
  | s :: rest, input =>
    match s.Matches text input ci with
    | .error e => .error e
    | .ok (b, i) => if b then .ok (true, i) else symbolsMatch text ci rest i

/-- `RegexCharacterClassBase::Matches(Input)` in its four overrides. -/
def RegexCharacterClassBase.Matches (text : List Char) :
    RegexCharacterClassBase → Int → Run (Bool × Int)
  | .Literal syms neg ci, input =>
    (match symbolsMatch text ci syms input with
     | .error e => .error e
     | .ok (b, i) => .ok (if neg then !b else b, i))
  | .Subtract l r, input =>
    (match l.Matches text input with
     | .error e => .error e
     | .ok (a, i) =>
       if a then
         (match r.Matches text i with
          | .error e => .error e
          | .ok (b, j) => .ok (!b, j))
       else .ok (false, i))
  | .Intersect l r, input =>
    (match l.Matches text input with
     | .error e => .error e
     | .ok (a, i) => if a then r.Matches text i else .ok (false, i))
  | .Union l r, input =>
    (match l.Matches text input with
     | .error e => .error e
     | .ok (a, i) => if a then .ok (true, i) else r.Matches text i)

/-- `RegexNode::CanEnter`: every comparator must match at the input position. -/
def plainCanEnter (A : Regex) (text : List Char) : List Nat → Int → Run (Bool × Int)
  | [], input => .ok (true, input)
  | c :: cs, input =>
    match A.CharacterClasses.get? c with
    | none => .error .invalidAccess
    | some cls =>
      match cls.Matches text input with
      | .error e => .error e
      | .ok (b, i) => if b then plainCanEnter A text cs i else .ok (false, i)

/-! ### `GetNexts` -/

/-- `RegexNodeGhostIn::GetNexts`. -/
def ghostInNexts (A : Regex) (g : GhostPtr) : Run (List NodeId) :=
  (A.ghostIn g).map (fun i => i.Nexts)

/-- The union of the nexts behind a list of ghost-ins, added to a set. -/
def throughIns (A : Regex) : List GhostPtr → List NodeId → Run (List NodeId)
  | [], acc => .ok acc
  | g :: gs, acc =>
    match ghostInNexts A g with
    | .error e => .error e
    | .ok ns => throughIns A gs (setInsertAll acc ns)

/-- `RegexNodeGhostOut::GetNexts`. -/
def ghostOutNexts (A : Regex) (g : GhostPtr) : Run (List NodeId) :=
  match A.ghostOut g with
  | .error e => .error e
  | .ok o => throughIns A o.GhostNexts []

/-- The union of the nexts behind a list of ghost-outs, added to a set. -/
def throughOuts (A : Regex) : List GhostPtr → List NodeId → Run (List NodeId)
  | [], acc => .ok acc
  | g :: gs, acc =>
    match ghostOutNexts A g with
    | .error e => .error e
    | .ok ns => throughOuts A gs (setInsertAll acc ns)

/-- `RegexNode::GetNexts`: the real successors and those behind the ghost-outs. -/
def RegexNode.baseNexts (A : Regex) (nd : RegexNode) : Run (List NodeId) :=
  throughOuts A nd.GhostNexts (setInsertAll [] nd.Nexts)

/-- The virtual `GetNexts()` of a node: overridden by `RegexNoneOrMoreNode` and
`RegexLoopNode`. -/
def GetNexts (A : Regex) (σ : MatchState) (n : NodeId) : Run (List NodeId) :=
  match A.node n with
  | .error e => .error e
  | .ok nd =>
    match nd.baseNexts A with
    | .error e => .error e
    | .ok OtherNexts =>
      match nd.kind with
      | .NoneOrMore OnceOnly Lazy =>
        if ¬ OnceOnly then (if Lazy then .ok (OtherNexts ++ [n]) else .ok (n :: OtherNexts))
        else .ok OtherNexts
      | .Loop BoundTicker Lazy =>
        (match BoundTicker with
         | none => if Lazy then .ok (OtherNexts ++ [n]) else .ok (n :: OtherNexts)
         | some p =>
           match σ.ticker A p with
           | .error e => .error e
           | .ok t =>
             if ¬ t.IsExhausted ∧ t.IsMandatory then .ok [n]
             else if Lazy then .ok (OtherNexts ++ [n]) else .ok (n :: OtherNexts))
      | _ => .ok OtherNexts

/-- The candidates a match starts from: the nexts of every ghost-in, one after the other. -/
def startNexts (A : Regex) : List GhostPtr → Run (List NodeId)
  | [] => .ok []
  | g :: gs =>
    match ghostInNexts A g with
    | .error e => .error e
    | .ok ns =>
      match startNexts A gs with
      | .error e => .error e
      | .ok rest => .ok (ns ++ rest)

/-- Whether one of the ghost-outs of a node belongs to the given set of outs. -/
def reachesOut (nd : RegexNode) (Outs : List GhostPtr) : Bool :=
  nd.GhostNexts.any (fun g => decide (g ∈ Outs))

/-- The characters at the positions `a, a+1, ..., b-1` (none when `b ≤ a`). -/
def readRange (text : List Char) (a b : Int) : Run (List Char) :=
  (List.range (b - a).toNat).mapM (fun (k : Nat) => deref text (a + (k : Int)))

/-- The comparison loop of `RegexBackreferenceNode::CanEnter`: `Copy` walks over the captured
text. -/
def backrefCompare (text : List Char) (Input : Int) : List Char → Int → Run (Bool × Int)
  | [], Copy => .ok (true, Copy - 1)
  | c :: cs, Copy =>
    if Copy = text.length then .ok (false, Input)
    else
      match deref text Copy with
      | .error e => .error e
      | .ok x => if x ≠ c then .ok (false, Input) else backrefCompare text Input cs (Copy + 1)

/-- The loop of `RegexAtEndNode::CanEnter` that walks `TrueEnd` back over the line
delimiters at the end of the text. -/
def trueEndWalk (A : Regex) (text : List Char) (comps : List Nat) (Input : Int) : Nat → Int → Run Int
  | 0, _ => .error .outOfFuel
  | fuel + 1, TrueEnd =>
    if TrueEnd = Input then .ok TrueEnd
    else
      match plainCanEnter A text comps (TrueEnd - 1) with
      | .error e => .error e
      | .ok (b, te) => if b then trueEndWalk A text comps Input fuel te else .ok (te + 1)

/-- All the ghost-ins of a chunk, as pointers. -/
def RegexChunk.inPtrs (c : ChunkId) (ch : RegexChunk) : List GhostPtr :=
  (List.range ch.Ins.length).map (fun i => ⟨c, i⟩)

/-- All the ghost-outs of a chunk, as pointers. -/
def RegexChunk.outPtrs (c : ChunkId) (ch : RegexChunk) : List GhostPtr :=
  (List.range ch.Outs.length).map (fun i => ⟨c, i⟩)

/-! ### `CanEnter`, `RegexChunk::Match` and `TryAnyTakers` -/

/-- The text of the runtime exception. -/
def depthExceeded : String := "Maximum recursion depth exceeded during match!"

/-- The end of `RegexChunk::Match`, after its loop: step the iterator back once, then decide
by the last node entered and by the last recorded success. -/
def chunkMatchFinish (A : Regex) (Input : Int) (Outs : List GhostPtr) (IterateReverse : Bool)
    (CurrNode : Option NodeId) (LastMatch OutMatchEnd : Int) (σ : MatchState) :
    Run (Bool × Int × MatchState) :=
  let E : Int := if IterateReverse then OutMatchEnd + 1 else OutMatchEnd - 1
  let byLast : Bool × Int × MatchState :=
    if LastMatch ≠ Input then (true, LastMatch, σ) else (false, E, σ)
  match CurrNode with
  | none => .ok byLast
  | some cn =>
    match A.node cn with
    | .error e => .error e
    | .ok nd => if reachesOut nd Outs then .ok (true, E, σ) else .ok byLast

mutual

/-- The virtual `CanEnter(Input, Outers)` of the node `n`.  Returns the answer, the iterator
`Input` as the call leaves it, and the state. -/
def CanEnter : Nat → Regex → List Char → NodeId → Int → Option (List NodeId) → MatchState →
    Run (Bool × Int × MatchState)
  | 0, _, _, _, _, _, _ => .error .outOfFuel
  | fuel + 1, A, text, n, Input, Outers, σ => do
    let nd ← A.node n
    let AppendOuters : List NodeId := Outers.getD [] ++ [n]
    match nd.kind with
    | .Plain =>
      let (b, i) ← plainCanEnter A text nd.Comparators Input
      pure (b, i, σ)
    | .Group =>
      let (ok, Copy, σ1) ←
        ChunkMatch fuel A text Input nd.Ins nd.Outs nd.LazyGroup (some AppendOuters) false σ
      pure (if ok then (true, Copy, σ1) else (false, Input, σ1))
    | .LookAhead Negative =>
      let (ok, _, σ1) ← ChunkMatch fuel A text Input nd.Ins nd.Outs nd.LazyGroup none false σ
      pure (if Negative then !ok else ok, Input, σ1)
    | .LookBehind Negative =>
      let (ok, _, σ1) ←
        ChunkMatch fuel A text (Input - 1) nd.Ins nd.Outs nd.LazyGroup (some []) true σ
      let Success := if Negative then !ok else ok
      pure (Success, if Success then Input - 1 else Input, σ1)
    | .Capture _ BoundCapture =>
      match BoundCapture with
      | none => pure (false, Input, σ)
      | some cp =>
        let cap ← σ.capture cp
        let σ0 := σ.setCapture cp { cap with Succeeded := false }
        let (ok, Copy, σ1) ←
          ChunkMatch fuel A text Input nd.Ins nd.Outs nd.LazyGroup (some AppendOuters) false σ0
        if ok then
          let body ← readRange text Input Copy
          let tail ←
            if Copy ≠ text.length ∧ Copy ≥ Input then (deref text Copy).map (fun c => [c])
            else pure []
          let cap1 ← σ1.capture cp
          let σ2 := σ1.setCapture cp { cap1.SetCapture (body ++ tail) with LastCapture := some n }
          pure (true, if Copy < Input then Input - 1 else Copy, σ2)
        else pure (false, Input, σ1)
    | .Backreference _ BoundCapture =>
      match BoundCapture with
      | none => pure (false, Input, σ)
      | some cp =>
        let cap ← σ.capture cp
        if cap.Succeeded then
          let (b, i) ← backrefCompare text Input cap.GetCapture Input
          pure (b, i, σ)
        else pure (false, Input, σ)
    | .NoneOrMore _ Lazy =>
      let (ok, Copy, σ1) ←
        ChunkMatch fuel A text Input nd.Ins nd.Outs false (some AppendOuters) false σ
      if ok ∧ ¬ Lazy then pure (true, Copy, σ1)
      else
        let (taken, σ2) ← TryAnyTakers fuel A text n Input AppendOuters AppendOuters.reverse σ1
        pure (true, if taken then Input - 1 else Input, σ2)
    | .Loop BoundTicker _ =>
      let exhausted ←
        match BoundTicker with
        | none => pure false
        | some p => (σ.ticker A p).map (fun t => t.IsExhausted)
      if exhausted then pure (false, Input, σ)
      else
        let (ok, Copy, σ1) ←
          ChunkMatch fuel A text Input nd.Ins nd.Outs false (some AppendOuters) false σ
        if ok then
          match BoundTicker with
          | none => pure (true, Copy, σ1)
          | some p =>
            let t ← σ1.ticker A p
            pure (true, Copy, { σ1 with Tickers := setAt σ1.Tickers p.index t.Tick })
        else pure (false, Input, σ1)
    | .Recursion MaxDepth =>
      let KeptDepth := σ.depth n
      let σ0 := σ.setDepth n (KeptDepth + 1)
      if KeptDepth < MaxDepth then
        let (ok, Copy, σ1) ←
          ChunkMatch fuel A text Input nd.Ins nd.Outs nd.LazyGroup (some AppendOuters) false σ0
        if ok then pure (true, Copy, σ1)
        else pure (false, Input, σ1.setDepth n KeptDepth)
      else throw (.runtime depthExceeded σ0)
    | .Subroutine MaxDepth _ BoundCapture =>
      match BoundCapture with
      | none => pure (false, Input, σ)
      | some cp =>
        let cap ← σ.capture cp
        match cap.LastCapture with
        | none => pure (false, Input, σ)
        | some target =>
          let KeptDepth := σ.depth n
          let σ0 := σ.setDepth n (KeptDepth + 1)
          if KeptDepth < MaxDepth then CanEnter fuel A text target Input Outers σ0
          else throw (.runtime depthExceeded σ0)
    | .AtBeginning ExclusivelyBeginning LastMatchEnd =>
      if ExclusivelyBeginning ∧ LastMatchEnd then
        pure (decide (Input = 0) || decide (A.LastMatchEnd = some (Input - 1)), Input, σ)
      else if Input = 0 then pure (true, Input, σ)
      else if ¬ ExclusivelyBeginning then
        let (b, _) ← plainCanEnter A text nd.Comparators (Input - 1)
        pure (b, Input, σ)
      else pure (false, Input, σ)
    | .AtEnd ExclusivelyEnd LastNewline =>
      let (Success, TrueEnd) ←
        if LastNewline then do
          let te ← trueEndWalk A text nd.Comparators Input (text.length + 2) text.length
          if te = Input then plainCanEnter A text nd.Comparators te else pure (false, te)
        else pure (false, (text.length : Int))
      if Success then pure (true, Input, σ)
      else if Input = TrueEnd then pure (true, Input, σ)
      else if ¬ ExclusivelyEnd then
        let (b, _) ← plainCanEnter A text nd.Comparators Input
        pure (b, Input, σ)
      else pure (false, Input, σ)
    | .WordBoundary Negated =>
      if Input = 0 ∨ Input = text.length ∨ Input + 1 = text.length then
        pure (!Negated, if Input = 0 then Input - 1 else Input, σ)
      else
        let (here, Input1) ← plainCanEnter A text nd.Comparators Input
        let (before, Copy1) ← plainCanEnter A text nd.Comparators (Input - 1)
        let either ←
          if before then pure true
          else (plainCanEnter A text nd.Comparators (Copy1 + 2)).map (fun r => r.1)
        let Success := if here then !either else either
        pure (if Negated then !Success else Success, Input1, σ)
    | .Conditional Cond IfTrue IfFalse =>
      let cchunk ← A.chunk Cond
      let Cap : Option CapturePtr ←
        match cchunk.Nodes with
        | [only] =>
          (A.node only).map (fun c =>
            match c.kind with
            | .Backreference _ b => b
            | _ => none)
        | _ => pure none
      let (condOK, σ1) ←
        match Cap with
        | some cp => (σ.capture cp).map (fun c => (c.Succeeded, σ))
        | none =>
          (ChunkMatch fuel A text Input (cchunk.inPtrs Cond) (cchunk.outPtrs Cond) nd.LazyGroup
            (some AppendOuters) false σ).map (fun r => (r.1, r.2.2))
      if condOK then
        let tchunk ← A.chunk IfTrue
        let (ok, Copy, σ2) ←
          ChunkMatch fuel A text Input (tchunk.inPtrs IfTrue) (tchunk.outPtrs IfTrue) nd.LazyGroup
            (some AppendOuters) false σ1
        pure (if ok then (true, Copy, σ2) else (false, Input, σ2))
      else
        match IfFalse with
        | none => pure (false, Input, σ1)
        | some f =>
          let fchunk ← A.chunk f
          let (ok, Copy, σ2) ←
            ChunkMatch fuel A text Input (fchunk.inPtrs f) (fchunk.outPtrs f) nd.LazyGroup
              (some AppendOuters) false σ1
          pure (if ok then (true, Copy, σ2) else (false, Input, σ2))
    | .CodeHook _ Hooked =>
      let moved : Int :=
        match Hooked with
        | some f => f text Input
        | none => Input
      pure (true, moved - 1, σ)

/-- The search `for (currNext : CurrentNexts) if (currNext->CanEnter(Input, Outers)) ...`: the
first candidate that can be entered, with the iterator and the state as the attempts leave
them. -/
def firstEnterable : Nat → Regex → List Char → List NodeId → Int → Option (List NodeId) →
    MatchState → Run (Option NodeId × Int × MatchState)
  | 0, _, _, _, _, _, _ => .error .outOfFuel
  | _ + 1, _, _, [], Input, _, σ => pure (none, Input, σ)
  | fuel + 1, A, text, c :: cs, Input, Outers, σ => do
    let (b, i, σ1) ← CanEnter fuel A text c Input Outers σ
    if b then pure (some c, i, σ1) else firstEnterable fuel A text cs i Outers σ1

/-- `RegexChunk::Match(Input, Ins, Outs, Lazy, OutMatchEnd, Outers, IterateReverse)`.  Returns
the answer, `OutMatchEnd` and the state. -/
def ChunkMatch : Nat → Regex → List Char → Int → List GhostPtr → List GhostPtr → Bool →
    Option (List NodeId) → Bool → MatchState → Run (Bool × Int × MatchState)
  | 0, _, _, _, _, _, _, _, _, _ => .error .outOfFuel
  | fuel + 1, A, text, Input, Ins, Outs, Lazy, Outers, IterateReverse, σ => do
    let CurrentNexts ← startNexts A Ins
    ChunkMatchLoop fuel A text Input Outs Lazy Outers IterateReverse CurrentNexts none Input Input σ

/-- The loop of `RegexChunk::Match` over its locals `CurrentNexts`, `CurrNode`, `LastMatch`
and `OutMatchEnd`. -/
def ChunkMatchLoop : Nat → Regex → List Char → Int → List GhostPtr → Bool → Option (List NodeId) →
    Bool → List NodeId → Option NodeId → Int → Int → MatchState → Run (Bool × Int × MatchState)
  | 0, _, _, _, _, _, _, _, _, _, _, _, _ => .error .outOfFuel
  | fuel + 1, A, text, Input, Outs, Lazy, Outers, IterateReverse, CurrentNexts, CurrNode,
      LastMatch, OutMatchEnd, σ => do
    let atStop : Bool :=
      if IterateReverse then decide (OutMatchEnd = -1) else decide (OutMatchEnd = text.length)
    if CurrentNexts.isEmpty ∨ atStop then
      chunkMatchFinish A Input Outs IterateReverse CurrNode LastMatch OutMatchEnd σ
    else
      let (found, pos, σ1) ← firstEnterable fuel A text CurrentNexts OutMatchEnd Outers σ
      match found with
      | none => chunkMatchFinish A Input Outs IterateReverse CurrNode LastMatch pos σ1
      | some cn =>
        let nexts ← GetNexts A σ1 cn
        let cnode ← A.node cn
        let hit := reachesOut cnode Outs
        if hit ∧ Lazy then pure (true, pos, σ1)
        else
          ChunkMatchLoop fuel A text Input Outs Lazy Outers IterateReverse nexts (some cn)
            (if hit then pos else LastMatch) (if IterateReverse then pos - 1 else pos + 1) σ1

/-- `RegexNoneOrMoreNode::TryAnyTakers` for the node `self`: the candidates (the outer nodes
and the node itself) are asked from the innermost outwards whether one of their nexts other
than `self` can be entered at `Input`.  `remaining` are the candidates still to ask.  Returns
whether a taker was found, and the state. -/
def TryAnyTakers : Nat → Regex → List Char → NodeId → Int → List NodeId → List NodeId →
    MatchState → Run (Bool × MatchState)
  | 0, _, _, _, _, _, _, _ => .error .outOfFuel
  | _ + 1, _, _, _, _, _, [], σ => pure (false, σ)
  | fuel + 1, A, text, self, Input, NextCandidates, c :: rest, σ => do
    let RetrievedNexts ← GetNexts A σ c
    let (taken, σ1) ← takersOf fuel A text self Input NextCandidates RetrievedNexts σ
    if taken then pure (true, σ1)
    else TryAnyTakers fuel A text self Input NextCandidates rest σ1

/-- The inner loop of `TryAnyTakers` over the nexts of one candidate. -/
def takersOf : Nat → Regex → List Char → NodeId → Int → List NodeId → List NodeId →
    MatchState → Run (Bool × MatchState)
  | 0, _, _, _, _, _, _, _ => .error .outOfFuel
  | _ + 1, _, _, _, _, _, [], σ => pure (false, σ)
  | fuel + 1, A, text, self, Input, NextCandidates, currNext :: rest, σ => do
    if currNext ≠ self then
      let (b, _, σ1) ← CanEnter fuel A text currNext Input (some NextCandidates) σ
      if b then pure (true, σ1) else takersOf fuel A text self Input NextCandidates rest σ1
    else takersOf fuel A text self Input NextCandidates rest σ

end

/-! ## The matching entry points of `Regex` (`Evex.h`) -/

/-- How a call of `Match`, `MatchFrom` or `MatchAll` ends: it returns a value and leaves the
automaton in a state, it throws `RegexCompileException`, or the model cannot follow it (fuel
exhausted, or an access without defined behaviour). -/
inductive Outcome (α : Type) where
  | returned (value : α) (after : Regex)
  | threw (what : String) (after : Regex)
  | outOfFuel
  | invalidAccess

/-- The value a call returned, if it returned. -/
def Outcome.value? {α : Type} : Outcome α → Option α
  | .returned v _ => some v
  | _ => none

/-- The automaton a call left behind, if it returned. -/
def Outcome.after? {α : Type} : Outcome α → Option Regex
  | .returned _ A => some A
  | _ => none

/-- Whether the call threw the compile exception. -/
def Outcome.threwCompile {α : Type} : Outcome α → Bool
  | .threw _ _ => true
  | _ => false

/-- `Regex::ResetPreMatch`: resets the tickers, the captures that are not manual, and the
defined subroutines. -/
def Regex.ResetPreMatch (A : Regex) : Regex :=
  { A with
    Tickers := A.Tickers.map RegexTicker.Reset
    Captures := A.Captures.map (fun c => if ¬ c.Manual then c.Reset else c)
    DefinedSubroutines := A.DefinedSubroutines.map RegexCaptureBase.Reset }

/-- The test after the loop of `MatchInternal`: whether a ghost-out of the last node entered
is an end node of the automaton. -/
def endsMatch (A : Regex) (CurrNode : Option NodeId) : Run Bool :=
  match CurrNode with
  | none => .ok false
  | some cn => (A.node cn).map (fun nd => reachesOut nd A.EndNodes)

/-- The loop of `Regex::MatchInternal` over its locals `CurrentNexts`, `FirstTime`,
`LastTime`, `CurrNode` and `Iter`, and what follows it. -/
def MatchLoop : Nat → Regex → List Char → List NodeId → Bool → Bool → Option NodeId → Int →
    MatchState → Outcome Bool
  | 0, _, _, _, _, _, _, _, _ => .outOfFuel
  | fuel + 1, A, text, CurrentNexts, FirstTime, LastTime, CurrNode, Iter, σ =>
    let finish (σ1 : MatchState) : Outcome Bool :=
      match endsMatch A CurrNode with
      | .ok b => .returned b (A.withState σ1)
      | .error _ => .invalidAccess
    if ¬ CurrentNexts.isEmpty ∧ (Iter ≠ text.length ∨ LastTime = true) then
      match firstEnterable fuel A text CurrentNexts Iter none σ with
      | .error (.runtime msg σ1) =>
        .returned false { A.withState σ1 with RuntimeErrors := A.RuntimeErrors ++ [msg] }
      | .error .outOfFuel => .outOfFuel
      | .error .invalidAccess => .invalidAccess
      | .ok (none, _, σ1) => finish σ1
      | .ok (some cn, it, σ1) =>
        match GetNexts A σ1 cn with
        | .error _ => .invalidAccess
        | .ok nexts =>
          if ¬ (A.StartsWithLineCheck = true ∧ FirstTime = true) then
            if it ≠ text.length then
              MatchLoop fuel A text nexts FirstTime LastTime (some cn) (it + 1) σ1
            else if LastTime then MatchLoop fuel A text nexts FirstTime false (some cn) it σ1
            else MatchLoop fuel A text nexts FirstTime LastTime (some cn) it σ1
          else MatchLoop fuel A text nexts false LastTime (some cn) it σ1
    else finish σ

/-- `Regex::MatchInternal`: true if the automaton matches the given text from the
beginning. -/
def Regex.MatchInternal (fuel : Nat) (A : Regex) (String : List Char) : Outcome Bool :=
  if A.CompileError ≠ "" then .threw A.CompileError A
  else
    let A1 := { A with RuntimeErrors := [] }.ResetPreMatch
    match startNexts A1 A1.StartNodes with
    | .error _ => .invalidAccess
    | .ok CurrentNexts =>
      MatchLoop fuel A1 String CurrentNexts true A1.EndsWithLineCheck none 0 A1.state

/-- The copy `for (; Copy != Iter; ++Copy) OutSubstring += *Copy;` from the offset to the
iterator. -/
def copyMatched (text : List Char) (Offset Iter : Int) : Run (List Char) :=
  if Iter < Offset then .error .invalidAccess else readRange text Offset Iter

/-- The loop of `Regex::MatchFromInternal` and what follows it: as in `MatchInternal`, and on
success the text between the offset and the iterator is appended to `OutSubstring`. -/
def MatchFromLoop : Nat → Regex → List Char → Int → List Char → List NodeId → Bool → Bool →
    Option NodeId → Int → MatchState → Outcome (Bool × List Char)
  | 0, _, _, _, _, _, _, _, _, _, _ => .outOfFuel
  | fuel + 1, A, text, Offset, OutSubstring, CurrentNexts, FirstTime, LastTime, CurrNode, Iter, σ =>
    let finish (it : Int) (σ1 : MatchState) : Outcome (Bool × List Char) :=
      match endsMatch A CurrNode with
      | .ok true =>
        (match copyMatched text Offset it with
         | .ok sub => .returned (true, OutSubstring ++ sub) (A.withState σ1)
         | .error _ => .invalidAccess)
      | .ok false => .returned (false, OutSubstring) (A.withState σ1)
      | .error _ => .invalidAccess
    if ¬ CurrentNexts.isEmpty ∧ (Iter ≠ text.length ∨ LastTime = true) then
      match firstEnterable fuel A text CurrentNexts Iter none σ with
      | .error (.runtime msg σ1) =>
        .returned (false, OutSubstring)
          { A.withState σ1 with RuntimeErrors := A.RuntimeErrors ++ [msg] }
      | .error .outOfFuel => .outOfFuel
      | .error .invalidAccess => .invalidAccess
      | .ok (none, it, σ1) => finish it σ1
      | .ok (some cn, it, σ1) =>
        match GetNexts A σ1 cn with
        | .error _ => .invalidAccess
        | .ok nexts =>
          if ¬ (A.StartsWithLineCheck = true ∧ FirstTime = true) then
            if it ≠ text.length then
              MatchFromLoop fuel A text Offset OutSubstring nexts FirstTime LastTime (some cn)
                (it + 1) σ1
            else if LastTime then
              MatchFromLoop fuel A text Offset OutSubstring nexts FirstTime false (some cn) it σ1
            else
              MatchFromLoop fuel A text Offset OutSubstring nexts FirstTime LastTime (some cn) it σ1
          else MatchFromLoop fuel A text Offset OutSubstring nexts false LastTime (some cn) it σ1
    else finish Iter σ

/-- `Regex::MatchFromInternal`: true if the automaton matches the given text from the given
offset onward; the matched text is appended to `OutSubstring`. -/
def Regex.MatchFromInternal (fuel : Nat) (A : Regex) (String : List Char) (Offset : Int)
    (OutSubstring : List Char) : Outcome (Bool × List Char) :=
  if A.CompileError ≠ "" then .threw A.CompileError A
  else
    let A1 := { A with RuntimeErrors := [] }.ResetPreMatch
    match startNexts A1 A1.StartNodes with
    | .error _ => .invalidAccess
    | .ok CurrentNexts =>
      MatchFromLoop fuel A1 String Offset OutSubstring CurrentNexts true A1.EndsWithLineCheck none
        Offset A1.state

/-- The conversion of an `unsigned int` to the `int` parameter `Offset`. -/
def toInt32 (i : Nat) : Int := if i < 2147483648 then (i : Int) else (i : Int) - 4294967296

/-- The loop `for (unsigned int i = 0; i < String.length(); ++i)` of
`Regex::MatchAllInternal`, with the 32-bit unsigned arithmetic of `i`. -/
def MatchAllLoop : Nat → Nat → Regex → List Char → Nat → List (List Char) →
    Outcome (Bool × List (List Char))
  | 0, _, _, _, _, _ => .outOfFuel
  | rounds + 1, fuel, A, String, i, OutSubstrings =>
    if i < String.length then
      match A.MatchFromInternal fuel String (toInt32 i) [] with
      | .returned (true, NextSub) A1 =>
        let i1 := (i + (NextSub.length + 4294967296 - 1)) % 4294967296
        MatchAllLoop rounds fuel { A1 with LastMatchEnd := some (i1 : Int) } String
          ((i1 + 1) % 4294967296) (OutSubstrings ++ [NextSub])
      | .returned (false, _) A1 =>
        MatchAllLoop rounds fuel A1 String ((i + 1) % 4294967296) OutSubstrings
      | .threw w A1 => .threw w A1
      | .outOfFuel => .outOfFuel
      | .invalidAccess => .invalidAccess
    else
      .returned (decide (OutSubstrings ≠ []) && decide (A.RuntimeErrors = []), OutSubstrings) A

/-- `Regex::MatchAllInternal`: collects the matching substrings found in the text from any
position.  `rounds` bounds the number of offsets tried, `fuel` each single match. -/
def Regex.MatchAllInternal (rounds fuel : Nat) (A : Regex) (String : List Char) :
    Outcome (Bool × List (List Char)) :=
  if A.CompileError ≠ "" then .threw A.CompileError A
  else MatchAllLoop rounds fuel A String 0 []

/-- `Regex::Match`. -/
def Regex.Match (fuel : Nat) (A : Regex) (String : String) : Outcome Bool :=
  A.MatchInternal fuel String.data

/-- `Regex::MatchFrom`. -/
def Regex.MatchFrom (fuel : Nat) (A : Regex) (String : String) (Offset : Int)
    (OutSubstring : List Char := []) : Outcome (Bool × List Char) :=
  A.MatchFromInternal fuel String.data Offset OutSubstring

/-- `Regex::MatchAll`. -/
def Regex.MatchAll (rounds fuel : Nat) (A : Regex) (String : String) :
    Outcome (Bool × List (List Char)) :=
  A.MatchAllInternal rounds fuel String.data

/-- `Regex::GetCapture(int Index, OutCapture, OutCaptureSuccess)`: `none` when the call returns
false (and leaves the outputs alone), otherwise the captured text and the success flag.  The
bound of the index is `(int)Captures.size()`, the size converted to the 32-bit `int`. -/
def Regex.GetCapture (A : Regex) (Index : Int) : Option (List Char × Bool) :=
  if Index < 1 ∨ Index > toInt32 (A.Captures.length % 4294967296) then none
  else
    match A.Captures.get? (Index - 1).toNat with
    | none => none
    | some c =>
      match c.CapturedInputs with
      | .single t => some (t, c.Succeeded)
      | .collection _ => none

/-- Dereference of a capture pointer of the automaton. -/
def Regex.captureAt (A : Regex) (p : CapturePtr) : Option RegexCaptureBase :=
  match p with
  | .capture i => A.Captures.get? i
  | .subroutine i => A.DefinedSubroutines.get? i

/-- `NamesToCaptures.find(Name)`. -/
def Regex.findName (A : Regex) (Name : String) : Option CapturePtr :=
  (A.NamesToCaptures.find? (fun p => p.1 = Name)).map (fun p => p.2)

/-- `Regex::GetCapture(Name, OutCapture, OutCaptureSuccess)`. -/
def Regex.GetCaptureNamed (A : Regex) (Name : String) : Option (List Char × Bool) :=
  match A.findName Name with
  | none => none
  | some p =>
    match A.captureAt p with
    | none => none
    | some c =>
      match c.CapturedInputs with
      | .single t => some (t, c.Succeeded)
      | .collection _ => none

/-! ## Assembly: heap operations (`Evex.h`, `EvexChunk.h`)

The functions of the assembler return `none` where the C++ program has no defined behaviour
(a pop from the empty stack, an index outside a table, a dangling pointer) or throws
(`std::stoi`). -/

/-- A result of the matcher's heap access, as an option. -/
def Run.toOption {α : Type} : Run α → Option α
  | .ok a => some a
  | .error _ => none

/-- `new` of a node: the node is appended to the arena. -/
def Regex.allocNode (A : Regex) (nd : RegexNode) : Regex × NodeId :=
  ({ A with nodes := A.nodes ++ [nd], CurrDepth := A.CurrDepth ++ [0] }, A.nodes.length)

/-- `new RegexChunk<T>()`: the chunk is appended to the arena. -/
def Regex.allocChunk (A : Regex) (ch : RegexChunk) : Regex × ChunkId :=
  ({ A with chunks := A.chunks ++ [ch] }, A.chunks.length)

/-- Write through a node pointer. -/
def Regex.modifyNode (A : Regex) (n : NodeId) (f : RegexNode → RegexNode) : Option Regex :=
  (A.node n).toOption.map (fun nd => { A with nodes := setAt A.nodes n (f nd) })

/-- Write through a chunk pointer. -/
def Regex.modifyChunk (A : Regex) (c : ChunkId) (f : RegexChunk → RegexChunk) : Option Regex :=
  (A.chunk c).toOption.map (fun ch => { A with chunks := setAt A.chunks c (f ch) })

/-- Write through a pointer to a ghost-in. -/
def Regex.modifyIn (A : Regex) (g : GhostPtr) (f : RegexNodeGhostIn → RegexNodeGhostIn) :
    Option Regex :=
  match (A.ghostIn g).toOption with
  | none => none
  | some gi => A.modifyChunk g.chunk (fun ch => { ch with Ins := setAt ch.Ins g.index (f gi) })

/-- Write through a pointer to a ghost-out. -/
def Regex.modifyOut (A : Regex) (g : GhostPtr) (f : RegexNodeGhostOut → RegexNodeGhostOut) :
    Option Regex :=
  match (A.ghostOut g).toOption with
  | none => none
  | some go => A.modifyChunk g.chunk (fun ch => { ch with Outs := setAt ch.Outs g.index (f go) })

/-- `delete chunk`: the destructor of the chunk deletes its nodes. -/
def Regex.deleteChunk (A : Regex) (c : ChunkId) : Option Regex :=
  match (A.chunk c).toOption with
  | none => none
  | some ch =>
    some { A with
      chunks := setAt A.chunks c { ch with deleted := true }
      nodes := A.nodes.enum.map (fun p => if p.1 ∈ ch.Nodes then { p.2 with deleted := true } else p.2) }

/-- `RegexChunk::Wrap(Node)`: a new chunk around the node, with one ghost-in and one
ghost-out. -/
def Regex.Wrap (A : Regex) (n : NodeId) : Option (Regex × ChunkId) :=
  let (A1, c) := A.allocChunk
    { Nodes := [n], Ins := [{ Index := 0, Nexts := [n] }], Outs := [{ Index := 0 }] }
  (A1.modifyNode n (fun nd => { nd with GhostNexts := setInsert nd.GhostNexts ⟨c, 0⟩, Index := 0 })).map
    (fun A2 => (A2, c))

/-- `RegexChunk::Literal(CharClasses)`: a new chunk with one plain node. -/
def Regex.Literal (A : Regex) (CharClasses : List Nat) : Option (Regex × ChunkId) :=
  let (A1, n) := A.allocNode { Comparators := CharClasses, kind := .Plain }
  A1.Wrap n

/-- `RegexChunkLooseEnds<T>`: the loose ends of the graph under construction. -/
structure RegexChunkLooseEnds where
  ChunksInvolved : List ChunkId := []
  Ins : List GhostPtr := []
  Outs : List GhostPtr := []
  deriving DecidableEq, Repr

/-- `Regex::GetLooseEnds(chunk)`. -/
def Regex.GetLooseEnds (A : Regex) (c : ChunkId) : Option RegexChunkLooseEnds :=
  (A.chunk c).toOption.map (fun ch => ⟨[c], ch.inPtrs c, ch.outPtrs c⟩)

/-- `RegexChunk::ContainsNode` for a pointer to a ghost-in. -/
def Regex.containsIn (A : Regex) (c : ChunkId) (g : GhostPtr) : Option Bool :=
  match (A.ghostIn g).toOption, (A.chunk c).toOption with
  | some gi, some ch => some (decide (gi.Index < ch.Ins.length ∧ c = g.chunk ∧ gi.Index = g.index))
  | _, _ => none

/-- `RegexChunk::ContainsNode` for a pointer to a ghost-out. -/
def Regex.containsOut (A : Regex) (c : ChunkId) (g : GhostPtr) : Option Bool :=
  match (A.ghostOut g).toOption, (A.chunk c).toOption with
  | some go, some ch => some (decide (go.Index < ch.Outs.length ∧ c = g.chunk ∧ go.Index = g.index))
  | _, _ => none

/-- The first chunk of a list that contains the ghost node, by the given test. -/
def firstContaining (test : ChunkId → Option Bool) : List ChunkId → Option (Option ChunkId)
  | [] => some none
  | c :: cs =>
    match test c with
    | none => none
    | some true => some (some c)
    | some false => firstContaining test cs

/-- The chunks that contain one of the given ghost nodes: `GetStartChunks` and
`GetEndChunks`. -/
def boundaryChunks (test : GhostPtr → ChunkId → Option Bool) (ChunksInvolved : List ChunkId) :
    List GhostPtr → List ChunkId → Option (List ChunkId)
  | [], acc => some acc
  | g :: gs, acc =>
    match firstContaining (test g) ChunksInvolved with
    | none => none
    | some none => boundaryChunks test ChunksInvolved gs acc
    | some (some c) => boundaryChunks test ChunksInvolved gs (setInsert acc c)

/-- `RegexChunkLooseEnds::GetStartChunks`. -/
def Regex.GetStartChunks (A : Regex) (le : RegexChunkLooseEnds) : Option (List ChunkId) :=
  boundaryChunks (fun g c => A.containsIn c g) le.ChunksInvolved le.Ins []

/-- `RegexChunkLooseEnds::GetEndChunks`. -/
def Regex.GetEndChunks (A : Regex) (le : RegexChunkLooseEnds) : Option (List ChunkId) :=
  boundaryChunks (fun g c => A.containsOut c g) le.ChunksInvolved le.Outs []

/-- A fold over a list with a step that may fail. -/
def foldOpt {α β : Type} (f : β → α → Option β) : List α → β → Option β
  | [], b => some b
  | a :: as, b =>
    match f b a with
    | none => none
    | some b1 => foldOpt f as b1

/-- `Regex::Concat(lhs, rhs)`: constructs the operation "ab". -/
def Regex.Concat (A : Regex) (lhs rhs : RegexChunkLooseEnds) : Option (Regex × RegexChunkLooseEnds) :=
  match A.GetEndChunks lhs, A.GetStartChunks rhs with
  | some LeftOuts, some RightIns =>
    match foldOpt (fun (A1 : Regex) c =>
        A1.modifyChunk c (fun ch => { ch with ConnectedTos := setInsertAll ch.ConnectedTos RightIns }))
        LeftOuts A with
    | none => none
    | some A1 =>
      match foldOpt (fun (A2 : Regex) o =>
          A2.modifyOut o (fun go => { go with GhostNexts := setInsertAll go.GhostNexts rhs.Ins }))
          lhs.Outs A1 with
      | none => none
      | some A2 =>
        some (A2, ⟨setInsertAll lhs.ChunksInvolved rhs.ChunksInvolved, lhs.Ins, rhs.Outs⟩)
  | _, _ => none

/-- `Regex::Alternate(lhs, rhs)`: constructs an alternation ("a|b") in NFA format. -/
def Regex.Alternate (lhs rhs : RegexChunkLooseEnds) : RegexChunkLooseEnds :=
  ⟨setInsertAll lhs.ChunksInvolved rhs.ChunksInvolved, setInsertAll lhs.Ins rhs.Ins,
   setInsertAll lhs.Outs rhs.Outs⟩

/-! ### `SimilarTo`, `Incorporate`, `Clone` -/

/-- The virtual `a.SimilarTo(b)`. -/
def RegexNode.SimilarTo (a b : RegexNode) : Bool :=
  match a.kind with
  | .Plain => b.Comparators.all (fun c => decide (c ∈ a.Comparators)) && !b.kind.isGroup
  | .Backreference name _ =>
    (match b.kind with
     | .Backreference name1 _ => decide (name = name1)
     | _ => false)
  | .Subroutine _ name _ =>
    (match b.kind with
     | .Subroutine _ name1 _ => decide (name = name1)
     | _ => false)
  | .WordBoundary neg =>
    (match b.kind with
     | .WordBoundary neg1 => decide (neg1 = neg)
     | _ => false)
  | .CodeHook name _ =>
    (match b.kind with
     | .CodeHook name1 _ => decide (name = name1)
     | _ => false)
  | _ => false

/-- `RegexNode::Incorporate(o)`: merges the nexts of another node into this one. -/
def RegexNode.Incorporate (a o : RegexNode) : RegexNode :=
  { a with Nexts := setInsertAll a.Nexts o.Nexts, GhostNexts := setInsertAll a.GhostNexts o.GhostNexts }

/-- The virtual `Clone()`.  `none` when the clone dereferences `Comparators.begin()` of an
empty set. -/
def RegexNode.Clone (nd : RegexNode) : Option RegexNode :=
  let grouped (withLazy : Bool) : RegexNode :=
    { Chunks := nd.Chunks, Ins := nd.Ins, Outs := nd.Outs,
      LazyGroup := if withLazy then nd.LazyGroup else false, kind := nd.kind }
  match nd.kind with
  | .Plain => some { Comparators := nd.Comparators, kind := .Plain }
  | .Group => some (grouped true)
  | .LookAhead _ => some (grouped true)
  | .LookBehind _ => some (grouped true)
  | .Capture _ _ => some (grouped true)
  | .Backreference _ _ => some { kind := nd.kind }
  | .NoneOrMore _ _ => some (grouped false)
  | .Loop _ _ => some (grouped false)
  | .Recursion _ => some (grouped true)
  | .Subroutine _ _ _ => some { kind := nd.kind }
  | .AtBeginning _ _ => nd.Comparators.head?.map (fun c => { Comparators := [c], kind := nd.kind })
  | .AtEnd _ _ => nd.Comparators.head?.map (fun c => { Comparators := [c], kind := nd.kind })
  | .WordBoundary _ => nd.Comparators.head?.map (fun c => { Comparators := [c], kind := nd.kind })
  | .Conditional _ _ _ => some (grouped true)
  | .CodeHook _ _ => some { kind := nd.kind }

/-- `Regex::CollapsePacket`: the referential nodes in need of post-construction
initialization. -/
structure CollapsePacket where
  Backs_Numbered : List (NodeId × Int) := []
  Backs_Named : List (NodeId × String) := []
  Subs_Numbered : List (NodeId × Int) := []
  Subs_Named : List (NodeId × String) := []
  Recursions : List NodeId := []
  Caps_Numbered : List (NodeId × Int) := []
  Caps_Named : List (NodeId × String) := []
  deriving DecidableEq, Repr

/-- `map[key] = value` on a `std::unordered_map`. -/
def mapSet {κ ν : Type} [DecidableEq κ] (m : List (κ × ν)) (k : κ) (v : ν) : List (κ × ν) :=
  if m.any (fun p => decide (p.1 = k)) then m.map (fun p => if p.1 = k then (k, v) else p)
  else m ++ [(k, v)]

/-- `map.find(key)`. -/
def mapFind {κ ν : Type} [DecidableEq κ] (m : List (κ × ν)) (k : κ) : Option ν :=
  (m.find? (fun p => decide (p.1 = k))).map (fun p => p.2)

/-- `map.erase(key)`. -/
def mapErase {κ ν : Type} [DecidableEq κ] (m : List (κ × ν)) (k : κ) : List (κ × ν) :=
  m.filter (fun p => decide (p.1 ≠ k))

/-- The move of an entry of a pending-link table from the prior node to its clone: the
numbered table first, else the named one. -/
def moveLink {ν μ : Type} (numbered : List (NodeId × ν)) (named : List (NodeId × μ))
    (Node PriorNode : NodeId) : List (NodeId × ν) × List (NodeId × μ) :=
  match mapFind numbered PriorNode with
  | some v => (mapErase (mapSet numbered Node v) PriorNode, named)
  | none =>
    match mapFind named PriorNode with
    | some v => (numbered, mapErase (mapSet named Node v) PriorNode)
    | none => (numbered, named)

/-- `Regex::TryFitCloneMap(Node, PriorNode, CloneMaps)`: remaps a referential node to its
clone during a collapse. -/
def TryFitCloneMap (Node PriorNode : NodeId) (kind : NodeKind) (pk : CollapsePacket) :
    CollapsePacket :=
  match kind with
  | .Backreference _ _ =>
    let r := moveLink pk.Backs_Numbered pk.Backs_Named Node PriorNode
    { pk with Backs_Numbered := r.1, Backs_Named := r.2 }
  | .Subroutine _ _ _ =>
    let r := moveLink pk.Subs_Numbered pk.Subs_Named Node PriorNode
    { pk with Subs_Numbered := r.1, Subs_Named := r.2 }
  | .Recursion _ =>
    { pk with Recursions := (setInsert pk.Recursions Node).filter (fun x => decide (x ≠ PriorNode)) }
  | .Capture _ _ =>
    let r := moveLink pk.Caps_Numbered pk.Caps_Named Node PriorNode
    { pk with Caps_Numbered := r.1, Caps_Named := r.2 }
  | _ => pk

/-! ### `Collapse` -/

/-- The state that the three lambdas of `Regex::Collapse` share: the automaton (with the new
chunk in its arena), the clone maps, `EndInd`, and the three index maps. -/
structure CollapseWork where
  A : Regex
  pk : CollapsePacket
  EndInd : Option Nat := none
  InsToInds : List (Nat × List Nat) := []
  NodesToInds : List (Nat × List Nat) := []
  OutsToInds : List (Nat × List Nat) := []

/-- `map[key].insert(value)` on a map from `int` to a set of `int`. -/
def indsInsert (m : List (Nat × List Nat)) (k v : Nat) : List (Nat × List Nat) :=
  mapSet m k (setInsert ((mapFind m k).getD []) v)

/-- The search of `CollapseIns` among the nodes made so far for this ghost-in: the first
index of `SeggedNexts` whose node the old node is similar to. -/
def findSimilar (A : Regex) (old : RegexNode) (Nodes : List NodeId) : List Nat → Option (Option Nat)
  | [] => some none
  | i :: rest =>
    match Nodes.get? i with
    | none => none
    | some m =>
      match (A.node m).toOption with
      | none => none
      | some nd => if old.SimilarTo nd then some (some i) else findSimilar A old Nodes rest

/-- One round of the inner loop of `CollapseIns`: the old node `currNext` behind the ghost-in
`currInd` of the new chunk `nc` is merged into a similar node or cloned.  Carries the work
state, `SeggedNexts` and `NextNodes`. -/
def collapseInNext (nc : ChunkId) (currInd : Nat) (acc : CollapseWork × List Nat × List Nat)
    (currNext : NodeId) : Option (CollapseWork × List Nat × List Nat) :=
  let (w, Segged, NextNodes) := acc
  match (w.A.node currNext).toOption, (w.A.chunk nc).toOption with
  | some old, some ch =>
    match findSimilar w.A old ch.Nodes Segged with
    | none => none
    | some found =>
      let made : Option (CollapseWork × Nat) :=
        match found with
        | some i => some (w, i)
        | none =>
          match old.Clone with
          | none => none
          | some cl =>
            let idx := ch.Nodes.length
            let (A1, m) := w.A.allocNode { cl with Index := idx }
            (A1.modifyChunk nc (fun c => { c with Nodes := c.Nodes ++ [m] })).map
              (fun A2 => ({ w with A := A2, pk := TryFitCloneMap m currNext cl.kind w.pk }, idx))
      match made with
      | none => none
      | some (w1, FoundInd) =>
        match (w1.A.chunk nc).toOption with
        | none => none
        | some ch1 =>
          match ch1.Nodes.get? FoundInd with
          | none => none
          | some target =>
            (w1.A.modifyNode target (fun t => t.Incorporate old)).map
              (fun A3 =>
                ({ w1 with A := A3, InsToInds := indsInsert w1.InsToInds currInd FoundInd },
                 setInsert Segged FoundInd, setInsert NextNodes FoundInd))
  | _, _ => none

/-- The lambda `CollapseIns(CurrentIns, NextNodes)` of `Regex::Collapse`. -/
def CollapseIns (nc : ChunkId) (w : CollapseWork) (CurrentIns : List Nat) :
    Option (CollapseWork × List Nat) :=
  foldOpt (fun (acc : CollapseWork × List Nat) currInd =>
      match (acc.1.A.ghostIn ⟨nc, currInd⟩).toOption with
      | none => none
      | some curr =>
        match foldOpt (collapseInNext nc currInd) curr.Nexts (acc.1, [], acc.2) with
        | none => none
        | some (w1, _, NextNodes) =>
          (w1.A.modifyIn ⟨nc, currInd⟩ (fun gi => { gi with Nexts := [] })).map
            (fun A1 => ({ w1 with A := A1 }, NextNodes)))
    CurrentIns (w, [])

/-- One round of the inner loop of `CollapseNodes`: the old ghost-out `currNext` of the new
node at index `currInd` is merged into the end ghost-out or into the node's constructed
ghost-out.  Carries the work state, `ConstructedInd` and `NextOuts`. -/
def collapseNodeNext (nc : ChunkId) (chunkOuts : List GhostPtr) (currInd : Nat)
    (acc : CollapseWork × Option Nat × List Nat) (currNext : GhostPtr) :
    Option (CollapseWork × Option Nat × List Nat) :=
  let (w, ConstructedInd, NextOuts) := acc
  match (w.A.chunk nc).toOption, (w.A.ghostOut currNext).toOption with
  | some ch, some oldOut =>
    let fresh : Nat := ch.Outs.length
    let pushOut (A : Regex) : Option Regex :=
      A.modifyChunk nc (fun c => { c with Outs := c.Outs ++ [{ Index := fresh }] })
    let chosen : Option (Regex × Option Nat × Option Nat × Nat) :=
      if currNext ∈ chunkOuts then
        match w.EndInd with
        | some e => some (w.A, w.EndInd, ConstructedInd, e)
        | none => (pushOut w.A).map (fun A1 => (A1, some fresh, ConstructedInd, fresh))
      else
        match ConstructedInd with
        | some k => some (w.A, w.EndInd, ConstructedInd, k)
        | none => (pushOut w.A).map (fun A1 => (A1, w.EndInd, some fresh, fresh))
    match chosen with
    | none => none
    | some (A1, EndInd1, Constructed1, FoundInd) =>
      (A1.modifyOut ⟨nc, FoundInd⟩
          (fun go => { go with GhostNexts := setInsertAll go.GhostNexts oldOut.GhostNexts })).map
        (fun A2 =>
          ({ w with A := A2, EndInd := EndInd1,
                    NodesToInds := indsInsert w.NodesToInds currInd FoundInd },
           Constructed1, setInsert NextOuts FoundInd))
  | _, _ => none

/-- The lambda `CollapseNodes(CurrentNodes, NextOuts)` of `Regex::Collapse`. -/
def CollapseNodes (nc : ChunkId) (chunkOuts : List GhostPtr) (w : CollapseWork)
    (CurrentNodes : List Nat) : Option (CollapseWork × List Nat) :=
  foldOpt (fun (acc : CollapseWork × List Nat) currInd =>
      match (acc.1.A.chunk nc).toOption with
      | none => none
      | some ch =>
        match ch.Nodes.get? currInd with
        | none => none
        | some m =>
          match (acc.1.A.node m).toOption with
          | none => none
          | some curr =>
            match foldOpt (collapseNodeNext nc chunkOuts currInd) curr.GhostNexts
                (acc.1, none, acc.2) with
            | none => none
            | some (w1, _, NextOuts) =>
              (w1.A.modifyNode m (fun nd => { nd with Nexts := [], GhostNexts := [] })).map
                (fun A1 => ({ w1 with A := A1 }, NextOuts)))
    CurrentNodes (w, [])

/-- One round of the inner loop of `CollapseOuts`: the old ghost-in `currNext` behind the new
ghost-out `currInd` is merged into the ghost-in constructed for that ghost-out. -/
def collapseOutNext (nc : ChunkId) (currInd : Nat)
    (acc : CollapseWork × Option Nat × List Nat) (currNext : GhostPtr) :
    Option (CollapseWork × Option Nat × List Nat) :=
  let (w, ConstructedInd, NextIns) := acc
  match (w.A.chunk nc).toOption, (w.A.ghostIn currNext).toOption with
  | some ch, some oldIn =>
    let fresh : Nat := ch.Ins.length
    let chosen : Option (Regex × Nat) :=
      match ConstructedInd with
      | some k => some (w.A, k)
      | none =>
        (w.A.modifyChunk nc (fun c => { c with Ins := c.Ins ++ [{ Index := fresh }] })).map
          (fun A1 => (A1, fresh))
    match chosen with
    | none => none
    | some (A1, FoundInd) =>
      (A1.modifyIn ⟨nc, FoundInd⟩
          (fun gi => { gi with Nexts := setInsertAll gi.Nexts oldIn.Nexts })).map
        (fun A2 =>
          ({ w with A := A2, OutsToInds := indsInsert w.OutsToInds currInd FoundInd },
           some FoundInd, setInsert NextIns FoundInd))
  | _, _ => none

/-- The lambda `CollapseOuts(CurrentOuts, NextIns)` of `Regex::Collapse`. -/
def CollapseOuts (nc : ChunkId) (w : CollapseWork) (CurrentOuts : List Nat) :
    Option (CollapseWork × List Nat) :=
  foldOpt (fun (acc : CollapseWork × List Nat) currInd =>
      match (acc.1.A.ghostOut ⟨nc, currInd⟩).toOption with
      | none => none
      | some curr =>
        match foldOpt (collapseOutNext nc currInd) curr.GhostNexts (acc.1, none, acc.2) with
        | none => none
        | some (w1, _, NextIns) =>
          (w1.A.modifyOut ⟨nc, currInd⟩ (fun go => { go with GhostNexts := [] })).map
            (fun A1 => ({ w1 with A := A1 }, NextIns)))
    CurrentOuts (w, [])

/-- The loop `while (!CurrIns.empty())` of `Regex::Collapse`. -/
def collapseRounds (nc : ChunkId) (chunkOuts : List GhostPtr) :
    Nat → CollapseWork → List Nat → Option CollapseWork
  | 0, _, _ => none
  | fuel + 1, w, CurrIns =>
    if CurrIns.isEmpty then some w
    else
      match CollapseIns nc w CurrIns with
      | none => none
      | some (w1, CurrNodes) =>
        match CollapseNodes nc chunkOuts w1 CurrNodes with
        | none => none
        | some (w2, CurrOuts) =>
          match CollapseOuts nc w2 CurrOuts with
          | none => none
          | some (w3, NextIns) => collapseRounds nc chunkOuts fuel w3 NextIns

/-- The rewiring at the end of `Regex::Collapse`: the index maps become pointers again. -/
def collapseRewire (nc : ChunkId) (w : CollapseWork) : Option Regex :=
  match (w.A.chunk nc).toOption with
  | none => none
  | some ch =>
    let nodeAt (i : Nat) : Option NodeId := ch.Nodes.get? i
    match foldOpt (fun (A : Regex) (p : Nat × List Nat) =>
        match p.2.mapM nodeAt with
        | none => none
        | some ns => A.modifyIn ⟨nc, p.1⟩ (fun gi => { gi with Nexts := setInsertAll gi.Nexts ns }))
        w.InsToInds w.A with
    | none => none
    | some A1 =>
      match foldOpt (fun (A : Regex) (p : Nat × List Nat) =>
          match nodeAt p.1 with
          | none => none
          | some m =>
            if p.2.all (fun i => decide (i < ch.Outs.length)) then
              A.modifyNode m (fun nd =>
                { nd with GhostNexts := setInsertAll nd.GhostNexts (p.2.map (fun i => ⟨nc, i⟩)) })
            else none)
          w.NodesToInds A1 with
      | none => none
      | some A2 =>
        foldOpt (fun (A : Regex) (p : Nat × List Nat) =>
            if p.2.all (fun i => decide (i < ch.Ins.length)) then
              A.modifyOut ⟨nc, p.1⟩ (fun go =>
                { go with GhostNexts := setInsertAll go.GhostNexts (p.2.map (fun i => ⟨nc, i⟩)) })
            else none)
          w.OutsToInds A2

/-- `Regex::Collapse(chunk, CloneMaps)`: collapses the loose ends into one new chunk in which
similar sibling nodes are merged; the old chunks are deleted.  `fuel` bounds the rounds of
the main loop. -/
def Regex.Collapse (fuel : Nat) (A : Regex) (chunk : RegexChunkLooseEnds) (pk : CollapsePacket) :
    Option (Regex × CollapsePacket × RegexChunkLooseEnds) :=
  let (A0, nc) := A.allocChunk { Ins := [{}] }
  let A1 := { A0 with Chunks := setInsert A0.Chunks nc }
  match foldOpt (fun (A2 : Regex) g =>
      match (A2.ghostIn g).toOption with
      | none => none
      | some old => A2.modifyIn ⟨nc, 0⟩ (fun gi => { gi with Nexts := setInsertAll gi.Nexts old.Nexts }))
      chunk.Ins A1 with
  | none => none
  | some A2 =>
    match collapseRounds nc chunk.Outs fuel { A := A2, pk := pk } [0] with
    | none => none
    | some w =>
      match collapseRewire nc w, w.EndInd with
      | some A3, some EndInd =>
        match foldOpt (fun (A4 : Regex) c =>
            if c ∈ A4.Chunks then
              ({ A4 with Chunks := A4.Chunks.filter (fun x => decide (x ≠ c)) }).deleteChunk c
            else none)
            chunk.ChunksInvolved A3 with
        | none => none
        | some A4 => some (A4, w.pk, ⟨[nc], [⟨nc, 0⟩], [⟨nc, EndInd⟩]⟩)
      | _, _ => none

/-! ### `PruneIntermediaryGhosts` -/

/-- The work of `PruneIntermediaryGhosts` on one node: the nexts behind its ghost-outs become
real nexts of the node, and the ghost-outs that are not boundary outs are dropped.  Carries
the automaton and the set `Nexts` of nodes to visit in the following round. -/
def pruneNode (Outs : List GhostPtr) (acc : Regex × List NodeId) (currNode : NodeId) :
    Option (Regex × List NodeId) :=
  match (acc.1.node currNode).toOption with
  | none => none
  | some nd =>
    let visit (st : Regex × List NodeId × List GhostPtr) (currOut : GhostPtr) :
        Option (Regex × List NodeId × List GhostPtr) :=
      match (st.1.ghostOut currOut).toOption with
      | none => none
      | some go =>
        match foldOpt (fun (s : Regex × List NodeId) currIn =>
            match (s.1.ghostIn currIn).toOption with
            | none => none
            | some gi =>
              (s.1.modifyNode currNode
                  (fun n1 => { n1 with Nexts := setInsertAll n1.Nexts gi.Nexts })).map
                (fun A1 => (A1, setInsertAll s.2 gi.Nexts)))
            go.GhostNexts (st.1, st.2.1) with
        | none => none
        | some (A1, Nexts1) =>
          some (A1, Nexts1, if currOut ∈ Outs then st.2.2 else st.2.2 ++ [currOut])
    match foldOpt visit nd.GhostNexts (acc.1, acc.2, []) with
    | none => none
    | some (A1, Nexts1, LocalDels) =>
      (A1.modifyNode currNode (fun n1 =>
        if LocalDels.length = n1.GhostNexts.length then { n1 with GhostNexts := [] }
        else { n1 with GhostNexts := n1.GhostNexts.filter (fun g => decide (g ∉ LocalDels)) })).map
        (fun A2 => (A2, Nexts1))

/-- The loop `while (!Currs.empty())` of `PruneIntermediaryGhosts`. -/
def pruneRounds (Outs : List GhostPtr) : Nat → Regex → List NodeId → Option Regex
  | 0, _, _ => none
  | fuel + 1, A, Currs =>
    if Currs.isEmpty then some A
    else
      match foldOpt (pruneNode Outs) Currs (A, []) with
      | none => none
      | some (A1, Nexts) => pruneRounds Outs fuel A1 Nexts

/-- `Regex::PruneIntermediaryGhosts(ToPrune)`: reroutes around the ghosts that do not signify
an end or a start.  (The maps `InsToDelete` and `OutsToDelete` of the source are written and
never read; they are left out.) -/
def Regex.PruneIntermediaryGhosts (fuel : Nat) (A : Regex) (ToPrune : RegexChunkLooseEnds) :
    Option Regex :=
  match foldOpt (fun (acc : List NodeId) g =>
      (A.ghostIn g).toOption.map (fun gi => setInsertAll acc gi.Nexts)) ToPrune.Ins [] with
  | none => none
  | some Currs => pruneRounds ToPrune.Outs fuel A Currs

/-! ### Groups and quantifiers -/

/-- The state of `RegexAssembler::AssembleAutomaton`: the automaton, the stack of loose ends
and the pending-link tables. -/
structure AsmState where
  A : Regex
  ChunkStack : List RegexChunkLooseEnds := []
  pk : CollapsePacket := {}

/-- The setup of one focus node over an already collapsed chunk: the node takes the chunk as
its inner automaton and is wrapped in a chunk of its own. -/
def Regex.focusOn (A : Regex) (Collapsed : RegexChunkLooseEnds) (FocusNode : NodeId) :
    Option (Regex × RegexChunkLooseEnds) :=
  match A.modifyNode FocusNode (fun nd =>
      { nd with Chunks := nd.Chunks ++ Collapsed.ChunksInvolved, Ins := Collapsed.Ins,
                Outs := Collapsed.Outs }) with
  | none => none
  | some A1 =>
    match A1.Wrap FocusNode with
    | none => none
    | some (A2, NewChunk) =>
      let A3 := { A2 with Chunks := setInsert A2.Chunks NewChunk }
      (A3.GetLooseEnds NewChunk).map (fun le => (A3, le))

/-- `Regex::AssembleGroups(chunk, FocusNodes, CloneMaps)`: one collapse and prune, then the
setup of every focus node over the same chunk. -/
def Regex.AssembleGroups (fuel : Nat) (A : Regex) (chunk : RegexChunkLooseEnds)
    (FocusNodes : List NodeId) (pk : CollapsePacket) :
    Option (Regex × CollapsePacket × List RegexChunkLooseEnds) :=
  match A.Collapse fuel chunk pk with
  | none => none
  | some (A1, pk1, Collapsed) =>
    match A1.PruneIntermediaryGhosts fuel Collapsed with
    | none => none
    | some A2 =>
      (foldOpt (fun (acc : Regex × List RegexChunkLooseEnds) currFocus =>
          (acc.1.focusOn Collapsed currFocus).map (fun r => (r.1, acc.2 ++ [r.2])))
        FocusNodes (A2, [])).map (fun r => (r.1, pk1, r.2))

/-- `Regex::AssembleGroup(chunk, FocusNode, CloneMaps)`: handles the setup of a group node. -/
def Regex.AssembleGroup (fuel : Nat) (A : Regex) (chunk : RegexChunkLooseEnds)
    (FocusNode : NodeId) (pk : CollapsePacket) :
    Option (Regex × CollapsePacket × RegexChunkLooseEnds) :=
  match A.AssembleGroups fuel chunk [FocusNode] pk with
  | some (A1, pk1, [le]) => some (A1, pk1, le)
  | _ => none

/-- `Tickers.push_back(RegexTicker<T>(Max))` followed by `&Tickers.back()`.  A push at full
capacity reallocates the vector: a new generation of pointers starts. -/
def Regex.pushTicker (A : Regex) (Max : Int) : Regex × TickerPtr :=
  if A.Tickers.length < A.TickerCapacity then
    ({ A with Tickers := A.Tickers ++ [RegexTicker.make Max] }, ⟨A.TickerGeneration, A.Tickers.length⟩)
  else
    ({ A with Tickers := A.Tickers ++ [RegexTicker.make Max]
              TickerCapacity := A.Tickers.length + max A.Tickers.length 1
              TickerGeneration := A.TickerGeneration + 1 },
     ⟨A.TickerGeneration + 1, A.Tickers.length⟩)

/-- A new group node of the given class over the popped chunk, as `OccurNoneOrOnce`,
`OccurNonePlus`, `OccurOncePlus` and the group instructions build it. -/
def Regex.groupOf (fuel : Nat) (A : Regex) (chunk : RegexChunkLooseEnds) (nd : RegexNode)
    (pk : CollapsePacket) : Option (Regex × CollapsePacket × RegexChunkLooseEnds × NodeId) :=
  let (A1, n) := A.allocNode nd
  (A1.AssembleGroup fuel chunk n pk).map (fun r => (r.1, r.2.1, r.2.2, n))

/-- `Regex::OccurNoneOrOnce`: constructs the operation "a?". -/
def Regex.OccurNoneOrOnce (fuel : Nat) (A : Regex) (chunk : RegexChunkLooseEnds)
    (pk : CollapsePacket) (Lazy : Bool := false) :
    Option (Regex × CollapsePacket × RegexChunkLooseEnds) :=
  (A.groupOf fuel chunk { kind := .NoneOrMore true Lazy } pk).map (fun r => (r.1, r.2.1, r.2.2.1))

/-- `Regex::OccurNonePlus`: constructs the operation "a*". -/
def Regex.OccurNonePlus (fuel : Nat) (A : Regex) (chunk : RegexChunkLooseEnds)
    (pk : CollapsePacket) (Lazy : Bool := false) :
    Option (Regex × CollapsePacket × RegexChunkLooseEnds) :=
  (A.groupOf fuel chunk { kind := .NoneOrMore false Lazy } pk).map (fun r => (r.1, r.2.1, r.2.2.1))

/-- `Regex::OccurOncePlus`: constructs the operation "a+". -/
def Regex.OccurOncePlus (fuel : Nat) (A : Regex) (chunk : RegexChunkLooseEnds)
    (pk : CollapsePacket) (Lazy : Bool := false) :
    Option (Regex × CollapsePacket × RegexChunkLooseEnds) :=
  (A.groupOf fuel chunk { kind := .Loop none Lazy } pk).map (fun r => (r.1, r.2.1, r.2.2.1))

/-- `Regex::RepeatExact`: constructs the operation "a{N}". -/
def Regex.RepeatExact (fuel : Nat) (A : Regex) (chunk : RegexChunkLooseEnds) (Times : Int)
    (pk : CollapsePacket) (Lazy : Bool := false) :
    Option (Regex × CollapsePacket × RegexChunkLooseEnds) :=
  if Times < 2 then some (A, pk, chunk)
  else
    let (A1, t) := A.pushTicker Times
    (A1.groupOf fuel chunk { kind := .Loop (some t) Lazy } pk).map (fun r => (r.1, r.2.1, r.2.2.1))

/-- The common end of `RepeatMin` and `RepeatMinMax`: two loop nodes over the same collapsed
chunk, concatenated. -/
def Regex.twoLoops (fuel : Nat) (A : Regex) (chunk : RegexChunkLooseEnds) (LoopA LoopB : RegexNode)
    (pk : CollapsePacket) : Option (Regex × CollapsePacket × RegexChunkLooseEnds) :=
  let (A1, a) := A.allocNode LoopA
  let (A2, b) := A1.allocNode LoopB
  match A2.AssembleGroups fuel chunk [a, b] pk with
  | some (A3, pk1, [s0, s1]) => (A3.Concat s0 s1).map (fun r => (r.1, pk1, r.2))
  | _ => none

/-- `Regex::RepeatMin`: constructs the operation "a{N,}". -/
def Regex.RepeatMin (fuel : Nat) (A : Regex) (chunk : RegexChunkLooseEnds) (MinTimes : Int)
    (pk : CollapsePacket) (Lazy : Bool := false) :
    Option (Regex × CollapsePacket × RegexChunkLooseEnds) :=
  if MinTimes < 2 then A.OccurOncePlus fuel chunk pk
  else
    let (A1, t) := A.pushTicker (MinTimes - 1)
    A1.twoLoops fuel chunk { kind := .Loop (some t) false } { kind := .Loop none Lazy } pk

/-- `Regex::RepeatMinMax`: constructs the operation "a{N,M}". -/
def Regex.RepeatMinMax (fuel : Nat) (A : Regex) (chunk : RegexChunkLooseEnds)
    (MinTimes0 MaxTimes0 : Int) (pk : CollapsePacket) (Lazy : Bool := false) :
    Option (Regex × CollapsePacket × RegexChunkLooseEnds) :=
  let MinTimes := if MinTimes0 < MaxTimes0 then MinTimes0 else MaxTimes0
  let MaxTimes := if MaxTimes0 > MinTimes then MaxTimes0 else MinTimes
  if MinTimes = MaxTimes then A.RepeatExact fuel chunk MinTimes pk
  else if (intInRange (MinTimes - 1)).isNone ∨ (intInRange ((MinTimes - 1) - MaxTimes)).isNone then none
  else
    let (A1, _) := A.pushTicker (MinTimes - 1)
    let (A2, tB) := A1.pushTicker ((MinTimes - 1) - MaxTimes)
    let tA : TickerPtr := ⟨A2.TickerGeneration, A2.Tickers.length - 2⟩
    A2.twoLoops fuel chunk { kind := .Loop (some tA) false } { kind := .Loop (some tB) Lazy } pk

/-! ## `RegexAssembler::AssembleAutomaton` -/

/-- The map from hook names to hook functions.  A hook receives the text and the position of
the iterator and returns the position it leaves the iterator at. -/
abbrev FuncMapType := List (String × (List Char → Int → Int))

/-- The result of one instruction: the next state, or the return of `AssembleAutomaton` with a
compile error set. -/
inductive AsmStep where
  | next (s : AsmState)
  | stop (A : Regex)

/-- `ChunkStack.back()` followed by `ChunkStack.pop_back()`. -/
def popChunk (stack : List RegexChunkLooseEnds) : Option (RegexChunkLooseEnds × List RegexChunkLooseEnds) :=
  stack.getLast?.map (fun top => (top, stack.dropLast))

/-- `Data[i] == "t"`. -/
def dataIs (Data : List String) (i : Nat) (v : String) : Option Bool :=
  (Data.get? i).map (fun d => decide (d = v))

/-- `std::stoi(Data[i])`. -/
def dataInt (Data : List String) (i : Nat) : Option Int :=
  (Data.get? i).bind stoi

/-- `Data[i][0]`: the first character of the string, the terminator for an empty string. -/
def dataChar (Data : List String) (i : Nat) : Option Char :=
  (Data.get? i).map (fun d => d.data.headD NUL)

/-- `vector[std::stoi(text)]`. -/
def atStoi {α : Type} (v : List α) (text : String) : Option (Nat × α) :=
  match stoi text with
  | none => none
  | some i => if i < 0 then none else (v.get? i.toNat).map (fun a => (i.toNat, a))

/-- The loop over the names of `MakeCapture` and `MakeCaptureCollection`. -/
def registerNames (names : List (String × CapturePtr)) (Data : List String) (cap : CapturePtr) :
    List (String × CapturePtr) :=
  (Data.drop 1).foldl (fun m currName => if (mapFind m currName).isNone then mapSet m currName cap else m)
    names

/-- `MakeCapture` and `MakeCaptureCollection`. -/
def asmMakeCapture (s : AsmState) (Data : List String) (inputs : CapturedInputs) : Option AsmStep :=
  match dataIs Data 0 "t" with
  | none => none
  | some Manual =>
    let A := s.A
    some (.next { s with A := { A with
      Captures := A.Captures ++ [{ Manual := Manual, CapturedInputs := inputs }]
      NamesToCaptures := registerNames A.NamesToCaptures Data (.capture A.Captures.length) } })

/-- The two operands of a composite character class. -/
def asmOperands (A : Regex) (Data : List String) :
    Option (RegexCharacterClassBase × RegexCharacterClassBase) :=
  match Data with
  | d0 :: d1 :: _ =>
    match atStoi A.CharacterClasses d0, atStoi A.CharacterClasses d1 with
    | some l, some r => some (l.2, r.2)
    | _, _ => none
  | _ => none

/-- The push of a new character class. -/
def asmPushClass (s : AsmState) (c : Option RegexCharacterClassBase) : Option AsmStep :=
  c.map (fun cc =>
    let A := s.A
    .next { s with A := { A with CharacterClasses := A.CharacterClasses ++ [cc] } })

/-- A new node wrapped in a chunk of its own, pushed on the stack:
`Wrap(NewNode)`, `ChunkStack.push_back(GetLooseEnds(NewChunk))`, `Chunks.insert(NewChunk)`. -/
def asmWrapNew (s : AsmState) (nd : RegexNode) : Option (AsmState × NodeId) :=
  let (A1, n) := s.A.allocNode nd
  match A1.Wrap n with
  | none => none
  | some (A2, c) =>
    match A2.GetLooseEnds c with
    | none => none
    | some le =>
      some ({ s with A := { A2 with Chunks := setInsert A2.Chunks c }, ChunkStack := s.ChunkStack ++ [le] }, n)

/-- A group instruction: pop one off the stack, make the group, put it back. -/
def asmGroup (fuel : Nat) (s : AsmState) (nd : RegexNode)
    (link : CollapsePacket → NodeId → CollapsePacket) : Option AsmStep :=
  let (A1, n) := s.A.allocNode nd
  let pk1 := link s.pk n
  match popChunk s.ChunkStack with
  | none => none
  | some (GroupChunk, rest) =>
    (A1.AssembleGroup fuel GroupChunk n pk1).map (fun r =>
      .next { A := r.1, pk := r.2.1, ChunkStack := rest ++ [r.2.2] })

/-- A quantifier instruction: pop one off the stack, apply the operation, put it back. -/
def asmQuantify (s : AsmState)
    (op : Regex → RegexChunkLooseEnds → CollapsePacket →
      Option (Regex × CollapsePacket × RegexChunkLooseEnds)) : Option AsmStep :=
  match popChunk s.ChunkStack with
  | none => none
  | some (Popped, rest) =>
    (op s.A Popped s.pk).map (fun r => .next { A := r.1, pk := r.2.1, ChunkStack := rest ++ [r.2.2] })

/-- `Repeat` and `RepeatLazy`. -/
def asmRepeat (fuel : Nat) (s : AsmState) (Data : List String) (Lazy : Bool) : Option AsmStep :=
  match popChunk s.ChunkStack, Data.get? 0 with
  | some _, some kind =>
    if kind = "Exact" then
      (dataInt Data 1).bind (fun n =>
        asmQuantify s (fun A ch pk => A.RepeatExact fuel ch n pk Lazy))
    else if kind = "Min" then
      (dataInt Data 1).bind (fun n =>
        asmQuantify s (fun A ch pk => A.RepeatMin fuel ch n pk Lazy))
    else if kind = "MinMax" then
      (dataInt Data 1).bind (fun n => (dataInt Data 2).bind (fun m =>
        asmQuantify s (fun A ch pk => A.RepeatMinMax fuel ch n m pk Lazy)))
    else
      some (.stop { s.A with CompileError :=
        "Regex Compile Error: " ++ String.singleton APOS ++ kind ++ String.singleton APOS ++
        " is not a valid type of repeat." })
  | _, _ => none

/-- The anchors and the word boundary: a node over one character class, wrapped and pushed. -/
def asmAnchor (s : AsmState) (Data : List String) (classAt : Nat) (kind : NodeKind)
    (flag : Regex → Regex) : Option AsmStep :=
  match (Data.get? classAt).bind (atStoi s.A.CharacterClasses) with
  | none => none
  | some (ci, _) =>
    (asmWrapNew s { Comparators := [ci], kind := kind }).map (fun r =>
      .next { r.1 with A := flag r.1.A })

/-- `Conditional`: pops two or three chunks and wraps a conditional node over the first chunk of
each. -/
def asmConditional (s : AsmState) (Data : List String) : Option AsmStep :=
  let first (le : RegexChunkLooseEnds) : Option ChunkId := le.ChunksInvolved.head?
  match dataIs Data 0 "2" with
  | none => none
  | some three =>
    let popped : Option (Option ChunkId × List RegexChunkLooseEnds) :=
      if three then
        (popChunk s.ChunkStack).bind (fun p => (first p.1).map (fun c => (some c, p.2)))
      else some (none, s.ChunkStack)
    match popped with
    | none => none
    | some (Else, st1) =>
      match (popChunk st1).bind (fun p => (first p.1).map (fun c => (c, p.2))) with
      | none => none
      | some (Then, st2) =>
        match (popChunk st2).bind (fun p => (first p.1).map (fun c => (c, p.2))) with
        | none => none
        | some (Cond, st3) =>
          match dataIs Data 1 "t" with
          | none => none
          | some lazy =>
            (asmWrapNew { s with ChunkStack := st3 }
              { kind := .Conditional Cond Then Else, LazyGroup := lazy }).map (fun r => .next r.1)

/-- `DefineAsSubroutine`: pops one chunk off the stack, which stays reachable only through the
new entry of `DefinedSubroutines`. -/
def asmDefine (s : AsmState) (Data : List String) : Option AsmStep :=
  match popChunk s.ChunkStack with
  | none => none
  | some (Popped, rest) =>
    match Popped.ChunksInvolved.head? with
    | none => none
    | some c =>
      match (s.A.chunk c).toOption, Data.get? 0 with
      | some ch, some name =>
        match ch.Nodes.head? with
        | none => none
        | some n0 =>
          let A := s.A
          some (.next { s with
            ChunkStack := rest
            A := { A with
              DefinedSubroutines := A.DefinedSubroutines ++ [{ InitialCapture := some n0 }]
              NamesToCaptures := mapSet A.NamesToCaptures name (.subroutine A.DefinedSubroutines.length) } })
      | _, _ => none

/-- The body of the instruction loop of `AssembleAutomaton`: the `switch` over the opcode.
`isLastTwo` tells whether the instruction is the last or the second-to-last of the stream. -/
def asmStep (fuel : Nat) (Funcs : Option FuncMapType) (isLastTwo : Bool) (s : AsmState)
    (ins : RegexInstruction) : Option AsmStep :=
  let Data := ins.InstructionData
  let A := s.A
  match ins.InstructionType with
  | .MakeCapture => asmMakeCapture s Data (.single [])
  | .MakeCaptureCollection => asmMakeCapture s Data (.collection [])
  | .MakeCharClassSymbol =>
    match dataChar Data 0, dataChar Data 1 with
    | some min, some max =>
      some (.next { s with A := { A with CharClassSymbols := A.CharClassSymbols ++ [⟨false, [min, max]⟩] } })
    | _, _ => none
  | .MakeCharClassLigatureSymbol =>
    some (.next { s with A := { A with
      CharClassSymbols := A.CharClassSymbols ++ [⟨true, Data.map (fun d => d.data.headD NUL)⟩] } })
  | .MakeLiteralCharClass =>
    match dataIs Data 0 "t", foldOpt (fun (acc : List RegexCharacterClassSymbol) d =>
        (atStoi A.CharClassSymbols d).map (fun r => acc ++ [r.2])) (Data.drop 2) [],
      dataIs Data 1 "t" with
    | some Neg, some Symbs, some ci => asmPushClass s (some (.Literal Symbs Neg ci))
    | _, _, _ => none
  | .MakeUnitedCharClass => asmPushClass s ((asmOperands A Data).map (fun p => .Union p.1 p.2))
  | .MakeSubtractedCharClass => asmPushClass s ((asmOperands A Data).map (fun p => .Subtract p.1 p.2))
  | .MakeIntersectedCharClass => asmPushClass s ((asmOperands A Data).map (fun p => .Intersect p.1 p.2))
  | .Literal =>
    match foldOpt (fun (acc : List Nat) d =>
        (atStoi A.CharacterClasses d).map (fun r => setInsert acc r.1)) Data [] with
    | none => none
    | some CCs => (asmWrapNew s { Comparators := CCs, kind := .Plain }).map (fun r => .next r.1)
  | .StartCheck =>
    match dataIs Data 0 "t", dataIs Data 1 "t" with
    | some Exclusive, some LastMatchEnd =>
      asmAnchor s Data 2 (.AtBeginning Exclusive LastMatchEnd)
        (fun A1 => { A1 with StartsWithLineCheck := true })
    | _, _ => none
  | .EndCheck =>
    match dataIs Data 0 "t", dataIs Data 1 "t" with
    | some Exclusive, some BeforeLastNL =>
      asmAnchor s Data 2 (.AtEnd Exclusive BeforeLastNL)
        (fun A1 => { A1 with EndsWithLineCheck := true })
    | _, _ => none
  | .WordBoundary =>
    match dataIs Data 0 "t" with
    | some Neg =>
      asmAnchor s Data 1 (.WordBoundary Neg)
        (fun A1 => if isLastTwo then { A1 with EndsWithLineCheck := true } else A1)
    | none => none
  | .Backref_Numbered =>
    match Data.get? 0, dataInt Data 0 with
    | some name, some num =>
      (asmWrapNew s { kind := .Backreference name none }).map (fun r =>
        .next { r.1 with pk := { r.1.pk with Backs_Numbered := mapSet r.1.pk.Backs_Numbered r.2 num } })
    | _, _ => none
  | .Backref_Named =>
    match Data.get? 0 with
    | some name =>
      (asmWrapNew s { kind := .Backreference name none }).map (fun r =>
        .next { r.1 with pk := { r.1.pk with Backs_Named := mapSet r.1.pk.Backs_Named r.2 name } })
    | none => none
  | .Subroutine_Numbered =>
    match Data.get? 0, dataInt Data 1, dataInt Data 0 with
    | some name, some depth, some num =>
      (asmWrapNew s { kind := .Subroutine depth name none }).map (fun r =>
        .next { r.1 with pk := { r.1.pk with Subs_Numbered := mapSet r.1.pk.Subs_Numbered r.2 num } })
    | _, _, _ => none
  | .Subroutine_Named =>
    match Data.get? 0, dataInt Data 1 with
    | some name, some depth =>
      (asmWrapNew s { kind := .Subroutine depth name none }).map (fun r =>
        .next { r.1 with pk := { r.1.pk with Subs_Named := mapSet r.1.pk.Subs_Named r.2 name } })
    | _, _ => none
  | .Recursion =>
    match dataInt Data 0, dataIs Data 1 "t" with
    | some depth, some lazy =>
      let (A1, n) := A.allocNode { kind := .Recursion depth, LazyGroup := lazy }
      let s1 := { s with A := A1, pk := { s.pk with Recursions := setInsert s.pk.Recursions n } }
      match A1.Wrap n with
      | none => none
      | some (A2, c) =>
        (A2.GetLooseEnds c).map (fun le =>
          .next { s1 with A := { A2 with Chunks := setInsert A2.Chunks c }
                          ChunkStack := s.ChunkStack ++ [le] })
    | _, _ => none
  | .CaptureGroup_Numbered =>
    match Data.get? 0, dataIs Data 1 "t", dataInt Data 0 with
    | some name, some lazy, some num =>
      asmGroup fuel s { kind := .Capture name none, LazyGroup := lazy }
        (fun pk n => { pk with Caps_Numbered := mapSet pk.Caps_Numbered n num })
    | _, _, _ => none
  | .CaptureGroup_Named =>
    match Data.get? 0, dataIs Data 1 "t" with
    | some name, some lazy =>
      asmGroup fuel s { kind := .Capture name none, LazyGroup := lazy }
        (fun pk n => { pk with Caps_Named := mapSet pk.Caps_Named n name })
    | _, _ => none
  | .NonCaptureGroup =>
    (dataIs Data 0 "t").bind (fun lazy =>
      asmGroup fuel s { kind := .Group, LazyGroup := lazy } (fun pk _ => pk))
  | .LookAhead =>
    match dataIs Data 0 "t", dataIs Data 1 "t" with
    | some neg, some lazy => asmGroup fuel s { kind := .LookAhead neg, LazyGroup := lazy } (fun pk _ => pk)
    | _, _ => none
  | .LookBehind =>
    match dataIs Data 0 "t", dataIs Data 1 "t" with
    | some neg, some lazy => asmGroup fuel s { kind := .LookBehind neg, LazyGroup := lazy } (fun pk _ => pk)
    | _, _ => none
  | .DefineAsSubroutine => asmDefine s Data
  | .CodeHook =>
    match Data.get? 0 with
    | none => none
    | some name =>
      let FoundFunc := Funcs.bind (fun fs => mapFind fs name)
      (asmWrapNew s { kind := .CodeHook name FoundFunc }).map (fun r => .next r.1)
  | .Conditional => asmConditional s Data
  | .NOnce => asmQuantify s (fun A1 ch pk => A1.OccurNoneOrOnce fuel ch pk)
  | .NOnceLazy => asmQuantify s (fun A1 ch pk => A1.OccurNoneOrOnce fuel ch pk true)
  | .NPlus => asmQuantify s (fun A1 ch pk => A1.OccurNonePlus fuel ch pk)
  | .NPlusLazy => asmQuantify s (fun A1 ch pk => A1.OccurNonePlus fuel ch pk true)
  | .OPlus => asmQuantify s (fun A1 ch pk => A1.OccurOncePlus fuel ch pk)
  | .OPlusLazy => asmQuantify s (fun A1 ch pk => A1.OccurOncePlus fuel ch pk true)
  | .Repeat => asmRepeat fuel s Data false
  | .RepeatLazy => asmRepeat fuel s Data true
  | .Concat =>
    match popChunk s.ChunkStack with
    | none => none
    | some (rhs, st1) =>
      match popChunk st1 with
      | none => none
      | some (lhs, st2) =>
        (A.Concat lhs rhs).map (fun r => .next { s with A := r.1, ChunkStack := st2 ++ [r.2] })
  | .Alternate =>
    match popChunk s.ChunkStack with
    | none => none
    | some (rhs, st1) =>
      match popChunk st1 with
      | none => none
      | some (lhs, st2) => some (.next { s with ChunkStack := st2 ++ [Regex.Alternate lhs rhs] })
  | _ => some (.stop { A with CompileError := "Regex Compile Error: Unrecognized Instruction." })

/-- The instruction loop of `AssembleAutomaton`; `idx` is the position of the next instruction
and `total` the length of the stream. -/
def asmLoop (fuel : Nat) (Funcs : Option FuncMapType) (total : Nat) :
    List RegexInstruction → Nat → AsmState → Option AsmStep
  | [], _, s => some (.next s)
  | ins :: rest, idx, s =>
    match asmStep fuel Funcs (decide (idx + 1 = total ∨ idx + 2 = total)) s ins with
    | none => none
    | some (.stop A) => some (.stop A)
    | some (.next s1) => asmLoop fuel Funcs total rest (idx + 1) s1

/-- The assignment `node->BoundCapture = capture`. -/
def Regex.bindCapture (A : Regex) (n : NodeId) (cp : CapturePtr) : Option Regex :=
  A.modifyNode n (fun nd => { nd with kind :=
    match nd.kind with
    | .Capture name _ => .Capture name (some cp)
    | .Backreference name _ => .Backreference name (some cp)
    | .Subroutine d name _ => .Subroutine d name (some cp)
    | k => k })

/-- The pointer `Automaton.Captures[number - 1]`, when
`number >= 1 && size_t(number) <= Automaton.Captures.size()`. -/
def Regex.numberedCapture (A : Regex) (number : Int) : Option CapturePtr :=
  if number ≥ 1 ∧ number.toNat ≤ A.Captures.length then some (.capture (number.toNat - 1)) else none

/-- The update `if (nullptr == capture->InitialCapture) capture->InitialCapture = node`. -/
def Regex.initCapture (A : Regex) (cp : CapturePtr) (n : NodeId) : Option Regex :=
  let upd (c : RegexCaptureBase) : RegexCaptureBase :=
    if c.InitialCapture.isNone then { c with InitialCapture := some n } else c
  match cp with
  | .capture i => (A.Captures.get? i).map (fun c => { A with Captures := setAt A.Captures i (upd c) })
  | .subroutine i =>
    (A.DefinedSubroutines.get? i).map (fun c =>
      { A with DefinedSubroutines := setAt A.DefinedSubroutines i (upd c) })

/-- One of the six linking loops after the instruction loop: every pending node whose
reference resolves is bound to its capture; a subroutine node also becomes the initial capture
of a capture that has none. -/
def linkLoop {ν : Type} (resolve : Regex → ν → Option CapturePtr) (isSub : Bool)
    (pending : List (NodeId × ν)) (A : Regex) : Option Regex :=
  foldOpt (fun (A1 : Regex) (curr : NodeId × ν) =>
    match resolve A1 curr.2 with
    | none => some A1
    | some cp =>
      match A1.bindCapture curr.1 cp with
      | none => none
      | some A2 => if isSub then A2.initCapture cp curr.1 else some A2) pending A

/-- `RegexAssembler::AssembleAutomaton(Instructions, Automaton, Funcs)`.  The result is `none`
when the fuel does not suffice, or when the C++ program has no defined result (an instruction
that pops an empty stack or lacks an operand, an index outside a table, an exception of
`std::stoi`). -/
def AssembleAutomaton (fuel : Nat) (Instructions : InstructionSet) (Automaton : Regex)
    (Funcs : Option FuncMapType) : Option Regex :=
  let TickerReserve := (Instructions.filter (fun i =>
    decide (i.InstructionType = .Repeat ∨ i.InstructionType = .RepeatLazy))).length
  let A0 := { Automaton with TickerCapacity := max Automaton.TickerCapacity TickerReserve }
  match asmLoop fuel Funcs Instructions.length Instructions 0 { A := A0 } with
  | none => none
  | some (.stop A) => some A
  | some (.next s) =>
    match s.ChunkStack with
    | [] => some { s.A with CompileError := "Regex Compile Error: No nodes constructed from given regex." }
    | bottom :: _ =>
      let byNumber : Regex → Int → Option CapturePtr := fun A n => A.numberedCapture n
      let byName : Regex → String → Option CapturePtr := fun A n => A.findName n
      let linked :=
        (linkLoop byNumber false s.pk.Backs_Numbered s.A).bind (fun A1 =>
        (linkLoop byName false s.pk.Backs_Named A1).bind (fun A2 =>
        (linkLoop byNumber true s.pk.Subs_Numbered A2).bind (fun A3 =>
        (linkLoop byName true s.pk.Subs_Named A3).bind (fun A4 =>
        (linkLoop byNumber false s.pk.Caps_Numbered A4).bind (fun A5 =>
        linkLoop byName false s.pk.Caps_Named A5)))))
      match linked with
      | none => none
      | some A6 =>
        match A6.Collapse fuel bottom s.pk with
        | none => none
        | some (A7, pk1, Final) =>
          match A7.PruneIntermediaryGhosts fuel Final with
          | none => none
          | some A8 =>
            (foldOpt (fun (A9 : Regex) curr =>
                A9.modifyNode curr (fun nd => { nd with Ins := Final.Ins, Outs := Final.Outs }))
              pk1.Recursions A8).map
              (fun A9 => { A9 with StartNodes := Final.Ins, EndNodes := Final.Outs })

/-- The end of both constructors: `for (currChunk : Chunks) currChunk->ConnectedTos.clear()`. -/
def Regex.clearConnectedTos (A : Regex) : Option Regex :=
  foldOpt (fun (A1 : Regex) c => A1.modifyChunk c (fun ch => { ch with ConnectedTos := [] })) A.Chunks A

/-- The constructor `Regex(c, Funcs, OutInstructions, MaxNestingDepth, PresetLastMatchEnd)`:
the automaton of a pattern.  The second component is what the constructor writes to
`OutInstructions`. -/
def Regex.fromPattern (fuel : Nat) (c : String) (Funcs : Option FuncMapType := none)
    (MaxNestingDepth : Int := 100) (PresetLastMatchEnd : Option Int := none) :
    Option (Regex × Option InstructionSet) :=
  match Translate fuel c MaxNestingDepth with
  | none => none
  | some (PostfixInstructions, CompileError) =>
    let built : Option (Regex × Option InstructionSet) :=
      if CompileError = "" then
        (AssembleAutomaton fuel PostfixInstructions { CompileError := CompileError } Funcs).map
          (fun A => (A, some PostfixInstructions))
      else some ({ CompileError := CompileError }, none)
    built.bind (fun r =>
      r.1.clearConnectedTos.map (fun A =>
        (match PresetLastMatchEnd with
         | some p => { A with LastMatchEnd := some p }
         | none => A, r.2)))

/-- The constructor `Regex(Instructions, Funcs)`: the automaton of an instruction stream. -/
def Regex.fromInstructions (fuel : Nat) (Instructions : InstructionSet)
    (Funcs : Option FuncMapType := none) : Option Regex :=
  if Instructions.isEmpty then
    some { CompileError :=
      "Regex Compile Error: No instructions given. This may be caused by load-from-file failing." }
  else (AssembleAutomaton fuel Instructions {} Funcs).bind Regex.clearConnectedTos

/-! ## Saving and loading instruction streams (`EvexSave.h`) -/

/-- The enumerators of `RegexInstructionType` in the order of declaration: the value of an
enumerator, as `uint8_t`, is its place in this list. -/
def RegexInstructionType.enumerators : List RegexInstructionType :=
  [.MakeCapture, .MakeCaptureCollection, .MakeCharClassSymbol, .MakeCharClassLigatureSymbol,
   .MakeLiteralCharClass, .MakeUnitedCharClass, .MakeSubtractedCharClass,
   .MakeIntersectedCharClass, .Literal, .StartCheck, .EndCheck, .WordBoundary,
   .Backref_Numbered, .Backref_Named, .Subroutine_Numbered, .Subroutine_Named, .Recursion,
   .CaptureGroup_Numbered, .CaptureGroup_Named, .NonCaptureGroup, .LookAhead, .LookBehind,
   .DefineAsSubroutine, .CodeHook, .Conditional, .NOnce, .NOnceLazy, .NPlus, .NPlusLazy,
   .OPlus, .OPlusLazy, .Repeat, .RepeatLazy, .Concat, .Alternate, .MAX]

/-- The cast `T(currInst.InstructionType)`: the character whose code is the opcode. -/
def RegexInstructionType.toChar (t : RegexInstructionType) : Char :=
  Char.ofNat (RegexInstructionType.enumerators.indexOf t)

/-- The cast `RegexInstructionType(uint8_t(c))`.  `none` for a byte that is no enumerator, for
which the embedding has no value. -/
def RegexInstructionType.ofChar (c : Char) : Option RegexInstructionType :=
  RegexInstructionType.enumerators.get? (c.toNat % 256)

/-- The text one argument is written as: `Output << size_t(currData.length()) << " " <<
currData << " "`. -/
def saveData (currData : String) : List Char :=
  (toString currData.length).data ++ [' '] ++ currData.data ++ [' ']

/-- The text one instruction is written as. -/
def saveInstruction (currInst : RegexInstruction) : List Char :=
  [currInst.InstructionType.toChar] ++ [' '] ++
    (toString currInst.InstructionData.length).data ++ [' '] ++
    (currInst.InstructionData.map saveData).flatten ++ ['\n']

/-- The text that `operator<<` of `EvexSave.h` writes for an instruction stream.  The file
stream is taken to store and return the characters as they are. -/
def saveInstructions (rhs : InstructionSet) : List Char :=
  (toString rhs.length).data ++ [' ', '\n'] ++ (rhs.map saveInstruction).flatten

/-- The loop `while (isdigit(*iter)) { Munch += *iter; ++iter; }` on the text from the
iterator on; at the end of the text `*iter` is the terminator.  Returns `Munch` and the text
from the iterator on. -/
def munchDigits : List Char → List Char → List Char × List Char
  | [], Munch => (Munch, [])
  | c :: cs, Munch => if isdigit c then munchDigits cs (Munch ++ [c]) else (Munch, c :: cs)

/-- `++iter`; `none` at the end of the text. -/
def advance : List Char → Option (List Char)
  | [] => none
  | _ :: cs => some cs

/-- The loop `while (NextStringLength-- > 0) { NextString += *iter; ++iter; }`. -/
def readChars : Nat → List Char → List Char → Option (List Char × List Char)
  | 0, iter, NextString => some (NextString, iter)
  | _ + 1, [], _ => none
  | n + 1, c :: cs, NextString => readChars n cs (NextString ++ [c])

/-- The loop `while (NumStrings-- > 0)` that reads the arguments of one instruction. -/
def loadStrings : Nat → List Char → List String → Option (List String × List Char)
  | 0, iter, Data => some (Data, iter)
  | n + 1, iter, Data => do
    let (Munch, iter1) := munchDigits iter []
    let iter2 ← advance iter1
    let NextStringLength ← stoi (String.mk Munch)
    let (NextString, iter3) ← readChars NextStringLength.toNat iter2 []
    let iter4 ← advance iter3
    loadStrings n iter4 (Data ++ [String.mk NextString])

/-- The loop `while (iter < Input.end())` that reads the instructions. -/
def loadLoop : Nat → List Char → InstructionSet → Option InstructionSet
  | 0, _, _ => none
  | _ + 1, [], rhs => some rhs
  | fuel + 1, c :: cs, rhs => do
    let InstructionType ← RegexInstructionType.ofChar c
    let iter1 ← advance cs
    let (Munch, iter2) := munchDigits iter1 []
    let iter3 ← advance iter2
    let NumStrings ← stoi (String.mk Munch)
    let (Data, iter4) ← loadStrings NumStrings.toNat iter3 []
    let iter5 ← advance iter4
    loadLoop fuel iter5 (rhs ++ [⟨InstructionType, Data⟩])

/-- The parse of `operator>>` of `EvexSave.h` on the text `Input`, appending to `rhs`.
`none` stands for an exception of `std::stoi` and for stepping past the end of the text. -/
def loadInstructions (Input : List Char) (rhs : InstructionSet := []) : Option InstructionSet := do
  let (Munch, iter1) := munchDigits Input []
  let iter2 ← (advance iter1).bind advance
  let _ ← stoi (String.mk Munch)
  loadLoop (Input.length + 1) iter2 rhs

/-- The sizes of the stream fit the `int` that `std::stoi` returns. -/
def InstructionSet.sizesFitInt (S : InstructionSet) : Prop :=
  S.length < 2147483648 ∧
  ∀ i ∈ S, i.InstructionData.length < 2147483648 ∧
    ∀ d ∈ i.InstructionData, d.length < 2147483648

instance (S : InstructionSet) : Decidable S.sizesFitInt :=
  inferInstanceAs (Decidable (S.length < 2147483648 ∧
    ∀ i ∈ S, i.InstructionData.length < 2147483648 ∧
      ∀ d ∈ i.InstructionData, d.length < 2147483648))

/-! ## Use of the library, as in `Example.cpp` -/

/-- `Evex::Regex<char> Regex(pattern, Funcs, nullptr, MaxNestingDepth)`: the automaton the
constructor leaves; the nesting limit defaults to 100. -/
def compile (fuel : Nat) (pattern : String) (Funcs : Option FuncMapType := none)
    (MaxNestingDepth : Int := 100) : Option Regex :=
  (Regex.fromPattern fuel pattern Funcs MaxNestingDepth).map (fun r => r.1)

/-- The automaton of a pattern, or the empty automaton when the constructor does not come back
with one. -/
def compiled (fuel : Nat) (pattern : String) (Funcs : Option FuncMapType := none)
    (MaxNestingDepth : Int := 100) : Regex :=
  (compile fuel pattern Funcs MaxNestingDepth).getD {}

/-- A hook function that leaves the iterator two positions behind the end of the text
(`[](RegexRangeIterator<char>& it) { it = it.CloneAtEnd(); ++it; ++it; }`). -/
def pastEndHook : FuncMapType := [("h", fun text _ => (text.length : Int) + 2)]

/-! ## Matching through loose ends before and after `Collapse` -/

/-- The automaton, the link tables and the loose ends at the bottom of the stack as
`AssembleAutomaton` has them when the instruction loop and the linking of the references are
done, before the final `Collapse`. -/
def assembledLooseEnds (fuel : Nat) (Instructions : InstructionSet)
    (Funcs : Option FuncMapType := none) : Option (Regex × CollapsePacket × RegexChunkLooseEnds) :=
  match asmLoop fuel Funcs Instructions.length Instructions 0 { A := {} } with
  | some (.next s) =>
    match s.ChunkStack with
    | [] => none
    | bottom :: _ =>
      let byNumber : Regex → Int → Option CapturePtr := fun A n => A.numberedCapture n
      let byName : Regex → String → Option CapturePtr := fun A n => A.findName n
      ((linkLoop byNumber false s.pk.Backs_Numbered s.A).bind (fun A1 =>
        (linkLoop byName false s.pk.Backs_Named A1).bind (fun A2 =>
        (linkLoop byNumber true s.pk.Subs_Numbered A2).bind (fun A3 =>
        (linkLoop byName true s.pk.Subs_Named A3).bind (fun A4 =>
        (linkLoop byNumber false s.pk.Caps_Numbered A4).bind (fun A5 =>
        linkLoop byName false s.pk.Caps_Named A5)))))).map (fun A6 => (A6, s.pk, bottom))
  | _ => none

/-- `RegexChunk::Match(Input, Ins, Outs, false, OutMatchEnd)` through the loose ends, on the
automaton as it is: the answer and `OutMatchEnd`. -/
def matchThrough (fuel : Nat) (A : Regex) (le : RegexChunkLooseEnds) (text : String)
    (Input : Int) : Option (Bool × Int) :=
  (ChunkMatch fuel A text.data Input le.Ins le.Outs false none false A.state).toOption.map
    (fun r => (r.1, r.2.1))

/-- The same match before and after `Collapse` of the loose ends: the answer and
`OutMatchEnd` through the original loose ends, then through the collapsed ones. -/
def matchAroundCollapse (fuel : Nat) (Instructions : InstructionSet) (text : String)
    (Input : Int) : Option (Bool × Int × Bool × Int) :=
  match assembledLooseEnds fuel Instructions with
  | none => none
  | some (A, pk, le) =>
    match A.Collapse fuel le pk with
    | none => none
    | some (A1, _, le1) =>
      match matchThrough fuel A le text Input, matchThrough fuel A1 le1 text Input with
      | some r, some r1 => some (r.1, r.2, r1.1, r1.2)
      | _, _ => none

/-- The number of nodes a match through the loose ends can start with, before and after
`Collapse` of the loose ends. -/
def startsAroundCollapse (fuel : Nat) (Instructions : InstructionSet) : Option (Nat × Nat) :=
  match assembledLooseEnds fuel Instructions with
  | none => none
  | some (A, pk, le) =>
    match A.Collapse fuel le pk with
    | none => none
    | some (A1, _, le1) =>
      match (startNexts A le.Ins).toOption, (startNexts A1 le1.Ins).toOption with
      | some l, some l1 => some (l.length, l1.length)
      | _, _ => none

/-- The instruction stream of an alternation of two word-boundary checks, over the class `[a]`
(index 0) and over the class `[b]` (index 1), in the order given. -/
def wordBoundaryStream (first second : String) : InstructionSet :=
  [⟨.MakeCharClassSymbol, ["a", "a"]⟩, ⟨.MakeLiteralCharClass, ["f", "f", "0"]⟩,
   ⟨.MakeCharClassSymbol, ["b", "b"]⟩, ⟨.MakeLiteralCharClass, ["f", "f", "1"]⟩,
   ⟨.WordBoundary, ["f", first]⟩, ⟨.WordBoundary, ["f", second]⟩, ⟨.Alternate, []⟩]

/-! ## Relations used by the statements -/

/-- The automaton `B` has the graph of `A`: it differs from `A` at most in what a match writes,
that is the captures, the tickers, the depth counters, the runtime errors and `LastMatchEnd`. -/
def Regex.sameGraph (A B : Regex) : Prop :=
  ∃ σ r l, B = { A.withState σ with RuntimeErrors := r, LastMatchEnd := l }

/-- How the outcome `o1` of the loop of `MatchInternal` relates to the outcome `o2` of the loop
of `MatchFromInternal` run from the same locals: if the second returns, the first returns the
same boolean and leaves the same automaton, and the text appended to `Out` was copied from the
offset; none of them throws; the second runs out of fuel when the first does; the second has
an undefined access when the first has one, or in the copy after a successful match. -/
@[reducible] def lockstep (text : List Char) (Offset : Int) (Out : List Char) (A : Regex)
    (o1 : Outcome Bool) (o2 : Outcome (Bool × List Char)) : Prop :=
  match o2 with
  | .returned (b, s) A1 =>
    o1 = .returned b A1 ∧ (∃ σ r, A1 = { A.withState σ with RuntimeErrors := r }) ∧
      ((b = false ∧ s = Out) ∨
       (b = true ∧ ∃ it sub, copyMatched text Offset it = .ok sub ∧ s = Out ++ sub))
  | .threw _ _ => False
  | .outOfFuel => o1 = .outOfFuel
  | .invalidAccess => o1 = .invalidAccess ∨ ∃ A1, o1 = .returned true A1

/-- The cap `MaxDepth` of a recursion node or subroutine node. -/
def NodeKind.depthCap? : NodeKind → Option Int
  | .Recursion MaxDepth => some MaxDepth
  | .Subroutine MaxDepth _ _ => some MaxDepth
  | _ => none

/-- The cap of the node `n` when its `CanEnter` counts an activation in the state `σ`: the node
is a recursion node, or a subroutine node whose bound capture has a last capturing node. -/
def Regex.depthCapAt (A : Regex) (σ : MatchState) (n : NodeId) : Option Int :=
  match (A.node n).toOption with
  | none => none
  | some nd =>
    match nd.kind with
    | .Recursion MaxDepth => some MaxDepth
    | .Subroutine MaxDepth _ (some cp) =>
      (match (σ.capture cp).toOption with
       | some cap => if cap.LastCapture.isSome then some MaxDepth else none
       | none => none)
    | _ => none

/-- The message and the state of the runtime exception a computation of the matcher ended
with, if it ended with one. -/
def Run.raised? {α : Type} : Run α → Option (String × MatchState)
  | .error (.runtime msg σ) => some (msg, σ)
  | _ => none

/-- The automaton as the loops of `MatchInternal` and `MatchFromInternal` start from it:
after `RuntimeErrors.clear(); ResetPreMatch();`. -/
def Regex.preMatch (A : Regex) : Regex := { A with RuntimeErrors := [] }.ResetPreMatch

/-- The bound capture of the node `n`, when `n` is a back-reference node. -/
def Regex.backrefCaptureAt (A : Regex) (n : NodeId) : Option (Option CapturePtr) :=
  match (A.node n).toOption with
  | none => none
  | some nd =>
    match nd.kind with
    | .Backreference _ b => some b
    | _ => none

/-- The `Succeeded` flag of the capture behind a capture pointer. -/
def MatchState.succeeded? (σ : MatchState) (cp : CapturePtr) : Option Bool :=
  (σ.capture cp).toOption.map (fun c => c.Succeeded)

/-! ## Relations for `PruneIntermediaryGhosts` -/

/-- Two results of `GetNexts` that agree: the same failure, or lists with the same members. -/
def sameNexts (r r1 : Run (List NodeId)) : Prop :=
  match r, r1 with
  | .ok l, .ok l1 => ∀ m, m ∈ l ↔ m ∈ l1
  | .error e, .error e1 => e = e1
  | _, _ => False

/-- The automaton `B` is the automaton `A` with other nodes. -/
def Regex.sameButNodes (A B : Regex) : Prop := B = { A with nodes := B.nodes }

/-- The node `m` is a next of one of the ghost-ins. -/
def viaIns (A : Regex) (is : List GhostPtr) (m : NodeId) : Prop :=
  ∃ i ∈ is, ∃ gi, A.ghostIn i = .ok gi ∧ m ∈ gi.Nexts

/-- Every ghost-in of the list can be read. -/
def allOkIns (A : Regex) (is : List GhostPtr) : Prop :=
  ∀ i ∈ is, ∃ gi, A.ghostIn i = .ok gi

/-- The node `m` is a next behind one of the ghost-outs. -/
def viaOuts (A : Regex) (gs : List GhostPtr) (m : NodeId) : Prop :=
  ∃ g ∈ gs, ∃ go, A.ghostOut g = .ok go ∧ viaIns A go.GhostNexts m

/-- Every ghost-out of the list, and every ghost-in behind it, can be read. -/
def allOkOuts (A : Regex) (gs : List GhostPtr) : Prop :=
  ∀ g ∈ gs, ∃ go, A.ghostOut g = .ok go ∧ allOkIns A go.GhostNexts

/-- Two readings of a node pointer that agree for `GetNexts` and for the boundary outs: the
same failure, or nodes of the same kind whose nexts (real and behind ghost-outs) have the same
members and which reach a boundary out alike; the second node has no ghost-out that the first
has not. -/
def nodeAgrees (A : Regex) (Outs : List GhostPtr) (ra rb : Run RegexNode) : Prop :=
  match ra, rb with
  | .ok a, .ok b =>
    b.kind = a.kind ∧ reachesOut b Outs = reachesOut a Outs ∧
      sameNexts (a.baseNexts A) (b.baseNexts A) ∧ ∀ g ∈ b.GhostNexts, g ∈ a.GhostNexts
  | .error e, .error e1 => e = e1
  | _, _ => False

/-- The automaton `B` is `A` with nodes that agree with those of `A`. -/
def prunedFrom (Outs : List GhostPtr) (A B : Regex) : Prop :=
  A.sameButNodes B ∧ ∀ n, nodeAgrees A Outs (A.node n) (B.node n)

/-- The automaton with the node `x` written at the pointer `c`. -/
def nodeWith (A : Regex) (c : NodeId) (x : RegexNode) : Regex :=
  { A with nodes := setAt A.nodes c x }

/-- The graph behind the nodes is layered by `rank`: every ghost-out of a node and every
ghost-in behind it can be read, and every node behind them can be read and has a smaller
rank. -/
def layered (A : Regex) (rank : NodeId → Nat) : Bool :=
  (List.range A.nodes.length).all (fun n =>
    match (A.node n).toOption with
    | none => true
    | some nd =>
      nd.GhostNexts.all (fun g =>
        match (A.ghostOut g).toOption with
        | none => false
        | some go =>
          go.GhostNexts.all (fun i =>
            match (A.ghostIn i).toOption with
            | none => false
            | some gi =>
              gi.Nexts.all (fun m => (A.node m).toOption.isSome && decide (rank m < rank n)))))

/-- The ghost-ins of the loose ends can be read, and the nodes behind them can be read and
have a rank of at most `bound`. -/
def startsWithin (A : Regex) (Ins : List GhostPtr) (rank : NodeId → Nat) (bound : Nat) : Bool :=
  Ins.all (fun g =>
    match (A.ghostIn g).toOption with
    | none => false
    | some gi => gi.Nexts.all (fun m => (A.node m).toOption.isSome && decide (rank m ≤ bound)))

/-- The property that `layered` decides. -/
def layeredProp (A : Regex) (rank : NodeId → Nat) : Prop :=
  ∀ n nd, A.node n = .ok nd →
    allOkOuts A nd.GhostNexts ∧
    ∀ m, viaOuts A nd.GhostNexts m → (A.node m).toOption.isSome = true ∧ rank m < rank n

/-- The automaton and the collapsed loose ends as `AssembleAutomaton` has them before it calls
`PruneIntermediaryGhosts`. -/
def collapsedLooseEnds (fuel : Nat) (Instructions : InstructionSet) :
    Option (Regex × RegexChunkLooseEnds) :=
  match assembledLooseEnds fuel Instructions with
  | none => none
  | some (A, pk, le) => (A.Collapse fuel le pk).map (fun r => (r.1, r.2.2))

/-- The collapsed loose ends of a pattern, before `PruneIntermediaryGhosts`. -/
def collapsedOf (pattern : String) : Option (Regex × RegexChunkLooseEnds) :=
  (Translate 50 pattern 100).bind (fun r => collapsedLooseEnds 50 r.1)

/-- The collapsed loose ends of a pattern that has them. -/
def collapsedPair (pattern : String) : Regex × RegexChunkLooseEnds :=
  (collapsedOf pattern).getD ({}, ⟨[], [], []⟩)

/-- The automaton of a pattern after `PruneIntermediaryGhosts` of its collapsed loose ends. -/
def prunedOf (pattern : String) : Regex :=
  ((collapsedPair pattern).1.PruneIntermediaryGhosts 50 (collapsedPair pattern).2).getD {}

/-! ## Nested groups and the nesting limit -/

/-- The calls `SetCapture(s_1)`, ..., `SetCapture(s_k)` with `Reset = false`, in this order. -/
def setCaptures (c : RegexCaptureBase) (ss : List (List Char)) : RegexCaptureBase :=
  ss.foldl (fun cap s => cap.SetCapture s) c

/-- The decimal text of a number. -/
def decimal (N : Nat) : List Char := (toString N).data

/-- The reading loop of a reference stops at position `e`: the end iterator stands there, or it
stands further right and the character at `e` (the first of `post`) is no digit. -/
def stopsAt (endIter e : Nat) (post : List Char) : Prop :=
  e ≤ endIter ∧ (endIter = e ∨ isdigit (peek post 0) = false)

/-- What one instruction of the loop of `AssembleAutomaton` takes off `ChunkStack` and what it
puts on it. -/
def stackEffect (ins : RegexInstruction) : Nat × Nat :=
  match ins.InstructionType with
  | .MakeCapture | .MakeCaptureCollection | .MakeCharClassSymbol | .MakeCharClassLigatureSymbol
  | .MakeLiteralCharClass | .MakeUnitedCharClass | .MakeSubtractedCharClass
  | .MakeIntersectedCharClass | .MAX => (0, 0)
  | .Literal | .StartCheck | .EndCheck | .WordBoundary | .Backref_Numbered | .Backref_Named
  | .Subroutine_Numbered | .Subroutine_Named | .Recursion | .CodeHook => (0, 1)
  | .CaptureGroup_Numbered | .CaptureGroup_Named | .NonCaptureGroup | .LookAhead | .LookBehind
  | .NOnce | .NOnceLazy | .NPlus | .NPlusLazy | .OPlus | .OPlusLazy | .Repeat | .RepeatLazy => (1, 1)
  | .DefineAsSubroutine => (1, 0)
  | .Conditional => (if ins.InstructionData.get? 0 = some "2" then 3 else 2, 1)
  | .Concat | .Alternate => (2, 1)

/-- The height of `ChunkStack` after a run of instructions; `none` when an instruction takes
more off the stack than it holds. -/
def stackRun : List RegexInstruction → Nat → Option Nat
  | [], height => some height
  | ins :: rest, height =>
    if height < (stackEffect ins).1 then none
    else stackRun rest (height - (stackEffect ins).1 + (stackEffect ins).2)

/-! ## Tickers, loop nodes, conditional nodes and equality of automata -/

/-- A ticker after `k` calls of `Tick()`. -/
def tickTimes (t : RegexTicker) : Nat → RegexTicker
  | 0 => t
  | k + 1 => (tickTimes t k).Tick

/-- The flag `Negated` of the node `n`, when `n` is a word-boundary node. -/
def Regex.wordBoundaryAt (A : Regex) (n : NodeId) : Option Bool :=
  match (A.node n).toOption with
  | none => none
  | some nd =>
    match nd.kind with
    | .WordBoundary Negated => some Negated
    | _ => none

/-- The ticker and the flag `Lazy` of the node `n`, when `n` is a loop node. -/
def Regex.loopAt (A : Regex) (n : NodeId) : Option (Option TickerPtr × Bool) :=
  match (A.node n).toOption with
  | none => none
  | some nd =>
    match nd.kind with
    | .Loop BoundTicker Lazy => some (BoundTicker, Lazy)
    | _ => none

/-- The ordinary successors `RegexNode::GetNexts()` of the node `n`. -/
def Regex.ordinaryNexts (A : Regex) (n : NodeId) : Option (List NodeId) :=
  match (A.node n).toOption with
  | none => none
  | some nd => (nd.baseNexts A).toOption

/-- The chunks `Cond`, `IfTrue`, `IfFalse` and the flag `LazyGroup` of the node `n`, when `n` is
a conditional node. -/
def Regex.conditionalAt (A : Regex) (n : NodeId) :
    Option (ChunkId × ChunkId × Option ChunkId × Bool) :=
  match (A.node n).toOption with
  | none => none
  | some nd =>
    match nd.kind with
    | .Conditional Cond IfTrue IfFalse => some (Cond, IfTrue, IfFalse, nd.LazyGroup)
    | _ => none

/-- The bound capture of the only node of the chunk `Cond`, when the chunk holds exactly one
node and that node is a back-reference node with a bound capture. -/
def Regex.loneBackreference (A : Regex) (Cond : ChunkId) : Option CapturePtr :=
  match (A.chunk Cond).toOption with
  | none => none
  | some ch =>
    match ch.Nodes with
    | [only] =>
      (match (A.node only).toOption with
       | none => none
       | some c =>
         match c.kind with
         | .Backreference _ b => b
         | _ => none)
    | _ => none

/-- The run of one branch of a conditional node `n`: `RegexChunk::Match` over the ghosts of
the branch chunk, and `Input = Copy` on success. -/
def conditionalBranch (fuel : Nat) (A : Regex) (text : List Char) (n : NodeId) (Input : Int)
    (Outers : Option (List NodeId)) (LazyGroup : Bool) (branch : ChunkId) (σ : MatchState) :
    Run (Bool × Int × MatchState) := do
  let ch ← A.chunk branch
  let (ok, Copy, σ2) ←
    ChunkMatch fuel A text Input (ch.inPtrs branch) (ch.outPtrs branch) LazyGroup
      (some (Outers.getD [] ++ [n])) false σ
  pure (if ok then (true, Copy, σ2) else (false, Input, σ2))

/-- A decidable test that two node kinds are equal; a kind that holds a hook function is never
reported equal. -/
def NodeKind.sameAs : NodeKind → NodeKind → Bool
  | .Plain, .Plain => true
  | .Group, .Group => true
  | .LookAhead a, .LookAhead b => a == b
  | .LookBehind a, .LookBehind b => a == b
  | .Capture n c, .Capture m d => n == m && c == d
  | .Backreference n c, .Backreference m d => n == m && c == d
  | .NoneOrMore a b, .NoneOrMore c d => a == c && b == d
  | .Loop t l, .Loop u m => t == u && l == m
  | .Recursion a, .Recursion b => a == b
  | .Subroutine a n c, .Subroutine b m d => a == b && n == m && c == d
  | .AtBeginning a b, .AtBeginning c d => a == c && b == d
  | .AtEnd a b, .AtEnd c d => a == c && b == d
  | .WordBoundary a, .WordBoundary b => a == b
  | .Conditional a b c, .Conditional d e f => a == d && b == e && c == f
  | .CodeHook n none, .CodeHook m none => n == m
  | _, _ => false

/-- A decidable test that two nodes are equal. -/
def RegexNode.sameAs (a b : RegexNode) : Bool :=
  a.Index == b.Index && a.Nexts == b.Nexts && a.GhostNexts == b.GhostNexts &&
  a.Comparators == b.Comparators && a.Chunks == b.Chunks && a.Ins == b.Ins && a.Outs == b.Outs &&
  a.LazyGroup == b.LazyGroup && a.kind.sameAs b.kind && a.deleted == b.deleted

/-- A decidable test that two lists of nodes are equal. -/
def nodesSame : List RegexNode → List RegexNode → Bool
  | [], [] => true
  | a :: as, b :: bs => a.sameAs b && nodesSame as bs
  | _, _ => false

/-- A decidable test that two automata are equal. -/
def Regex.sameAs (A B : Regex) : Bool :=
  nodesSame A.nodes B.nodes && A.chunks == B.chunks && A.CurrDepth == B.CurrDepth &&
  A.Captures == B.Captures && A.DefinedSubroutines == B.DefinedSubroutines &&
  A.NamesToCaptures == B.NamesToCaptures && A.CharClassSymbols == B.CharClassSymbols &&
  A.CharacterClasses == B.CharacterClasses && A.Tickers == B.Tickers &&
  A.TickerCapacity == B.TickerCapacity && A.TickerGeneration == B.TickerGeneration &&
  A.Chunks == B.Chunks && A.StartNodes == B.StartNodes && A.EndNodes == B.EndNodes &&
  A.CompileError == B.CompileError && A.RuntimeErrors == B.RuntimeErrors &&
  A.StartsWithLineCheck == B.StartsWithLineCheck && A.EndsWithLineCheck == B.EndsWithLineCheck &&
  A.LastMatchEnd == B.LastMatchEnd

/-! ## Indices of the stream, and the loop of `TranslateInternal` in its pieces -/

/-- The instructions that add a symbol to `CharClassSymbols`. -/
def symbolMaking (t : RegexInstructionType) : Bool :=
  decide (t = .MakeCharClassSymbol ∨ t = .MakeCharClassLigatureSymbol)

/-- The instructions that add a class to `CharacterClasses`. -/
def classMaking (t : RegexInstructionType) : Bool :=
  decide (t = .MakeLiteralCharClass ∨ t = .MakeUnitedCharClass ∨ t = .MakeSubtractedCharClass ∨
    t = .MakeIntersectedCharClass)

/-- The number of symbol-making instructions of a stream. -/
def symbolCount (S : InstructionSet) : Nat := S.countP (fun i => symbolMaking i.InstructionType)

/-- The number of class-making instructions of a stream. -/
def classCount (S : InstructionSet) : Nat := S.countP (fun i => classMaking i.InstructionType)

/-- The argument is a decimal number smaller than the bound. -/
def indexBelow (d : String) (bound : Nat) : Bool :=
  !d.data.isEmpty && d.data.all isdigit && decide (digitsValue d.data 0 < bound)

/-- The argument at a position is a decimal number smaller than the bound. -/
def argBelow (Data : List String) (i : Nat) (bound : Nat) : Bool :=
  match Data.get? i with
  | some d => indexBelow d bound
  | none => false

/-- The indices that an instruction refers to are in range, when `syms` symbols and `classes`
classes have been made before it: the class indices of `Literal`, `StartCheck`, `EndCheck`,
`WordBoundary` and of the composite classes, and the symbol indices of
`MakeLiteralCharClass`. -/
def refsBelow (ins : RegexInstruction) (syms classes : Nat) : Bool :=
  match ins.InstructionType with
  | .MakeLiteralCharClass => (ins.InstructionData.drop 2).all (fun d => indexBelow d syms)
  | .MakeUnitedCharClass | .MakeSubtractedCharClass | .MakeIntersectedCharClass =>
    argBelow ins.InstructionData 0 classes && argBelow ins.InstructionData 1 classes
  | .Literal => ins.InstructionData.all (fun d => indexBelow d classes)
  | .StartCheck | .EndCheck => argBelow ins.InstructionData 2 classes
  | .WordBoundary => argBelow ins.InstructionData 1 classes
  | _ => true

/-- Every index of the stream refers to a symbol or class made earlier in the stream, when
`syms` symbols and `classes` classes have been made before the stream. -/
def refsInRange : InstructionSet → Nat → Nat → Bool
  | [], _, _ => true
  | ins :: rest, syms, classes =>
    refsBelow ins syms classes &&
      refsInRange rest (if symbolMaking ins.InstructionType then syms + 1 else syms)
        (if classMaking ins.InstructionType then classes + 1 else classes)

/-- The table is in step with `N` made entries: the next index is `N` and every index it holds
is below `N`. -/
def IndexTracker.below (T : IndexTracker) (N : Nat) : Prop :=
  T.NextIndex = (N : Int) ∧ ∀ p ∈ T.Indices, 0 ≤ p.2 ∧ p.2 < (N : Int)

/-- Both tables are in step with the symbols and classes made so far. -/
def Tables.below (tb : Tables) (ns nc : Nat) : Prop :=
  tb.CCSymbsToInds.below ns ∧ tb.CCsToInds.below nc

/-- What a piece of the translator does to the tables and the stream, when it leaves no error:
there was no error before, the stream was extended, the tables are in step with the extended
stream when they were in step before, and the indices of the extension are in range. -/
def Step (tb : Tables) (Out : InstructionSet) (tb1 : Tables) (Out1 : InstructionSet) : Prop :=
  tb1.error = "" → tb.error = "" ∧ ∃ extra, Out1 = Out ++ extra ∧
    ∀ ns nc, tb.below ns nc →
      tb1.below (ns + symbolCount extra) (nc + classCount extra) ∧ refsInRange extra ns nc = true

/-- As `Step`, for a piece that hands back the index of a class: the index is in range after
the piece. -/
def StepRet (tb : Tables) (Out : InstructionSet) (tb1 : Tables)
    (Out1 : InstructionSet) (ret : String) : Prop :=
  tb1.error = "" → tb.error = "" ∧ ∃ extra, Out1 = Out ++ extra ∧
    ∀ ns nc, tb.below ns nc →
      tb1.below (ns + symbolCount extra) (nc + classCount extra) ∧ refsInRange extra ns nc = true ∧
      indexBelow ret (nc + classCount extra) = true

/-- As `Step`, for a piece that makes symbols only and hands back the index of a symbol: the
index is in range after the piece. -/
def SymStep (tb : Tables) (Out : InstructionSet) (tb1 : Tables)
    (Out1 : InstructionSet) (ret : String) : Prop :=
  tb1.error = "" → tb.error = "" ∧ ∃ extra, Out1 = Out ++ extra ∧ classCount extra = 0 ∧
    ∀ ns nc, tb.below ns nc →
      tb1.below (ns + symbolCount extra) nc ∧ refsInRange extra ns nc = true ∧
      indexBelow ret (ns + symbolCount extra) = true

/-- What the symbol loop of `MunchCharClass` does, when it leaves no error. -/
def SymbolsStep (tb : Tables) (Out : InstructionSet) (Rolling : List String) (tb1 : Tables)
    (Out1 : InstructionSet) (Rolling1 : List String) : Prop :=
  tb1.error = "" → tb.error = "" ∧ ∃ extra added, Out1 = Out ++ extra ∧
    Rolling1 = Rolling ++ added ∧ classCount extra = 0 ∧
    ∀ ns nc, tb.below ns nc →
      tb1.below (ns + symbolCount extra) nc ∧ refsInRange extra ns nc = true ∧
      ∀ d ∈ added, indexBelow d (ns + symbolCount extra) = true

/-- Every type of the list makes a class. -/
def classTypes (Types : List RegexInstructionType) : Prop := ∀ t ∈ Types, classMaking t = true

/-- What the scanning loop of `MunchCharClass` ends with: types that make classes, or an error
text that is not empty. -/
def scanExitOk : ClassScanExit → Prop
  | .finished st => classTypes st.Types
  | .failed e _ => e ≠ ""

/-- The written class of the line delimiters that `^` and `$` hand to `MunchCharClass`:
`"[\n]"` under the Unix-lines modifier, `"[\r\n\v\f]"` otherwise. -/
def lineClass (Modifs : Modifiers) : List Char :=
  if Modifs.UnixLines then "[\n]".data else ['['] ++ LineChars ++ [']']

/-- The `switch (*iter)` of `TranslateInternal` for a character other than `|`: the locals
after the case, and the new `NumNodes`. -/
def translateSwitch (fuel : Nat) (Infix : List Char) (MaxDepth : Int) (iter : Nat)
    (Out : InstructionSet) (NumNodes LastGroup : Int) (Modifs : Modifiers) (tb : Tables) :
    Option (GroupResult × Int) :=
  let endI := Infix.length
  let c := peek Infix iter
  if c = '[' then
    match FindEnd Infix endI '[' ']' false (endI + 2) iter 0 [] with
    | none => none
    | some (EndBracket, _) =>
      if EndBracket ≠ endI then
        (MunchCharClass (MaxDepth.toNat + 1) Infix (iter + 1) EndBracket tb Out Modifs
            MaxDepth).map
          (fun r => (⟨r.iter, r.tb, r.Out ++ [instr .Literal [r.ret]], LastGroup, Modifs⟩,
            NumNodes + 1))
      else
        some (⟨iter, { tb with error :=
          "Regex Compile Error: Couldn't find closing bracket for character class." },
          Out, LastGroup, Modifs⟩, NumNodes + 1)
  else if c = '\\' then
    (MunchEscaped Infix iter endI tb Out LastGroup Modifs MaxDepth).map
      (fun r => (r.toGroup LastGroup Modifs, NumNodes + 1))
  else if c = '^' then
    if ¬ Out.isEmpty ∧ iter ≠ 0 then
      let r := MunchLiteral Infix iter tb Out Modifs
      some (⟨iter, r.1, r.2, LastGroup, Modifs⟩, NumNodes + 1)
    else
      (MunchCharClass (MaxDepth.toNat + 1) (lineClass Modifs) 1 ((lineClass Modifs).length - 1) tb
          Out Modifs MaxDepth).map
        (fun r => (⟨iter, r.tb,
          r.Out ++ [instr .StartCheck [tf Modifs.SingleLine, "f", r.ret]], LastGroup, Modifs⟩,
          NumNodes + 1))
  else if c = '$' then
    if iter + 1 ≠ endI then
      let r := MunchLiteral Infix iter tb Out Modifs
      some (⟨iter, r.1, r.2, LastGroup, Modifs⟩, NumNodes + 1)
    else
      (MunchCharClass (MaxDepth.toNat + 1) (lineClass Modifs) 1 ((lineClass Modifs).length - 1) tb
          Out Modifs MaxDepth).map
        (fun r => (⟨iter, r.tb,
          r.Out ++ [instr .EndCheck [tf Modifs.SingleLine, "f", r.ret]], LastGroup, Modifs⟩,
          NumNodes + 1))
  else if c = '.' then
    let DotClass : List Char :=
      ['['] ++
        (if Modifs.DotAll then [NUL, '-', Char.ofNat 127]
         else if Modifs.UnixLines then ['^', '\n']
         else ['^'] ++ LineChars) ++ [']']
    (MunchCharClass (MaxDepth.toNat + 1) DotClass 1 (DotClass.length - 1) tb Out Modifs
        MaxDepth).map
      (fun r => (⟨iter, r.tb, r.Out ++ [instr .Literal [r.ret]], LastGroup, Modifs⟩,
        NumNodes + 1))
  else if c = '?' ∨ c = '*' ∨ c = '+' ∨ c = LBRACE then
    some ((MunchOp Infix iter endI tb Out Modifs c).toGroup LastGroup Modifs, NumNodes)
  else if c = '(' then
    match FindEnd Infix endI '(' ')' false (endI + 2) iter 0 [] with
    | none => none
    | some (EndBracket, _) =>
      let grouped : Option GroupResult :=
        if EndBracket ≠ endI then
          MunchGroup fuel Infix (iter + 1) EndBracket tb Out LastGroup Modifs MaxDepth
        else
          some ⟨iter, { tb with error :=
            "Regex Compile Error: Couldn't find closing bracket for group." },
            Out, LastGroup, Modifs⟩
      grouped.map (fun g =>
        let counts : Bool :=
          decide (g.Out.length > Out.length) &&
          (match g.Out.getLast? with
           | none => false
           | some last =>
             decide (last.InstructionType ≠ .MakeCapture ∧
               last.InstructionType ≠ .MakeCaptureCollection ∧
               last.InstructionType ≠ .DefineAsSubroutine))
        (g, if counts then NumNodes + 1 else NumNodes))
  else
    let r := MunchLiteral Infix iter tb Out Modifs
    some (⟨iter, r.1, r.2, LastGroup, Modifs⟩, NumNodes + 1)

/-- The end of one round of the loop of `TranslateInternal`: the test of the error, the
`Concat` and the next round. -/
def translateStepEnd (fuel : Nat) (Infix : List Char) (MaxDepth : Int) (PrevNumNodes : Int)
    (stepped : Option (GroupResult × Int)) : Option (InstructionSet × Nat × Tables) :=
  match stepped with
  | none => none
  | some (g, NumNodes1) =>
    let endI := Infix.length
    let Copy := g.iter + 1
    let ShouldConcat : Bool :=
      decide (Copy = endI) ||
      (decide (peek Infix Copy ≠ '?') && decide (peek Infix Copy ≠ '*') &&
       decide (peek Infix Copy ≠ '+') &&
       !(decide (peek Infix Copy = LBRACE) &&
         (decide (Copy + 1 ≠ endI) && isdigit (peek Infix (Copy + 1)))))
    if g.tb.error ≠ "" then some ([], g.iter, g.tb)
    else if NumNodes1 > 1 ∧ NumNodes1 > PrevNumNodes ∧ ShouldConcat = true then
      TranslateLoop fuel Infix MaxDepth (g.iter + 1) (g.Out ++ [instr .Concat []]) NumNodes1
        g.NextCapGroup NumNodes1 g.Modifs g.tb
    else
      TranslateLoop fuel Infix MaxDepth (g.iter + 1) g.Out NumNodes1 g.NextCapGroup
        PrevNumNodes g.Modifs g.tb

/-- A call of one of the functions of the matcher, with its arguments: `CanEnter` of a node,
the search for the first candidate that can be entered, `RegexChunk::Match` and its loop,
`TryAnyTakers` and its inner loop, and the loops of `MatchInternal` and
`MatchFromInternal`. -/
inductive Frame where
  | canEnter (fuel : Nat) (n : NodeId) (Input : Int) (Outers : Option (List NodeId))
      (σ : MatchState)
  | firstEnterable (fuel : Nat) (cands : List NodeId) (Input : Int)
      (Outers : Option (List NodeId)) (σ : MatchState)
  | chunkMatch (fuel : Nat) (Input : Int) (Ins Outs : List GhostPtr) (Lazy : Bool)
      (Outers : Option (List NodeId)) (IterateReverse : Bool) (σ : MatchState)
  | chunkMatchLoop (fuel : Nat) (Input : Int) (Outs : List GhostPtr) (Lazy : Bool)
      (Outers : Option (List NodeId)) (IterateReverse : Bool) (CurrentNexts : List NodeId)
      (CurrNode : Option NodeId) (LastMatch OutMatchEnd : Int) (σ : MatchState)
  | tryAnyTakers (fuel : Nat) (self : NodeId) (Input : Int) (NextCandidates : List NodeId)
      (remaining : List NodeId) (σ : MatchState)
  | takersOf (fuel : Nat) (self : NodeId) (Input : Int) (NextCandidates : List NodeId)
      (remaining : List NodeId) (σ : MatchState)
  | matchLoop (fuel : Nat) (CurrentNexts : List NodeId) (FirstTime LastTime : Bool)
      (CurrNode : Option NodeId) (Iter : Int) (σ : MatchState)
  | matchFromLoop (fuel : Nat) (Offset : Int) (OutSubstring : List Char)
      (CurrentNexts : List NodeId) (FirstTime LastTime : Bool) (CurrNode : Option NodeId)
      (Iter : Int) (σ : MatchState)

/-- The state a call starts from. -/
def Frame.state : Frame → MatchState
  | .canEnter _ _ _ _ σ => σ
  | .firstEnterable _ _ _ _ σ => σ
  | .chunkMatch _ _ _ _ _ _ _ σ => σ
  | .chunkMatchLoop _ _ _ _ _ _ _ _ _ _ σ => σ
  | .tryAnyTakers _ _ _ _ _ σ => σ
  | .takersOf _ _ _ _ _ σ => σ
  | .matchLoop _ _ _ _ _ _ σ => σ
  | .matchFromLoop _ _ _ _ _ _ _ _ σ => σ

/-- Whether the call is one of the two loops of the entry points, which catch the runtime
exception. -/
def Frame.catches : Frame → Bool
  | .matchLoop _ _ _ _ _ _ _ => true
  | .matchFromLoop _ _ _ _ _ _ _ _ _ => true
  | _ => false

/-- The state of an outcome of the entry points, as a computation of the matcher. -/
def Outcome.leaves {α : Type} : Outcome α → Run MatchState
  | .returned _ A1 => .ok A1.state
  | .threw _ _ => .error .invalidAccess
  | .outOfFuel => .error .outOfFuel
  | .invalidAccess => .error .invalidAccess

/-- How a call ends: the state it leaves when it returns, or the interrupt that ends it. -/
def Frame.result (A : Regex) (text : List Char) : Frame → Run MatchState
  | .canEnter fuel n Input Outers σ => (Evex.CanEnter fuel A text n Input Outers σ).map (fun r => r.2.2)
  | .firstEnterable fuel cands Input Outers σ =>
    (Evex.firstEnterable fuel A text cands Input Outers σ).map (fun r => r.2.2)
  | .chunkMatch fuel Input Ins Outs Lazy Outers IterateReverse σ =>
    (Evex.ChunkMatch fuel A text Input Ins Outs Lazy Outers IterateReverse σ).map (fun r => r.2.2)
  | .chunkMatchLoop fuel Input Outs Lazy Outers IterateReverse CurrentNexts CurrNode LastMatch
      OutMatchEnd σ =>
    (Evex.ChunkMatchLoop fuel A text Input Outs Lazy Outers IterateReverse CurrentNexts CurrNode
      LastMatch OutMatchEnd σ).map (fun r => r.2.2)
  | .tryAnyTakers fuel self Input NextCandidates remaining σ =>
    (Evex.TryAnyTakers fuel A text self Input NextCandidates remaining σ).map (fun r => r.2)
  | .takersOf fuel self Input NextCandidates remaining σ =>
    (Evex.takersOf fuel A text self Input NextCandidates remaining σ).map (fun r => r.2)
  | .matchLoop fuel CurrentNexts FirstTime LastTime CurrNode Iter σ =>
    (Evex.MatchLoop fuel A text CurrentNexts FirstTime LastTime CurrNode Iter σ).leaves
  | .matchFromLoop fuel Offset OutSubstring CurrentNexts FirstTime LastTime CurrNode Iter σ =>
    (Evex.MatchFromLoop fuel A text Offset OutSubstring CurrentNexts FirstTime LastTime CurrNode Iter
      σ).leaves

/-- The capture a conditional node reads its condition from: the bound capture of the only
node of the condition chunk when that node is a back-reference
(`dynamic_cast<RegexBackreferenceNode<T>*>(*Cond->Nodes.begin())`). -/
def conditionCapture (A : Regex) (cchunk : RegexChunk) : Run (Option CapturePtr) :=
  match cchunk.Nodes with
  | [only] =>
    (A.node only).map (fun c =>
      match c.kind with
      | .Backreference _ b => b
      | _ => none)
  | _ => pure none

/-- The locals `FirstTime`, `LastTime` and `Iter` of the loops of `MatchInternal` and
`MatchFromInternal` after a round that entered a node and left the iterator at `it`. -/
def loopAdvance (A : Regex) (text : List Char) (FirstTime LastTime : Bool) (it : Int) :
    Bool × Bool × Int :=
  if ¬ (A.StartsWithLineCheck = true ∧ FirstTime = true) then
    if it ≠ text.length then (FirstTime, LastTime, it + 1)
    else if LastTime then (FirstTime, false, it)
    else (FirstTime, LastTime, it)
  else (false, LastTime, it)

/-- The calls that a call of the matcher makes itself: `Calls A text f pre g` says that the
call `f`, run on the automaton `A` and the text, makes the call `g`, after the calls `pre`
that it made before have returned.  There is one rule for every call in the bodies of
`CanEnter` (by the kind of the node), of the candidate search, of `RegexChunk::Match`, of
`TryAnyTakers` and of the loops of `MatchInternal` and `MatchFromInternal`; a loop is a call
of itself with the locals of the next round. -/
inductive Calls (A : Regex) (text : List Char) : Frame → List Frame → Frame → Prop
  | group (fuel : Nat) (n : NodeId) (Input : Int) (Outers : Option (List NodeId))
      (σ : MatchState) (nd : RegexNode) (hn : A.node n = .ok nd) (hk : nd.kind = .Group) :
      Calls A text (.canEnter (fuel + 1) n Input Outers σ) []
        (.chunkMatch fuel Input nd.Ins nd.Outs nd.LazyGroup (some (Outers.getD [] ++ [n]))
          false σ)
  | lookAhead (fuel : Nat) (n : NodeId) (Input : Int) (Outers : Option (List NodeId))
      (σ : MatchState) (nd : RegexNode) (Negative : Bool) (hn : A.node n = .ok nd)
      (hk : nd.kind = .LookAhead Negative) :
      Calls A text (.canEnter (fuel + 1) n Input Outers σ) []
        (.chunkMatch fuel Input nd.Ins nd.Outs nd.LazyGroup none false σ)
  | lookBehind (fuel : Nat) (n : NodeId) (Input : Int) (Outers : Option (List NodeId))
      (σ : MatchState) (nd : RegexNode) (Negative : Bool) (hn : A.node n = .ok nd)
      (hk : nd.kind = .LookBehind Negative) :
      Calls A text (.canEnter (fuel + 1) n Input Outers σ) []
        (.chunkMatch fuel (Input - 1) nd.Ins nd.Outs nd.LazyGroup (some []) true σ)
  | capture (fuel : Nat) (n : NodeId) (Input : Int) (Outers : Option (List NodeId))
      (σ : MatchState) (nd : RegexNode) (name : String) (cp : CapturePtr)
      (cap : RegexCaptureBase) (hn : A.node n = .ok nd)
      (hk : nd.kind = .Capture name (some cp)) (hc : σ.capture cp = .ok cap) :
      Calls A text (.canEnter (fuel + 1) n Input Outers σ) []
        (.chunkMatch fuel Input nd.Ins nd.Outs nd.LazyGroup (some (Outers.getD [] ++ [n]))
          false (σ.setCapture cp { cap with Succeeded := false }))
  | noneOrMore (fuel : Nat) (n : NodeId) (Input : Int) (Outers : Option (List NodeId))
      (σ : MatchState) (nd : RegexNode) (OnceOnly Lazy : Bool) (hn : A.node n = .ok nd)
      (hk : nd.kind = .NoneOrMore OnceOnly Lazy) :
      Calls A text (.canEnter (fuel + 1) n Input Outers σ) []
        (.chunkMatch fuel Input nd.Ins nd.Outs false (some (Outers.getD [] ++ [n])) false σ)
  | takers (fuel : Nat) (n : NodeId) (Input : Int) (Outers : Option (List NodeId))
      (σ : MatchState) (nd : RegexNode) (OnceOnly Lazy : Bool) (ok : Bool) (Copy : Int)
      (σ1 : MatchState) (hn : A.node n = .ok nd) (hk : nd.kind = .NoneOrMore OnceOnly Lazy)
      (hr : ChunkMatch fuel A text Input nd.Ins nd.Outs false (some (Outers.getD [] ++ [n]))
        false σ = .ok (ok, Copy, σ1))
      (hgo : ¬ (ok = true ∧ ¬ Lazy = true)) :
      Calls A text (.canEnter (fuel + 1) n Input Outers σ)
        [.chunkMatch fuel Input nd.Ins nd.Outs false (some (Outers.getD [] ++ [n])) false σ]
        (.tryAnyTakers fuel n Input (Outers.getD [] ++ [n]) (Outers.getD [] ++ [n]).reverse σ1)
  | loopFree (fuel : Nat) (n : NodeId) (Input : Int) (Outers : Option (List NodeId))
      (σ : MatchState) (nd : RegexNode) (Lazy : Bool) (hn : A.node n = .ok nd)
      (hk : nd.kind = .Loop none Lazy) :
      Calls A text (.canEnter (fuel + 1) n Input Outers σ) []
        (.chunkMatch fuel Input nd.Ins nd.Outs false (some (Outers.getD [] ++ [n])) false σ)
  | loopTicked (fuel : Nat) (n : NodeId) (Input : Int) (Outers : Option (List NodeId))
      (σ : MatchState) (nd : RegexNode) (p : TickerPtr) (Lazy : Bool) (t : RegexTicker)
      (hn : A.node n = .ok nd) (hk : nd.kind = .Loop (some p) Lazy)
      (ht : σ.ticker A p = .ok t) (he : t.IsExhausted = false) :
      Calls A text (.canEnter (fuel + 1) n Input Outers σ) []
        (.chunkMatch fuel Input nd.Ins nd.Outs false (some (Outers.getD [] ++ [n])) false σ)
  | recursion (fuel : Nat) (n : NodeId) (Input : Int) (Outers : Option (List NodeId))
      (σ : MatchState) (nd : RegexNode) (MaxDepth : Int) (hn : A.node n = .ok nd)
      (hk : nd.kind = .Recursion MaxDepth) (hd : σ.depth n < MaxDepth) :
      Calls A text (.canEnter (fuel + 1) n Input Outers σ) []
        (.chunkMatch fuel Input nd.Ins nd.Outs nd.LazyGroup (some (Outers.getD [] ++ [n]))
          false (σ.setDepth n (σ.depth n + 1)))
  | subroutine (fuel : Nat) (n : NodeId) (Input : Int) (Outers : Option (List NodeId))
      (σ : MatchState) (nd : RegexNode) (MaxDepth : Int) (name : String) (cp : CapturePtr)
      (cap : RegexCaptureBase) (target : NodeId) (hn : A.node n = .ok nd)
      (hk : nd.kind = .Subroutine MaxDepth name (some cp)) (hc : σ.capture cp = .ok cap)
      (hl : cap.LastCapture = some target) (hd : σ.depth n < MaxDepth) :
      Calls A text (.canEnter (fuel + 1) n Input Outers σ) []
        (.canEnter fuel target Input Outers (σ.setDepth n (σ.depth n + 1)))
  | condition (fuel : Nat) (n : NodeId) (Input : Int) (Outers : Option (List NodeId))
      (σ : MatchState) (nd : RegexNode) (Cond IfTrue : ChunkId) (IfFalse : Option ChunkId)
      (cchunk : RegexChunk) (hn : A.node n = .ok nd)
      (hk : nd.kind = .Conditional Cond IfTrue IfFalse) (hch : A.chunk Cond = .ok cchunk)
      (hcap : conditionCapture A cchunk = .ok none) :
      Calls A text (.canEnter (fuel + 1) n Input Outers σ) []
        (.chunkMatch fuel Input (cchunk.inPtrs Cond) (cchunk.outPtrs Cond) nd.LazyGroup
          (some (Outers.getD [] ++ [n])) false σ)
  | thenByFlag (fuel : Nat) (n : NodeId) (Input : Int) (Outers : Option (List NodeId))
      (σ : MatchState) (nd : RegexNode) (Cond IfTrue : ChunkId) (IfFalse : Option ChunkId)
      (cchunk tchunk : RegexChunk) (cp : CapturePtr) (c : RegexCaptureBase)
      (hn : A.node n = .ok nd) (hk : nd.kind = .Conditional Cond IfTrue IfFalse)
      (hch : A.chunk Cond = .ok cchunk) (hcap : conditionCapture A cchunk = .ok (some cp))
      (hc : σ.capture cp = .ok c) (hs : c.Succeeded = true) (ht : A.chunk IfTrue = .ok tchunk) :
      Calls A text (.canEnter (fuel + 1) n Input Outers σ) []
        (.chunkMatch fuel Input (tchunk.inPtrs IfTrue) (tchunk.outPtrs IfTrue) nd.LazyGroup
          (some (Outers.getD [] ++ [n])) false σ)
  | thenByChunk (fuel : Nat) (n : NodeId) (Input : Int) (Outers : Option (List NodeId))
      (σ : MatchState) (nd : RegexNode) (Cond IfTrue : ChunkId) (IfFalse : Option ChunkId)
      (cchunk tchunk : RegexChunk) (Copy : Int) (σ1 : MatchState)
      (hn : A.node n = .ok nd) (hk : nd.kind = .Conditional Cond IfTrue IfFalse)
      (hch : A.chunk Cond = .ok cchunk) (hcap : conditionCapture A cchunk = .ok none)
      (hr : ChunkMatch fuel A text Input (cchunk.inPtrs Cond) (cchunk.outPtrs Cond) nd.LazyGroup
        (some (Outers.getD [] ++ [n])) false σ = .ok (true, Copy, σ1))
      (ht : A.chunk IfTrue = .ok tchunk) :
      Calls A text (.canEnter (fuel + 1) n Input Outers σ)
        [.chunkMatch fuel Input (cchunk.inPtrs Cond) (cchunk.outPtrs Cond) nd.LazyGroup
          (some (Outers.getD [] ++ [n])) false σ]
        (.chunkMatch fuel Input (tchunk.inPtrs IfTrue) (tchunk.outPtrs IfTrue) nd.LazyGroup
          (some (Outers.getD [] ++ [n])) false σ1)
  | elseByFlag (fuel : Nat) (n : NodeId) (Input : Int) (Outers : Option (List NodeId))
      (σ : MatchState) (nd : RegexNode) (Cond IfTrue f : ChunkId)
      (cchunk fchunk : RegexChunk) (cp : CapturePtr) (c : RegexCaptureBase)
      (hn : A.node n = .ok nd) (hk : nd.kind = .Conditional Cond IfTrue (some f))
      (hch : A.chunk Cond = .ok cchunk) (hcap : conditionCapture A cchunk = .ok (some cp))
      (hc : σ.capture cp = .ok c) (hs : c.Succeeded = false) (hf : A.chunk f = .ok fchunk) :
      Calls A text (.canEnter (fuel + 1) n Input Outers σ) []
        (.chunkMatch fuel Input (fchunk.inPtrs f) (fchunk.outPtrs f) nd.LazyGroup
          (some (Outers.getD [] ++ [n])) false σ)
  | elseByChunk (fuel : Nat) (n : NodeId) (Input : Int) (Outers : Option (List NodeId))
      (σ : MatchState) (nd : RegexNode) (Cond IfTrue f : ChunkId)
      (cchunk fchunk : RegexChunk) (Copy : Int) (σ1 : MatchState)
      (hn : A.node n = .ok nd) (hk : nd.kind = .Conditional Cond IfTrue (some f))
      (hch : A.chunk Cond = .ok cchunk) (hcap : conditionCapture A cchunk = .ok none)
      (hr : ChunkMatch fuel A text Input (cchunk.inPtrs Cond) (cchunk.outPtrs Cond) nd.LazyGroup
        (some (Outers.getD [] ++ [n])) false σ = .ok (false, Copy, σ1))
      (hf : A.chunk f = .ok fchunk) :
      Calls A text (.canEnter (fuel + 1) n Input Outers σ)
        [.chunkMatch fuel Input (cchunk.inPtrs Cond) (cchunk.outPtrs Cond) nd.LazyGroup
          (some (Outers.getD [] ++ [n])) false σ]
        (.chunkMatch fuel Input (fchunk.inPtrs f) (fchunk.outPtrs f) nd.LazyGroup
          (some (Outers.getD [] ++ [n])) false σ1)
  | candidate (fuel : Nat) (c : NodeId) (cs : List NodeId) (Input : Int)
      (Outers : Option (List NodeId)) (σ : MatchState) :
      Calls A text (.firstEnterable (fuel + 1) (c :: cs) Input Outers σ) []
        (.canEnter fuel c Input Outers σ)
  | nextCandidate (fuel : Nat) (c : NodeId) (cs : List NodeId) (Input : Int)
      (Outers : Option (List NodeId)) (σ : MatchState) (i : Int) (σ1 : MatchState)
      (hr : CanEnter fuel A text c Input Outers σ = .ok (false, i, σ1)) :
      Calls A text (.firstEnterable (fuel + 1) (c :: cs) Input Outers σ)
        [.canEnter fuel c Input Outers σ] (.firstEnterable fuel cs i Outers σ1)
  | chunkLoop (fuel : Nat) (Input : Int) (Ins Outs : List GhostPtr) (Lazy : Bool)
      (Outers : Option (List NodeId)) (IterateReverse : Bool) (σ : MatchState)
      (CurrentNexts : List NodeId) (hs : startNexts A Ins = .ok CurrentNexts) :
      Calls A text (.chunkMatch (fuel + 1) Input Ins Outs Lazy Outers IterateReverse σ) []
        (.chunkMatchLoop fuel Input Outs Lazy Outers IterateReverse CurrentNexts none Input Input
          σ)
  | chunkSearch (fuel : Nat) (Input : Int) (Outs : List GhostPtr) (Lazy : Bool)
      (Outers : Option (List NodeId)) (IterateReverse : Bool) (CurrentNexts : List NodeId)
      (CurrNode : Option NodeId) (LastMatch OutMatchEnd : Int) (σ : MatchState)
      (hgo : ¬ (CurrentNexts.isEmpty = true ∨
        (if IterateReverse then decide (OutMatchEnd = -1)
          else decide (OutMatchEnd = text.length)) = true)) :
      Calls A text
        (.chunkMatchLoop (fuel + 1) Input Outs Lazy Outers IterateReverse CurrentNexts CurrNode
          LastMatch OutMatchEnd σ) []
        (.firstEnterable fuel CurrentNexts OutMatchEnd Outers σ)
  | chunkNext (fuel : Nat) (Input : Int) (Outs : List GhostPtr) (Lazy : Bool)
      (Outers : Option (List NodeId)) (IterateReverse : Bool) (CurrentNexts : List NodeId)
      (CurrNode : Option NodeId) (LastMatch OutMatchEnd : Int) (σ : MatchState)
      (cn : NodeId) (pos : Int) (σ1 : MatchState) (nexts : List NodeId) (cnode : RegexNode)
      (hgo : ¬ (CurrentNexts.isEmpty = true ∨
        (if IterateReverse then decide (OutMatchEnd = -1)
          else decide (OutMatchEnd = text.length)) = true))
      (hr : firstEnterable fuel A text CurrentNexts OutMatchEnd Outers σ = .ok (some cn, pos, σ1))
      (hx : GetNexts A σ1 cn = .ok nexts) (hcn : A.node cn = .ok cnode)
      (hl : ¬ (reachesOut cnode Outs = true ∧ Lazy = true)) :
      Calls A text
        (.chunkMatchLoop (fuel + 1) Input Outs Lazy Outers IterateReverse CurrentNexts CurrNode
          LastMatch OutMatchEnd σ)
        [.firstEnterable fuel CurrentNexts OutMatchEnd Outers σ]
        (.chunkMatchLoop fuel Input Outs Lazy Outers IterateReverse nexts (some cn)
          (if reachesOut cnode Outs then pos else LastMatch)
          (if IterateReverse then pos - 1 else pos + 1) σ1)
  | takersRound (fuel : Nat) (self : NodeId) (Input : Int) (NextCandidates : List NodeId)
      (c : NodeId) (rest : List NodeId) (σ : MatchState) (RetrievedNexts : List NodeId)
      (hx : GetNexts A σ c = .ok RetrievedNexts) :
      Calls A text (.tryAnyTakers (fuel + 1) self Input NextCandidates (c :: rest) σ) []
        (.takersOf fuel self Input NextCandidates RetrievedNexts σ)
  | takersNext (fuel : Nat) (self : NodeId) (Input : Int) (NextCandidates : List NodeId)
      (c : NodeId) (rest : List NodeId) (σ : MatchState) (RetrievedNexts : List NodeId)
      (σ1 : MatchState) (hx : GetNexts A σ c = .ok RetrievedNexts)
      (hr : takersOf fuel A text self Input NextCandidates RetrievedNexts σ = .ok (false, σ1)) :
      Calls A text (.tryAnyTakers (fuel + 1) self Input NextCandidates (c :: rest) σ)
        [.takersOf fuel self Input NextCandidates RetrievedNexts σ]
        (.tryAnyTakers fuel self Input NextCandidates rest σ1)
  | taker (fuel : Nat) (self : NodeId) (Input : Int) (NextCandidates : List NodeId)
      (currNext : NodeId) (rest : List NodeId) (σ : MatchState) (hne : currNext ≠ self) :
      Calls A text (.takersOf (fuel + 1) self Input NextCandidates (currNext :: rest) σ) []
        (.canEnter fuel currNext Input (some NextCandidates) σ)
  | takerNext (fuel : Nat) (self : NodeId) (Input : Int) (NextCandidates : List NodeId)
      (currNext : NodeId) (rest : List NodeId) (σ : MatchState) (i : Int) (σ1 : MatchState)
      (hne : currNext ≠ self)
      (hr : CanEnter fuel A text currNext Input (some NextCandidates) σ = .ok (false, i, σ1)) :
      Calls A text (.takersOf (fuel + 1) self Input NextCandidates (currNext :: rest) σ)
        [.canEnter fuel currNext Input (some NextCandidates) σ]
        (.takersOf fuel self Input NextCandidates rest σ1)
  | takerSelf (fuel : Nat) (self : NodeId) (Input : Int) (NextCandidates : List NodeId)
      (rest : List NodeId) (σ : MatchState) :
      Calls A text (.takersOf (fuel + 1) self Input NextCandidates (self :: rest) σ) []
        (.takersOf fuel self Input NextCandidates rest σ)
  | matchSearch (fuel : Nat) (CurrentNexts : List NodeId) (FirstTime LastTime : Bool)
      (CurrNode : Option NodeId) (Iter : Int) (σ : MatchState)
      (hgo : ¬ CurrentNexts.isEmpty = true ∧ (Iter ≠ text.length ∨ LastTime = true)) :
      Calls A text (.matchLoop (fuel + 1) CurrentNexts FirstTime LastTime CurrNode Iter σ) []
        (.firstEnterable fuel CurrentNexts Iter none σ)
  | matchNext (fuel : Nat) (CurrentNexts : List NodeId) (FirstTime LastTime : Bool)
      (CurrNode : Option NodeId) (Iter : Int) (σ : MatchState) (cn : NodeId) (it : Int)
      (σ1 : MatchState) (nexts : List NodeId)
      (hgo : ¬ CurrentNexts.isEmpty = true ∧ (Iter ≠ text.length ∨ LastTime = true))
      (hr : firstEnterable fuel A text CurrentNexts Iter none σ = .ok (some cn, it, σ1))
      (hx : GetNexts A σ1 cn = .ok nexts) :
      Calls A text (.matchLoop (fuel + 1) CurrentNexts FirstTime LastTime CurrNode Iter σ)
        [.firstEnterable fuel CurrentNexts Iter none σ]
        (.matchLoop fuel nexts (loopAdvance A text FirstTime LastTime it).1
          (loopAdvance A text FirstTime LastTime it).2.1 (some cn)
          (loopAdvance A text FirstTime LastTime it).2.2 σ1)
  | matchFromSearch (fuel : Nat) (Offset : Int) (OutSubstring : List Char)
      (CurrentNexts : List NodeId) (FirstTime LastTime : Bool)
      (CurrNode : Option NodeId) (Iter : Int) (σ : MatchState)
      (hgo : ¬ CurrentNexts.isEmpty = true ∧ (Iter ≠ text.length ∨ LastTime = true)) :
      Calls A text
        (.matchFromLoop (fuel + 1) Offset OutSubstring CurrentNexts FirstTime LastTime CurrNode
          Iter σ) []
        (.firstEnterable fuel CurrentNexts Iter none σ)
  | matchFromNext (fuel : Nat) (Offset : Int) (OutSubstring : List Char)
      (CurrentNexts : List NodeId) (FirstTime LastTime : Bool)
      (CurrNode : Option NodeId) (Iter : Int) (σ : MatchState) (cn : NodeId) (it : Int)
      (σ1 : MatchState) (nexts : List NodeId)
      (hgo : ¬ CurrentNexts.isEmpty = true ∧ (Iter ≠ text.length ∨ LastTime = true))
      (hr : firstEnterable fuel A text CurrentNexts Iter none σ = .ok (some cn, it, σ1))
      (hx : GetNexts A σ1 cn = .ok nexts) :
      Calls A text
        (.matchFromLoop (fuel + 1) Offset OutSubstring CurrentNexts FirstTime LastTime CurrNode
          Iter σ)
        [.firstEnterable fuel CurrentNexts Iter none σ]
        (.matchFromLoop fuel Offset OutSubstring nexts (loopAdvance A text FirstTime LastTime it).1
          (loopAdvance A text FirstTime LastTime it).2.1 (some cn)
          (loopAdvance A text FirstTime LastTime it).2.2 σ1)

/-- The call `g` is made in the course of the call `f`: by `f` itself, or by a call made in the
course of `f`. -/
inductive Attempts (A : Regex) (text : List Char) : Frame → Frame → Prop
  | here (f : Frame) : Attempts A text f f
  | step (f g h : Frame) (pre : List Frame) : Calls A text f pre g → Attempts A text g h →
      Attempts A text f h

/-- The capture has not been reported as succeeded: its `Succeeded` flag is not true. -/
def MatchState.unset (σ : MatchState) (cp : CapturePtr) : Prop := σ.succeeded? cp ≠ some true

/-- The bound capture of the node `n`, when `n` is a capture node. -/
def Regex.captureNodeAt (A : Regex) (n : NodeId) : Option (Option CapturePtr) :=
  match (A.node n).toOption with
  | none => none
  | some nd =>
    match nd.kind with
    | .Capture _ b => some b
    | _ => none

/-- The call is a `CanEnter` of a capture node bound to the capture `cp` that returns true:
the capturing group has been entered successfully. -/
def CaptureEntered (A : Regex) (text : List Char) (cp : CapturePtr) (h : Frame) : Prop :=
  ∃ (fuel : Nat) (m : NodeId) (Input : Int) (Outers : Option (List NodeId)) (σ : MatchState)
    (i : Int) (σ1 : MatchState),
    h = .canEnter fuel m Input Outers σ ∧ A.captureNodeAt m = some (some cp) ∧
    CanEnter fuel A text m Input Outers σ = .ok (true, i, σ1)

/-- In the course of the call `f0` the call `h` has returned before the call `g` is made: a
call made in the course of `f0` makes a call in whose course `g` is made, after a call in
whose course `h` is made has returned. -/
def Before (A : Regex) (text : List Char) (f0 h g : Frame) : Prop :=
  ∃ (f : Frame) (pre : List Frame) (g1 p : Frame),
    Attempts A text f0 f ∧ Calls A text f pre g1 ∧ p ∈ pre ∧ Attempts A text p h ∧
    Attempts A text g1 g

/-- The fuel of a call. -/
def Frame.fuel : Frame → Nat
  | .canEnter fuel _ _ _ _ => fuel
  | .firstEnterable fuel _ _ _ _ => fuel
  | .chunkMatch fuel _ _ _ _ _ _ _ => fuel
  | .chunkMatchLoop fuel _ _ _ _ _ _ _ _ _ _ => fuel
  | .tryAnyTakers fuel _ _ _ _ _ => fuel
  | .takersOf fuel _ _ _ _ _ => fuel
  | .matchLoop fuel _ _ _ _ _ _ => fuel
  | .matchFromLoop fuel _ _ _ _ _ _ _ _ => fuel

/-- The state is unset for the capture, or the capturing group has been entered successfully
in the course of the call. -/
def UnsetOrEntered (A : Regex) (text : List Char) (cp : CapturePtr) (f : Frame)
    (σ : MatchState) : Prop :=
  σ.unset cp ∨ ∃ h, Attempts A text f h ∧ CaptureEntered A text cp h

/-- A call keeps the capture unset unless the capturing group is entered successfully in its
course. -/
def Keeps (A : Regex) (text : List Char) (cp : CapturePtr) (f : Frame) : Prop :=
  f.state.unset cp → ∀ σ1, f.result A text = .ok σ1 → UnsetOrEntered A text cp f σ1

/-! ## Fresh automata -/

/-- No capture of the automaton is reported as succeeded. -/
def Regex.fresh (A : Regex) : Prop :=
  (∀ c ∈ A.Captures, c.Succeeded = false) ∧ (∀ c ∈ A.DefinedSubroutines, c.Succeeded = false)

/-- The automaton of the result of an instruction is fresh. -/
def AsmStep.fresh : AsmStep → Prop
  | .next s => s.A.fresh
  | .stop A => A.fresh

/-! ## The rounds of `MatchAllInternal` -/

/-- The locals of the loop of `MatchAllInternal`: the automaton, the offset `i` and
`OutSubstrings`. -/
abbrev MatchAllLocals := Regex × Nat × List (List Char)

/-- One round of the loop `for (unsigned int i = 0; i < String.length(); ++i)` of
`Regex::MatchAllInternal`: the locals as the round and the `++i` leave them; `none` when the
loop is over or the call of `MatchFromInternal` does not return. -/
def matchAllRound (fuel : Nat) (String : List Char) (st : MatchAllLocals) : Option MatchAllLocals :=
  if st.2.1 < String.length then
    match st.1.MatchFromInternal fuel String (toInt32 st.2.1) [] with
    | .returned (true, NextSub) A1 =>
      let i1 := (st.2.1 + (NextSub.length + 4294967296 - 1)) % 4294967296
      some ({ A1 with LastMatchEnd := some (i1 : Int) }, (i1 + 1) % 4294967296,
        st.2.2 ++ [NextSub])
    | .returned (false, _) A1 => some (A1, (st.2.1 + 1) % 4294967296, st.2.2)
    | _ => none
  else none

/-- The locals of the loop of `MatchAllInternal` after its first `k` rounds. -/
def matchAllRounds (fuel : Nat) (String : List Char) : Nat → MatchAllLocals → Option MatchAllLocals
  | 0, st => some st
  | k + 1, st => (matchAllRounds fuel String k st).bind (matchAllRound fuel String)

/-! # Theorems -/

set_option maxRecDepth 100000

/-! ## Worked examples of the specification -/

/-- C1: the automaton compiled from `^[Hh]ello!$` has no compile error, `Match("Hello!")`
returns true and `Match("hello")` returns false, on the fresh automaton and also when the
second call follows the first on the same automaton. -/
theorem C1_hello_matches :
    (compile 50 "^[Hh]ello!$").map (fun A =>
      (A.CompileError,
       (A.Match 50 "Hello!").value?,
       (A.Match 50 "hello").value?,
       (A.Match 50 "Hello!").after?.map (fun A1 => (A1.Match 50 "hello").value?)))
    = some ("", some true, some false, some (some false)) := by
  decide!

/-- C2: for the automaton compiled from `([a-z]+)\s+\1`, `Match("the the")` returns true and
afterwards `GetCapture(1)` yields the string "the" with success true; `Match("the cat")` returns
false (on the fresh automaton and after the first call). -/
theorem C2_backreference_matches :
    (compile 50 "([a-z]+)\\s+\\1").map (fun A =>
      (A.CompileError,
       (A.Match 50 "the the").value?,
       (A.Match 50 "the cat").value?,
       (A.Match 50 "the the").after?.map (fun A1 => (A1.Match 50 "the cat").value?)))
      = some ("", some true, some false, some (some false)) ∧
    (compile 50 "([a-z]+)\\s+\\1").bind (fun A =>
      (A.Match 50 "the the").after?.bind (fun A1 => A1.GetCapture 1))
      = some ("the".data, true) := by
  decide!

/-- C3: for the automaton compiled from `a{2,4}`, `Match("aaaa")` returns true and `Match("a")`
returns false. -/
theorem C3_bounded_repeat_matches :
    (compile 50 "a{2,4}").map (fun A =>
      (A.CompileError,
       (A.Match 50 "aaaa").value?,
       (A.Match 50 "a").value?,
       (A.Match 50 "aaaa").after?.map (fun A1 => (A1.Match 50 "a").value?)))
    = some ("", some true, some false, some (some false)) := by
  decide!

/-- C4, as stated, fails: it is not the case that on "aaaa" `MatchFrom` at offset 0 yields a
4-character substring for `a{2,4}` and a 2-character substring for `a{2,4}?`. -/
theorem C4_lazy_two_characters_fails :
    ¬ ((compile 50 "a{2,4}").map (fun A =>
          (A.MatchFrom 50 "aaaa" 0).value?.map (fun r => (r.1, r.2.length))) = some (some (true, 4)) ∧
       (compile 50 "a{2,4}?").map (fun A =>
          (A.MatchFrom 50 "aaaa" 0).value?.map (fun r => (r.1, r.2.length))) = some (some (true, 2))) := by
  decide!

/-- C4, amended: on the text "aaaa", `MatchFrom` at offset 0 succeeds with the 4-character
substring "aaaa" both with the greedy pattern `a{2,4}` and with the lazy pattern `a{2,4}?`. -/
theorem C4_repeat_consumes_four :
    (compile 50 "a{2,4}").map (fun A => (A.CompileError, (A.MatchFrom 50 "aaaa" 0).value?))
      = some ("", some (true, "aaaa".data)) ∧
    (compile 50 "a{2,4}?").map (fun A => (A.CompileError, (A.MatchFrom 50 "aaaa" 0).value?))
      = some ("", some (true, "aaaa".data)) := by
  decide!

/-- C5, as stated, fails: for the automaton compiled from `(?<word>\w+)\s+\g<word>`,
`Match("one two")` does not return false: it returns true. -/
theorem C5_subroutine_call_accepts_other_word :
    (compile 50 "(?<word>\\w+)\\s+\\g<word>").map (fun A => (A.Match 50 "one two").value?)
      = some (some true) ∧
    (compile 50 "(?<word>\\w+)\\s+\\g<word>").map (fun A => (A.Match 50 "one two").value?)
      ≠ some (some false) := by
  decide!

/-- C5, amended: for the automaton compiled from `(?<word>\w+)\s+\g<word>`, `Match("one two")`
returns true, and `Match("one one")` returns true with the named capture "word" equal to
"one". -/
theorem C5_subroutine_call_matches :
    (compile 50 "(?<word>\\w+)\\s+\\g<word>").map (fun A =>
      (A.CompileError,
       (A.Match 50 "one two").value?,
       (A.Match 50 "one one").value?))
      = some ("", some true, some true) ∧
    (compile 50 "(?<word>\\w+)\\s+\\g<word>").bind (fun A =>
      (A.Match 50 "one one").after?.bind (fun A1 => A1.GetCaptureNamed "word"))
      = some ("one".data, true) := by
  decide!

/-- C6: for the automaton compiled from `(a(?R)?b)`, `Match("aaabbb")` returns true and
`Match("aab")` returns false. -/
theorem C6_recursion_matches :
    (compile 50 "(a(?R)?b)").map (fun A =>
      (A.CompileError,
       (A.Match 50 "aaabbb").value?,
       (A.Match 50 "aab").value?))
    = some ("", some true, some false) := by
  decide!

/-- C7 fails on the pattern `a|[` with the nesting limit 100: `Translate` sets the error of the
unclosed character class and returns the three instructions translated before the `|`. -/
theorem C7_error_with_nonempty_stream :
    Translate 50 "a|[" 100 =
      some ([instr .MakeCharClassSymbol ["a", "a"],
             instr .MakeLiteralCharClass ["f", "f", "0"],
             instr .Literal ["0"]],
            "Regex Compile Error: Couldn't find closing bracket for character class.") := by
  decide!

/-! ## The loops of `MatchInternal` and `MatchFromInternal` side by side -/

/-- The two ends of the loops are in lockstep. -/
theorem finish_lockstep (A : Regex) (text : List Char) (Offset : Int) (Out : List Char)
    (cn : Option NodeId) (it : Int) (σ : MatchState) :
    lockstep text Offset Out A
      (match endsMatch A cn with
        | .ok b => Outcome.returned b (A.withState σ)
        | .error _ => Outcome.invalidAccess)
      (match endsMatch A cn with
        | .ok true =>
          (match copyMatched text Offset it with
           | .ok sub => Outcome.returned (true, Out ++ sub) (A.withState σ)
           | .error _ => Outcome.invalidAccess)
        | .ok false => Outcome.returned (false, Out) (A.withState σ)
        | .error _ => Outcome.invalidAccess) := by
  cases h : endsMatch A cn with
  | error e => simp [lockstep]
  | ok b =>
    cases b with
    | false => exact ⟨rfl, ⟨σ, A.RuntimeErrors, rfl⟩, Or.inl ⟨rfl, rfl⟩⟩
    | true =>
      cases hc : copyMatched text Offset it with
      | error e => simp [lockstep]
      | ok sub => exact ⟨rfl, ⟨σ, A.RuntimeErrors, rfl⟩, Or.inr ⟨rfl, it, sub, hc, rfl⟩⟩

/-- The loops of `MatchInternal` and `MatchFromInternal`, run with the same fuel from the same
locals, are in lockstep. -/
theorem MatchFromLoop_lockstep (fuel : Nat) : ∀ (A : Regex) (text : List Char) (Offset : Int)
    (Out : List Char) (nexts : List NodeId) (ft lt : Bool) (cn : Option NodeId) (it : Int)
    (σ : MatchState),
    lockstep text Offset Out A (MatchLoop fuel A text nexts ft lt cn it σ)
      (MatchFromLoop fuel A text Offset Out nexts ft lt cn it σ) := by
  induction fuel with
  | zero => intros; simp [MatchLoop, MatchFromLoop, lockstep]
  | succ n ih =>
    intro A text Offset Out nexts ft lt cn it σ
    unfold MatchLoop MatchFromLoop
    simp only []
    by_cases hc : ¬ nexts.isEmpty = true ∧ (it ≠ text.length ∨ lt = true)
    · rw [if_pos hc, if_pos hc]
      cases hf : firstEnterable n A text nexts it none σ with
      | error e =>
        cases e with
        | runtime msg σ1 => exact ⟨rfl, ⟨σ1, _, rfl⟩, Or.inl ⟨rfl, rfl⟩⟩
        | outOfFuel => simp [lockstep]
        | invalidAccess => simp [lockstep]
      | ok r =>
        obtain ⟨found, it1, σ1⟩ := r
        cases found with
        | none => exact finish_lockstep A text Offset Out cn it1 σ1
        | some c =>
          simp only []
          cases hg : GetNexts A σ1 c with
          | error e => simp [lockstep]
          | ok nx =>
            simp only []
            split
            · split
              · exact ih ..
              · split
                · exact ih ..
                · exact ih ..
            · exact ih ..
    · rw [if_neg hc, if_neg hc]
      exact finish_lockstep A text Offset Out cn it σ

/-- The loop of `MatchInternal` never throws. -/
theorem MatchLoop_not_threw (fuel : Nat) : ∀ (A : Regex) (text : List Char) (nexts : List NodeId)
    (ft lt : Bool) (cn : Option NodeId) (it : Int) (σ : MatchState),
    (MatchLoop fuel A text nexts ft lt cn it σ).threwCompile = false := by
  intro A text nexts ft lt cn it σ
  have hl := MatchFromLoop_lockstep fuel A text 0 [] nexts ft lt cn it σ
  revert hl
  cases MatchFromLoop fuel A text 0 [] nexts ft lt cn it σ with
  | returned v A1 => intro hl; rw [hl.1]; rfl
  | threw w A1 => intro hl; exact hl.elim
  | outOfFuel => intro hl; rw [hl]; rfl
  | invalidAccess =>
    intro hl
    rcases hl with hl | ⟨A1, hl⟩ <;> rw [hl] <;> rfl

theorem sameGraph_refl (A : Regex) : A.sameGraph A :=
  ⟨A.state, A.RuntimeErrors, A.LastMatchEnd, rfl⟩

theorem sameGraph_trans {A B C : Regex} (h1 : A.sameGraph B) (h2 : B.sameGraph C) :
    A.sameGraph C := by
  obtain ⟨σ1, r1, l1, rfl⟩ := h1
  obtain ⟨σ2, r2, l2, rfl⟩ := h2
  exact ⟨σ2, r2, l2, rfl⟩

theorem sameGraph_compileError {A B : Regex} (h : A.sameGraph B) :
    B.CompileError = A.CompileError := by
  obtain ⟨σ, r, l, rfl⟩ := h
  rfl

/-- A call of `MatchFromInternal` that returns was made on an automaton without compile error
and leaves an automaton with the same graph. -/
theorem MatchFromInternal_returned {fuel : Nat} {A A1 : Regex} {T : List Char} {Offset : Int}
    {Out : List Char} {v : Bool × List Char}
    (h : A.MatchFromInternal fuel T Offset Out = .returned v A1) :
    A.CompileError = "" ∧ A.sameGraph A1 := by
  unfold Regex.MatchFromInternal at h
  split at h
  · cases h
  · rename_i hc
    refine ⟨by simpa using hc, ?_⟩
    simp only [] at h
    split at h
    · cases h
    · rename_i nx hs
      have hl := MatchFromLoop_lockstep fuel ({ A with RuntimeErrors := [] }.ResetPreMatch) T Offset
        Out nx true ({ A with RuntimeErrors := [] }.ResetPreMatch).EndsWithLineCheck none Offset
        ({ A with RuntimeErrors := [] }.ResetPreMatch).state
      rw [h] at hl
      obtain ⟨_, ⟨σ, r, hA⟩, _⟩ := hl
      exact ⟨σ, r, A.LastMatchEnd, hA⟩

/-- Without compile error `MatchFromInternal` does not throw. -/
theorem MatchFromInternal_not_threw (fuel : Nat) (A : Regex) (T : List Char) (Offset : Int)
    (Out : List Char) (hc : A.CompileError = "") :
    (A.MatchFromInternal fuel T Offset Out).threwCompile = false := by
  unfold Regex.MatchFromInternal
  rw [if_neg (by simp [hc])]
  simp only []
  split
  · rfl
  · rename_i nx hs
    have hl := MatchFromLoop_lockstep fuel ({ A with RuntimeErrors := [] }.ResetPreMatch) T Offset
        Out nx true ({ A with RuntimeErrors := [] }.ResetPreMatch).EndsWithLineCheck none Offset
        ({ A with RuntimeErrors := [] }.ResetPreMatch).state
    revert hl
    cases MatchFromLoop fuel ({ A with RuntimeErrors := [] }.ResetPreMatch) T Offset
        Out nx true ({ A with RuntimeErrors := [] }.ResetPreMatch).EndsWithLineCheck none Offset
        ({ A with RuntimeErrors := [] }.ResetPreMatch).state with
    | returned v A1 => intro _; rfl
    | threw w A1 => intro hl; exact hl.elim
    | outOfFuel => intro _; rfl
    | invalidAccess => intro _; rfl

/-- Without compile error `MatchInternal` does not throw. -/
theorem MatchInternal_not_threw (fuel : Nat) (A : Regex) (T : List Char)
    (hc : A.CompileError = "") : (A.MatchInternal fuel T).threwCompile = false := by
  unfold Regex.MatchInternal
  rw [if_neg (by simp [hc])]
  simp only []
  split
  · rfl
  · exact MatchLoop_not_threw ..

/-- Without compile error the loop of `MatchAllInternal` does not throw. -/
theorem MatchAllLoop_not_threw (fuel : Nat) (T : List Char) (rounds : Nat) :
    ∀ (A : Regex) (i : Nat) (acc : List (List Char)), A.CompileError = "" →
      (MatchAllLoop rounds fuel A T i acc).threwCompile = false := by
  induction rounds with
  | zero => intros; rfl
  | succ n ih =>
    intro A i acc hc
    unfold MatchAllLoop
    split
    · have hnt :=
        MatchFromInternal_not_threw fuel A T (toInt32 i) [] hc
      split
      · rename_i s A1 hr
        obtain ⟨_, hg⟩ := MatchFromInternal_returned hr
        exact ih _ _ _ ((sameGraph_compileError hg).trans hc)
      · rename_i s A1 hr
        obtain ⟨_, hg⟩ := MatchFromInternal_returned hr
        exact ih _ _ _ ((sameGraph_compileError hg).trans hc)
      · rename_i w A1 hr
        rw [hr] at hnt
        cases hnt
      · rfl
      · rfl
    · rfl

/-! ## The text copied by `MatchFromInternal` -/

/-- A read that succeeds is a read of the text or of its terminator. -/
theorem deref_ok {text : List Char} {p : Int} {c : Char} (h : deref text p = .ok c) :
    0 ≤ p ∧ (text ++ [NUL])[p.toNat]? = some c := by
  unfold deref at h
  split at h
  · rename_i hp
    obtain ⟨h0, h1⟩ := hp
    have hlt : p.toNat < text.length := by omega
    refine ⟨h0, ?_⟩
    have hc : text.getD p.toNat NUL = c := by
      injection h
    rw [List.getElem?_append_left hlt]
    rw [← hc, List.getD_eq_getElem?_getD, List.getElem?_eq_getElem hlt]
    simp
  · split at h
    · rename_i hp
      have hc : NUL = c := by injection h
      refine ⟨by omega, ?_⟩
      have : p.toNat = text.length := by omega
      rw [this, ← hc]
      simp
    · cases h

/-- The characters read at `n` consecutive positions from `a` are the first `n` characters of
the text (with its terminator) after position `a`. -/
theorem mapM_range_deref (text : List Char) (a : Int) :
    ∀ (n : Nat) (sub : List Char),
      (List.range n).mapM (fun (k : Nat) => deref text (a + (k : Int))) = Except.ok sub →
      sub = ((text ++ [NUL]).drop a.toNat).take n ∧ (n = 0 ∨ 0 ≤ a) := by
  intro n
  induction n with
  | zero =>
    intro sub h
    simp at h
    cases h
    simp
  | succ n ih =>
    intro sub h
    rw [List.range_succ, List.mapM_append] at h
    cases hx : (List.range n).mapM (fun (k : Nat) => deref text (a + (k : Int))) with
    | error e =>
      simp only [hx, bind, Except.bind] at h
      cases h
    | ok xs =>
      cases hy : deref text (a + (n : Int)) with
      | error e =>
        simp only [hx, hy, List.mapM_cons, List.mapM_nil, bind, Except.bind, pure, Except.pure] at h
        cases h
      | ok y =>
        simp only [hx, hy, List.mapM_cons, List.mapM_nil, bind, Except.bind, pure, Except.pure] at h
        have hsub : sub = xs ++ [y] := by
          injection h with h1
          exact h1.symm
        obtain ⟨hxs, hn⟩ := ih xs hx
        obtain ⟨h0, hget⟩ := deref_ok hy
        have ha : 0 ≤ a := by
          rcases hn with hn | hn
          · subst hn; simpa using h0
          · exact hn
        refine ⟨?_, Or.inr ha⟩
        have hidx : (a + (n : Int)).toNat = a.toNat + n := by omega
        rw [hidx] at hget
        rw [hsub, hxs, List.take_succ, List.getElem?_drop, hget]
        rfl

/-- The copy of `MatchFromInternal` yields a piece of the text (with its terminator) that starts
at the offset. -/
theorem copyMatched_prefix {text : List Char} {Offset it : Int} {sub : List Char}
    (h : copyMatched text Offset it = .ok sub) : sub <+: (text ++ [NUL]).drop Offset.toNat := by
  unfold copyMatched at h
  split at h
  · cases h
  · unfold readRange at h
    obtain ⟨hs, _⟩ := mapM_range_deref text Offset _ sub h
    rw [hs]
    exact List.take_prefix _ _

/-- The entry points `MatchInternal` and `MatchFromInternal` at offset 0 are in lockstep, unless
both stop at the start nodes. -/
theorem MatchFromInternal_lockstep (fuel : Nat) (A : Regex) (T : List Char) (Out : List Char)
    (hc : A.CompileError = "") :
    (A.MatchInternal fuel T = .invalidAccess ∧
      A.MatchFromInternal fuel T 0 Out = .invalidAccess) ∨
    lockstep T 0 Out ({ A with RuntimeErrors := [] }.ResetPreMatch) (A.MatchInternal fuel T)
      (A.MatchFromInternal fuel T 0 Out) := by
  unfold Regex.MatchInternal Regex.MatchFromInternal
  rw [if_neg (by simp [hc]), if_neg (by simp [hc])]
  simp only []
  cases hs : startNexts ({ A with RuntimeErrors := [] }.ResetPreMatch)
      ({ A with RuntimeErrors := [] }.ResetPreMatch).StartNodes with
  | error e => exact Or.inl ⟨rfl, rfl⟩
  | ok nx => exact Or.inr (MatchFromLoop_lockstep ..)

/-- The text a successful `MatchFromInternal` produces is a piece of the text read from the
offset. -/
theorem MatchFromInternal_segment {fuel : Nat} {A A1 : Regex} {T : List Char} {Offset : Int}
    {s : List Char} (h : A.MatchFromInternal fuel T Offset [] = .returned (true, s) A1) :
    s <+: (T ++ [NUL]).drop Offset.toNat := by
  unfold Regex.MatchFromInternal at h
  split at h
  · cases h
  · simp only [] at h
    split at h
    · cases h
    · rename_i nx hs
      have hl := MatchFromLoop_lockstep fuel ({ A with RuntimeErrors := [] }.ResetPreMatch) T Offset
        [] nx true ({ A with RuntimeErrors := [] }.ResetPreMatch).EndsWithLineCheck none Offset
        ({ A with RuntimeErrors := [] }.ResetPreMatch).state
      rw [h] at hl
      obtain ⟨_, _, h3⟩ := hl
      rcases h3 with ⟨hf, _⟩ | ⟨_, it, sub, hcopy, hs⟩
      · cases hf
      · rw [hs]
        simpa using copyMatched_prefix hcopy

theorem sameGraph_lastMatchEnd (A : Regex) (l : Option Int) :
    A.sameGraph { A with LastMatchEnd := l } :=
  ⟨A.state, A.RuntimeErrors, l, rfl⟩

/-- Every substring the loop of `MatchAllInternal` adds was produced by a successful call of
`MatchFromInternal` at an offset inside the text, on an automaton with the graph of `A`. -/
theorem MatchAllLoop_substrings (fuel : Nat) (A : Regex) (T : List Char)
    (P : List Char → Prop)
    (hP : ∀ (i : Nat) (B B1 : Regex) (s : List Char), i < T.length → A.sameGraph B →
      B.MatchFromInternal fuel T (toInt32 i) [] = .returned (true, s) B1 → P s)
    (rounds : Nat) :
    ∀ (A1 : Regex) (i : Nat) (acc : List (List Char)) (v : Bool × List (List Char)) (A2 : Regex),
      A.sameGraph A1 → (∀ s ∈ acc, P s) →
      MatchAllLoop rounds fuel A1 T i acc = .returned v A2 → ∀ s ∈ v.2, P s := by
  induction rounds with
  | zero => intro A1 i acc v A2 _ _ h; cases h
  | succ n ih =>
    intro A1 i acc v A2 hg hacc h
    unfold MatchAllLoop at h
    split at h
    · rename_i hi
      split at h
      · rename_i s B1 hr
        obtain ⟨_, hg1⟩ := MatchFromInternal_returned hr
        refine ih _ _ _ v A2 (sameGraph_trans hg (sameGraph_trans hg1 (sameGraph_lastMatchEnd _ _)))
          ?_ h
        intro x hx
        rcases List.mem_append.1 hx with hx | hx
        · exact hacc x hx
        · have : x = s := by simpa using hx
          subst this
          exact hP i A1 B1 x hi hg hr
      · rename_i s B1 hr
        obtain ⟨_, hg1⟩ := MatchFromInternal_returned hr
        exact ih _ _ _ v A2 (sameGraph_trans hg hg1) hacc h
      · cases h
      · cases h
      · cases h
    · injection h with h1 h2
      subst h1
      exact hacc

/-! ## Contracts of the matching entry points -/

/-- C8: for every automaton and every text, each of `Match`, `MatchFrom` and `MatchAll` throws
the compile exception if and only if `CompileError` is not empty; and then the call throws
`CompileError` and leaves the automaton as it was (captures, tickers and runtime errors
included). -/
theorem C8_compile_error_on_use (rounds fuel : Nat) (A : Regex) (T : String) (Offset : Int)
    (Out : List Char) :
    ((A.Match fuel T).threwCompile = true ↔ A.CompileError ≠ "") ∧
    ((A.MatchFrom fuel T Offset Out).threwCompile = true ↔ A.CompileError ≠ "") ∧
    ((A.MatchAll rounds fuel T).threwCompile = true ↔ A.CompileError ≠ "") ∧
    (A.CompileError ≠ "" →
      A.Match fuel T = .threw A.CompileError A ∧
      A.MatchFrom fuel T Offset Out = .threw A.CompileError A ∧
      A.MatchAll rounds fuel T = .threw A.CompileError A) := by
  have key : A.CompileError ≠ "" →
      A.Match fuel T = .threw A.CompileError A ∧
      A.MatchFrom fuel T Offset Out = .threw A.CompileError A ∧
      A.MatchAll rounds fuel T = .threw A.CompileError A := by
    intro hc
    simp [Regex.Match, Regex.MatchFrom, Regex.MatchAll, Regex.MatchInternal,
      Regex.MatchFromInternal, Regex.MatchAllInternal, hc]
  refine ⟨⟨?_, ?_⟩, ⟨?_, ?_⟩, ⟨?_, ?_⟩, key⟩
  · intro h hc
    have := MatchInternal_not_threw fuel A T.data hc
    rw [Regex.Match, this] at h
    cases h
  · intro hc
    rw [(key hc).1]
    rfl
  · intro h hc
    have :=
      MatchFromInternal_not_threw fuel A T.data Offset Out hc
    rw [Regex.MatchFrom, this] at h
    cases h
  · intro hc
    rw [(key hc).2.1]
    rfl
  · intro h hc
    have := MatchAllLoop_not_threw fuel T.data rounds A 0 [] hc
    rw [Regex.MatchAll, Regex.MatchAllInternal, if_neg (by simp [hc]), this] at h
    cases h
  · intro hc
    rw [(key hc).2.2]
    rfl

/-- C8 at the automaton of the malformed pattern `a|[`: its compile error is not empty and the
three calls throw it, leaving the automaton as it was. -/
theorem C8_compile_error_on_use_witness :
    (compiled 50 "a|[").CompileError ≠ "" ∧
    (compiled 50 "a|[").Match 50 "a" = .threw (compiled 50 "a|[").CompileError (compiled 50 "a|[") ∧
    (compiled 50 "a|[").MatchFrom 50 "a" 0 []
      = .threw (compiled 50 "a|[").CompileError (compiled 50 "a|[") ∧
    (compiled 50 "a|[").MatchAll 50 50 "a"
      = .threw (compiled 50 "a|[").CompileError (compiled 50 "a|[") :=
  ⟨by decide!, (C8_compile_error_on_use 50 50 (compiled 50 "a|[") "a" 0 []).2.2.2 (by decide!)⟩

/-- C9, as stated, fails: with the pattern `(?{h})(?(DEFINE)(?<n>^))` (a code hook, and a
subroutine definition whose `^` makes the first step keep the iterator) and a hook that moves
the iterator behind the end of the text, the automaton has no compile error, `Match("a")` and
`MatchFrom("a", 0)` return true, and the substring of `MatchFrom` is "a" followed by the
terminator, which is not a prefix of "a". -/
theorem C9_hook_past_end_counterexample :
    (compile 50 "(?{h})(?(DEFINE)(?<n>^))" (some pastEndHook)).map (fun A =>
      (A.CompileError, (A.Match 50 "a").value?, (A.MatchFrom 50 "a" 0).value?))
      = some ("", some true, some (true, ['a', NUL])) ∧
    ¬ (['a', NUL] <+: "a".data) := by
  decide!

/-- C9, amended: for every automaton and every text, started from the same automaton state,
whenever `MatchFrom(T, 0)` returns, the automaton has no compile error, `Match(T)` returns the
same boolean and leaves the automaton in the same state; when they return true the text
appended to the output is a prefix of the text followed by its terminator, and when they return
false the output is left as it was. -/
theorem C9_match_agrees_with_matchFrom (fuel : Nat) (A : Regex) (T : String) (Out : List Char)
    (b : Bool) (s : List Char)
    (h : (A.MatchFrom fuel T 0 Out).value? = some (b, s)) :
    A.CompileError = "" ∧
    (A.Match fuel T).value? = some b ∧
    (A.Match fuel T).after? = (A.MatchFrom fuel T 0 Out).after? ∧
    (b = true → ∃ sub, s = Out ++ sub ∧ sub <+: T.data ++ [NUL]) ∧
    (b = false → s = Out) := by
  change (A.MatchFromInternal fuel T.data 0 Out).value? = some (b, s) at h
  change A.CompileError = "" ∧
    (A.MatchInternal fuel T.data).value? = some b ∧
    (A.MatchInternal fuel T.data).after? = (A.MatchFromInternal fuel T.data 0 Out).after? ∧
    (b = true → ∃ sub, s = Out ++ sub ∧ sub <+: T.data ++ [NUL]) ∧
    (b = false → s = Out)
  cases hm : A.MatchFromInternal fuel T.data 0 Out with
  | returned v A1 =>
    obtain ⟨hc, _⟩ := MatchFromInternal_returned hm
    rw [hm] at h
    have hv : v = (b, s) := by
      simpa [Outcome.value?] using h
    subst hv
    rcases MatchFromInternal_lockstep fuel A T.data Out hc with ⟨_, h2⟩ | hl
    · rw [hm] at h2; cases h2
    · rw [hm] at hl
      obtain ⟨h1, _, h3⟩ := hl
      refine ⟨hc, by rw [h1]; rfl, by rw [h1]; rfl, ?_, ?_⟩
      · intro hb
        rcases h3 with ⟨hf, _⟩ | ⟨_, it, sub, hcopy, hs⟩
        · rw [hb] at hf; cases hf
        · exact ⟨sub, hs, by simpa using copyMatched_prefix hcopy⟩
      · intro hb
        rcases h3 with ⟨_, hs⟩ | ⟨ht, _⟩
        · exact hs
        · rw [hb] at ht; cases ht
  | threw w A1 => rw [hm] at h; cases h
  | outOfFuel => rw [hm] at h; cases h
  | invalidAccess => rw [hm] at h; cases h

/-- C9, amended, at the automaton of `a{2,4}` and the text "aaaa": `MatchFrom` at offset 0
returns true with "aaaa", and `Match` returns true. -/
theorem C9_match_agrees_with_matchFrom_witness :
    ((compiled 50 "a{2,4}").MatchFrom 50 "aaaa" 0 []).value? = some (true, "aaaa".data) ∧
    ((compiled 50 "a{2,4}").Match 50 "aaaa").value? = some true :=
  ⟨by decide!,
   (C9_match_agrees_with_matchFrom 50 (compiled 50 "a{2,4}") "aaaa" [] true "aaaa".data
      (by decide!)).2.1⟩

/-- C10, as stated, fails: the automaton of `(?<=x)a` has no compile error, `MatchAll("xa")`
produces the list ["a"], and `MatchFrom("a", 0)` returns false, on the fresh automaton and on
the automaton `MatchAll` leaves. -/
theorem C10_lookbehind_counterexample :
    (compile 50 "(?<=x)a").map (fun A => (A.CompileError, (A.MatchAll 50 50 "xa").value?))
      = some ("", some (true, ["a".data])) ∧
    (compile 50 "(?<=x)a").map (fun A => (A.MatchFrom 50 "a" 0).value?)
      = some (some (false, [])) ∧
    (compile 50 "(?<=x)a").bind (fun A =>
      (A.MatchAll 50 50 "xa").after?.map (fun A1 => (A1.MatchFrom 50 "a" 0).value?))
      = some (some (false, [])) := by
  decide!

/-! ## The scan of `MatchAllInternal` -/

/-- A call of `MatchFromInternal` depends on the automaton only through the automaton that the
pre-match reset leaves. -/
theorem MatchFromInternal_congr {A B : Regex} (fuel : Nat) (T : List Char) (Offset : Int)
    (Out : List Char) (h : A.preMatch = B.preMatch) (hc : A.CompileError = "") :
    A.MatchFromInternal fuel T Offset Out = B.MatchFromInternal fuel T Offset Out := by
  have hb : B.CompileError = "" := by
    have : A.preMatch.CompileError = B.preMatch.CompileError := by rw [h]
    exact this.symm.trans hc
  unfold Regex.MatchFromInternal
  rw [if_neg (by simp [hc]), if_neg (by simp [hb])]
  change (match startNexts A.preMatch A.preMatch.StartNodes with
      | .error _ => Outcome.invalidAccess
      | .ok nx => MatchFromLoop fuel A.preMatch T Offset Out nx true A.preMatch.EndsWithLineCheck
          none Offset A.preMatch.state) = _
  rw [h]
  rfl

/-- The pre-match reset of the automaton a match leaves, when it restores the state the match
started from. -/
theorem preMatch_after (M : Regex) (σ : MatchState) (r : List String) (l : Option Int)
    (hσ : ({ M.preMatch.withState σ with RuntimeErrors := r, LastMatchEnd := l } : Regex).preMatch.state
      = M.preMatch.state) :
    ({ M.preMatch.withState σ with RuntimeErrors := r, LastMatchEnd := l } : Regex).preMatch
      = ({ M with LastMatchEnd := l } : Regex).preMatch := by
  cases M
  simp only [Regex.preMatch, Regex.ResetPreMatch, Regex.withState, Regex.state] at hσ ⊢
  simp only [Regex.mk.injEq, MatchState.mk.injEq] at hσ ⊢
  simp_all


/-- One round of the loop of `MatchAllInternal` at offset 0 when `MatchFromInternal` succeeds
with an empty substring: the next round starts at offset 0 again. -/
theorem MatchAllLoop_zero_width_round (fuel : Nat) (T : List Char) (A B : Regex)
    (hT : 0 < T.length)
    (hAB : A.preMatch = B.preMatch) (hc : A.CompileError = "")
    (hv : (B.MatchFromInternal fuel T 0 []).value? = some (true, []))
    (hs : (B.MatchFromInternal fuel T 0 []).after?.map
        (fun A1 => ({ A1 with LastMatchEnd := some 4294967295 } : Regex).preMatch.state)
      = some B.preMatch.state)
    (rounds : Nat) (acc : List (List Char)) :
    ∃ A2 : Regex, A2.preMatch = ({ B with LastMatchEnd := some 4294967295 } : Regex).preMatch ∧
      A2.CompileError = "" ∧
      MatchAllLoop (rounds + 1) fuel A T 0 acc = MatchAllLoop rounds fuel A2 T 0 (acc ++ [[]]) := by
  have hAB2 := MatchFromInternal_congr fuel T 0 [] hAB hc
  cases hm : B.MatchFromInternal fuel T 0 [] with
  | returned v A1 =>
    rw [hm] at hv hs
    have hv1 : v = (true, []) := by simpa [Outcome.value?] using hv
    subst hv1
    obtain ⟨_, hg⟩ := MatchFromInternal_returned hm
    refine ⟨{ A1 with LastMatchEnd := some 4294967295 }, ?_, ?_, ?_⟩
    · -- the shape of the automaton a match leaves
      have hshape : ∃ σ r, A1 = { B.preMatch.withState σ with RuntimeErrors := r } := by
        have h2 := hm
        unfold Regex.MatchFromInternal at h2
        split at h2
        · cases h2
        · simp only [] at h2
          split at h2
          · cases h2
          · rename_i nx hsn
            have hl := MatchFromLoop_lockstep fuel B.preMatch T 0 [] nx true
              B.preMatch.EndsWithLineCheck none 0 B.preMatch.state
            change MatchFromLoop fuel B.preMatch T 0 [] nx true B.preMatch.EndsWithLineCheck none 0
              B.preMatch.state = _ at h2
            rw [h2] at hl
            exact hl.2.1
      obtain ⟨σ, r, rfl⟩ := hshape
      have hs1 := hs
      simp only [Outcome.after?, Option.map_some', Option.some.injEq] at hs1
      exact preMatch_after B σ r (some 4294967295) hs1
    · exact (sameGraph_compileError hg).trans (by
        have : A.preMatch.CompileError = B.preMatch.CompileError := by rw [hAB]
        exact this.symm.trans hc)
    · rw [MatchAllLoop]
      rw [if_pos hT]
      have h0 : toInt32 0 = 0 := by decide
      rw [h0, hAB2, hm]
      rfl
  | threw w A1 => rw [hm] at hv; cases hv
  | outOfFuel => rw [hm] at hv; cases hv
  | invalidAccess => rw [hm] at hv; cases hv

/-- If every round at offset 0 yields an empty match, no number of rounds ends the loop. -/
theorem MatchAllLoop_zero_width_forever (fuel : Nat) (T : List Char) (B : Regex)
    (hT : 0 < T.length)
    (hv : (({ B with LastMatchEnd := some 4294967295 } : Regex).MatchFromInternal fuel T 0 []).value?
      = some (true, []))
    (hs : (({ B with LastMatchEnd := some 4294967295 } : Regex).MatchFromInternal fuel T 0 []).after?.map
        (fun A1 => ({ A1 with LastMatchEnd := some 4294967295 } : Regex).preMatch.state)
      = some ({ B with LastMatchEnd := some 4294967295 } : Regex).preMatch.state)
    (rounds : Nat) :
    ∀ (A : Regex) (acc : List (List Char)),
      A.preMatch = ({ B with LastMatchEnd := some 4294967295 } : Regex).preMatch →
      A.CompileError = "" →
      MatchAllLoop rounds fuel A T 0 acc = .outOfFuel := by
  induction rounds with
  | zero => intros; rfl
  | succ n ih =>
    intro A acc hA hc
    obtain ⟨A2, h1, h2, h3⟩ :=
      MatchAllLoop_zero_width_round fuel T A { B with LastMatchEnd := some 4294967295 } hT hA hc hv hs
        n acc
    rw [h3]
    exact ih A2 _ h1 h2

/-- C11 fails on the pattern `^` and the text "ab": `MatchFrom` at offset 0 succeeds with the
empty substring, the update `i += length - 1` wraps the offset to 4294967295 and `++i` brings
it back to 0, so the loop of `MatchAll` is not over after any number of rounds. -/
theorem C11_zero_width_match_never_ends (rounds : Nat) :
    ((compiled 50 "^").MatchFrom 50 "ab" 0).value? = some (true, []) ∧
    (compiled 50 "^").MatchAll rounds 50 "ab" = .outOfFuel := by
  refine ⟨by decide!, ?_⟩
  have hc : (compiled 50 "^").CompileError = "" := by decide!
  unfold Regex.MatchAll Regex.MatchAllInternal
  rw [if_neg (by simp [hc])]
  cases rounds with
  | zero => rfl
  | succ n =>
    obtain ⟨A2, h1, h2, h3⟩ :=
      MatchAllLoop_zero_width_round 50 "ab".data (compiled 50 "^") (compiled 50 "^") (by decide) rfl
        hc (by decide!) (by decide!) n []
    rw [h3]
    exact MatchAllLoop_zero_width_forever 50 "ab".data (compiled 50 "^") (by decide) (by decide!)
      (by decide!) n A2 _ h1 h2

/-! ## The pre-match reset -/

/-- C12 fails on the automaton of `x(a)` after `Match("xa")`: the pre-match reset empties the
text of capture 1 and leaves its `Succeeded` flag true; a following `Match("y")`, which never
reaches the group, returns false and `GetCapture(1)` then reports the empty text with success
true. -/
theorem C12_reset_keeps_succeeded :
    (compile 50 "x(a)").map (fun A => (A.CompileError, (A.Match 50 "xa").value?)) = some ("", some true) ∧
    ((compile 50 "x(a)").bind (fun A => (A.Match 50 "xa").after?)).map (fun A1 =>
        A1.ResetPreMatch.Captures.map (fun c => (c.Manual, c.Succeeded, c.CapturedInputs)))
      = some [(false, true, .single [])] ∧
    ((compile 50 "x(a)").bind (fun A => (A.Match 50 "xa").after?)).map (fun A1 =>
        ((A1.Match 50 "y").value?, (A1.Match 50 "y").after?.map (fun A2 => A2.GetCapture 1)))
      = some (some false, some (some ([], true))) := by
  decide!

/-! ## Depth counters of recursion and subroutine nodes -/

/-- At or above its cap, a recursion node, or a subroutine node whose capture has a last
capturing node, counts the activation and throws the runtime error. -/
theorem CanEnter_at_cap (fuel : Nat) (A : Regex) (text : List Char) (n : NodeId) (Input : Int)
    (Outers : Option (List NodeId)) (σ : MatchState) (MaxDepth : Int)
    (hcap : A.depthCapAt σ n = some MaxDepth) (hd : MaxDepth ≤ σ.depth n) :
    CanEnter (fuel + 1) A text n Input Outers σ
      = .error (.runtime depthExceeded (σ.setDepth n (σ.depth n + 1))) := by
  unfold Regex.depthCapAt at hcap
  cases hn : A.node n with
  | error e => simp [hn, Run.toOption] at hcap
  | ok nd =>
    simp only [hn, Run.toOption] at hcap
    unfold CanEnter
    simp only [hn, bind, Except.bind]
    cases hk : nd.kind <;> simp only [hk] at hcap <;> try (cases hcap)
    · -- recursion
      simp only [if_neg (not_lt.mpr hd)]
      rfl
    · -- subroutine
      rename_i md name b
      cases b with
      | none => simp at hcap
      | some cp =>
        simp only [] at hcap
        cases hc : σ.capture cp with
        | error e => simp [hc, Run.toOption] at hcap
        | ok cap =>
          simp only [hc, Run.toOption] at hcap
          cases hl : cap.LastCapture with
          | none => simp [hl] at hcap
          | some target =>
            simp only [hl, Option.isSome_some, if_true, Option.some.injEq] at hcap
            subst hcap
            simp only [if_neg (not_lt.mpr hd), hc, hl]
            rfl

/-- A runtime error of the candidate search ends the loop of `MatchInternal` with the answer
false and the message added to the runtime errors. -/
theorem MatchLoop_raised (fuel : Nat) (A : Regex) (text : List Char) (nexts : List NodeId)
    (ft lt : Bool) (cn : Option NodeId) (it : Int) (σ σ1 : MatchState) (msg : String)
    (hne : nexts ≠ []) (hpos : it ≠ text.length ∨ lt = true)
    (hr : (firstEnterable fuel A text nexts it none σ).raised? = some (msg, σ1)) :
    MatchLoop (fuel + 1) A text nexts ft lt cn it σ
      = .returned false { A.withState σ1 with RuntimeErrors := A.RuntimeErrors ++ [msg] } := by
  unfold MatchLoop
  simp only []
  have hc : ¬ nexts.isEmpty = true ∧ (it ≠ text.length ∨ lt = true) :=
    ⟨by simpa [List.isEmpty_iff] using hne, hpos⟩
  rw [if_pos hc]
  cases hf : firstEnterable fuel A text nexts it none σ with
  | ok r => rw [hf] at hr; cases hr
  | error e =>
    rw [hf] at hr
    cases e with
    | runtime m s =>
      simp only [Run.raised?, Option.some.injEq, Prod.mk.injEq] at hr
      obtain ⟨rfl, rfl⟩ := hr
      rfl
    | outOfFuel => cases hr
    | invalidAccess => cases hr

/-- The same for the loop of `MatchFromInternal`, which leaves the output as it was. -/
theorem MatchFromLoop_raised (fuel : Nat) (A : Regex) (text : List Char) (Offset : Int)
    (Out : List Char) (nexts : List NodeId)
    (ft lt : Bool) (cn : Option NodeId) (it : Int) (σ σ1 : MatchState) (msg : String)
    (hne : nexts ≠ []) (hpos : it ≠ text.length ∨ lt = true)
    (hr : (firstEnterable fuel A text nexts it none σ).raised? = some (msg, σ1)) :
    MatchFromLoop (fuel + 1) A text Offset Out nexts ft lt cn it σ
      = .returned (false, Out) { A.withState σ1 with RuntimeErrors := A.RuntimeErrors ++ [msg] } := by
  unfold MatchFromLoop
  simp only []
  have hc : ¬ nexts.isEmpty = true ∧ (it ≠ text.length ∨ lt = true) :=
    ⟨by simpa [List.isEmpty_iff] using hne, hpos⟩
  rw [if_pos hc]
  cases hf : firstEnterable fuel A text nexts it none σ with
  | ok r => rw [hf] at hr; cases hr
  | error e =>
    rw [hf] at hr
    cases e with
    | runtime m s =>
      simp only [Run.raised?, Option.some.injEq, Prod.mk.injEq] at hr
      obtain ⟨rfl, rfl⟩ := hr
      rfl
    | outOfFuel => cases hr
    | invalidAccess => cases hr

/-- A runtime error of the first candidate is the runtime error of the candidate search. -/
theorem firstEnterable_raised (fuel : Nat) (A : Regex) (text : List Char) (c : NodeId)
    (cs : List NodeId) (Input : Int) (Outers : Option (List NodeId)) (σ : MatchState)
    (e : Interrupt) (h : CanEnter fuel A text c Input Outers σ = .error e) :
    firstEnterable (fuel + 1) A text (c :: cs) Input Outers σ = .error e := by
  unfold firstEnterable
  simp only [h, bind, Except.bind]


/-- Reading back the depth counter that was just written. -/
theorem depth_setDepth (σ : MatchState) (n : Nat) (d : Int) : (σ.setDepth n d).depth n = d := by
  unfold MatchState.setDepth MatchState.depth
  simp only []
  have hlen : n < (σ.CurrDepth ++ List.replicate (n + 1 - σ.CurrDepth.length) 0).length := by
    simp only [List.length_append, List.length_replicate]
    omega
  generalize (σ.CurrDepth ++ List.replicate (n + 1 - σ.CurrDepth.length) 0) = l at hlen
  induction l generalizing n with
  | nil => simp at hlen
  | cons x xs ih =>
    cases n with
    | zero => simp [setAt]
    | succ k =>
      simp only [setAt, List.getD_cons_succ]
      exact ih k (by simp only [List.length_cons] at hlen; omega)

/-- Below its cap a recursion node counts the activation and then runs its body. -/
theorem CanEnter_recursion_below_cap (fuel : Nat) (A : Regex) (text : List Char) (n : NodeId)
    (Input : Int) (Outers : Option (List NodeId)) (σ : MatchState) (MaxDepth : Int)
    (nd : RegexNode) (hn : A.node n = .ok nd) (hk : nd.kind = .Recursion MaxDepth)
    (hd : σ.depth n < MaxDepth) :
    CanEnter (fuel + 1) A text n Input Outers σ
      = (ChunkMatch fuel A text Input nd.Ins nd.Outs nd.LazyGroup (some (Outers.getD [] ++ [n]))
          false (σ.setDepth n (σ.depth n + 1))).bind (fun r =>
            if r.1 then .ok (true, r.2.1, r.2.2)
            else .ok (false, Input, r.2.2.setDepth n (σ.depth n))) := by
  unfold CanEnter
  simp only [hn, hk, bind, Except.bind, if_pos hd]
  cases ChunkMatch fuel A text Input nd.Ins nd.Outs nd.LazyGroup (some (Outers.getD [] ++ [n]))
      false (σ.setDepth n (σ.depth n + 1)) with
  | error e => rfl
  | ok r =>
    obtain ⟨ok, Copy, σ1⟩ := r
    cases ok <;> rfl

/-- Below its cap a subroutine node whose capture has a last capturing node counts the
activation and then enters that node. -/
theorem CanEnter_subroutine_below_cap (fuel : Nat) (A : Regex) (text : List Char) (n : NodeId)
    (Input : Int) (Outers : Option (List NodeId)) (σ : MatchState) (MaxDepth : Int)
    (nd : RegexNode) (name : String) (cp : CapturePtr) (cap : RegexCaptureBase)
    (target : NodeId) (hn : A.node n = .ok nd)
    (hk : nd.kind = .Subroutine MaxDepth name (some cp)) (hc : σ.capture cp = .ok cap)
    (hl : cap.LastCapture = some target) (hd : σ.depth n < MaxDepth) :
    CanEnter (fuel + 1) A text n Input Outers σ
      = CanEnter fuel A text target Input Outers (σ.setDepth n (σ.depth n + 1)) := by
  unfold CanEnter
  simp only [hn, hk, hc, hl, bind, Except.bind, if_pos hd]
  cases fuel <;> rfl

/-- C13, as stated, fails for a subroutine node without a bound capture: the node of `\g<x>`
compiled with nesting limit 0 has cap 0 and depth counter 0, yet `CanEnter` returns false
without raising, and `Match("a")` returns false with an empty `RuntimeErrors` list. -/
theorem C13_unbound_subroutine_counterexample :
    (compile 50 "\\g<x>" none 0).isSome = true ∧
    (compiled 50 "\\g<x>" none 0).CompileError = "" ∧
    ((compiled 50 "\\g<x>" none 0).node 1).toOption.map (fun nd => nd.kind.depthCap?)
      = some (some 0) ∧
    (compiled 50 "\\g<x>" none 0).state.depth 1 = 0 ∧
    (CanEnter 5 (compiled 50 "\\g<x>" none 0) "a".data 1 0 none
        (compiled 50 "\\g<x>" none 0).state).toOption.map (fun r => (r.1, r.2.1))
      = some (false, 0) ∧
    ((compiled 50 "\\g<x>" none 0).Match 50 "a").value? = some false ∧
    ((compiled 50 "\\g<x>" none 0).Match 50 "a").after?.map (fun A1 => A1.RuntimeErrors)
      = some [] := by
  decide!

/-- C14: the depth counters are not restored after a successful entry.  With
`(?<n>a)\g<n>` and nesting limit 2 the counter of the subroutine node is 1 after one
`Match("aa")`, 2 after the second, and the third `Match("aa")` returns false with the
runtime error; with `(a(?R)?b)` and nesting limit 3 the first `Match("aabb")` returns true
and leaves the counter of the recursion node at 1, and the second returns false with the
runtime error. -/
theorem C14_depth_counter_leaks :
    (compile 50 "(?<n>a)\\g<n>" none 2).isSome = true ∧
    (compiled 50 "(?<n>a)\\g<n>" none 2).CompileError = "" ∧
    (compiled 50 "(?<n>a)\\g<n>" none 2).CurrDepth = [0, 0, 0, 0, 0, 0] ∧
    ((compiled 50 "(?<n>a)\\g<n>" none 2).Match 50 "aa").value? = some true ∧
    ((compiled 50 "(?<n>a)\\g<n>" none 2).Match 50 "aa").after?.map (fun A1 => A1.CurrDepth)
      = some [0, 0, 0, 0, 0, 1] ∧
    ((compiled 50 "(?<n>a)\\g<n>" none 2).Match 50 "aa").after?.map (fun A1 =>
        (A1.Match 50 "aa").value?) = some (some true) ∧
    ((compiled 50 "(?<n>a)\\g<n>" none 2).Match 50 "aa").after?.map (fun A1 =>
        (A1.Match 50 "aa").after?.map (fun A2 => (A2.Match 50 "aa").value?))
      = some (some (some false)) ∧
    ((compiled 50 "(?<n>a)\\g<n>" none 2).Match 50 "aa").after?.map (fun A1 =>
        (A1.Match 50 "aa").after?.map (fun A2 =>
          (A2.Match 50 "aa").after?.map (fun A3 => A3.RuntimeErrors)))
      = some (some (some [depthExceeded])) ∧
    (compile 50 "(a(?R)?b)" none 3).isSome = true ∧
    ((compiled 50 "(a(?R)?b)" none 3).Match 50 "aabb").value? = some true ∧
    ((compiled 50 "(a(?R)?b)" none 3).Match 50 "aabb").after?.map (fun A1 => A1.CurrDepth)
      = some [0, 0, 0, 1, 0, 0, 0, 0, 0, 0] ∧
    ((compiled 50 "(a(?R)?b)" none 3).Match 50 "aabb").after?.map (fun A1 =>
        (A1.Match 50 "aabb").value?) = some (some false) ∧
    ((compiled 50 "(a(?R)?b)" none 3).Match 50 "aabb").after?.map (fun A1 =>
        (A1.Match 50 "aabb").after?.map (fun A2 => A2.RuntimeErrors))
      = some (some [depthExceeded]) := by
  decide!

/-! ## Saving and loading instruction streams -/

/-- The digits are put in front of the digits already produced. -/
theorem toDigitsCore_append (fuel : Nat) : ∀ (n : Nat) (ds : List Char),
    Nat.toDigitsCore 10 fuel n ds = Nat.toDigitsCore 10 fuel n [] ++ ds := by
  induction fuel with
  | zero => intro n ds; rfl
  | succ f ih =>
    intro n ds
    simp only [Nat.toDigitsCore]
    split
    · rfl
    · rw [ih (n / 10) (Nat.digitChar (n % 10) :: ds), ih (n / 10) [Nat.digitChar (n % 10)]]
      simp

/-- The character of a decimal digit is a digit with that value. -/
theorem digitChar_isdigit (k : Nat) (h : k < 10) :
    isdigit (Nat.digitChar k) = true ∧ (Nat.digitChar k).toNat - 48 = k := by
  interval_cases k <;> decide

/-- The value of a run of digits followed by one more digit. -/
theorem digitsValue_snoc (xs : List Char) (d : Char) (hd : isdigit d = true) :
    ∀ acc : Nat, (∀ c ∈ xs, isdigit c = true) →
      digitsValue (xs ++ [d]) acc = digitsValue xs acc * 10 + (d.toNat - 48) := by
  induction xs with
  | nil => intro acc _; simp [digitsValue, hd]
  | cons x xs ih =>
    intro acc h
    have hx : isdigit x = true := h x (List.mem_cons_self _ _)
    simp only [List.cons_append, digitsValue, hx, if_true]
    exact ih _ (fun c hc => h c (List.mem_cons_of_mem _ hc))

/-- With enough fuel the digits of `n` are a non-empty run of digits with value `n`. -/
theorem toDigitsCore_spec (fuel : Nat) : ∀ n : Nat, n < fuel →
    (∀ c ∈ Nat.toDigitsCore 10 fuel n [], isdigit c = true) ∧
    Nat.toDigitsCore 10 fuel n [] ≠ [] ∧
    digitsValue (Nat.toDigitsCore 10 fuel n []) 0 = n := by
  induction fuel with
  | zero => intro n h; omega
  | succ f ih =>
    intro n h
    have hd := digitChar_isdigit (n % 10) (Nat.mod_lt _ (by decide))
    simp only [Nat.toDigitsCore]
    split
    · rename_i h0
      refine ⟨?_, by simp, ?_⟩
      · intro c hc
        simp only [List.mem_singleton] at hc
        rw [hc]; exact hd.1
      · simp only [digitsValue, hd.1, if_true, hd.2]
        omega
    · rename_i h0
      have hlt : n / 10 < f := by omega
      obtain ⟨h1, h2, h3⟩ := ih (n / 10) hlt
      rw [toDigitsCore_append]
      refine ⟨?_, by simp, ?_⟩
      · intro c hc
        simp only [List.mem_append, List.mem_singleton] at hc
        rcases hc with hc | hc
        · exact h1 c hc
        · rw [hc]; exact hd.1
      · rw [digitsValue_snoc _ _ hd.1 _ h1, h3, hd.2]
        omega

/-- The decimal text of a size is a non-empty run of digits with that value. -/
theorem toString_digits (n : Nat) :
    (∀ c ∈ (toString n).data, isdigit c = true) ∧ (toString n).data ≠ [] ∧
    digitsValue (toString n).data 0 = n :=
  toDigitsCore_spec (n + 1) n (Nat.lt_succ_self n)

/-- The digit loop takes a run of digits up to the blank that follows it. -/
theorem munchDigits_run (ds : List Char) (hds : ∀ c ∈ ds, isdigit c = true) (rest : List Char) :
    ∀ Munch : List Char, munchDigits (ds ++ ' ' :: rest) Munch = (Munch ++ ds, ' ' :: rest) := by
  induction ds with
  | nil => intro Munch; simp [munchDigits, isdigit]
  | cons d ds ih =>
    intro Munch
    have hd : isdigit d = true := hds d (List.mem_cons_self _ _)
    simp only [List.cons_append, munchDigits, hd, if_true]
    show munchDigits (ds ++ ' ' :: rest) (Munch ++ [d]) = _
    rw [ih (fun c hc => hds c (List.mem_cons_of_mem _ hc))]
    simp

/-- `std::stoi` on a non-empty run of digits. -/
theorem stoi_digits (ds : List Char) (hds : ∀ c ∈ ds, isdigit c = true) (hne : ds ≠ []) :
    stoi (String.mk ds) = intInRange (digitsValue ds 0 : Int) := by
  cases ds with
  | nil => exact absurd rfl hne
  | cons c cs =>
    have hc : isdigit c = true := hds c (List.mem_cons_self _ _)
    have h1 : c ≠ '-' := by intro h; rw [h] at hc; exact absurd hc (by decide)
    have h2 : c ≠ '+' := by intro h; rw [h] at hc; exact absurd hc (by decide)
    simp only [stoi, h1, h2, hc, if_false, if_true]

/-- Reading back a size that was written in decimal and is followed by a blank. -/
theorem munch_size (n : Nat) (rest : List Char) :
    munchDigits ((toString n).data ++ ' ' :: rest) [] = ((toString n).data, ' ' :: rest) ∧
    stoi (String.mk (toString n).data) = intInRange (n : Int) := by
  obtain ⟨h1, h2, h3⟩ := toString_digits n
  refine ⟨?_, ?_⟩
  · rw [munchDigits_run _ h1]; simp
  · rw [stoi_digits _ h1 h2, h3]

/-- A size below `2^31` fits the `int`. -/
theorem intInRange_size (n : Nat) (h : n < 2147483648) : intInRange (n : Int) = some (n : Int) := by
  unfold intInRange
  rw [if_pos]
  omega

/-- Reading as many characters as the argument has gives the argument back. -/
theorem readChars_run (d : List Char) (rest : List Char) :
    ∀ acc : List Char, readChars d.length (d ++ rest) acc = some (acc ++ d, rest) := by
  induction d with
  | nil => intro acc; simp [readChars]
  | cons c cs ih => intro acc; simp [readChars, ih]

/-- The arguments of one instruction are read back as written. -/
theorem loadStrings_run (Data : List String) (hfit : ∀ d ∈ Data, d.length < 2147483648)
    (rest : List Char) : ∀ acc : List String,
    loadStrings Data.length ((Data.map saveData).flatten ++ rest) acc
      = some (acc ++ Data, rest) := by
  induction Data with
  | nil => intro acc; simp [loadStrings]
  | cons d ds ih =>
    intro acc
    have hd : d.length < 2147483648 := hfit d (List.mem_cons_self _ _)
    have hm := munch_size d.length (d.data ++ ' ' :: ((ds.map saveData).flatten ++ rest))
    have htxt : ((d :: ds).map saveData).flatten ++ rest
        = (toString d.length).data ++ ' ' :: (d.data ++ ' ' :: ((ds.map saveData).flatten ++ rest)) := by
      simp [saveData]
    rw [htxt]
    simp only [List.length_cons, loadStrings, hm.1, hm.2, intInRange_size _ hd, advance, bind,
      Option.bind, Int.toNat_ofNat]
    have hr := readChars_run d.data (' ' :: ((ds.map saveData).flatten ++ rest)) []
    rw [show d.length = d.data.length from rfl, hr]
    simp only [List.nil_append, advance]
    rw [ih (fun x hx => hfit x (List.mem_cons_of_mem _ hx))]
    simp

/-- The opcode byte is read back as the opcode written. -/
theorem ofChar_toChar (t : RegexInstructionType) :
    RegexInstructionType.ofChar t.toChar = some t := by
  cases t <;> decide

/-- The instructions are read back as written, given one unit of fuel per instruction. -/
theorem loadLoop_run (S : InstructionSet)
    (hfit : ∀ i ∈ S, i.InstructionData.length < 2147483648 ∧
      ∀ d ∈ i.InstructionData, d.length < 2147483648) :
    ∀ (fuel : Nat) (acc : InstructionSet), S.length < fuel →
      loadLoop fuel (S.map saveInstruction).flatten acc = some (acc ++ S) := by
  induction S with
  | nil =>
    intro fuel acc hf
    cases fuel with
    | zero => omega
    | succ f => simp [loadLoop]
  | cons i is ih =>
    intro fuel acc hf
    cases fuel with
    | zero => omega
    | succ f =>
      obtain ⟨hi1, hi2⟩ := hfit i (List.mem_cons_self _ _)
      have htxt : ((i :: is).map saveInstruction).flatten
          = i.InstructionType.toChar :: ' ' :: ((toString i.InstructionData.length).data ++
              ' ' :: ((i.InstructionData.map saveData).flatten ++
                '\n' :: (is.map saveInstruction).flatten)) := by
        simp [saveInstruction]
      have hm := munch_size i.InstructionData.length ((i.InstructionData.map saveData).flatten ++
                '\n' :: (is.map saveInstruction).flatten)
      rw [htxt]
      simp only [loadLoop, ofChar_toChar, advance, hm.1, hm.2, intInRange_size _ hi1, bind,
        Option.bind, Int.toNat_ofNat, loadStrings_run _ hi2, List.nil_append]
      rw [ih (fun x hx => hfit x (List.mem_cons_of_mem _ hx)) f _ (by simpa using hf)]
      simp

/-- Every instruction is written with at least one character. -/
theorem length_le_saved (S : InstructionSet) : S.length ≤ (S.map saveInstruction).flatten.length := by
  induction S with
  | nil => simp
  | cons i is ih =>
    simp only [List.map_cons, List.flatten_cons, List.length_append, List.length_cons]
    have : 1 ≤ (saveInstruction i).length := by simp [saveInstruction]
    omega

/-- C15, amended: for every instruction stream whose number of instructions, numbers of
arguments and argument lengths fit the `int` of `std::stoi`, reading the text that the save
operator writes with the load operator gives the stream back: same length, same opcodes, same
argument strings in the same order. -/
theorem C15_save_load_round_trip (S : InstructionSet) (hfit : S.sizesFitInt) :
    loadInstructions (saveInstructions S) = some S := by
  obtain ⟨h0, hfit⟩ := hfit
  have hm := munch_size S.length ('\n' :: (S.map saveInstruction).flatten)
  have htxt : saveInstructions S
      = (toString S.length).data ++ ' ' :: '\n' :: (S.map saveInstruction).flatten := by
    simp [saveInstructions]
  unfold loadInstructions
  rw [htxt]
  simp only [hm.1, hm.2, intInRange_size _ h0, advance, bind, Option.bind]
  rw [loadLoop_run S hfit _ [] ?_]
  · simp
  · have := length_le_saved S
    simp only [List.length_append, List.length_cons]
    omega

/-- C15, instance: a stream with the opcodes 9, 10 and 32 and with blanks, a newline, digits
and an empty string among the arguments is read back as written. -/
theorem C15_save_load_round_trip_witness :
    InstructionSet.sizesFitInt [⟨.StartCheck, ["a b", "\n1", ""]⟩, ⟨.RepeatLazy, []⟩,
      ⟨.EndCheck, ["12 "]⟩] ∧
    loadInstructions (saveInstructions [⟨.StartCheck, ["a b", "\n1", ""]⟩, ⟨.RepeatLazy, []⟩,
      ⟨.EndCheck, ["12 "]⟩])
      = some [⟨.StartCheck, ["a b", "\n1", ""]⟩, ⟨.RepeatLazy, []⟩, ⟨.EndCheck, ["12 "]⟩] :=
  ⟨by decide!, C15_save_load_round_trip _ (by decide!)⟩

/-- A stream of more instructions than an `int` holds is not read back: `std::stoi` throws on
the count that heads the text. -/
theorem loadInstructions_oversized (S : InstructionSet) (h : 2147483648 ≤ S.length) :
    loadInstructions (saveInstructions S) = none := by
  have hm := munch_size S.length ('\n' :: (S.map saveInstruction).flatten)
  have htxt : saveInstructions S
      = (toString S.length).data ++ ' ' :: '\n' :: (S.map saveInstruction).flatten := by
    simp [saveInstructions]
  have hr : intInRange (S.length : Int) = none := by
    unfold intInRange
    rw [if_neg]
    omega
  unfold loadInstructions
  rw [htxt]
  simp only [hm.1, hm.2, hr, advance, bind, Option.bind]

/-- A size of `2^31` or more does not fit the `int`. -/
theorem intInRange_oversized (n : Nat) (h : 2147483648 ≤ n) : intInRange (n : Int) = none := by
  unfold intInRange
  rw [if_neg]
  omega

/-- The load of a stream of one instruction comes down to the loop over its text. -/
theorem loadInstructions_single (i : RegexInstruction) :
    loadInstructions (saveInstructions [i])
      = loadLoop ((saveInstructions [i]).length + 1) (saveInstruction i) [] := by
  have hm := munch_size 1 ('\n' :: saveInstruction i)
  have htxt : saveInstructions [i] = (toString 1).data ++ ' ' :: '\n' :: saveInstruction i := by
    simp [saveInstructions]
  unfold loadInstructions
  rw [htxt] at *
  simp only [hm.1, hm.2, intInRange_size 1 (by decide), advance, bind, Option.bind]

/-- An instruction with more arguments than an `int` holds is not read back. -/
theorem loadLoop_oversized_count (i : RegexInstruction)
    (h : 2147483648 ≤ i.InstructionData.length) (fuel : Nat) (acc : InstructionSet) :
    loadLoop (fuel + 1) (saveInstruction i) acc = none := by
  have htxt : saveInstruction i
      = i.InstructionType.toChar :: ' ' :: ((toString i.InstructionData.length).data ++
          ' ' :: ((i.InstructionData.map saveData).flatten ++ ['\n'])) := by
    simp [saveInstruction]
  have hm := munch_size i.InstructionData.length
    ((i.InstructionData.map saveData).flatten ++ ['\n'])
  rw [htxt]
  simp only [loadLoop, ofChar_toChar, advance, hm.1, hm.2, intInRange_oversized _ h, bind,
    Option.bind]

/-- An instruction whose first argument is longer than an `int` holds is not read back. -/
theorem loadLoop_oversized_argument (t : RegexInstructionType) (d : String)
    (h : 2147483648 ≤ d.length) (fuel : Nat) (acc : InstructionSet) :
    loadLoop (fuel + 1) (saveInstruction ⟨t, [d]⟩) acc = none := by
  have htxt : saveInstruction ⟨t, [d]⟩
      = t.toChar :: ' ' :: ((toString 1).data ++
          ' ' :: ((toString d.length).data ++ ' ' :: (d.data ++ [' ', '\n']))) := by
    simp [saveInstruction, saveData]
  have hm := munch_size 1 ((toString d.length).data ++ ' ' :: (d.data ++ [' ', '\n']))
  have hm2 := munch_size d.length (d.data ++ [' ', '\n'])
  rw [htxt]
  simp only [loadLoop, ofChar_toChar, advance, hm.1, hm.2, intInRange_size 1 (by decide), bind,
    Option.bind, Int.toNat_ofNat, loadStrings, hm2.1, hm2.2, intInRange_oversized _ h]

/-- C15, as stated for every stream, fails when a size does not fit the `int` of `std::stoi`:
the load operator throws, and gives no stream, for a stream of `2^31` instructions, for an
instruction with `2^31` arguments, and for an argument of `2^31` characters. -/
theorem C15_oversized_stream_counterexample :
    loadInstructions (saveInstructions (List.replicate 2147483648 ⟨.Concat, []⟩)) = none ∧
    loadInstructions (saveInstructions [⟨.Literal, List.replicate 2147483648 ""⟩]) = none ∧
    loadInstructions (saveInstructions
      [⟨.Literal, [String.mk (List.replicate 2147483648 'a')]⟩]) = none :=
  ⟨loadInstructions_oversized _ (by rw [List.length_replicate]),
   by rw [loadInstructions_single]
      exact loadLoop_oversized_count _ (by
        show 2147483648 ≤ (List.replicate 2147483648 "").length
        rw [List.length_replicate]) _ _,
   by rw [loadInstructions_single]
      exact loadLoop_oversized_argument _ _ (by
        show 2147483648 ≤ (List.replicate 2147483648 'a').length
        rw [List.length_replicate]) _ _⟩

/-! ## Reading a numbered capture -/

/-- The conversion to `int` keeps a size below `2^31`. -/
theorem toInt32_size (n : Nat) (h : n < 2147483648) : toInt32 (n % 4294967296) = (n : Int) := by
  have h1 : n % 4294967296 = n := Nat.mod_eq_of_lt (by omega)
  rw [h1]
  unfold toInt32
  rw [if_pos h]

/-- The conversion to `int` never gives more than the size. -/
theorem toInt32_le (n : Nat) : toInt32 (n % 4294967296) ≤ (n : Int) := by
  have h1 : n % 4294967296 ≤ n := Nat.mod_le _ _
  unfold toInt32
  split <;> omega

/-- C16, amended: for an automaton with `n` captures, `GetCapture(Index, ...)` returns false
and leaves the outputs unchanged whenever `Index < 1` or `Index > n`; when `n` is below `2^31`
and `1 ≤ Index ≤ n`, it reads the capture declared `Index`-th, and returns true with its text
and `Succeeded` flag if that capture is a single-string capture, false if it is a
collection. -/
theorem C16_getCapture_index (A : Regex) (Index : Int) :
    ((Index < 1 ∨ Index > A.Captures.length) → A.GetCapture Index = none) ∧
    (A.Captures.length < 2147483648 → 1 ≤ Index → Index ≤ A.Captures.length →
      ∃ c : RegexCaptureBase, A.Captures.get? (Index - 1).toNat = some c ∧
        (∀ t, c.CapturedInputs = .single t → A.GetCapture Index = some (t, c.Succeeded)) ∧
        (∀ l, c.CapturedInputs = .collection l → A.GetCapture Index = none)) := by
  refine ⟨?_, ?_⟩
  · intro h
    unfold Regex.GetCapture
    rw [if_pos]
    have := toInt32_le A.Captures.length
    omega
  · intro hn h1 h2
    have hlt : (Index - 1).toNat < A.Captures.length := by omega
    refine ⟨A.Captures.get ⟨(Index - 1).toNat, hlt⟩, List.get?_eq_get hlt, ?_, ?_⟩
    · intro t ht
      unfold Regex.GetCapture
      rw [if_neg (by rw [toInt32_size _ hn]; omega), List.get?_eq_get hlt]
      simp only [ht]
    · intro l hl
      unfold Regex.GetCapture
      rw [if_neg (by rw [toInt32_size _ hn]; omega), List.get?_eq_get hlt]
      simp only [hl]

/-- C16, instance: after `Match("xa")` the automaton of `x(a)` has one capture; index 1 gives
its text "a" with the flag true, the indices 0 and 2 give nothing. -/
theorem C16_getCapture_index_witness :
    (((compiled 50 "x(a)").Match 50 "xa").after?.getD {}).Captures.length = 1 ∧
    ∃ c : RegexCaptureBase,
      (((compiled 50 "x(a)").Match 50 "xa").after?.getD {}).Captures.get? ((1 : Int) - 1).toNat
        = some c ∧
      (∀ t, c.CapturedInputs = .single t →
        (((compiled 50 "x(a)").Match 50 "xa").after?.getD {}).GetCapture 1
          = some (t, c.Succeeded)) ∧
      (∀ l, c.CapturedInputs = .collection l →
        (((compiled 50 "x(a)").Match 50 "xa").after?.getD {}).GetCapture 1 = none) :=
  ⟨by decide!,
   (C16_getCapture_index (((compiled 50 "x(a)").Match 50 "xa").after?.getD {}) 1).2
     (by decide!) (by decide) (by decide!)⟩

/-- An automaton with exactly `2^31` captures gives nothing at index 1. -/
theorem GetCapture_oversized (A : Regex) (h : A.Captures.length = 2147483648) :
    A.GetCapture 1 = none := by
  unfold Regex.GetCapture
  rw [h, if_pos]
  right
  unfold toInt32
  omega

/-- C16, as stated for every number of captures, fails for an automaton with `2^31`
single-string captures: the converted size is negative, and `GetCapture(1, ...)` returns
false. -/
theorem C16_oversized_counterexample :
    ({ Captures := List.replicate 2147483648 {} } : Regex).Captures.length = 2147483648 ∧
    ({} : RegexCaptureBase).CapturedInputs = .single [] ∧
    ({ Captures := List.replicate 2147483648 {} } : Regex).GetCapture 1 = none :=
  ⟨List.length_replicate _ _, rfl, GetCapture_oversized _ (List.length_replicate _ _)⟩

/-! ## Back-references -/

/-- The pre-match reset leaves the nodes of the automaton as they are. -/
theorem preMatch_node (A : Regex) (n : NodeId) : A.preMatch.node n = A.node n := rfl

/-- The reset of a capture keeps its `Succeeded` flag. -/
theorem succeeded_reset (c : RegexCaptureBase) :
    (if ¬ c.Manual then c.Reset else c).Succeeded = c.Succeeded := by
  split <;> rfl

/-- The pre-match reset does not change the `Succeeded` flag of a capture. -/
theorem preMatch_succeeded (A : Regex) (cp : CapturePtr) :
    A.preMatch.state.succeeded? cp = A.state.succeeded? cp := by
  cases cp with
  | capture i =>
    simp only [MatchState.succeeded?, MatchState.capture, Regex.state, Regex.preMatch,
      Regex.ResetPreMatch, List.get?_eq_getElem?, List.getElem?_map]
    cases A.Captures[i]? with
    | none => rfl
    | some c =>
      simp only [Option.map_some', Run.toOption, succeeded_reset]
  | subroutine i =>
    simp only [MatchState.succeeded?, MatchState.capture, Regex.state, Regex.preMatch,
      Regex.ResetPreMatch, List.get?_eq_getElem?, List.getElem?_map]
    cases A.DefinedSubroutines[i]? with
    | none => rfl
    | some c => rfl

/-- A back-reference node without a bound capture, or whose capture has not succeeded, cannot
be entered and leaves the iterator and the state as they are. -/
theorem CanEnter_backreference_unset (fuel : Nat) (A : Regex) (text : List Char) (n : NodeId)
    (Input : Int) (Outers : Option (List NodeId)) (σ : MatchState) (b : Option CapturePtr)
    (hn : A.backrefCaptureAt n = some b)
    (hb : b = none ∨ ∃ cp, b = some cp ∧ σ.succeeded? cp = some false) :
    CanEnter (fuel + 1) A text n Input Outers σ = .ok (false, Input, σ) := by
  unfold Regex.backrefCaptureAt at hn
  cases hnd : A.node n with
  | error e => simp [hnd, Run.toOption] at hn
  | ok nd =>
    simp only [hnd, Run.toOption] at hn
    unfold CanEnter
    simp only [hnd, bind, Except.bind]
    cases hk : nd.kind <;> simp only [hk] at hn <;> try (cases hn)
    rcases hb with hb | ⟨cp, hb, hs⟩
    · subst hb; rfl
    · subst hb
      unfold MatchState.succeeded? at hs
      cases hc : σ.capture cp with
      | error e => simp [hc, Run.toOption] at hs
      | ok cap =>
        simp only [hc, Run.toOption, Option.map_some', Option.some.injEq] at hs
        simp only [hc, hs]
        rfl

/-! ## `Collapse` and `PruneIntermediaryGhosts` -/

/-- C18: `Collapse` merges sibling nodes that do not accept the same inputs.  The two
word-boundary nodes of the stream (over `[a]` and over `[b]`) are merged into the one visited
first: at position 1 of "xbz" the original loose ends accept and the collapsed ones do not
(and likewise "xaz" when the stream lists the checks in the other order).  In the loose ends
of the pattern `\1|b` the literal node is merged into the back-reference node visited before
it: the original loose ends accept "b", the collapsed ones accept nothing. -/
theorem C18_collapse_changes_acceptance :
    startsAroundCollapse 50 (wordBoundaryStream "0" "1") = some (2, 1) ∧
    matchAroundCollapse 50 (wordBoundaryStream "0" "1") "xbz" 1
      = some (true, 1, false, 0) ∧
    matchAroundCollapse 50 (wordBoundaryStream "1" "0") "xaz" 1
      = some (true, 1, false, 0) ∧
    (Translate 50 "\\1|b" 100).map (fun r => r.2) = some "" ∧
    (Translate 50 "\\1|b" 100).bind (fun r => startsAroundCollapse 50 r.1)
      = some (2, 1) ∧
    (Translate 50 "\\1|b" 100).bind (fun r => matchAroundCollapse 50 r.1 "b" 0)
      = some (true, 0, false, -1) := by
  decide!

/-! ## Sets as lists -/

/-- Membership after an insertion into a set. -/
theorem mem_setInsert {α : Type} [DecidableEq α] (s : List α) (a m : α) :
    m ∈ setInsert s a ↔ m ∈ s ∨ m = a := by
  unfold setInsert
  split
  · constructor
    · exact Or.inl
    · rintro (h | h)
      · exact h
      · subst h; assumption
  · simp

/-- Membership after the insertion of a range into a set. -/
theorem mem_setInsertAll {α : Type} [DecidableEq α] (l : List α) : ∀ (s : List α) (m : α),
    m ∈ setInsertAll s l ↔ m ∈ s ∨ m ∈ l := by
  induction l with
  | nil => intro s m; simp [setInsertAll]
  | cons a as ih =>
    intro s m
    have := ih (setInsert s a) m
    simp only [setInsertAll, List.foldl_cons] at this ⊢
    rw [this, mem_setInsert]
    simp only [List.mem_cons]
    tauto

/-- Reading a list after the replacement of one element. -/
theorem get?_setAt {α : Type} (l : List α) : ∀ (c n : Nat) (x : α),
    (setAt l c x).get? n = if n = c ∧ c < l.length then some x else l.get? n := by
  induction l with
  | nil => intro c n x; simp [setAt]
  | cons y ys ih =>
    intro c n x
    cases c with
    | zero =>
      cases n with
      | zero => simp [setAt]
      | succ k => simp [setAt]
    | succ c1 =>
      cases n with
      | zero => simp [setAt]
      | succ k =>
        simp only [setAt, List.get?_cons_succ, ih c1 k x, List.length_cons]
        simp

/-- A second replacement at the same position overwrites the first. -/
theorem setAt_setAt {α : Type} (l : List α) : ∀ (c : Nat) (x y : α),
    setAt (setAt l c x) c y = setAt l c y := by
  induction l with
  | nil => intro c x y; rfl
  | cons z zs ih =>
    intro c x y
    cases c with
    | zero => rfl
    | succ c1 => simp only [setAt, ih]

/-- An invariant of a fold with a step that may fail. -/
theorem foldOpt_inv {α β : Type} (f : β → α → Option β) (P : List α → β → Prop) :
    ∀ (l done : List α) (b b1 : β), P done b →
      (∀ (d : List α) (a : α) (x y : β), P d x → f x a = some y → P (d ++ [a]) y) →
      foldOpt f l b = some b1 → P (done ++ l) b1 := by
  intro l
  induction l with
  | nil =>
    intro done b b1 h0 _ h
    simp only [foldOpt, Option.some.injEq] at h
    subst h
    simpa using h0
  | cons a as ih =>
    intro done b b1 h0 hs h
    simp only [foldOpt] at h
    cases hf : f b a with
    | none => simp [hf] at h
    | some y =>
      simp only [hf] at h
      have := ih (done ++ [a]) y b1 (hs done a b y h0 hf) hs h
      simpa using this

/-! ## The nexts behind ghost nodes -/

/-- The set that `throughIns` returns when every ghost-in can be read. -/
theorem throughIns_spec (A : Regex) (is : List GhostPtr) : ∀ acc : List NodeId,
    allOkIns A is →
    ∃ l, throughIns A is acc = .ok l ∧ ∀ m, m ∈ l ↔ m ∈ acc ∨ viaIns A is m := by
  induction is with
  | nil =>
    intro acc _
    exact ⟨acc, rfl, fun m => by simp [viaIns]⟩
  | cons i is ih =>
    intro acc hok
    obtain ⟨gi, hgi⟩ := hok i (List.mem_cons_self _ _)
    obtain ⟨l, hl, hm⟩ := ih (setInsertAll acc gi.Nexts)
      (fun j hj => hok j (List.mem_cons_of_mem _ hj))
    refine ⟨l, ?_, ?_⟩
    · simp only [throughIns, ghostInNexts, hgi, Except.map]
      exact hl
    · intro m
      rw [hm m, mem_setInsertAll]
      simp only [viaIns, List.mem_cons, exists_eq_or_imp, hgi, Except.ok.injEq, exists_eq_left']
      tauto

/-- The set that `throughOuts` returns when every ghost can be read. -/
theorem throughOuts_spec (A : Regex) (gs : List GhostPtr) : ∀ acc : List NodeId,
    allOkOuts A gs →
    ∃ l, throughOuts A gs acc = .ok l ∧ ∀ m, m ∈ l ↔ m ∈ acc ∨ viaOuts A gs m := by
  induction gs with
  | nil =>
    intro acc _
    exact ⟨acc, rfl, fun m => by simp [viaOuts]⟩
  | cons g gs ih =>
    intro acc hok
    obtain ⟨go, hgo, hins⟩ := hok g (List.mem_cons_self _ _)
    obtain ⟨t, ht, htm⟩ := throughIns_spec A go.GhostNexts [] hins
    obtain ⟨l, hl, hm⟩ := ih (setInsertAll acc t) (fun j hj => hok j (List.mem_cons_of_mem _ hj))
    refine ⟨l, ?_, ?_⟩
    · simp only [throughOuts, ghostOutNexts, hgo, ht]
      exact hl
    · intro m
      rw [hm m, mem_setInsertAll, htm m]
      simp only [viaOuts, List.mem_cons, exists_eq_or_imp, hgo, Except.ok.injEq, exists_eq_left',
        List.not_mem_nil, false_or]
      tauto

/-- `throughIns` depends on the automaton through its ghost-ins only. -/
theorem throughIns_congr (A B : Regex) (h : ∀ g, B.ghostIn g = A.ghostIn g) (is : List GhostPtr) :
    ∀ acc, throughIns B is acc = throughIns A is acc := by
  induction is with
  | nil => intro acc; rfl
  | cons i is ih =>
    intro acc
    simp only [throughIns, ghostInNexts, h i]
    cases (A.ghostIn i) with
    | error e => rfl
    | ok gi => exact ih _

/-- `throughOuts` depends on the automaton through its ghost nodes only. -/
theorem throughOuts_congr (A B : Regex) (hi : ∀ g, B.ghostIn g = A.ghostIn g)
    (ho : ∀ g, B.ghostOut g = A.ghostOut g) (gs : List GhostPtr) :
    ∀ acc, throughOuts B gs acc = throughOuts A gs acc := by
  induction gs with
  | nil => intro acc; rfl
  | cons g gs ih =>
    intro acc
    simp only [throughOuts, ghostOutNexts, ho g]
    cases (A.ghostOut g) with
    | error e => rfl
    | ok go =>
      simp only [throughIns_congr A B hi]
      cases throughIns A go.GhostNexts [] with
      | error e => rfl
      | ok t => exact ih _

/-- Automata that differ in their nodes only have the same ghost-ins. -/
theorem sameButNodes_ghostIn {A B : Regex} (h : A.sameButNodes B) (g : GhostPtr) :
    B.ghostIn g = A.ghostIn g := by
  unfold Regex.sameButNodes at h
  rw [h]
  rfl

/-- Automata that differ in their nodes only have the same ghost-outs. -/
theorem sameButNodes_ghostOut {A B : Regex} (h : A.sameButNodes B) (g : GhostPtr) :
    B.ghostOut g = A.ghostOut g := by
  unfold Regex.sameButNodes at h
  rw [h]
  rfl

/-- The nexts of a node are found through the ghost nodes only. -/
theorem sameButNodes_baseNexts {A B : Regex} (h : A.sameButNodes B) (nd : RegexNode) :
    nd.baseNexts B = nd.baseNexts A :=
  throughOuts_congr A B (sameButNodes_ghostIn h) (sameButNodes_ghostOut h) _ _

/-- Every automaton is itself with its own nodes. -/
theorem sameButNodes_refl (A : Regex) : A.sameButNodes A := rfl

/-- Changing the nodes twice changes the nodes only. -/
theorem sameButNodes_trans {A B C : Regex} (h1 : A.sameButNodes B) (h2 : B.sameButNodes C) :
    A.sameButNodes C := by
  unfold Regex.sameButNodes at *
  rw [h2, h1]

/-- `sameNexts` is reflexive. -/
theorem sameNexts_refl (r : Run (List NodeId)) : sameNexts r r := by
  cases r with
  | error e => rfl
  | ok l => exact fun m => Iff.rfl

/-- `sameNexts` is transitive. -/
theorem sameNexts_trans {r1 r2 r3 : Run (List NodeId)} (h1 : sameNexts r1 r2)
    (h2 : sameNexts r2 r3) : sameNexts r1 r3 := by
  cases r1 <;> cases r2 <;> cases r3 <;> simp only [sameNexts] at h1 h2 ⊢
  · exact h1.trans h2
  · exact fun m => (h1 m).trans (h2 m)

/-! ## What `PruneIntermediaryGhosts` keeps -/

/-- `nodeAgrees` is reflexive. -/
theorem nodeAgrees_refl (A : Regex) (Outs : List GhostPtr) (r : Run RegexNode) :
    nodeAgrees A Outs r r := by
  cases r with
  | error e => rfl
  | ok a => exact ⟨rfl, rfl, sameNexts_refl _, fun _ h => h⟩

/-- `nodeAgrees` is transitive. -/
theorem nodeAgrees_trans {A : Regex} {Outs : List GhostPtr} {r1 r2 r3 : Run RegexNode}
    (h1 : nodeAgrees A Outs r1 r2) (h2 : nodeAgrees A Outs r2 r3) : nodeAgrees A Outs r1 r3 := by
  cases r1 <;> cases r2 <;> cases r3 <;> simp only [nodeAgrees] at h1 h2 ⊢
  · exact h1.trans h2
  · exact ⟨h2.1.trans h1.1, h2.2.1.trans h1.2.1, sameNexts_trans h1.2.2.1 h2.2.2.1,
      fun g hg => h1.2.2.2 g (h2.2.2.2 g hg)⟩

/-- `prunedFrom` is reflexive. -/
theorem prunedFrom_refl (Outs : List GhostPtr) (A : Regex) : prunedFrom Outs A A :=
  ⟨sameButNodes_refl A, fun _ => nodeAgrees_refl A Outs _⟩

/-- `nodeAgrees` may be read in either of two automata that differ in their nodes only. -/
theorem nodeAgrees_congr {A B : Regex} (h : A.sameButNodes B) (Outs : List GhostPtr)
    (ra rb : Run RegexNode) : nodeAgrees B Outs ra rb ↔ nodeAgrees A Outs ra rb := by
  cases ra <;> cases rb <;> simp only [nodeAgrees, sameButNodes_baseNexts h]

/-- `prunedFrom` is transitive. -/
theorem prunedFrom_trans {Outs : List GhostPtr} {A B C : Regex} (h1 : prunedFrom Outs A B)
    (h2 : prunedFrom Outs B C) : prunedFrom Outs A C :=
  ⟨sameButNodes_trans h1.1 h2.1,
   fun n => nodeAgrees_trans (h1.2 n) ((nodeAgrees_congr h1.1 Outs _ _).mp (h2.2 n))⟩

/-- A node pointer can be read when it points at a node that is not deleted. -/
theorem node_ok_iff (A : Regex) (c : NodeId) (nd : RegexNode) :
    A.node c = .ok nd ↔ A.nodes[c]? = some nd ∧ nd.deleted = false := by
  simp only [Regex.node, List.get?_eq_getElem?]
  cases hg : A.nodes[c]? with
  | none => simp
  | some y =>
    by_cases hd : y.deleted = true
    · simp only [hd, if_true, Option.some.injEq]
      constructor
      · intro h; cases h
      · rintro ⟨h1, h2⟩
        rw [h1] at hd
        rw [hd] at h2
        cases h2
    · have hf : y.deleted = false := by simpa using hd
      simp only [hf, Bool.false_eq_true, if_false, Except.ok.injEq, Option.some.injEq]
      constructor
      · intro h; subst h; exact ⟨rfl, hf⟩
      · exact fun h => h.1

/-- The node read after a write through a node pointer. -/
theorem node_setAt (A : Regex) (c : NodeId) (nd x : RegexNode) (hc : A.node c = .ok nd)
    (hx : x.deleted = false) (n : NodeId) :
    ({ A with nodes := setAt A.nodes c x } : Regex).node n = if n = c then .ok x else A.node n := by
  have hlt : c < A.nodes.length := by
    have := ((node_ok_iff A c nd).mp hc).1
    rw [List.getElem?_eq_some_iff] at this
    exact this.1
  unfold Regex.node
  simp only [get?_setAt]
  by_cases hn : n = c
  · simp only [hn, hlt, and_self, if_true, hx]
    rfl
  · simp only [hn, false_and, if_false]

/-- A node that can be read is not deleted. -/
theorem node_not_deleted {A : Regex} {c : NodeId} {nd : RegexNode} (hc : A.node c = .ok nd) :
    nd.deleted = false :=
  ((node_ok_iff A c nd).mp hc).2

/-- Writing back the element that is there changes nothing. -/
theorem setAt_self {α : Type} (l : List α) : ∀ (c : Nat) (x : α), l[c]? = some x →
    setAt l c x = l := by
  induction l with
  | nil => intro c x _; rfl
  | cons y ys ih =>
    intro c x h
    cases c with
    | zero =>
      simp only [List.getElem?_cons_zero, Option.some.injEq] at h
      simp [setAt, h]
    | succ c1 =>
      simp only [List.getElem?_cons_succ] at h
      simp only [setAt, ih c1 x h]

/-- Writing back the node that is there changes nothing. -/
theorem nodeWith_self (A : Regex) (c : NodeId) (nd : RegexNode) (hc : A.node c = .ok nd) :
    nodeWith A c nd = A := by
  unfold nodeWith
  rw [setAt_self _ _ _ ((node_ok_iff A c nd).mp hc).1]

/-- A write through the node pointer that was written last. -/
theorem modifyNode_nodeWith (A : Regex) (c : NodeId) (nd x : RegexNode)
    (hc : A.node c = .ok nd) (hx : x.deleted = false) (f : RegexNode → RegexNode) :
    (nodeWith A c x).modifyNode c f = some (nodeWith A c (f x)) := by
  have hn : (nodeWith A c x).node c = .ok x := by
    unfold nodeWith
    rw [node_setAt A c nd x hc hx c, if_pos rfl]
  unfold Regex.modifyNode
  rw [hn]
  simp only [Run.toOption, Option.map_some', nodeWith, setAt_setAt]

/-- A write through a node pointer changes the nodes only. -/
theorem sameButNodes_nodeWith (A : Regex) (c : NodeId) (x : RegexNode) :
    A.sameButNodes (nodeWith A c x) := rfl

/-- The inner loop of `pruneNode` over the ghost-ins behind one ghost-out. -/
theorem pruneInner_spec (A : Regex) (c : NodeId) (nd : RegexNode) (hc : A.node c = .ok nd)
    (is : List GhostPtr) (X0 : List NodeId) (N0 : List NodeId) (r : Regex × List NodeId)
    (h : foldOpt (fun (s : Regex × List NodeId) currIn =>
            match (s.1.ghostIn currIn).toOption with
            | none => none
            | some gi =>
              (s.1.modifyNode c
                  (fun n1 => { n1 with Nexts := setInsertAll n1.Nexts gi.Nexts })).map
                (fun A1 => (A1, setInsertAll s.2 gi.Nexts)))
          is (nodeWith A c { nd with Nexts := X0 }, N0) = some r) :
    ∃ X, r.1 = nodeWith A c { nd with Nexts := X } ∧
      (∀ m, m ∈ X ↔ m ∈ X0 ∨ viaIns A is m) ∧ allOkIns A is ∧
      (∀ m, m ∈ r.2 → m ∈ N0 ∨ viaIns A is m) := by
  have hd := node_not_deleted hc
  have h0 : ∃ X, nodeWith A c { nd with Nexts := X0 } = nodeWith A c { nd with Nexts := X } ∧
      (∀ m, m ∈ X ↔ m ∈ X0 ∨ viaIns A [] m) ∧ allOkIns A [] ∧
      (∀ m, m ∈ N0 → m ∈ N0 ∨ viaIns A [] m) := by
    refine ⟨X0, rfl, fun m => by simp [viaIns], ?_, fun m hm => Or.inl hm⟩
    intro i hi
    cases hi
  have key := foldOpt_inv _
    (fun (done : List GhostPtr) (s : Regex × List NodeId) =>
      ∃ X, s.1 = nodeWith A c { nd with Nexts := X } ∧
        (∀ m, m ∈ X ↔ m ∈ X0 ∨ viaIns A done m) ∧ allOkIns A done ∧
        (∀ m, m ∈ s.2 → m ∈ N0 ∨ viaIns A done m))
    is [] (nodeWith A c { nd with Nexts := X0 }, N0) r h0 ?_ h
  · simpa using key
  · rintro d a x y ⟨X, hx, hX, hok, hN⟩ hstep
    have hgi : x.1.ghostIn a = A.ghostIn a := by
      rw [hx]; exact sameButNodes_ghostIn (sameButNodes_nodeWith A c _) a
    simp only [hgi] at hstep
    cases hga : A.ghostIn a with
    | error e => simp [hga, Run.toOption] at hstep
    | ok gi =>
      simp only [hga, Run.toOption] at hstep
      rw [hx, modifyNode_nodeWith A c nd { nd with Nexts := X } hc hd] at hstep
      simp only [Option.map_some', Option.some.injEq] at hstep
      subst hstep
      refine ⟨setInsertAll X gi.Nexts, rfl, ?_, ?_, ?_⟩
      · intro m
        rw [mem_setInsertAll, hX m]
        simp only [viaIns, List.mem_append, List.mem_singleton]
        constructor
        · rintro ((h1 | ⟨i, hi, g, hg, hm⟩) | h2)
          · exact Or.inl h1
          · exact Or.inr ⟨i, Or.inl hi, g, hg, hm⟩
          · exact Or.inr ⟨a, Or.inr rfl, gi, hga, h2⟩
        · rintro (h1 | ⟨i, hi | hi, g, hg, hm⟩)
          · exact Or.inl (Or.inl h1)
          · exact Or.inl (Or.inr ⟨i, hi, g, hg, hm⟩)
          · subst hi
            rw [hga] at hg
            cases hg
            exact Or.inr hm
      · intro i hi
        simp only [List.mem_append, List.mem_singleton] at hi
        rcases hi with hi | hi
        · exact hok i hi
        · subst hi; exact ⟨gi, hga⟩
      · intro m hm
        rw [mem_setInsertAll] at hm
        rcases hm with hm | hm
        · rcases hN m hm with h1 | ⟨i, hi, g, hg, hv⟩
          · exact Or.inl h1
          · exact Or.inr ⟨i, List.mem_append.mpr (Or.inl hi), g, hg, hv⟩
        · exact Or.inr ⟨a, List.mem_append.mpr (Or.inr (List.mem_singleton.mpr rfl)), gi, hga, hm⟩

/-- The ghost-outs a pruned node keeps are its boundary outs. -/
theorem prune_kept (Outs : List GhostPtr) (gs : List GhostPtr) :
    (if (gs.filter (fun g => decide (g ∉ Outs))).length = gs.length then []
      else gs.filter (fun g => decide (g ∉ gs.filter (fun g => decide (g ∉ Outs)))))
      = gs.filter (fun g => decide (g ∈ Outs)) := by
  split
  · rename_i hlen
    rw [List.filter_length_eq_length] at hlen
    symm
    rw [List.filter_eq_nil_iff]
    intro g hg
    have := hlen g hg
    simpa using this
  · apply List.filter_congr
    intro g hg
    simp only [List.mem_filter, decide_eq_true_eq, hg, true_and, not_not, decide_not,
      Bool.not_eq_true', decide_eq_false_iff_not]

/-- A node whose nexts were extended by the nexts behind its ghost-outs, and that kept its
boundary outs only, agrees with the node it was. -/
theorem pruned_node_agrees (A : Regex) (Outs : List GhostPtr) (nd : RegexNode)
    (X : List NodeId) (hX : ∀ m, m ∈ X ↔ m ∈ nd.Nexts ∨ viaOuts A nd.GhostNexts m)
    (hok : allOkOuts A nd.GhostNexts) :
    nodeAgrees A Outs (.ok nd)
      (.ok { nd with Nexts := X,
                     GhostNexts := nd.GhostNexts.filter (fun g => decide (g ∈ Outs)) }) := by
  refine ⟨rfl, ?_, ?_, fun g hg => (List.mem_filter.mp hg).1⟩
  · simp only [reachesOut, List.any_filter, Bool.and_self]
  · have hok1 : allOkOuts A (nd.GhostNexts.filter (fun g => decide (g ∈ Outs))) :=
      fun g hg => hok g (List.mem_filter.mp hg).1
    obtain ⟨l, hl, hm⟩ := throughOuts_spec A nd.GhostNexts (setInsertAll [] nd.Nexts) hok
    obtain ⟨l1, hl1, hm1⟩ := throughOuts_spec A
      (nd.GhostNexts.filter (fun g => decide (g ∈ Outs))) (setInsertAll [] X) hok1
    simp only [RegexNode.baseNexts, hl, hl1, sameNexts]
    intro m
    rw [hm m, hm1 m, mem_setInsertAll, mem_setInsertAll, hX m]
    simp only [List.not_mem_nil, false_or]
    constructor
    · intro h; exact Or.inl h
    · rintro (h | ⟨g, hg, go, hgo, hv⟩)
      · exact h
      · exact Or.inr ⟨g, (List.mem_filter.mp hg).1, go, hgo, hv⟩

/-- What `pruneNode` does to the automaton: the node keeps its kind, its boundary outs and the
members of its nexts; nothing else changes.  The nodes it adds to the set of nodes to visit
are nodes behind the ghost-outs of the node. -/
theorem pruneNode_spec (Outs : List GhostPtr) (A : Regex) (N : List NodeId) (c : NodeId)
    (r : Regex × List NodeId) (h : pruneNode Outs (A, N) c = some r) :
    prunedFrom Outs A r.1 ∧
    ∃ nd, A.node c = .ok nd ∧ ∀ m, m ∈ r.2 → m ∈ N ∨ viaOuts A nd.GhostNexts m := by
  unfold pruneNode at h
  cases hc : A.node c with
  | error e => simp [hc, Run.toOption] at h
  | ok nd =>
    have hd := node_not_deleted hc
    simp only [hc, Run.toOption] at h
    split at h
    · cases h
    · rename_i A1 Nexts1 LocalDels hfold
      have h0 : ∃ X, A = nodeWith A c { nd with Nexts := X } ∧
            (∀ m, m ∈ X ↔ m ∈ nd.Nexts ∨ viaOuts A [] m) ∧ allOkOuts A [] ∧
            ([] : List GhostPtr) = ([] : List GhostPtr).filter (fun g => decide (g ∉ Outs)) ∧
            (∀ m, m ∈ N → m ∈ N ∨ viaOuts A [] m) := by
        refine ⟨nd.Nexts, (nodeWith_self A c nd hc).symm, fun m => by simp [viaOuts], ?_, rfl,
          fun m hm => Or.inl hm⟩
        intro i hi
        cases hi
      have key := foldOpt_inv _
        (fun (done : List GhostPtr) (st : Regex × List NodeId × List GhostPtr) =>
          ∃ X, st.1 = nodeWith A c { nd with Nexts := X } ∧
            (∀ m, m ∈ X ↔ m ∈ nd.Nexts ∨ viaOuts A done m) ∧ allOkOuts A done ∧
            st.2.2 = done.filter (fun g => decide (g ∉ Outs)) ∧
            (∀ m, m ∈ st.2.1 → m ∈ N ∨ viaOuts A done m))
        nd.GhostNexts [] (A, N, []) (A1, Nexts1, LocalDels) h0 ?_ hfold
      · obtain ⟨X, hA1, hX, hok, hLD, hN⟩ := key
        simp only [List.nil_append] at hA1 hX hok hLD hN
        subst hA1 hLD
        rw [modifyNode_nodeWith A c nd { nd with Nexts := X } hc hd] at h
        simp only [Option.map_some', Option.some.injEq] at h
        subst h
        have hb : (if (nd.GhostNexts.filter (fun g => decide (g ∉ Outs))).length
              = nd.GhostNexts.length then
              ({ nd with Nexts := X, GhostNexts := [] } : RegexNode)
            else { nd with Nexts := X, GhostNexts := nd.GhostNexts.filter (fun g =>
              decide (g ∉ nd.GhostNexts.filter (fun g => decide (g ∉ Outs)))) })
            = { nd with Nexts := X,
                        GhostNexts := nd.GhostNexts.filter (fun g => decide (g ∈ Outs)) } := by
          rw [← prune_kept Outs nd.GhostNexts]
          split <;> rfl
        refine ⟨⟨sameButNodes_nodeWith A c _, fun n => ?_⟩, nd, rfl, hN⟩
        simp only [nodeWith]
        rw [node_setAt A c nd _ hc (by split <;> exact hd) n]
        by_cases hn : n = c
        · subst hn
          rw [if_pos rfl, hc]
          simp only [hb]
          exact pruned_node_agrees A Outs nd X hX hok
        · rw [if_neg hn]
          exact nodeAgrees_refl A Outs _
      · rintro d a x y ⟨X, hx, hX, hok, hLD, hN⟩ hstep
        have hgo : x.1.ghostOut a = A.ghostOut a := by
          rw [hx]; exact sameButNodes_ghostOut (sameButNodes_nodeWith A c _) a
        simp only [hgo] at hstep
        cases hga : A.ghostOut a with
        | error e => simp [hga] at hstep
        | ok go =>
          simp only [hga] at hstep
          split at hstep
          · cases hstep
          · rename_i A2 Nexts2 hinner
            rw [hx] at hinner
            obtain ⟨X1, hr, hX1, hok1, hN1⟩ :=
              pruneInner_spec A c nd hc go.GhostNexts X x.2.1 (A2, Nexts2) hinner
            simp only [Option.some.injEq] at hstep
            subst hstep
            refine ⟨X1, hr, ?_, ?_, ?_, ?_⟩
            · intro m
              rw [hX1 m, hX m]
              simp only [viaOuts, List.mem_append, List.mem_singleton]
              constructor
              · rintro ((h1 | ⟨g, hg, o, ho, hv⟩) | h2)
                · exact Or.inl h1
                · exact Or.inr ⟨g, Or.inl hg, o, ho, hv⟩
                · exact Or.inr ⟨a, Or.inr rfl, go, hga, h2⟩
              · rintro (h1 | ⟨g, hg | hg, o, ho, hv⟩)
                · exact Or.inl (Or.inl h1)
                · exact Or.inl (Or.inr ⟨g, hg, o, ho, hv⟩)
                · subst hg
                  rw [hga] at ho
                  cases ho
                  exact Or.inr hv
            · intro g hg
              simp only [List.mem_append, List.mem_singleton] at hg
              rcases hg with hg | hg
              · exact hok g hg
              · subst hg; exact ⟨go, hga, hok1⟩
            · simp only [hLD, List.filter_append, List.filter_cons, List.filter_nil]
              by_cases ha : a ∈ Outs <;> simp [ha]
            · intro m hm
              rcases hN1 m hm with h1 | h1
              · rcases hN m h1 with h2 | ⟨g, hg, o, ho, hv⟩
                · exact Or.inl h2
                · exact Or.inr ⟨g, List.mem_append.mpr (Or.inl hg), o, ho, hv⟩
              · exact Or.inr ⟨a, List.mem_append.mpr (Or.inr (List.mem_singleton.mpr rfl)), go,
                  hga, h1⟩

/-- A round of `PruneIntermediaryGhosts` over the nodes `Currs`. -/
theorem pruneFold_spec (Outs : List GhostPtr) (Currs : List NodeId) :
    ∀ (A : Regex) (N : List NodeId) (r : Regex × List NodeId),
      foldOpt (pruneNode Outs) Currs (A, N) = some r → prunedFrom Outs A r.1 := by
  induction Currs with
  | nil =>
    intro A N r h
    simp only [foldOpt, Option.some.injEq] at h
    subst h
    exact prunedFrom_refl Outs A
  | cons c cs ih =>
    intro A N r h
    simp only [foldOpt] at h
    cases hp : pruneNode Outs (A, N) c with
    | none => simp [hp] at h
    | some r1 =>
      simp only [hp] at h
      exact prunedFrom_trans (pruneNode_spec Outs A N c r1 hp).1 (ih r1.1 r1.2 r h)

/-- The rounds of `PruneIntermediaryGhosts`. -/
theorem pruneRounds_spec (Outs : List GhostPtr) (fuel : Nat) :
    ∀ (A : Regex) (Currs : List NodeId) (B : Regex),
      pruneRounds Outs fuel A Currs = some B → prunedFrom Outs A B := by
  induction fuel with
  | zero => intro A Currs B h; simp [pruneRounds] at h
  | succ f ih =>
    intro A Currs B h
    simp only [pruneRounds] at h
    split at h
    · simp only [Option.some.injEq] at h
      subst h
      exact prunedFrom_refl Outs A
    · split at h
      · cases h
      · rename_i A1 Nexts hfold
        exact prunedFrom_trans (pruneFold_spec Outs Currs A [] (A1, Nexts) hfold) (ih A1 Nexts B h)

/-- `PruneIntermediaryGhosts` changes nodes only, and every node agrees with what it was. -/
theorem prune_spec (fuel : Nat) (A B : Regex) (ToPrune : RegexChunkLooseEnds)
    (h : A.PruneIntermediaryGhosts fuel ToPrune = some B) : prunedFrom ToPrune.Outs A B := by
  unfold Regex.PruneIntermediaryGhosts at h
  split at h
  · cases h
  · exact pruneRounds_spec ToPrune.Outs fuel A _ B h

/-- Automata that differ in their nodes only have the same tickers. -/
theorem sameButNodes_ticker {A B : Regex} (h : A.sameButNodes B) (σ : MatchState)
    (p : TickerPtr) : σ.ticker B p = σ.ticker A p := by
  unfold Regex.sameButNodes at h
  rw [h]
  rfl

/-- Nodes that agree have the same `GetNexts`, up to the order of the list. -/
theorem GetNexts_agrees (Outs : List GhostPtr) (A B : Regex) (h : prunedFrom Outs A B)
    (σ : MatchState) (n : NodeId) : sameNexts (GetNexts A σ n) (GetNexts B σ n) := by
  have hn := h.2 n
  unfold GetNexts
  cases ha : A.node n with
  | error e =>
    cases hb : B.node n with
    | error e1 =>
      simp only [ha, hb, nodeAgrees] at hn
      subst hn
      rfl
    | ok b => simp only [ha, hb, nodeAgrees] at hn
  | ok a =>
    cases hb : B.node n with
    | error e1 => simp only [ha, hb, nodeAgrees] at hn
    | ok b =>
      simp only [ha, hb, nodeAgrees] at hn
      obtain ⟨hk, _, hs, _⟩ := hn
      simp only [sameButNodes_baseNexts h.1, hk, sameButNodes_ticker h.1]
      cases hla : a.baseNexts A with
      | error e =>
        cases hlb : b.baseNexts A with
        | error e1 =>
          simp only [hla, hlb, sameNexts] at hs
          subst hs
          rfl
        | ok l1 => simp only [hla, hlb, sameNexts] at hs
      | ok l =>
        cases hlb : b.baseNexts A with
        | error e1 => simp only [hla, hlb, sameNexts] at hs
        | ok l1 =>
          simp only [hla, hlb, sameNexts] at hs
          cases a.kind with
          | NoneOrMore OnceOnly Lazy =>
            by_cases h1 : OnceOnly = true <;> by_cases h2 : Lazy = true <;>
              simp [h1, h2, sameNexts, hs]
          | Loop bt Lazy =>
            cases bt with
            | none => by_cases h2 : Lazy = true <;> simp [h2, sameNexts, hs]
            | some p =>
              simp only []
              cases σ.ticker A p with
              | error e => simp [sameNexts]
              | ok t =>
                by_cases h3 : (t.IsExhausted = false ∧ t.IsMandatory = true) <;>
                  by_cases h2 : Lazy = true <;> simp [h3, h2, sameNexts, hs]
          | _ => simpa [sameNexts] using hs

/-- Nodes that agree reach a boundary out alike. -/
theorem reachesOut_agrees (Outs : List GhostPtr) (A B : Regex) (h : prunedFrom Outs A B)
    (n : NodeId) :
    (B.node n).toOption.map (fun nd => reachesOut nd Outs)
      = (A.node n).toOption.map (fun nd => reachesOut nd Outs) := by
  have hn := h.2 n
  cases ha : A.node n <;> cases hb : B.node n <;> simp only [ha, hb, nodeAgrees] at hn
  · rfl
  · simp only [Run.toOption, Option.map_some', hn.2.1]

/-- A reading that gives a value succeeded with that value. -/
theorem toOption_some {α : Type} {r : Run α} {a : α} (h : r.toOption = some a) : r = .ok a := by
  cases r with
  | error e => cases h
  | ok b => simp only [Run.toOption, Option.some.injEq] at h; rw [h]

/-- The check `layered` establishes the layering. -/
theorem layered_spec (A : Regex) (rank : NodeId → Nat) (h : layered A rank = true) :
    layeredProp A rank := by
  intro n nd hn
  have hlt : n < A.nodes.length := by
    have := ((node_ok_iff A n nd).mp hn).1
    rw [List.getElem?_eq_some_iff] at this
    exact this.1
  unfold layered at h
  rw [List.all_eq_true] at h
  have h1 := h n (List.mem_range.mpr hlt)
  simp only [hn, Run.toOption, List.all_eq_true] at h1
  constructor
  · intro g hg
    have h2 := h1 g hg
    cases hgo : A.ghostOut g with
    | error e => simp [hgo] at h2
    | ok go =>
      refine ⟨go, rfl, ?_⟩
      simp only [hgo, List.all_eq_true] at h2
      intro i hi
      have h3 := h2 i hi
      cases hgi : A.ghostIn i with
      | error e => simp [hgi] at h3
      | ok gi => exact ⟨gi, rfl⟩
  · rintro m ⟨g, hg, go, hgo, i, hi, gi, hgi, hm⟩
    have h2 := h1 g hg
    simp only [hgo, List.all_eq_true] at h2
    have h3 := h2 i hi
    simp only [hgi, List.all_eq_true] at h3
    have h4 := h3 m hm
    simp only [Bool.and_eq_true, decide_eq_true_eq] at h4
    exact h4


/-- A fold whose every step succeeds under an invariant does not fail. -/
theorem foldOpt_ne_none {α β : Type} (f : β → α → Option β) (P : List α → β → Prop) :
    ∀ (l done : List α) (b : β), P done b →
      (∀ (d : List α) (a : α) (x : β), P d x → a ∈ l → ∃ y, f x a = some y ∧ P (d ++ [a]) y) →
      foldOpt f l b ≠ none := by
  intro l
  induction l with
  | nil => intro done b _ _ h; simp [foldOpt] at h
  | cons a as ih =>
    intro done b h0 hs
    obtain ⟨y, hy, hP⟩ := hs done a b h0 (List.mem_cons_self _ _)
    simp only [foldOpt, hy]
    exact ih (done ++ [a]) y hP (fun d a1 x hx ha1 => hs d a1 x hx (List.mem_cons_of_mem _ ha1))

/-- The inner loop of `pruneNode` does not fail when the ghost-ins can be read. -/
theorem pruneInner_ne_none (A : Regex) (c : NodeId) (nd : RegexNode) (hc : A.node c = .ok nd)
    (is : List GhostPtr) (hok : allOkIns A is) (X0 : List NodeId) (N0 : List NodeId) :
    foldOpt (fun (s : Regex × List NodeId) currIn =>
            match (s.1.ghostIn currIn).toOption with
            | none => none
            | some gi =>
              (s.1.modifyNode c
                  (fun n1 => { n1 with Nexts := setInsertAll n1.Nexts gi.Nexts })).map
                (fun A1 => (A1, setInsertAll s.2 gi.Nexts)))
          is (nodeWith A c { nd with Nexts := X0 }, N0) ≠ none := by
  have hd := node_not_deleted hc
  apply foldOpt_ne_none _
    (fun (_ : List GhostPtr) (s : Regex × List NodeId) =>
      ∃ X, s.1 = nodeWith A c { nd with Nexts := X }) is [] _ ⟨X0, rfl⟩
  rintro d a x ⟨X, hx⟩ ha
  obtain ⟨gi, hgi⟩ := hok a ha
  have hga : x.1.ghostIn a = .ok gi := by
    rw [hx, sameButNodes_ghostIn (sameButNodes_nodeWith A c _) a]; exact hgi
  simp only [hga, Run.toOption]
  rw [hx, modifyNode_nodeWith A c nd { nd with Nexts := X } hc hd]
  exact ⟨_, rfl, setInsertAll X gi.Nexts, rfl⟩

/-- `pruneNode` does not fail on a node that can be read and whose ghosts can be read. -/
theorem pruneNode_ne_none (Outs : List GhostPtr) (A : Regex) (N : List NodeId) (c : NodeId)
    (nd : RegexNode) (hc : A.node c = .ok nd) (hok : allOkOuts A nd.GhostNexts) :
    pruneNode Outs (A, N) c ≠ none := by
  have hd := node_not_deleted hc
  unfold pruneNode
  simp only [hc, Run.toOption]
  split
  · rename_i hfold
    exfalso
    revert hfold
    apply foldOpt_ne_none _
      (fun (_ : List GhostPtr) (st : Regex × List NodeId × List GhostPtr) =>
        ∃ X, st.1 = nodeWith A c { nd with Nexts := X }) nd.GhostNexts [] _
      ⟨nd.Nexts, (nodeWith_self A c nd hc).symm⟩
    rintro d a x ⟨X, hx⟩ ha
    obtain ⟨go, hgo, hins⟩ := hok a ha
    have hga : x.1.ghostOut a = .ok go := by
      rw [hx, sameButNodes_ghostOut (sameButNodes_nodeWith A c _) a]; exact hgo
    simp only [hga]
    split
    · rename_i hinner
      exfalso
      rw [hx] at hinner
      exact pruneInner_ne_none A c nd hc go.GhostNexts hins X x.2.1 hinner
    · rename_i A2 Nexts2 hinner
      rw [hx] at hinner
      obtain ⟨X1, hr, _⟩ := pruneInner_spec A c nd hc go.GhostNexts X x.2.1 (A2, Nexts2) hinner
      exact ⟨_, rfl, X1, hr⟩
  · rename_i A1 Nexts1 LocalDels hfold
    have key := foldOpt_inv _
      (fun (_ : List GhostPtr) (st : Regex × List NodeId × List GhostPtr) =>
        ∃ X, st.1 = nodeWith A c { nd with Nexts := X })
      nd.GhostNexts [] (A, N, []) (A1, Nexts1, LocalDels)
      ⟨nd.Nexts, (nodeWith_self A c nd hc).symm⟩ ?_ hfold
    · obtain ⟨X, hA1⟩ := key
      simp only at hA1
      subst hA1
      rw [modifyNode_nodeWith A c nd { nd with Nexts := X } hc hd]
      simp
    · rintro d a x y ⟨X, hx⟩ hstep
      have hgo : x.1.ghostOut a = A.ghostOut a := by
        rw [hx]; exact sameButNodes_ghostOut (sameButNodes_nodeWith A c _) a
      simp only [hgo] at hstep
      cases hga : A.ghostOut a with
      | error e => simp [hga] at hstep
      | ok go =>
        simp only [hga] at hstep
        split at hstep
        · cases hstep
        · rename_i A2 Nexts2 hinner
          rw [hx] at hinner
          obtain ⟨X1, hr, _⟩ :=
            pruneInner_spec A c nd hc go.GhostNexts X x.2.1 (A2, Nexts2) hinner
          simp only [Option.some.injEq] at hstep
          subst hstep
          exact ⟨X1, hr⟩


/-- Pruning keeps every node readable or unreadable as it was. -/
theorem prunedFrom_readable {Outs : List GhostPtr} {A B : Regex} (h : prunedFrom Outs A B)
    (m : NodeId) : (B.node m).toOption.isSome = (A.node m).toOption.isSome := by
  have hn := h.2 m
  cases ha : A.node m <;> cases hb : B.node m <;> simp only [ha, hb, nodeAgrees] at hn <;> rfl

/-- Pruning keeps the graph layered. -/
theorem prunedFrom_layered {Outs : List GhostPtr} {A B : Regex} (rank : NodeId → Nat)
    (h : prunedFrom Outs A B) (hl : layeredProp A rank) : layeredProp B rank := by
  intro n b hb
  have hn := h.2 n
  cases ha : A.node n with
  | error e => simp only [ha, hb, nodeAgrees] at hn
  | ok a =>
    simp only [ha, hb, nodeAgrees] at hn
    obtain ⟨_, _, _, hsub⟩ := hn
    obtain ⟨hok, hvia⟩ := hl n a ha
    have hgi := sameButNodes_ghostIn h.1
    have hgo := sameButNodes_ghostOut h.1
    constructor
    · intro g hg
      obtain ⟨go, hgo1, hins⟩ := hok g (hsub g hg)
      refine ⟨go, by rw [hgo g]; exact hgo1, fun i hi => ?_⟩
      obtain ⟨gi, hgi1⟩ := hins i hi
      exact ⟨gi, by rw [hgi i]; exact hgi1⟩
    · rintro m ⟨g, hg, go, hgo1, i, hi, gi, hgi1, hm⟩
      rw [hgo g] at hgo1
      rw [hgi i] at hgi1
      obtain ⟨h1, h2⟩ := hvia m ⟨g, hsub g hg, go, hgo1, i, hi, gi, hgi1, hm⟩
      exact ⟨by rw [prunedFrom_readable h m]; exact h1, h2⟩

/-- A reading that gives a value succeeded. -/
theorem isSome_ok {α : Type} {r : Run α} (h : r.toOption.isSome = true) : ∃ a, r = .ok a := by
  cases r with
  | error e => cases h
  | ok a => exact ⟨a, rfl⟩

/-- A round of `PruneIntermediaryGhosts` over readable nodes of a layered graph does not fail,
and the nodes it collects for the next round have smaller ranks. -/
theorem pruneFold_some (Outs : List GhostPtr) (rank : NodeId → Nat) (r : Nat)
    (Currs : List NodeId) : ∀ (A : Regex) (N : List NodeId), layeredProp A rank →
      (∀ c ∈ Currs, (A.node c).toOption.isSome = true ∧ rank c ≤ r) →
      (∀ m ∈ N, (A.node m).toOption.isSome = true ∧ rank m < r) →
      ∃ B N1, foldOpt (pruneNode Outs) Currs (A, N) = some (B, N1) ∧ prunedFrom Outs A B ∧
        ∀ m ∈ N1, (A.node m).toOption.isSome = true ∧ rank m < r := by
  induction Currs with
  | nil =>
    intro A N _ _ hN
    exact ⟨A, N, rfl, prunedFrom_refl Outs A, hN⟩
  | cons c cs ih =>
    intro A N hl hC hN
    obtain ⟨hcr, hcb⟩ := hC c (List.mem_cons_self _ _)
    obtain ⟨nd, hc⟩ := isSome_ok hcr
    obtain ⟨hok, hvia⟩ := hl c nd hc
    cases hp : pruneNode Outs (A, N) c with
    | none => exact absurd hp (pruneNode_ne_none Outs A N c nd hc hok)
    | some r1 =>
      obtain ⟨hpr, nd1, hc1, hN1⟩ := pruneNode_spec Outs A N c r1 hp
      rw [hc] at hc1
      cases hc1
      have hN1r : ∀ m ∈ r1.2, (r1.1.node m).toOption.isSome = true ∧ rank m < r := by
        intro m hm
        rw [prunedFrom_readable hpr m]
        rcases hN1 m hm with h1 | h1
        · exact hN m h1
        · obtain ⟨h2, h3⟩ := hvia m h1
          exact ⟨h2, by omega⟩
      obtain ⟨B, N2, hfold, hB, hN2⟩ := ih r1.1 r1.2 (prunedFrom_layered rank hpr hl)
        (fun x hx => by
          rw [prunedFrom_readable hpr x]
          exact hC x (List.mem_cons_of_mem _ hx)) hN1r
      refine ⟨B, N2, ?_, prunedFrom_trans hpr hB, fun m hm => ?_⟩
      · simp only [foldOpt, hp]
        exact hfold
      · have := hN2 m hm
        rw [prunedFrom_readable hpr m] at this
        exact this

/-- The rounds of `PruneIntermediaryGhosts` on a layered graph end: two rounds more than the
highest rank among the nodes to visit suffice. -/
theorem pruneRounds_some (Outs : List GhostPtr) (rank : NodeId → Nat) (r : Nat) :
    ∀ (A : Regex) (Currs : List NodeId), layeredProp A rank →
      (∀ c ∈ Currs, (A.node c).toOption.isSome = true ∧ rank c ≤ r) →
      ∃ B, pruneRounds Outs (r + 2) A Currs = some B := by
  induction r with
  | zero =>
    intro A Currs hl hC
    simp only [pruneRounds]
    split
    · exact ⟨A, rfl⟩
    · obtain ⟨B, N1, hfold, _, hN1⟩ := pruneFold_some Outs rank 0 Currs A [] hl hC
        (fun m hm => by cases hm)
      simp only [hfold]
      have hnil : N1 = [] := by
        cases N1 with
        | nil => rfl
        | cons m ms => exact absurd (hN1 m (List.mem_cons_self _ _)).2 (Nat.not_lt_zero _)
      subst hnil
      exact ⟨B, rfl⟩
  | succ k ih =>
    intro A Currs hl hC
    rw [show k + 1 + 2 = (k + 2) + 1 from rfl, pruneRounds]
    split
    · exact ⟨A, rfl⟩
    · obtain ⟨B, N1, hfold, hB, hN1⟩ := pruneFold_some Outs rank (k + 1) Currs A [] hl hC
        (fun m hm => by cases hm)
      simp only [hfold]
      exact ih B N1 (prunedFrom_layered rank hB hl) (fun m hm => by
        obtain ⟨h1, h2⟩ := hN1 m hm
        rw [prunedFrom_readable hB m]
        exact ⟨h1, by omega⟩)

/-- `PruneIntermediaryGhosts` returns on a layered graph. -/
theorem prune_some (A : Regex) (ToPrune : RegexChunkLooseEnds) (rank : NodeId → Nat)
    (bound : Nat) (hl : layered A rank = true)
    (hs : startsWithin A ToPrune.Ins rank bound = true) :
    ∃ B, A.PruneIntermediaryGhosts (bound + 2) ToPrune = some B := by
  unfold startsWithin at hs
  rw [List.all_eq_true] at hs
  unfold Regex.PruneIntermediaryGhosts
  split
  · rename_i hfold
    exfalso
    revert hfold
    apply foldOpt_ne_none _ (fun (_ : List GhostPtr) (_ : List NodeId) => True) ToPrune.Ins []
      _ trivial
    intro d g x _ hg
    have h1 := hs g hg
    cases hgi : A.ghostIn g with
    | error e => simp [hgi, Run.toOption] at h1
    | ok gi => exact ⟨_, rfl, trivial⟩
  · rename_i Currs hfold
    have key := foldOpt_inv _
      (fun (done : List GhostPtr) (acc : List NodeId) =>
        (∀ g ∈ done, g ∈ ToPrune.Ins) →
          ∀ c ∈ acc, (A.node c).toOption.isSome = true ∧ rank c ≤ bound)
      ToPrune.Ins [] [] Currs (fun _ c hc => by cases hc) ?_ hfold
    · exact pruneRounds_some ToPrune.Outs rank bound A Currs (layered_spec A rank hl)
        (key (fun g hg => by simpa using hg))
    · intro d g x y hx hstep hd
      have hgIn : g ∈ ToPrune.Ins :=
        hd g (List.mem_append.mpr (Or.inr (List.mem_singleton.mpr rfl)))
      cases hgi : A.ghostIn g with
      | error e => simp [hgi, Run.toOption] at hstep
      | ok gi =>
        simp only [hgi, Run.toOption, Option.map_some', Option.some.injEq] at hstep
        subst hstep
        intro c hc
        rw [mem_setInsertAll] at hc
        rcases hc with hc | hc
        · exact hx (fun g1 hg1 => hd g1 (List.mem_append.mpr (Or.inl hg1))) c hc
        · have h1 := hs g hgIn
          simp only [hgi, Run.toOption, List.all_eq_true, Bool.and_eq_true,
            decide_eq_true_eq] at h1
          exact h1 c hc

/-- C19: `PruneIntermediaryGhosts` keeps the real successors and the boundary outs of every
node.  Whenever it returns, every node has the same real successors as before (`GetNexts`
fails alike, or returns lists with the same members, in every state of the tickers), and a
node has a ghost-out among the boundary outs after pruning iff it had one before.  It returns
when the graph behind the loose ends is layered (no cycle through ghost nodes, every ghost
readable): with ranks that fall along the ghost-outs and a start rank of at most `bound`,
`bound + 2` rounds suffice. -/
theorem C19_prune_keeps_nexts (A : Regex) (ToPrune : RegexChunkLooseEnds) :
    (∀ (fuel : Nat) (B : Regex), A.PruneIntermediaryGhosts fuel ToPrune = some B →
      ∀ (σ : MatchState) (n : NodeId),
        sameNexts (GetNexts A σ n) (GetNexts B σ n) ∧
        (B.node n).toOption.map (fun nd => reachesOut nd ToPrune.Outs)
          = (A.node n).toOption.map (fun nd => reachesOut nd ToPrune.Outs)) ∧
    (∀ (rank : NodeId → Nat) (bound : Nat), layered A rank = true →
      startsWithin A ToPrune.Ins rank bound = true →
      ∃ B, A.PruneIntermediaryGhosts (bound + 2) ToPrune = some B) :=
  ⟨fun fuel B h σ n =>
    ⟨GetNexts_agrees ToPrune.Outs A B (prune_spec fuel A B ToPrune h) σ n,
     reachesOut_agrees ToPrune.Outs A B (prune_spec fuel A B ToPrune h) n⟩,
   fun rank bound hl hs => prune_some A ToPrune rank bound hl hs⟩

/-- An option that is some value is that value. -/
theorem eq_some_getD {α : Type} (o : Option α) (d : α) (h : o.isSome = true) :
    o = some (o.getD d) := by
  cases o with
  | none => cases h
  | some a => rfl

/-- C19, instance: in the collapsed loose ends of the pattern `ab` the node of `a` (node 2)
reaches the node of `b` (node 3) through a ghost-out, so the graph is layered with the ranks
1 and 0; pruning returns, makes node 3 a real next of node 2 and drops the ghost-out, and the
successors of node 2 are the same set. -/
theorem C19_prune_keeps_nexts_witness :
    collapsedOf "ab" = some (collapsedPair "ab") ∧
    layered (collapsedPair "ab").1 (fun n => 3 - n) = true ∧
    startsWithin (collapsedPair "ab").1 (collapsedPair "ab").2.Ins (fun n => 3 - n) 1 = true ∧
    (∃ B, (collapsedPair "ab").1.PruneIntermediaryGhosts (1 + 2) (collapsedPair "ab").2
      = some B) ∧
    (collapsedPair "ab").1.PruneIntermediaryGhosts 50 (collapsedPair "ab").2
      = some (prunedOf "ab") ∧
    (sameNexts (GetNexts (collapsedPair "ab").1 ⟨[], [], [], []⟩ 2)
        (GetNexts (prunedOf "ab") ⟨[], [], [], []⟩ 2) ∧
      ((prunedOf "ab").node 2).toOption.map (fun nd => reachesOut nd (collapsedPair "ab").2.Outs)
        = ((collapsedPair "ab").1.node 2).toOption.map (fun nd =>
            reachesOut nd (collapsedPair "ab").2.Outs)) ∧
    ((collapsedPair "ab").1.node 2).toOption.map (fun nd => (nd.Nexts, nd.GhostNexts))
      = some ([], [⟨2, 0⟩]) ∧
    ((prunedOf "ab").node 2).toOption.map (fun nd => (nd.Nexts, nd.GhostNexts))
      = some ([3], []) :=
  ⟨eq_some_getD _ _ (by decide!), by decide!, by decide!,
   (C19_prune_keeps_nexts (collapsedPair "ab").1 (collapsedPair "ab").2).2 (fun n => 3 - n) 1
     (by decide!) (by decide!),
   eq_some_getD _ _ (by decide!),
   (C19_prune_keeps_nexts (collapsedPair "ab").1 (collapsedPair "ab").2).1 50 (prunedOf "ab")
     (eq_some_getD _ _ (by decide!)) ⟨[], [], [], []⟩ 2,
   by decide!, by decide!⟩

/-! ## The nesting limit of the translator -/

/-- C21: for every symbol `[lo, hi]` that is no ligature and every input position that reads
the character `c`, `Matches` returns true iff `lo <= c <= hi` when case-sensitive and iff
`tolower(lo) <= tolower(c) <= tolower(hi)` when case-insensitive, and the iterator is where it
was. -/
theorem C21_range_symbol_matches (text : List Char) (input : Int) (lo hi c : Char) (ci : Bool)
    (hc : deref text input = .ok c) :
    ∃ b, RegexCharacterClassSymbol.Matches text ⟨false, [lo, hi]⟩ input ci = .ok (b, input) ∧
      (b = true ↔
        if ci = true then
          charVal (tolower lo) ≤ charVal (tolower c) ∧ charVal (tolower c) ≤ charVal (tolower hi)
        else charVal lo ≤ charVal c ∧ charVal c ≤ charVal hi) := by
  unfold RegexCharacterClassSymbol.Matches
  simp only [hc]
  cases ci <;> simp

/-- The range `a-z`, case-insensitive, at the `B` of "aBc". -/
theorem C21_range_symbol_matches_witness :
    deref "aBc".data 1 = .ok 'B' ∧
    ∃ b, RegexCharacterClassSymbol.Matches "aBc".data ⟨false, ['a', 'z']⟩ 1 true = .ok (b, 1) ∧
      (b = true ↔
        if true = true then
          charVal (tolower 'a') ≤ charVal (tolower 'B') ∧
            charVal (tolower 'B') ≤ charVal (tolower 'z')
        else charVal 'a' ≤ charVal 'B' ∧ charVal 'B' ≤ charVal 'z') :=
  ⟨rfl, C21_range_symbol_matches "aBc".data 1 'a' 'z' 'B' true rfl⟩

/-- C22: a ligature symbol that fails because the input ends moves the iterator.  The ligature
`abc` on "ab" compares two characters, reaches the end and returns false with the iterator at
position 1 instead of 0; called at the end position it returns false with the iterator one to
the left.  The next symbol of the class is then tried at the moved position, so the class
`[.abc.b]` (the ligature `abc` or the character `b`) accepts the text "ab". -/
theorem C22_ligature_failure_moves_iterator :
    (RegexCharacterClassSymbol.Matches "ab".data ⟨true, "abc".data⟩ 0 false).toOption
      = some (false, 1) ∧
    (RegexCharacterClassSymbol.Matches "ab".data ⟨true, "abc".data⟩ 2 false).toOption
      = some (false, 1) ∧
    Translate 50 "[.abc.b]" 100 =
      some ([instr .MakeCharClassLigatureSymbol ["a", "b", "c"], instr .MakeCharClassSymbol ["b", "b"],
             instr .MakeLiteralCharClass ["f", "f", "0", "1"], instr .Literal ["0"]], "") ∧
    (compile 50 "[.abc.b]").isSome = true ∧
    ((compiled 50 "[.abc.b]").Match 50 "ab").value? = some true := by
  decide!

/-! ## `SetCapture` -/

/-- A capture collection gains the texts in the order of the calls. -/
theorem setCaptures_collection (ss : List (List Char)) (c : RegexCaptureBase) (l : List (List Char))
    (h : c.CapturedInputs = .collection l) :
    (setCaptures c ss).CapturedInputs = .collection (l ++ ss) := by
  induction ss generalizing c l with
  | nil => simp [setCaptures, h]
  | cons s ss ih =>
    have := ih (c.SetCapture s) (l ++ [s]) (by simp [RegexCaptureBase.SetCapture, h])
    simpa [setCaptures] using this

/-- A single capture holds the text of the last call. -/
theorem setCaptures_single (ss : List (List Char)) (c : RegexCaptureBase) (t : List Char)
    (h : c.CapturedInputs = .single t) :
    (setCaptures c ss).CapturedInputs = .single ((t :: ss).getLast (by simp)) := by
  induction ss generalizing c t with
  | nil => simp [setCaptures, h]
  | cons s ss ih =>
    have := ih (c.SetCapture s) s (by simp [RegexCaptureBase.SetCapture, h])
    simpa [setCaptures] using this

/-- After at least one call the capture has succeeded. -/
theorem setCaptures_succeeded (ss : List (List Char)) (c : RegexCaptureBase) (s : List Char) :
    (setCaptures c (ss ++ [s])).Succeeded = true := by
  simp only [setCaptures, List.foldl_append, List.foldl_cons, List.foldl_nil]
  unfold RegexCaptureBase.SetCapture
  split <;> rfl

/-- C23: after `Reset`, the calls `SetCapture(s_1)`, ..., `SetCapture(s_k)` with
`Reset = false` leave a capture collection with exactly the list `[s_1, ..., s_k]` in the order
of the calls, and a single capture with the text of the last call; after at least one call
`Succeeded` is true for both. -/
theorem C23_setCapture_order (c : RegexCaptureBase) (ss : List (List Char)) (s : List Char) :
    (∀ l, c.CapturedInputs = .collection l →
      (setCaptures c.Reset ss).CapturedInputs = .collection ss) ∧
    (∀ t, c.CapturedInputs = .single t →
      (setCaptures c.Reset (ss ++ [s])).CapturedInputs = .single s) ∧
    (setCaptures c.Reset (ss ++ [s])).Succeeded = true := by
  refine ⟨?_, ?_, setCaptures_succeeded _ _ _⟩
  · intro l h
    have := setCaptures_collection ss c.Reset [] (by simp [RegexCaptureBase.Reset, h])
    simpa using this
  · intro t h
    have := setCaptures_single (ss ++ [s]) c.Reset [] (by simp [RegexCaptureBase.Reset, h])
    simpa using this

/-- A collection that held "x" and a single capture that held "x", reset and then set to "a"
and "b". -/
theorem C23_setCapture_order_witness :
    (setCaptures (RegexCaptureBase.Reset { CapturedInputs := .collection [['x']] })
      [['a'], ['b']]).CapturedInputs = .collection [['a'], ['b']] ∧
    (setCaptures (RegexCaptureBase.Reset { CapturedInputs := .single ['x'] })
      ([['a']] ++ [['b']])).CapturedInputs = .single ['b'] ∧
    (setCaptures (RegexCaptureBase.Reset { CapturedInputs := .single ['x'] })
      ([['a']] ++ [['b']])).Succeeded = true :=
  ⟨(C23_setCapture_order { CapturedInputs := .collection [['x']] } [['a'], ['b']] []).1
      [['x']] rfl,
   (C23_setCapture_order { CapturedInputs := .single ['x'] } [['a']] ['b']).2.1 ['x'] rfl,
   (C23_setCapture_order { CapturedInputs := .single ['x'] } [['a']] ['b']).2.2⟩

/-! ## Modifiers and the class table -/

/-- C24: the class table is keyed by the spelling alone, so a literal outside a modifier group
reuses the class a literal inside it has made.  In the stream of `(?i:a)a` the literal after
the group refers to class 0, which was made with the case-insensitive flag "t", and the
automaton accepts "aA"; the literal `b` of `(?i:a)b` gets a class of its own and "aB" is
rejected. -/
theorem C24_class_reused_across_modifier_group :
    Translate 50 "(?i:a)a" 100 =
      some ([instr .MakeCharClassSymbol ["a", "a"], instr .MakeLiteralCharClass ["f", "t", "0"],
             instr .Literal ["0"], instr .NonCaptureGroup ["f"], instr .Literal ["0"],
             instr .Concat []], "") ∧
    (compile 50 "(?i:a)a").isSome = true ∧
    ((compiled 50 "(?i:a)a").Match 50 "aA").value? = some true ∧
    ((compiled 50 "(?i:a)b").Match 50 "aB").value? = some false := by
  decide!

/-! ## Back-references by number -/

/-- The character at the seam of two lists. -/
theorem peek_append (pre rest : List Char) (j : Nat) :
    peek (pre ++ rest) (pre.length + j) = peek rest j := by
  simp only [peek, List.getD_eq_getElem?_getD]
  rw [List.getElem?_append_right (Nat.le_add_right _ _)]
  simp

/-- The reading loop of the reference parsers takes a run of digits that ends at the end
iterator or in front of a character that is no digit. -/
theorem munchWhile_digits (ds : List Char) (hds : ∀ c ∈ ds, isdigit c = true) (post : List Char)
    (endIter : Nat) : ∀ (pre Munch : List Char) (fuel : Nat),
    pre.length + ds.length ≤ endIter →
    (endIter = pre.length + ds.length ∨ isdigit (peek post 0) = false) →
    ds.length < fuel →
    munchWhile (pre ++ ds ++ post) endIter (fun c => false || isdigit c) fuel pre.length Munch =
      some (pre.length + ds.length, Munch ++ ds) := by
  induction ds with
  | nil =>
    intro pre Munch fuel he hstop hf
    obtain ⟨f, rfl⟩ : ∃ f, fuel = f + 1 := ⟨fuel - 1, by simp at hf; omega⟩
    have hp : peek (pre ++ [] ++ post) pre.length = peek post 0 := by
      have := peek_append pre post 0
      simpa using this
    unfold munchWhile
    rw [if_neg]
    · simp
    · rw [hp]
      rcases hstop with h | h
      · simp at h; simp [h]
      · simp [h]
  | cons d ds ih =>
    intro pre Munch fuel he hstop hf
    obtain ⟨f, rfl⟩ : ∃ f, fuel = f + 1 := ⟨fuel - 1, by simp at hf; omega⟩
    have hd : isdigit d = true := hds d (List.mem_cons_self _ _)
    have hp : peek (pre ++ d :: ds ++ post) pre.length = d := by
      have := peek_append pre (d :: ds ++ post) 0
      simpa using this
    unfold munchWhile
    simp only [List.length_cons] at he hstop hf
    rw [if_pos ⟨by omega, by rw [hp]; simpa using hd⟩, hp]
    have := ih (fun c hc => hds c (List.mem_cons_of_mem _ hc)) (pre ++ [d]) (Munch ++ [d]) f
      (by simp; omega) (by rcases hstop with h | h; · left; simp; omega
                           · right; exact h) (by omega)
    simp only [List.length_append, List.length_singleton, List.append_assoc, List.singleton_append,
      List.length_cons, List.length_nil, Nat.zero_add] at this ⊢
    rw [this]
    congr 2
    omega

/-- The decimal text of a number is a non-empty run of digits with its value. -/
theorem decimal_spec (N : Nat) :
    (∀ c ∈ decimal N, isdigit c = true) ∧ decimal N ≠ [] ∧ digitsValue (decimal N) 0 = N :=
  toString_digits N

/-- A text that starts with a literal is not empty. -/
theorem append_ne_empty (a b : String) (h : a ≠ "") : a ++ b ≠ "" := by
  intro hab
  apply h
  have := congrArg String.data hab
  simp only [String.data_append] at this
  apply String.ext
  have h2 := List.append_eq_nil.mp this
  exact h2.1

/-- The head of a signed reference. -/
theorem referenceHead_signed (pre rest : List Char) (sg d : Char) (hs : sg = '-' ∨ sg = '+')
    (hd : isdigit d = true) :
    referenceHead (pre ++ sg :: d :: rest) pre.length =
      .ok (pre.length + 1, if sg = '-' then -1 else 1, false) := by
  have h0 : peek (pre ++ sg :: d :: rest) pre.length = sg := by
    have := peek_append pre (sg :: d :: rest) 0
    simpa using this
  have h1 : peek (pre ++ sg :: d :: rest) (pre.length + 1) = d := by
    have := peek_append pre (sg :: d :: rest) 1
    simpa [peek] using this
  unfold referenceHead
  simp only [h0, h1, hd]
  rcases hs with rfl | rfl
  · simp [show isdigit '-' = false by decide]
  · simp [show isdigit '+' = false by decide, show ('+' = '-') = False from eq_false (by decide)]

/-- The reading of a signed number by `MunchBackref`, up to the arithmetic on the index. -/
theorem MunchBackref_signed (pre post : List Char) (sg : Char) (hs : sg = '-' ∨ sg = '+')
    (N : Nat) (k : Int) (tb : Tables) (Out : InstructionSet) (endIter : Nat)
    (hN : N ≤ 2147483647) (hstop : stopsAt endIter (pre.length + 1 + (decimal N).length) post) :
    MunchBackref (pre ++ sg :: decimal N ++ post) pre.length endIter tb Out k =
      if sg = '+' then
        (intInRange ((N : Int) + k)).map (fun TrueCap =>
          ⟨pre.length + 1 + (decimal N).length, tb, Out ++ [instr .Backref_Numbered [to_string TrueCap]]⟩)
      else
        (intInRange (k + 1)).map (fun Next =>
          if Next + (-(N : Int)) > 0 then
            ⟨pre.length + 1 + (decimal N).length, tb,
              Out ++ [instr .Backref_Numbered [to_string (Next + (-(N : Int)))]]⟩
          else
            ⟨pre.length + 1 + (decimal N).length, { tb with error := ("Regex Compile Error: Capture Group '" ++
                      to_string (Next + (-(N : Int))) ++ "' does not and cannot exist. " ++
                      "The relative backreference given is malformed.") }, Out⟩) := by
  obtain ⟨hds, hne, hval⟩ := decimal_spec N
  obtain ⟨d, ds, hdd⟩ : ∃ d ds, decimal N = d :: ds := by
    cases h : decimal N with
    | nil => exact absurd h hne
    | cons d ds => exact ⟨d, ds, rfl⟩
  have hd : isdigit d = true := hds d (by rw [hdd]; exact List.mem_cons_self _ _)
  have hhead := referenceHead_signed pre (ds ++ post) sg d hs hd
  have e1 : pre ++ sg :: decimal N ++ post = pre ++ sg :: d :: (ds ++ post) := by rw [hdd]; simp
  have e2 : pre ++ [sg] ++ decimal N ++ post = pre ++ sg :: decimal N ++ post := by simp
  have hlen : (decimal N).length = ds.length + 1 := by rw [hdd]; rfl
  have hmunch : munchWhile (pre ++ sg :: d :: (ds ++ post)) endIter (fun c => false || isdigit c)
      ((pre ++ sg :: d :: (ds ++ post)).length + 2) (pre.length + 1) [] =
      some (pre.length + 1 + (decimal N).length, decimal N) := by
    have := munchWhile_digits (decimal N) hds post endIter (pre ++ [sg]) []
      ((pre ++ sg :: d :: (ds ++ post)).length + 2)
      (by have := hstop.1; simp; omega)
      (by rcases hstop.2 with h | h
          · left; simp; omega
          · right; exact h)
      (by simp; omega)
    rw [e2, e1] at this
    simpa using this
  have hstoi : stoi (String.mk (decimal N)) = some (N : Int) := by
    rw [stoi_digits _ hds hne, hval, intInRange_size N (by omega)]
  have hpk : isdigit (peek (decimal N) 0) = true := by rw [hdd]; exact hd
  unfold MunchBackref
  rw [e1]
  rw [hhead]
  simp only []
  rw [hmunch]
  simp only [hpk, hstoi, if_true]
  rcases hs with rfl | rfl
  · simp [show ('-' = '+') = False from eq_false (by decide)]
  · simp

/-- The reading of a plain number by `MunchBackref`. -/
theorem MunchBackref_plain (pre post : List Char) (N : Nat) (k : Int) (tb : Tables)
    (Out : InstructionSet) (endIter : Nat)
    (hN : N ≤ 2147483647) (hstop : stopsAt endIter (pre.length + (decimal N).length) post) :
    MunchBackref (pre ++ decimal N ++ post) pre.length endIter tb Out k =
      if 0 < N then
        some ⟨pre.length + (decimal N).length, tb,
          Out ++ [instr .Backref_Numbered [String.mk (decimal N)]]⟩
      else
        some ⟨pre.length + (decimal N).length, { tb with error := ("Regex Compile Error: Capture Group '" ++
              String.mk (decimal N) ++ "' does not and cannot exist. " ++
              "The relative backreference given is malformed.") }, Out⟩ := by
  obtain ⟨hds, hne, hval⟩ := decimal_spec N
  obtain ⟨d, ds, hdd⟩ : ∃ d ds, decimal N = d :: ds := by
    cases h : decimal N with
    | nil => exact absurd h hne
    | cons d ds => exact ⟨d, ds, rfl⟩
  have hd : isdigit d = true := hds d (by rw [hdd]; exact List.mem_cons_self _ _)
  have e1 : pre ++ decimal N ++ post = pre ++ d :: (ds ++ post) := by rw [hdd]; simp
  have hhead : referenceHead (pre ++ d :: (ds ++ post)) pre.length = .ok (pre.length, 0, false) := by
    have h0 : peek (pre ++ d :: (ds ++ post)) pre.length = d := by
      have := peek_append pre (d :: (ds ++ post)) 0
      simpa using this
    unfold referenceHead
    simp only [h0, hd, if_true]
  have hlen : (decimal N).length = ds.length + 1 := by rw [hdd]; rfl
  have hmunch : munchWhile (pre ++ d :: (ds ++ post)) endIter (fun c => false || isdigit c)
      ((pre ++ d :: (ds ++ post)).length + 2) pre.length [] =
      some (pre.length + (decimal N).length, decimal N) := by
    have := munchWhile_digits (decimal N) hds post endIter pre []
      ((pre ++ d :: (ds ++ post)).length + 2) hstop.1 hstop.2 (by simp; omega)
    rw [e1] at this
    simpa using this
  have hstoi : stoi (String.mk (decimal N)) = some (N : Int) := by
    rw [stoi_digits _ hds hne, hval, intInRange_size N (by omega)]
  have hpk : isdigit (peek (decimal N) 0) = true := by rw [hdd]; exact hd
  unfold MunchBackref
  rw [e1, hhead]
  simp only []
  rw [hmunch]
  simp only [hpk, hstoi, if_true]
  simp

/-- C25 (amended): with `k` capture groups counted and a number `N` within the range of `int`
written in decimal, `MunchBackref` emits for the relative reference `-N` the instruction
`Backref_Numbered` with the index `k + 1 - N` when that is positive, and otherwise sets a compile
error and emits nothing; for the forward reference `+N` it emits the index `k + N` (when the sum
is within the range of `int`); for the plain number `N > 0` it emits the index `N`, and for
`N = 0` it sets a compile error and emits nothing. -/
theorem C25_backref_index (pre post : List Char) (N : Nat) (k : Int) (tb : Tables)
    (Out : InstructionSet) (endIter : Nat) (hN : N ≤ 2147483647) (hk : 0 ≤ k ∧ k < 2147483647) :
    (stopsAt endIter (pre.length + 1 + (decimal N).length) post →
      (0 < k + 1 - N →
        MunchBackref (pre ++ '-' :: decimal N ++ post) pre.length endIter tb Out k =
          some ⟨pre.length + 1 + (decimal N).length, tb,
            Out ++ [instr .Backref_Numbered [to_string (k + 1 - N)]]⟩) ∧
      (k + 1 - N ≤ 0 → ∃ msg, msg ≠ "" ∧
        MunchBackref (pre ++ '-' :: decimal N ++ post) pre.length endIter tb Out k =
          some ⟨pre.length + 1 + (decimal N).length, { tb with error := msg }, Out⟩) ∧
      (k + N ≤ 2147483647 →
        MunchBackref (pre ++ '+' :: decimal N ++ post) pre.length endIter tb Out k =
          some ⟨pre.length + 1 + (decimal N).length, tb,
            Out ++ [instr .Backref_Numbered [to_string (k + N)]]⟩)) ∧
    (stopsAt endIter (pre.length + (decimal N).length) post →
      (0 < N →
        MunchBackref (pre ++ decimal N ++ post) pre.length endIter tb Out k =
          some ⟨pre.length + (decimal N).length, tb,
            Out ++ [instr .Backref_Numbered [String.mk (decimal N)]]⟩) ∧
      (N = 0 → ∃ msg, msg ≠ "" ∧
        MunchBackref (pre ++ decimal N ++ post) pre.length endIter tb Out k =
          some ⟨pre.length + (decimal N).length, { tb with error := msg }, Out⟩)) := by
  have hk1 : intInRange (k + 1) = some (k + 1) := by
    unfold intInRange; rw [if_pos]; omega
  refine ⟨fun hstop => ⟨?_, ?_, ?_⟩, fun hstop => ⟨?_, ?_⟩⟩
  · intro hpos
    rw [MunchBackref_signed pre post '-' (Or.inl rfl) N k tb Out endIter hN hstop,
      if_neg (by decide), hk1]
    have e : k + 1 + -(N : Int) = k + 1 - N := by omega
    simp only [Option.map_some', e]
    rw [if_pos (by omega)]
  · intro hneg
    refine ⟨"Regex Compile Error: Capture Group '" ++ to_string (k + 1 + (-(N : Int))) ++
      "' does not and cannot exist. " ++ "The relative backreference given is malformed.", ?_, ?_⟩
    · simp only [String.append_assoc]
      exact append_ne_empty _ _ (by decide)
    · rw [MunchBackref_signed pre post '-' (Or.inl rfl) N k tb Out endIter hN hstop,
        if_neg (by decide), hk1]
      simp only [Option.map_some']
      rw [if_neg (by omega)]
  · intro hsum
    rw [MunchBackref_signed pre post '+' (Or.inr rfl) N k tb Out endIter hN hstop, if_pos rfl]
    have e : (N : Int) + k = k + N := by omega
    rw [e]
    have : intInRange (k + N) = some (k + N) := by
      unfold intInRange; rw [if_pos]; omega
    rw [this]
    rfl
  · intro hpos
    rw [MunchBackref_plain pre post N k tb Out endIter hN hstop, if_pos hpos]
  · intro h0
    refine ⟨"Regex Compile Error: Capture Group '" ++ String.mk (decimal N) ++
      "' does not and cannot exist. " ++ "The relative backreference given is malformed.", ?_, ?_⟩
    · simp only [String.append_assoc]
      exact append_ne_empty _ _ (by decide)
    · rw [MunchBackref_plain pre post N k tb Out endIter hN hstop, if_neg (by omega)]

/-- The references `-2` and `+2` with two groups counted, and the plain number `7` in front of
a letter. -/
theorem C25_backref_index_witness :
    ((2 : Nat) ≤ 2147483647 ∧ (0 ≤ (2 : Int) ∧ (2 : Int) < 2147483647)) ∧
    stopsAt 2 (([] : List Char).length + 1 + (decimal 2).length) ['}'] ∧
    MunchBackref ([] ++ '-' :: decimal 2 ++ ['}']) ([] : List Char).length 2 {} [] 2 =
      some ⟨([] : List Char).length + 1 + (decimal 2).length, {},
        [] ++ [instr .Backref_Numbered [to_string ((2 : Int) + 1 - ((2 : Nat) : Int))]]⟩ ∧
    MunchBackref ([] ++ '+' :: decimal 2 ++ ['}']) ([] : List Char).length 2 {} [] 2 =
      some ⟨([] : List Char).length + 1 + (decimal 2).length, {},
        [] ++ [instr .Backref_Numbered [to_string ((2 : Int) + ((2 : Nat) : Int))]]⟩ ∧
    stopsAt 2 (([] : List Char).length + (decimal 7).length) ['a'] ∧
    MunchBackref ([] ++ decimal 7 ++ ['a']) ([] : List Char).length 2 {} [] 2 =
      some ⟨([] : List Char).length + (decimal 7).length, {},
        [] ++ [instr .Backref_Numbered [String.mk (decimal 7)]]⟩ :=
  ⟨⟨by decide, by decide⟩, ⟨by decide!, Or.inl (by decide!)⟩,
   ((C25_backref_index [] ['}'] 2 2 {} [] 2 (by decide) (by decide)).1
      ⟨by decide!, Or.inl (by decide!)⟩).1 (by decide),
   ((C25_backref_index [] ['}'] 2 2 {} [] 2 (by decide) (by decide)).1
      ⟨by decide!, Or.inl (by decide!)⟩).2.2 (by decide),
   ⟨by decide!, Or.inr (by decide)⟩,
   ((C25_backref_index [] ['a'] 7 2 {} [] 2 (by decide) (by decide)).2
      ⟨by decide!, Or.inr (by decide)⟩).1 (by decide)⟩

/-- C25, counterexample: a number beyond the range of `int` makes `std::stoi` throw
`std::out_of_range`, so `MunchBackref` neither emits an instruction nor sets a compile error,
for the relative, the forward and the plain form alike; the translation of
`(a)\k{+2147483648}` does not come back with a stream. -/
theorem C25_number_out_of_range_counterexample :
    MunchBackref "-2147483648\x7d".data 0 11 {} [] 1 = none ∧
    MunchBackref "+2147483648\x7d".data 0 11 {} [] 1 = none ∧
    MunchBackref "2147483648".data 0 10 {} [] 1 = none ∧
    Translate 50 "(a)\\k\x7b+2147483648\x7d" 100 = none ∧
    (Translate 50 "(a)\\k\x7b+2147483646\x7d" 100).isSome = true := by
  decide!

/-! ## Subroutine calls -/

/-- C26: a relative or forward subroutine call carries the number as written in the place of
the capture number and the absolute index in the place of the depth limit.  With two groups
counted `\g{-1}` emits `Subroutine_Numbered` with the arguments ("1", "2") where the plain call
`\g{2}` emits ("2", "100"); with one group counted `\g{+1}` emits ("1", "2").  The automaton of
`(a)(b)\g{-1}` calls group 1: it rejects "abb" and accepts "aba", while `(a)(b)\g{2}` accepts
"abb". -/
theorem C26_relative_subroutine_arguments :
    Translate 50 "(a)(b)\\g\x7b-1\x7d" 100 =
      some ([instr .MakeCapture ["f"], instr .MakeCharClassSymbol ["a", "a"],
             instr .MakeLiteralCharClass ["f", "f", "0"], instr .Literal ["0"],
             instr .CaptureGroup_Numbered ["1", "f"], instr .MakeCapture ["f"],
             instr .MakeCharClassSymbol ["b", "b"], instr .MakeLiteralCharClass ["f", "f", "1"],
             instr .Literal ["1"], instr .CaptureGroup_Numbered ["2", "f"], instr .Concat [],
             instr .Subroutine_Numbered ["1", "2"], instr .Concat []], "") ∧
    Translate 50 "(a)(b)\\g\x7b2\x7d" 100 =
      some ([instr .MakeCapture ["f"], instr .MakeCharClassSymbol ["a", "a"],
             instr .MakeLiteralCharClass ["f", "f", "0"], instr .Literal ["0"],
             instr .CaptureGroup_Numbered ["1", "f"], instr .MakeCapture ["f"],
             instr .MakeCharClassSymbol ["b", "b"], instr .MakeLiteralCharClass ["f", "f", "1"],
             instr .Literal ["1"], instr .CaptureGroup_Numbered ["2", "f"], instr .Concat [],
             instr .Subroutine_Numbered ["2", "100"], instr .Concat []], "") ∧
    Translate 50 "(a)\\g\x7b+1\x7d(b)" 100 =
      some ([instr .MakeCapture ["f"], instr .MakeCharClassSymbol ["a", "a"],
             instr .MakeLiteralCharClass ["f", "f", "0"], instr .Literal ["0"],
             instr .CaptureGroup_Numbered ["1", "f"], instr .Subroutine_Numbered ["1", "2"],
             instr .Concat [], instr .MakeCapture ["f"],
             instr .MakeCharClassSymbol ["b", "b"], instr .MakeLiteralCharClass ["f", "f", "1"],
             instr .Literal ["1"], instr .CaptureGroup_Numbered ["2", "f"], instr .Concat []], "") ∧
    (compile 50 "(a)(b)\\g\x7b-1\x7d").isSome = true ∧
    ((compiled 50 "(a)(b)\\g\x7b-1\x7d").Match 50 "abb").value? = some false ∧
    ((compiled 50 "(a)(b)\\g\x7b-1\x7d").Match 50 "aba").value? = some true ∧
    ((compiled 50 "(a)(b)\\g\x7b2\x7d").Match 50 "abb").value? = some true := by
  decide!

/-! ## `SimilarTo` -/

/-- C27: `RegexNode::SimilarTo` is a one-sided test.  A plain literal node is similar to a
back-reference node (which has no comparators) although the back-reference node is not similar
to it, and a plain node over two classes is similar to a plain node over one of them although
not the other way round. -/
theorem C27_similarTo_one_sided :
    RegexNode.SimilarTo { Comparators := [0] } { kind := .Backreference "1" none } = true ∧
    RegexNode.SimilarTo { kind := .Backreference "1" none } { Comparators := [0] } = false ∧
    RegexNode.SimilarTo { Comparators := [0, 1] } { Comparators := [0] } = true ∧
    RegexNode.SimilarTo { Comparators := [0] } { Comparators := [0, 1] } = false := by
  decide

/-! ## The stack of the assembler -/

/-- C28: patterns that translate without an error and whose stream takes a chunk off the empty
stack.  The empty group `()` gives the stream `MakeCapture`, `CaptureGroup_Numbered`, and the
quantifier `*` at the start gives `NPlus`: the first instruction that pops finds `ChunkStack`
empty, and `AssembleAutomaton` has no defined result. -/
theorem C28_stream_pops_empty_stack :
    Translate 50 "()" 100 =
      some ([instr .MakeCapture ["f"], instr .CaptureGroup_Numbered ["1", "f"]], "") ∧
    stackRun [instr .MakeCapture ["f"], instr .CaptureGroup_Numbered ["1", "f"]] 0 = none ∧
    (AssembleAutomaton 50 [instr .MakeCapture ["f"], instr .CaptureGroup_Numbered ["1", "f"]]
      {} none).isNone = true ∧
    Translate 50 "*" 100 = some ([instr .NPlus []], "") ∧
    stackRun [instr .NPlus []] 0 = none ∧
    (AssembleAutomaton 50 [instr .NPlus []] {} none).isNone = true ∧
    (Translate 50 "a*" 100).map (fun r => stackRun r.1 0) = some (some 1) := by
  decide!

/-! ## Capture indices and the tables of the translator -/

/-- C29: the counter of capture groups restarts in every nested translation.  Both groups of
`((a)b)` carry the index 1, and so do the two groups of `(a)|(b)`.  Both capture nodes of
`((a)b)` are bound to the first entry of the capture list: after the match of "ab" capture 1
holds "ab" and capture 2 has never been written. -/
theorem C29_nested_groups_share_index :
    Translate 50 "((a)b)" 100 =
      some ([instr .MakeCapture ["f"], instr .MakeCapture ["f"],
             instr .MakeCharClassSymbol ["a", "a"], instr .MakeLiteralCharClass ["f", "f", "0"],
             instr .Literal ["0"], instr .CaptureGroup_Numbered ["1", "f"],
             instr .MakeCharClassSymbol ["b", "b"], instr .MakeLiteralCharClass ["f", "f", "1"],
             instr .Literal ["1"], instr .Concat [], instr .CaptureGroup_Numbered ["1", "f"]], "") ∧
    Translate 50 "(a)|(b)" 100 =
      some ([instr .MakeCapture ["f"], instr .MakeCharClassSymbol ["a", "a"],
             instr .MakeLiteralCharClass ["f", "f", "0"], instr .Literal ["0"],
             instr .CaptureGroup_Numbered ["1", "f"], instr .MakeCapture ["f"],
             instr .MakeCharClassSymbol ["b", "b"], instr .MakeLiteralCharClass ["f", "f", "1"],
             instr .Literal ["1"], instr .CaptureGroup_Numbered ["1", "f"],
             instr .Alternate []], "") ∧
    (compile 50 "((a)b)").isSome = true ∧
    ((compiled 50 "((a)b)").Match 50 "ab").value? = some true ∧
    (((compiled 50 "((a)b)").Match 50 "ab").after?.map (fun A => A.GetCapture 1))
      = some (some ("ab".data, true)) ∧
    (((compiled 50 "((a)b)").Match 50 "ab").after?.map (fun A => A.GetCapture 2))
      = some (some ([], false)) := by
  decide!

/-- C30: `MunchLiteral` emits the symbol of a literal again although the symbol table holds
it.  In the stream of `[ab]a` the instruction `MakeCharClassSymbol` with the pair ("a", "a")
occurs twice, as symbol 0 of the class and as symbol 2 of the literal. -/
theorem C30_symbol_emitted_twice :
    Translate 50 "[ab]a" 100 =
      some ([instr .MakeCharClassSymbol ["a", "a"], instr .MakeCharClassSymbol ["b", "b"],
             instr .MakeLiteralCharClass ["f", "f", "0", "1"], instr .Literal ["0"],
             instr .MakeCharClassSymbol ["a", "a"], instr .MakeLiteralCharClass ["f", "f", "2"],
             instr .Literal ["1"], instr .Concat []], "") := by
  decide!

/-! ## Repeat quantifiers in the translator -/

/-- C32: `MunchOp` reads one digit per bound.  The patterns `a{10}`, `a{10,}` and `a{1,10}`
do not translate to a `Repeat` instruction: the translation ends with the error that the
closing bracket is missing, although it is there.  With one digit, `a{2}` gives
`Repeat ["Exact", "2", "2"]`. -/
theorem C32_multi_digit_repeat_rejected :
    Translate 50 "a\x7b10\x7d" 100 =
      some ([], "Regex Compile Error: Exact repeat quantifier is missing closing bracket.") ∧
    Translate 50 "a\x7b10,\x7d" 100 =
      some ([], "Regex Compile Error: Exact repeat quantifier is missing closing bracket.") ∧
    Translate 50 "a\x7b1,10\x7d" 100 =
      some ([], "Regex Compile Error: Min-Max Repeat quantifier is missing closing bracket.") ∧
    Translate 50 "a\x7b2\x7d" 100 =
      some ([instr .MakeCharClassSymbol ["a", "a"], instr .MakeLiteralCharClass ["f", "f", "0"],
             instr .Literal ["0"], instr .Repeat ["Exact", "2", "2"]], "") := by
  decide!

/-! ## Loop nodes and tickers -/

/-- C33: for every loop node, `GetNexts` returns exactly the node itself when the node has a
ticker that is mandatory and not exhausted; otherwise it returns the ordinary successors with
the node itself in front when greedy and at the end when lazy. -/
theorem C33_loop_getNexts (A : Regex) (σ : MatchState) (n : NodeId)
    (BoundTicker : Option TickerPtr) (Lazy : Bool) (others : List NodeId)
    (hl : A.loopAt n = some (BoundTicker, Lazy)) (ho : A.ordinaryNexts n = some others) :
    (∀ p t, BoundTicker = some p → (σ.ticker A p).toOption = some t →
      t.IsMandatory = true → t.IsExhausted = false → GetNexts A σ n = .ok [n]) ∧
    (∀ p t, BoundTicker = some p → (σ.ticker A p).toOption = some t →
      (t.IsMandatory = false ∨ t.IsExhausted = true) →
      GetNexts A σ n = .ok (if Lazy then others ++ [n] else n :: others)) ∧
    (BoundTicker = none → GetNexts A σ n = .ok (if Lazy then others ++ [n] else n :: others)) := by
  unfold Regex.loopAt at hl
  unfold Regex.ordinaryNexts at ho
  cases hn : A.node n with
  | error e => rw [hn] at hl; simp [Run.toOption] at hl
  | ok nd =>
    rw [hn] at hl ho
    simp only [Run.toOption] at hl ho
    have hb : nd.baseNexts A = .ok others := toOption_some ho
    cases hk : nd.kind with
    | Loop bt lz =>
      rw [hk] at hl
      simp only [Option.some.injEq, Prod.mk.injEq] at hl
      obtain ⟨rfl, rfl⟩ := hl
      refine ⟨?_, ?_, ?_⟩
      · intro p t hp ht hm he
        have ht1 := toOption_some ht
        simp [GetNexts, hn, hb, hk, hp, ht1, hm, he]
      · intro p t hp ht hor
        have ht1 := toOption_some ht
        simp only [GetNexts, hn, hb, hk, hp, ht1]
        rcases hor with h | h
        · simp [h]
          split <;> rfl
        · simp [h]
          split <;> rfl
      · intro hp
        simp only [GetNexts, hn, hb, hk, hp]
        split <;> simp_all
    | _ => rw [hk] at hl; simp at hl

/-- The loop node of `a{2}` (node 3, greedy, ticker 0) before a match and with its ticker run
down, and the lazy loop node of `a+?b` (node 4, no ticker, successor 5). -/
theorem C33_loop_getNexts_witness :
    ((compiled 50 "a\x7b2\x7d").loopAt 3 = some (some ⟨0, 0⟩, false) ∧
      (compiled 50 "a\x7b2\x7d").ordinaryNexts 3 = some [] ∧
      ((compiled 50 "a\x7b2\x7d").preMatch.state.ticker (compiled 50 "a\x7b2\x7d") ⟨0, 0⟩).toOption
        = some ⟨2, 2⟩) ∧
    GetNexts (compiled 50 "a\x7b2\x7d") (compiled 50 "a\x7b2\x7d").preMatch.state 3 = .ok [3] ∧
    GetNexts (compiled 50 "a\x7b2\x7d")
        { (compiled 50 "a\x7b2\x7d").preMatch.state with Tickers := [⟨2, 0⟩] } 3
      = .ok (if false = true then [] ++ [3] else 3 :: []) ∧
    ((compiled 50 "a+?b").loopAt 4 = some (none, true) ∧
      (compiled 50 "a+?b").ordinaryNexts 4 = some [5]) ∧
    GetNexts (compiled 50 "a+?b") (compiled 50 "a+?b").preMatch.state 4
      = .ok (if true = true then [5] ++ [4] else 4 :: [5]) :=
  ⟨⟨by decide!, by decide!, by decide!⟩,
   (C33_loop_getNexts (compiled 50 "a\x7b2\x7d") (compiled 50 "a\x7b2\x7d").preMatch.state 3
      (some ⟨0, 0⟩) false [] (by decide!) (by decide!)).1 ⟨0, 0⟩ ⟨2, 2⟩ rfl (by decide!)
      (by decide) (by decide),
   (C33_loop_getNexts (compiled 50 "a\x7b2\x7d")
      { (compiled 50 "a\x7b2\x7d").preMatch.state with Tickers := [⟨2, 0⟩] } 3
      (some ⟨0, 0⟩) false [] (by decide!) (by decide!)).2.1 ⟨0, 0⟩ ⟨2, 0⟩ rfl (by decide!)
      (Or.inr (by decide)),
   ⟨by decide!, by decide!⟩,
   (C33_loop_getNexts (compiled 50 "a+?b") (compiled 50 "a+?b").preMatch.state 4
      none true [5] (by decide!) (by decide!)).2.2 rfl⟩

/-- A tick leaves the bound of a ticker alone. -/
theorem tickTimes_maxTimes (t : RegexTicker) (k : Nat) : (tickTimes t k).MaxTimes = t.MaxTimes := by
  induction k with
  | zero => rfl
  | succ k ih =>
    simp only [tickTimes, RegexTicker.Tick]
    split <;> exact ih

/-- The count of a ticker after `k` ticks. -/
theorem tickTimes_currTimes (t : RegexTicker) (k : Nat) :
    (tickTimes t k).CurrTimes = if t.MaxTimes > 0 then t.CurrTimes - k else t.CurrTimes + k := by
  induction k with
  | zero => simp [tickTimes]
  | succ k ih =>
    have hm := tickTimes_maxTimes t k
    simp only [tickTimes, RegexTicker.Tick, hm]
    split
    · rename_i h
      simp only [h, if_true] at ih ⊢
      rw [ih]; push_cast; omega
    · rename_i h
      simp only [h, if_false] at ih ⊢
      rw [ih]; push_cast; omega

/-- C34: for every ticker with `MaxTimes = m`, `m` not zero: after `Reset` the ticker is not
exhausted; after `k` ticks, `k` up to `|m|`, the count is `m - k` for a positive and `m + k`
for a negative `m`, so that each of the first `|m|` ticks moves the count one step toward
zero; the ticker is exhausted after exactly `|m|` ticks and not earlier; `Reset` restores the
count `m`; and the ticker is mandatory iff `m > 0`. -/
theorem C34_ticker (t : RegexTicker) (m : Int) (hm : t.MaxTimes = m ∧ m ≠ 0) (k : Nat)
    (hk : k ≤ m.natAbs) :
    t.Reset.IsExhausted = false ∧
    (tickTimes t.Reset k).CurrTimes = (if m > 0 then m - k else m + k) ∧
    ((tickTimes t.Reset (k + 1)).CurrTimes.natAbs + 1 = (tickTimes t.Reset k).CurrTimes.natAbs ∨
      k = m.natAbs) ∧
    ((tickTimes t.Reset k).IsExhausted = true ↔ k = m.natAbs) ∧
    (tickTimes t.Reset k).Reset.CurrTimes = m ∧
    (t.IsMandatory = true ↔ m > 0) := by
  obtain ⟨h1, h2⟩ := hm
  have hc : ∀ j, (tickTimes t.Reset j).CurrTimes = (if m > 0 then m - j else m + j) := by
    intro j
    rw [tickTimes_currTimes]
    simp [RegexTicker.Reset, h1]
  refine ⟨?_, hc k, ?_, ?_, ?_, ?_⟩
  · simp [RegexTicker.IsExhausted, RegexTicker.Reset, h1, h2]
  · rw [hc (k + 1), hc k]
    by_cases hkm : k = m.natAbs
    · right; exact hkm
    · left
      split <;> omega
  · simp only [RegexTicker.IsExhausted, decide_eq_true_eq]
    rw [hc k]
    split <;> omega
  · simp [RegexTicker.Reset, tickTimes_maxTimes, h1]
  · simp [RegexTicker.IsMandatory, h1]

/-- The permissive ticker of three rounds after two and after three ticks, and the mandatory
ticker of two rounds after two ticks. -/
theorem C34_ticker_witness :
    (((RegexTicker.make (-3)).MaxTimes = -3 ∧ (-3 : Int) ≠ 0) ∧ 2 ≤ (-3 : Int).natAbs) ∧
    ((tickTimes (RegexTicker.make (-3)).Reset 2).IsExhausted = true ↔ 2 = (-3 : Int).natAbs) ∧
    ((tickTimes (RegexTicker.make (-3)).Reset 3).IsExhausted = true ↔ 3 = (-3 : Int).natAbs) ∧
    (tickTimes (RegexTicker.make 2).Reset 2).CurrTimes
      = (if (2 : Int) > 0 then (2 : Int) - (2 : Nat) else (2 : Int) + (2 : Nat)) ∧
    ((RegexTicker.make 2).IsMandatory = true ↔ (2 : Int) > 0) :=
  ⟨⟨by decide, by decide⟩,
   (C34_ticker (RegexTicker.make (-3)) (-3) (by decide) 2 (by decide)).2.2.2.1,
   (C34_ticker (RegexTicker.make (-3)) (-3) (by decide) 3 (by decide)).2.2.2.1,
   (C34_ticker (RegexTicker.make 2) 2 (by decide) 2 (by decide)).2.1,
   (C34_ticker (RegexTicker.make 2) 2 (by decide) 2 (by decide)).2.2.2.2.2⟩

/-! ## Word boundaries -/

/-- C35: the word-boundary node looks at three positions.  When the current character is a
word character it fails as soon as the previous or the next character is one, and when the
current character is none it succeeds as soon as the previous or the next character is one.
In " ab " at position 1 (a blank before, the word character `a` at the position) the node of
`\b` answers false although exactly one of the two characters around the boundary is a word
character, and in "  a " at position 1 (blanks before and at the position, `a` after it) it
answers true although none of the two is; the negated node of `\B` answers true at position 1
of " ab ". -/
theorem C35_word_boundary_looks_ahead :
    (startNexts (compiled 50 "\\b") (compiled 50 "\\b").StartNodes).toOption = some [1] ∧
    (compiled 50 "\\b").wordBoundaryAt 1 = some false ∧
    (CanEnter 5 (compiled 50 "\\b").preMatch " ab ".data 1 1 none
      (compiled 50 "\\b").preMatch.state).toOption.map (fun r => (r.1, r.2.1)) = some (false, 1) ∧
    (CanEnter 5 (compiled 50 "\\b").preMatch "  a ".data 1 1 none
      (compiled 50 "\\b").preMatch.state).toOption.map (fun r => (r.1, r.2.1)) = some (true, 1) ∧
    (compiled 50 "\\B").wordBoundaryAt 1 = some true ∧
    (CanEnter 5 (compiled 50 "\\B").preMatch " ab ".data 1 1 none
      (compiled 50 "\\B").preMatch.state).toOption.map (fun r => (r.1, r.2.1)) = some (true, 1) := by
  decide!

/-! ## Conditional nodes -/

/-- C36: for every conditional node whose condition chunk holds exactly one node, a
back-reference node with a bound capture, `CanEnter` is the run of the then-chunk when the
capture has succeeded, the run of the else-chunk when it has not and there is one, and false
without a run when there is none; the condition chunk is not run, and the answer is the
answer of the chunk that was run. -/
theorem C36_conditional_on_backreference (fuel : Nat) (A : Regex) (text : List Char)
    (n : NodeId) (Input : Int) (Outers : Option (List NodeId)) (σ : MatchState)
    (Cond IfTrue : ChunkId) (IfFalse : Option ChunkId) (LazyGroup : Bool) (cp : CapturePtr)
    (cap : RegexCaptureBase)
    (hn : A.conditionalAt n = some (Cond, IfTrue, IfFalse, LazyGroup))
    (hc : A.loneBackreference Cond = some cp)
    (hcap : (σ.capture cp).toOption = some cap) :
    CanEnter (fuel + 1) A text n Input Outers σ =
      if cap.Succeeded = true then
        conditionalBranch fuel A text n Input Outers LazyGroup IfTrue σ
      else
        match IfFalse with
        | none => .ok (false, Input, σ)
        | some f => conditionalBranch fuel A text n Input Outers LazyGroup f σ := by
  have hcap1 := toOption_some hcap
  unfold Regex.conditionalAt at hn
  unfold Regex.loneBackreference at hc
  cases hnd : A.node n with
  | error e => rw [hnd] at hn; simp [Run.toOption] at hn
  | ok nd =>
    rw [hnd] at hn
    simp only [Run.toOption] at hn
    cases hch : A.chunk Cond with
    | error e => rw [hch] at hc; simp [Run.toOption] at hc
    | ok cchunk =>
      rw [hch] at hc
      simp only [Run.toOption] at hc
      cases hk : nd.kind with
      | Conditional C T F =>
        rw [hk] at hn
        simp only [Option.some.injEq, Prod.mk.injEq] at hn
        obtain ⟨rfl, rfl, rfl, hlz⟩ := hn
        match hN : cchunk.Nodes, hc with
        | [only], hc =>
          simp only [] at hc
          cases ho : A.node only with
          | error e => rw [ho] at hc; simp [Run.toOption] at hc
          | ok c =>
            rw [ho] at hc
            simp only [Run.toOption] at hc
            cases hck : c.kind with
            | Backreference nm b =>
              rw [hck] at hc
              simp only [] at hc
              subst hc
              unfold CanEnter
              simp only [hnd, hk, hch, hN, ho, hck, hcap1, bind, Except.bind, Except.map, pure,
                Except.pure, Functor.map, hlz]
              by_cases hs : cap.Succeeded = true
              · simp only [hs, if_true, conditionalBranch, bind, Except.bind, pure, Except.pure]
              · simp only [hs, if_false]
                cases F with
                | none => rfl
                | some f =>
                  simp only [conditionalBranch, bind, Except.bind, pure, Except.pure]
            | _ => rw [hck] at hc; simp at hc
        | [], hc => simp at hc
        | _ :: _ :: _, hc => simp at hc
      | _ => rw [hk] at hn; simp at hn

/-- The conditional node of `(x)?(?(1)y|n)` (node 14: condition chunk 5 with the
back-reference to capture 1, then-chunk 8, else-chunk 11) before a match, when capture 1 has
not succeeded: on "n" the else-chunk is run and accepts. -/
theorem C36_conditional_on_backreference_witness :
    ((compiled 50 "(x)?(?(1)y|n)").conditionalAt 14 = some (5, 8, some 11, false) ∧
      (compiled 50 "(x)?(?(1)y|n)").loneBackreference 5 = some (.capture 0) ∧
      ((compiled 50 "(x)?(?(1)y|n)").preMatch.state.capture (.capture 0)).toOption = some {}) ∧
    CanEnter (49 + 1) (compiled 50 "(x)?(?(1)y|n)").preMatch "n".data 14 0 none
        (compiled 50 "(x)?(?(1)y|n)").preMatch.state =
      (if ({} : RegexCaptureBase).Succeeded = true then
        conditionalBranch 49 (compiled 50 "(x)?(?(1)y|n)").preMatch "n".data 14 0 none false 8
          (compiled 50 "(x)?(?(1)y|n)").preMatch.state
      else
        match (some 11 : Option ChunkId) with
        | none => .ok (false, 0, (compiled 50 "(x)?(?(1)y|n)").preMatch.state)
        | some f =>
          conditionalBranch 49 (compiled 50 "(x)?(?(1)y|n)").preMatch "n".data 14 0 none false f
            (compiled 50 "(x)?(?(1)y|n)").preMatch.state) ∧
    (conditionalBranch 49 (compiled 50 "(x)?(?(1)y|n)").preMatch "n".data 14 0 none false 11
      (compiled 50 "(x)?(?(1)y|n)").preMatch.state).toOption.map (fun r => (r.1, r.2.1))
      = some (true, 0) ∧
    (conditionalBranch 49 (compiled 50 "(x)?(?(1)y|n)").preMatch "n".data 14 0 none false 8
      (compiled 50 "(x)?(?(1)y|n)").preMatch.state).toOption.map (fun r => (r.1, r.2.1))
      = some (false, 0) :=
  ⟨⟨by decide!, by decide!, by decide!⟩,
   C36_conditional_on_backreference 49 (compiled 50 "(x)?(?(1)y|n)").preMatch "n".data 14 0 none
     (compiled 50 "(x)?(?(1)y|n)").preMatch.state 5 8 (some 11) false (.capture 0) {}
     (by decide!) (by decide!) (by decide!),
   by decide!, by decide!⟩

/-! ## The empty pattern and the empty text -/

/-- C37: the empty pattern translates to the empty stream without an error; the assembler
then sets the compile error "Regex Compile Error: No nodes constructed from given regex." and
leaves `StartNodes` and `EndNodes` empty; a match with the automaton throws the compile
exception. -/
theorem C37_empty_pattern (fuel : Nat) (D : Int) :
    Translate (fuel + 2) "" D = some ([], "") ∧
    (Regex.fromPattern (fuel + 2) "" none D).map
        (fun r => (r.1.CompileError, r.1.StartNodes, r.1.EndNodes)) =
      some ("Regex Compile Error: No nodes constructed from given regex.", [], []) ∧
    ((compiled 50 "").Match 50 "x").threwCompile = true := by
  have ht : Translate (fuel + 2) "" D = some ([], "") := by
    simp [Translate, TranslateInternal, TranslateLoop]
  refine ⟨ht, ?_, by decide!⟩
  simp [Regex.fromPattern, ht, AssembleAutomaton, asmLoop, Regex.clearConnectedTos, foldOpt]

/-- On the empty text the loop of `MatchInternal` is not entered. -/
theorem MatchLoop_empty_text (fuel : Nat) (A : Regex) (ns : List NodeId) (FirstTime : Bool)
    (σ : MatchState) :
    MatchLoop (fuel + 1) A [] ns FirstTime false none 0 σ = .returned false (A.withState σ) := by
  unfold MatchLoop
  simp [endsMatch]

/-- C38: for every automaton without a compile error whose start nodes can be read and whose
flag `EndsWithLineCheck` is false, `Match` on the empty text returns false and leaves the
automaton as the reset before the match left it, with no runtime error recorded. -/
theorem C38_match_empty_text (fuel : Nat) (A : Regex) (hv : A.CompileError = "")
    (he : A.EndsWithLineCheck = false)
    (hs : (startNexts A.preMatch A.preMatch.StartNodes).toOption.isSome = true) :
    A.Match (fuel + 1) "" = .returned false A.preMatch ∧ A.preMatch.RuntimeErrors = [] := by
  refine ⟨?_, rfl⟩
  cases h : startNexts A.preMatch A.preMatch.StartNodes with
  | error e => rw [h] at hs; simp [Run.toOption] at hs
  | ok ns =>
    unfold Regex.Match Regex.MatchInternal
    rw [if_neg (by simp [hv])]
    show (match startNexts A.preMatch A.preMatch.StartNodes with
      | .error _ => Outcome.invalidAccess
      | .ok CurrentNexts =>
        MatchLoop (fuel + 1) A.preMatch [] CurrentNexts true A.preMatch.EndsWithLineCheck none 0
          A.preMatch.state) = _
    rw [h]
    have he1 : A.preMatch.EndsWithLineCheck = false := he
    simp only [he1]
    rw [MatchLoop_empty_text]
    rfl

/-- The automaton of `a*` on the empty text. -/
theorem C38_match_empty_text_witness :
    ((compiled 50 "a*").CompileError = "" ∧ (compiled 50 "a*").EndsWithLineCheck = false ∧
      (startNexts (compiled 50 "a*").preMatch (compiled 50 "a*").preMatch.StartNodes).toOption.isSome
        = true) ∧
    (compiled 50 "a*").Match (0 + 1) "" = .returned false (compiled 50 "a*").preMatch ∧
    (compiled 50 "a*").preMatch.RuntimeErrors = [] :=
  ⟨⟨by decide!, by decide!, by decide!⟩,
   C38_match_empty_text 0 (compiled 50 "a*") (by decide!) (by decide!) (by decide!)⟩

/-! ## Degenerate repeats -/

/-- The test of two node kinds is sound. -/
theorem NodeKind_sameAs_eq (a b : NodeKind) (h : a.sameAs b = true) : a = b := by
  cases a <;> cases b <;> simp [NodeKind.sameAs] at h <;> try simp [h]
  all_goals
    rename_i n f m g
    cases f <;> cases g <;> simp [NodeKind.sameAs] at h
    simp [h]

/-- The test of two nodes is sound. -/
theorem RegexNode_sameAs_eq (a b : RegexNode) (h : a.sameAs b = true) : a = b := by
  cases a; cases b
  simp only [RegexNode.sameAs, Bool.and_eq_true, beq_iff_eq] at h
  obtain ⟨⟨⟨⟨⟨⟨⟨⟨⟨h1, h2⟩, h3⟩, h4⟩, h5⟩, h6⟩, h7⟩, h8⟩, h9⟩, h10⟩ := h
  have := NodeKind_sameAs_eq _ _ h9
  simp_all

/-- The test of two lists of nodes is sound. -/
theorem nodesSame_eq : ∀ (l m : List RegexNode), nodesSame l m = true → l = m
  | [], [], _ => rfl
  | a :: as, b :: bs, h => by
    simp only [nodesSame, Bool.and_eq_true] at h
    rw [RegexNode_sameAs_eq a b h.1, nodesSame_eq as bs h.2]
  | [], _ :: _, h => by simp [nodesSame] at h
  | _ :: _, [], h => by simp [nodesSame] at h

/-- The test of two automata is sound. -/
theorem Regex_sameAs_eq (A B : Regex) (h : A.sameAs B = true) : A = B := by
  cases A; cases B
  simp only [Regex.sameAs, Bool.and_eq_true, beq_iff_eq] at h
  obtain ⟨⟨⟨⟨⟨⟨⟨⟨⟨⟨⟨⟨⟨⟨⟨⟨⟨⟨h1, h2⟩, h3⟩, h4⟩, h5⟩, h6⟩, h7⟩, h8⟩, h9⟩, h10⟩, h11⟩, h12⟩, h13⟩, h14⟩,
    h15⟩, h16⟩, h17⟩, h18⟩, h19⟩ := h
  have := nodesSame_eq _ _ h1
  simp_all

/-- C40: for all bounds with `MinTimes >= MaxTimes`, `RepeatMinMax` builds what
`RepeatExact(MaxTimes)` builds without laziness, whatever laziness was asked for; `RepeatExact`
with `Times < 2` returns the automaton and its chunk unchanged; and the patterns `a{0}` and
`a{1}` build the automaton of the pattern `a` (in which the vector of tickers has room
reserved for the one repeat instruction of the stream). -/
theorem C40_repeat_degenerate (fuel : Nat) (A : Regex) (chunk : RegexChunkLooseEnds)
    (pk : CollapsePacket) (Lazy : Bool) (MinTimes MaxTimes Times : Int) :
    (MaxTimes ≤ MinTimes →
      A.RepeatMinMax fuel chunk MinTimes MaxTimes pk Lazy =
        A.RepeatExact fuel chunk MaxTimes pk false) ∧
    (Times < 2 → A.RepeatExact fuel chunk Times pk Lazy = some (A, pk, chunk)) ∧
    (compile 50 "a\x7b0\x7d").isSome = true ∧
    compiled 50 "a\x7b0\x7d" = { compiled 50 "a" with TickerCapacity := 1 } ∧
    (compile 50 "a\x7b1\x7d").isSome = true ∧
    compiled 50 "a\x7b1\x7d" = { compiled 50 "a" with TickerCapacity := 1 } := by
  refine ⟨?_, ?_, by decide!, Regex_sameAs_eq _ _ (by decide!), by decide!,
    Regex_sameAs_eq _ _ (by decide!)⟩
  · intro h
    unfold Regex.RepeatMinMax
    have h1 : (if MinTimes < MaxTimes then MinTimes else MaxTimes) = MaxTimes := by
      split <;> omega
    simp only [h1, lt_self_iff_false, gt_iff_lt, if_false, if_true]
  · intro h
    unfold Regex.RepeatExact
    rw [if_pos h]

/-- The bounds 3 and 2 with laziness asked for, and the count 1, on the automaton of `a` and
the loose ends of its chunk. -/
theorem C40_repeat_degenerate_witness :
    (compiled 50 "a").RepeatMinMax 50 ⟨[1], [⟨1, 0⟩], [⟨1, 0⟩]⟩ 3 2 {} true =
      (compiled 50 "a").RepeatExact 50 ⟨[1], [⟨1, 0⟩], [⟨1, 0⟩]⟩ 2 {} false ∧
    (compiled 50 "a").RepeatExact 50 ⟨[1], [⟨1, 0⟩], [⟨1, 0⟩]⟩ 1 {} true =
      some (compiled 50 "a", {}, ⟨[1], [⟨1, 0⟩], [⟨1, 0⟩]⟩) :=
  ⟨(C40_repeat_degenerate 50 (compiled 50 "a") ⟨[1], [⟨1, 0⟩], [⟨1, 0⟩]⟩ {} true 3 2 1).1
      (by decide),
   (C40_repeat_degenerate 50 (compiled 50 "a") ⟨[1], [⟨1, 0⟩], [⟨1, 0⟩]⟩ {} true 3 2 1).2.1
      (by decide)⟩

/-! ## C39: the indices of the stream are in range -/

theorem symbolCount_append (S T : InstructionSet) :
    symbolCount (S ++ T) = symbolCount S + symbolCount T := by
  simp [symbolCount, List.countP_append]

theorem classCount_append (S T : InstructionSet) :
    classCount (S ++ T) = classCount S + classCount T := by
  simp [classCount, List.countP_append]

theorem refsInRange_append (S : InstructionSet) : ∀ (T : InstructionSet) (ns nc : Nat),
    refsInRange (S ++ T) ns nc =
      (refsInRange S ns nc && refsInRange T (ns + symbolCount S) (nc + classCount S)) := by
  induction S with
  | nil => intro T ns nc; simp [refsInRange, symbolCount, classCount]
  | cons i S ih =>
    intro T ns nc
    show (refsBelow i ns nc && refsInRange (S ++ T) _ _) = _
    rw [ih]
    simp only [refsInRange, Bool.and_assoc]
    have e1 : ∀ a : Nat, (if symbolMaking i.InstructionType = true then a + 1 else a) + symbolCount S
        = a + symbolCount (i :: S) := by
      intro a
      simp only [symbolCount, List.countP_cons]
      split <;> omega
    have e2 : ∀ a : Nat, (if classMaking i.InstructionType = true then a + 1 else a) + classCount S
        = a + classCount (i :: S) := by
      intro a
      simp only [classCount, List.countP_cons]
      split <;> omega
    rw [e1, e2]

theorem indexBelow_mono (d : String) (a b : Nat) (h : a ≤ b) (hd : indexBelow d a = true) :
    indexBelow d b = true := by
  simp only [indexBelow, Bool.and_eq_true, decide_eq_true_eq] at hd ⊢
  exact ⟨hd.1, by omega⟩

theorem indexBelow_toString (v : Int) (N : Nat) (h0 : 0 ≤ v) (h1 : v < N) :
    indexBelow (to_string v) N = true := by
  obtain ⟨n, rfl⟩ := Int.eq_ofNat_of_zero_le h0
  have hs : to_string (n : Int) = toString n := rfl
  obtain ⟨d1, d2, d3⟩ := toString_digits n
  simp only [indexBelow, hs, Bool.and_eq_true, decide_eq_true_eq, Bool.not_eq_true',
    List.isEmpty_eq_false, List.all_eq_true]
  refine ⟨⟨d2, d1⟩, ?_⟩
  rw [d3]; omega

theorem IndexTracker_find_below (T : IndexTracker) (N : Nat) (h : T.below N) (k : List Char)
    (v : Int) (hf : T.find k = some v) : 0 ≤ v ∧ v < (N : Int) := by
  unfold IndexTracker.find at hf
  cases hq : T.Indices.find? (fun p => decide (p.1 = k)) with
  | none => rw [hq] at hf; simp at hf
  | some p =>
    rw [hq] at hf
    simp only [Option.map_some', Option.some.injEq] at hf
    subst hf
    exact h.2 p (List.mem_of_find?_eq_some hq)

theorem IndexTracker_assignNext_bump (T : IndexTracker) (N : Nat) (h : T.below N)
    (k : List Char) : (T.assignNext k).bump.below (N + 1) ∧ (T.assignNext k).NextIndex = N := by
  obtain ⟨h1, h2⟩ := h
  unfold IndexTracker.assignNext IndexTracker.bump IndexTracker.below
  split
  · refine ⟨⟨by simp [h1], ?_⟩, h1⟩
    intro p hp
    simp only [List.mem_map] at hp
    obtain ⟨q, hq, rfl⟩ := hp
    have := h2 q hq
    split
    · simp only [h1]; omega
    · push_cast; omega
  · refine ⟨⟨by simp [h1], ?_⟩, h1⟩
    intro p hp
    simp only [List.mem_append, List.mem_singleton] at hp
    rcases hp with hp | rfl
    · have := h2 p hp
      push_cast; omega
    · simp only [h1]; push_cast; omega

theorem StepRet_step {tb tb1 : Tables} {Out Out1 : InstructionSet} {ret : String}
    (h : StepRet tb Out tb1 Out1 ret) : Step tb Out tb1 Out1 := by
  intro he
  obtain ⟨e0, x, hx, b⟩ := h he
  exact ⟨e0, x, hx, fun ns nc hb => ⟨(b ns nc hb).1, (b ns nc hb).2.1⟩⟩

theorem StepRet_of_error (tb : Tables) (Out : InstructionSet) (tb1 : Tables)
    (Out1 : InstructionSet) (ret : String) (h : tb1.error ≠ "") : StepRet tb Out tb1 Out1 ret :=
  fun h1 => absurd h1 h

theorem SymStep_of_error (tb : Tables) (Out : InstructionSet) (tb1 : Tables)
    (Out1 : InstructionSet) (ret : String) (h : tb1.error ≠ "") : SymStep tb Out tb1 Out1 ret :=
  fun h1 => absurd h1 h

theorem StepRet_trans {tb tb1 tb2 : Tables} {Out Out1 Out2 : InstructionSet}
    {ret : String} (h1 : Step tb Out tb1 Out1) (h2 : StepRet tb1 Out1 tb2 Out2 ret) :
    StepRet tb Out tb2 Out2 ret := by
  intro he
  obtain ⟨e1, x2, rfl, b2⟩ := h2 he
  obtain ⟨e0, x1, rfl, b1⟩ := h1 e1
  refine ⟨e0, x1 ++ x2, by simp, ?_⟩
  intro ns nc hb
  obtain ⟨t1, r1⟩ := b1 ns nc hb
  obtain ⟨t2, r2, i2⟩ := b2 _ _ t1
  refine ⟨?_, ?_, ?_⟩
  · rw [symbolCount_append, classCount_append, ← Nat.add_assoc, ← Nat.add_assoc]; exact t2
  · rw [refsInRange_append, r1, r2]; rfl
  · rw [classCount_append, ← Nat.add_assoc]; exact i2

theorem StepRet_frame {tb tb1 : Tables} {New : InstructionSet} {ret : String}
    (Out : InstructionSet) (h : StepRet tb [] tb1 New ret) : StepRet tb Out tb1 (Out ++ New) ret := by
  intro he
  obtain ⟨e0, x, hx, b⟩ := h he
  simp only [List.nil_append] at hx
  subst hx
  exact ⟨e0, New, rfl, b⟩

theorem SymStep_found (tb : Tables) (Out : InstructionSet) (k : List Char) (ind : Int)
    (h : tb.CCSymbsToInds.find k = some ind) : SymStep tb Out tb Out (to_string ind) := by
  intro he
  refine ⟨he, [], by simp, rfl, ?_⟩
  intro ns nc hb
  have := IndexTracker_find_below _ _ hb.1 k ind h
  refine ⟨by simpa [symbolCount, classCount] using hb, rfl, ?_⟩
  simp only [symbolCount, List.countP_nil, Nat.add_zero]
  exact indexBelow_toString ind ns this.1 this.2

theorem StepRet_found (tb : Tables) (Out : InstructionSet) (k : List Char) (ind : Int)
    (h : tb.CCsToInds.find k = some ind) : StepRet tb Out tb Out (to_string ind) := by
  intro he
  refine ⟨he, [], by simp, ?_⟩
  intro ns nc hb
  have := IndexTracker_find_below _ _ hb.2 k ind h
  refine ⟨by simpa [symbolCount, classCount] using hb, rfl, ?_⟩
  simp only [classCount, List.countP_nil, Nat.add_zero]
  exact indexBelow_toString ind nc this.1 this.2

theorem SymStep_new_sym (tb : Tables) (Out : InstructionSet) (k : List Char)
    (ins : RegexInstruction) (hs : symbolMaking ins.InstructionType = true) :
    SymStep tb Out { tb with CCSymbsToInds := (tb.CCSymbsToInds.assignNext k).bump }
      (Out ++ [ins]) (to_string (tb.CCSymbsToInds.assignNext k).NextIndex) := by
  have hc : classMaking ins.InstructionType = false := by
    simp only [symbolMaking, decide_eq_true_eq] at hs
    rcases hs with h | h <;> simp [classMaking, h]
  intro he
  refine ⟨he, [ins], rfl, by simp [classCount, hc], ?_⟩
  intro ns nc hb
  obtain ⟨b1, b2⟩ := IndexTracker_assignNext_bump _ _ hb.1 k
  have hr : refsBelow ins ns nc = true := by
    simp only [symbolMaking, decide_eq_true_eq] at hs
    rcases hs with h | h <;> simp [refsBelow, h]
  refine ⟨⟨?_, ?_⟩, ?_, ?_⟩
  · simpa [symbolCount, hs] using b1
  · exact hb.2
  · simp [refsInRange, hr]
  · simp only [symbolCount, List.countP_cons, hs, List.countP_nil, if_true, b2]
    exact indexBelow_toString _ _ (by omega) (by omega)

theorem MunchCharClassSymbol_plain_step (s : List Char) (iter endIter : Nat) (tb : Tables)
    (Out : InstructionSet) :
    SymStep tb Out (MunchCharClassSymbol_plain s iter endIter tb Out).tb
      (MunchCharClassSymbol_plain s iter endIter tb Out).Out
      (MunchCharClassSymbol_plain s iter endIter tb Out).ret := by
  unfold MunchCharClassSymbol_plain
  simp only []
  split
  · split
    · rename_i ind hf
      exact SymStep_found tb Out _ ind hf
    · split
      · exact SymStep_new_sym tb Out _ _ rfl
      · exact SymStep_of_error _ _ _ _ _ (by
          simp only [String.append_assoc]
          exact append_ne_empty _ _ (by decide))
  · split
    · rename_i ind hf
      exact SymStep_found tb Out _ ind hf
    · exact SymStep_new_sym tb Out _ _ rfl

theorem MunchCharClassSymbol_step (s : List Char) (iter endIter : Nat) (tb : Tables)
    (Out : InstructionSet) (r : SymbolResult)
    (h : MunchCharClassSymbol s iter endIter tb Out = some r) :
    SymStep tb Out r.tb r.Out r.ret := by
  unfold MunchCharClassSymbol at h
  split at h
  · split at h
    · cases h
    · rename_i EndDot Munched0 hl
      simp only [] at h
      split at h
      · rename_i ind hf
        cases h
        exact SymStep_found tb Out _ ind hf
      · split at h
        · cases h
          exact SymStep_new_sym tb Out _ _ rfl
        · cases h
          exact MunchCharClassSymbol_plain_step s iter endIter tb Out
  · cases h
    exact MunchCharClassSymbol_plain_step s iter endIter tb Out

theorem classSymbolLoop_step (Stragglers : List Char) : ∀ (fuel TrueIter : Nat)
    (Rolling : List String) (tb : Tables) (Out : InstructionSet) (R : List String) (tb1 : Tables)
    (Out1 : InstructionSet),
    classSymbolLoop Stragglers fuel TrueIter Rolling tb Out = some (R, tb1, Out1) →
    SymbolsStep tb Out Rolling tb1 Out1 R := by
  intro fuel
  induction fuel with
  | zero => intro _ _ _ _ _ _ _ h; simp [classSymbolLoop] at h
  | succ f ih =>
    intro TrueIter Rolling tb Out R tb1 Out1 h
    unfold classSymbolLoop at h
    split at h
    · cases h
      intro he
      refine ⟨he, [], [], by simp, by simp, rfl, ?_⟩
      intro ns nc hb
      exact ⟨by simpa [symbolCount] using hb, rfl, by simp⟩
    · split at h
      · cases h
      · simp only [] at h
        split at h
        · cases h
        · rename_i r hr
          have h1 := MunchCharClassSymbol_step _ _ _ _ _ _ hr
          have h2 := ih _ _ _ _ _ _ _ h
          intro he
          obtain ⟨e1, x2, a2, rfl, rfl, c2, b2⟩ := h2 he
          obtain ⟨e0, x1, hx1, c1, b1⟩ := h1 e1
          rw [hx1]
          refine ⟨e0, x1 ++ x2, [r.ret] ++ a2, by simp, by simp, by simp [classCount_append, c1, c2],
            ?_⟩
          intro ns nc hb
          obtain ⟨t1, r1, i1⟩ := b1 ns nc hb
          obtain ⟨t2, r2, i2⟩ := b2 _ _ t1
          refine ⟨?_, ?_, ?_⟩
          · rw [symbolCount_append, ← Nat.add_assoc]; exact t2
          · rw [refsInRange_append, r1, c1]; simpa using r2
          · intro d hd
            rw [symbolCount_append, ← Nat.add_assoc]
            simp only [List.singleton_append, List.mem_cons] at hd
            rcases hd with rfl | hd
            · exact indexBelow_mono _ _ _ (by omega) i1
            · exact i2 d hd

theorem classTypes_append (Types : List RegexInstructionType) (T : RegexInstructionType)
    (h : classTypes Types) (hT : classMaking T = true) : classTypes (Types ++ [T]) := by
  intro t ht
  simp only [List.mem_append, List.mem_singleton] at ht
  rcases ht with ht | rfl
  · exact h t ht
  · exact hT

theorem ClassScan_flush_types (st : ClassScan) (h : classTypes st.Types) :
    classTypes st.flush.Types := by
  unfold ClassScan.flush
  split
  · exact h
  · simp only
    split
    · exact classTypes_append _ _ h rfl
    · exact h

theorem ClassScan_nested_types (s : List Char) (endIter : Nat) (st : ClassScan) (iter : Nat)
    (T : RegexInstructionType) (st2 : ClassScan) (hT : classMaking T = true)
    (h : classTypes st.Types) (h2 : st.nested s endIter iter T = some st2) :
    classTypes st2.Types := by
  unfold ClassScan.nested at h2
  split at h2
  · exact absurd h2 (by simp)
  · simp only [Option.some.injEq] at h2
    subst h2
    exact classTypes_append _ _ h hT

theorem classScanLoop_types (s : List Char) (endIter : Nat) :
    ∀ (fuel : Nat) (st : ClassScan) (x : ClassScanExit), classTypes st.Types →
      classScanLoop s endIter fuel st = some x → scanExitOk x := by
  intro fuel
  induction fuel with
  | zero => intro st x _ h; simp [classScanLoop] at h
  | succ f ih =>
    intro st x ht h
    unfold classScanLoop at h
    simp only at h
    repeat' split at h
    all_goals first
      | (cases h <;> first | exact ht | (show (_ : String) ≠ ""; decide))
      | (refine ih _ _ ?_ h
         first
          | exact ht
          | exact classTypes_append _ _ (ClassScan_flush_types _ ht) rfl
          | (have hn := ‹ClassScan.nested _ _ _ _ _ = some _›
             refine (ClassScan_nested_types _ _ _ _ _ _ ?_ ?_ hn :)
             · rfl
             · first | exact ht | exact ClassScan_flush_types _ ht))

theorem classMaking_not_symbol (T : RegexInstructionType) (h : classMaking T = true) :
    symbolMaking T = false := by
  cases T <;> first | rfl | exact absurd h (by decide)

/-- The literal class made of the symbols that the symbol loop collected. -/
theorem StepRet_new_class {tb tb1 : Tables} {Out Out1 : InstructionSet} {Rolling : List String}
    (a b : String) (k : List Char) (h : SymbolsStep tb Out [a, b] tb1 Out1 Rolling) :
    StepRet tb Out { tb1 with CCsToInds := (tb1.CCsToInds.assignNext k).bump }
      (Out1 ++ [instr .MakeLiteralCharClass Rolling])
      (to_string (tb1.CCsToInds.assignNext k).NextIndex) := by
  intro he
  obtain ⟨e0, x, added, rfl, rfl, c, bb⟩ := h he
  refine ⟨e0, x ++ [instr .MakeLiteralCharClass ([a, b] ++ added)], by simp, ?_⟩
  intro ns nc hb
  obtain ⟨t, r, i⟩ := bb ns nc hb
  obtain ⟨b1, b2⟩ := IndexTracker_assignNext_bump _ _ t.2 k
  have hcc : classCount (x ++ [instr .MakeLiteralCharClass ([a, b] ++ added)]) = 1 := by
    rw [classCount_append, c]; rfl
  have hsc : symbolCount (x ++ [instr .MakeLiteralCharClass ([a, b] ++ added)]) = symbolCount x := by
    rw [symbolCount_append]; rfl
  rw [hcc, hsc]
  refine ⟨⟨t.1, b1⟩, ?_, ?_⟩
  · rw [refsInRange_append, r, c]
    simp only [refsInRange, refsBelow, instr, Bool.and_true, Bool.true_and, Nat.add_zero]
    simpa [List.all_eq_true] using i
  · rw [b2]
    exact indexBelow_toString _ _ (by omega) (by omega)

/-- A class made of two classes. -/
theorem StepRet_combine {tb tb1 tb2 : Tables} {Out Out1 Out2 : InstructionSet} {ret1 ret2 : String}
    (T : RegexInstructionType) (k : List Char) (hT : classMaking T = true)
    (h1 : StepRet tb Out tb1 Out1 ret1) (h2 : StepRet tb1 Out1 tb2 Out2 ret2) :
    StepRet tb Out { tb2 with CCsToInds := (tb2.CCsToInds.assignNext k).bump }
      (Out2 ++ [instr T [ret1, ret2]]) (to_string (tb2.CCsToInds.assignNext k).NextIndex) := by
  intro he
  obtain ⟨e1, x2, rfl, bb2⟩ := h2 he
  obtain ⟨e0, x1, rfl, bb1⟩ := h1 e1
  refine ⟨e0, x1 ++ x2 ++ [instr T [ret1, ret2]], by simp, ?_⟩
  intro ns nc hb
  obtain ⟨t1, r1, i1⟩ := bb1 ns nc hb
  obtain ⟨t2, r2, i2⟩ := bb2 _ _ t1
  obtain ⟨b1, b2⟩ := IndexTracker_assignNext_bump _ _ t2.2 k
  have hs := classMaking_not_symbol T hT
  have hcc : classCount (x1 ++ x2 ++ [instr T [ret1, ret2]]) = classCount x1 + classCount x2 + 1 := by
    rw [classCount_append, classCount_append]; simp [classCount, instr, hT]
  have hsc : symbolCount (x1 ++ x2 ++ [instr T [ret1, ret2]]) = symbolCount x1 + symbolCount x2 := by
    rw [symbolCount_append, symbolCount_append]; simp [symbolCount, instr, hs]
  rw [hcc, hsc, ← Nat.add_assoc, ← Nat.add_assoc, ← Nat.add_assoc]
  refine ⟨⟨t2.1, b1⟩, ?_, ?_⟩
  · rw [refsInRange_append, refsInRange_append, r1, r2]
    have j1 := indexBelow_mono ret1 _ (nc + classCount x1 + classCount x2) (by omega) i1
    have hr : refsBelow (instr T [ret1, ret2]) (ns + symbolCount (x1 ++ x2))
        (nc + classCount (x1 ++ x2)) = true := by
      rw [classCount_append, ← Nat.add_assoc]
      cases T <;> first
        | exact absurd hT (by decide)
        | rfl
        | simp [refsBelow, instr, argBelow, j1, i2]
    simp [refsInRange, hr]
  · rw [b2]
    exact indexBelow_toString _ _ (by omega) (by omega)

theorem foldl_option_inv {α β : Type} (P : α → Prop) (f : Option α → β → Option α) (l : List β)
    (hnone : ∀ b, f none b = none)
    (hstep : ∀ a b p, b ∈ l → P a → f (some a) b = some p → P p) :
    ∀ acc p, (∀ a, acc = some a → P a) → l.foldl f acc = some p → P p := by
  induction l with
  | nil => intro acc p ha h; exact ha p h
  | cons b l ih =>
    intro acc p ha h
    simp only [List.foldl_cons] at h
    refine ih (fun a c q hc => hstep a c q (List.mem_cons_of_mem _ hc)) (f acc b) p ?_ h
    intro a hfa
    cases acc with
    | none => rw [hnone] at hfa; exact absurd hfa (by simp)
    | some a0 => exact hstep a0 b a (List.mem_cons_self _ _) (ha a0 rfl) hfa

theorem MunchCharClass_step : ∀ (fuel : Nat) (s : List Char) (iter endIter : Nat) (tb : Tables)
    (Out : InstructionSet) (Modifs : Modifiers) (MaxDepth : Int) (r : ClassResult),
    MunchCharClass fuel s iter endIter tb Out Modifs MaxDepth = some r →
      StepRet tb Out r.tb r.Out r.ret := by
  intro fuel
  induction fuel with
  | zero => intro s iter endIter tb Out Modifs MaxDepth r h; simp [MunchCharClass] at h
  | succ f ih =>
    intro s iter endIter tb Out Modifs MaxDepth r h
    unfold MunchCharClass at h
    simp only at h
    split at h
    · cases h
      exact StepRet_of_error _ _ _ _ _ (by dsimp only; decide)
    · split at h
      · next ind hf =>
        cases h
        exact StepRet_found tb Out _ ind hf
      · split at h
        · cases h
        · next e it hs =>
          cases h
          exact StepRet_of_error _ _ _ _ _ (classScanLoop_types _ _ _ _ _ (by intro t ht; cases ht) hs)
        · next st hs =>
          have hty : classTypes st.Types := classScanLoop_types _ _ _ _ _ (by intro t ht; cases ht) hs
          split at h
          · split at h
            · cases h
            · split at h
              · cases h
              · obtain ⟨p, hp, rfl⟩ := Option.map_eq_some'.mp h
                have hT0 : classMaking (st.Types.getD 0 .MAX) = true := by
                  cases hT : st.Types with
                  | nil => simp [hT] at *
                  | cons t ts => exact hty t (by simp [hT])
                refine foldl_option_inv
                  (fun (q : String × List Char × Tables × InstructionSet) =>
                    StepRet tb Out q.2.2.1 q.2.2.2 q.1) _ _ ?_ ?_ _ p ?_ hp
                · intro b; rfl
                · intro a b q hb ha hq
                  obtain ⟨Ind, RollingName, tb1, Out1⟩ := a
                  simp only at hq
                  split at hq
                  · cases hq
                  · next r hr =>
                    cases hq
                    have hb2 : classMaking b.2 = true :=
                      hty b.2 (List.mem_of_mem_drop (List.of_mem_zip hb).2)
                    exact StepRet_combine b.2 _ hb2 ha (ih _ _ _ _ _ _ _ _ hr)
                · intro a ha
                  split at ha
                  · obtain ⟨r, hr, rfl⟩ := Option.map_eq_some'.mp ha
                    exact ih _ _ _ _ _ _ _ _ hr
                  · split at ha
                    · cases ha
                    · next l hl =>
                      split at ha
                      · cases ha
                      · next r hr =>
                        cases ha
                        exact StepRet_combine _ _ hT0 (ih _ _ _ _ _ _ _ _ hl) (ih _ _ _ _ _ _ _ _ hr)
          · split at h
            · split at h
              · cases h
              · next Rolling tb1 Out1 hl =>
                cases h
                exact StepRet_new_class _ _ _ (classSymbolLoop_step _ _ _ _ _ _ _ _ _ hl)
            · cases h
              exact StepRet_of_error _ _ _ _ _ (by dsimp only; decide)

theorem MunchCharClassOf_step (chars : List Char) (tb : Tables) (Out : InstructionSet)
    (M : Modifiers) (D : Int) (r : ClassResult) (h : MunchCharClassOf chars tb Out M D = some r) :
    StepRet tb Out r.tb r.Out r.ret :=
  MunchCharClass_step _ _ _ _ _ _ _ _ _ h

/-- One round of the loop of `TranslateInternal`, in its pieces. -/
theorem TranslateLoop_succ (fuel : Nat) (Infix : List Char) (MaxDepth : Int) (iter : Nat)
    (Out : InstructionSet) (NumNodes LastGroup PrevNumNodes : Int) (Modifs : Modifiers)
    (tb : Tables) :
    TranslateLoop (fuel + 1) Infix MaxDepth iter Out NumNodes LastGroup PrevNumNodes Modifs tb =
      if iter = Infix.length then some (Out, iter, tb)
      else if iter > Infix.length then none
      else if peek Infix iter = '|' then
        match TranslateInternal fuel Infix (iter + 1) tb Modifs MaxDepth with
        | none => none
        | some (SecondPart, it, tb1) =>
          if ¬ Out.isEmpty ∧ ¬ SecondPart.isEmpty then
            some (Out ++ SecondPart ++ [instr .Alternate []], it, tb1)
          else some (Out ++ SecondPart, it, tb1)
      else
        translateStepEnd fuel Infix MaxDepth PrevNumNodes
          (translateSwitch fuel Infix MaxDepth iter Out NumNodes LastGroup Modifs tb) := by
  rw [TranslateLoop]
  rfl

/-- An index in range is found by the table lookup of the assembler. -/
theorem indexBelow_atStoi {α : Type} (v : List α) (d : String) (n : Nat)
    (h : indexBelow d n = true) (hv : v.length = n) (hn : n ≤ 2147483648) :
    (atStoi v d).isSome = true := by
  simp only [indexBelow, Bool.and_eq_true, Bool.not_eq_true', decide_eq_true_eq,
    List.all_eq_true] at h
  obtain ⟨⟨h0, h1⟩, h2⟩ := h
  unfold atStoi stoi
  cases hd : d.data with
  | nil => simp [hd] at h0
  | cons c cs =>
    have hc : isdigit c = true := h1 c (by simp [hd])
    have hm : c ≠ '-' := by intro e; rw [e] at hc; exact absurd hc (by decide)
    have hp : c ≠ '+' := by intro e; rw [e] at hc; exact absurd hc (by decide)
    rw [hd] at h2
    have hr : intInRange (digitsValue (c :: cs) 0 : Int) = some (digitsValue (c :: cs) 0 : Int) := by
      unfold intInRange
      rw [if_pos]
      constructor <;> omega
    simp only [hm, hp, hc, if_false, if_true, hr]
    have : ¬ ((digitsValue (c :: cs) 0 : Int) < 0) := by omega
    simp only [this, if_false, Int.toNat_ofNat, Option.isSome_map']
    rw [List.get?_eq_getElem?, List.getElem?_eq_getElem (by omega)]
    rfl

theorem peek_mem (S : List Char) (i : Nat) (h : i < S.length) : peek S i ∈ S := by
  unfold peek
  rw [List.getD_eq_getElem _ _ h]
  exact List.getElem_mem _

/-- The symbol loop of `MunchCharClass` comes to its end on characters that are neither a dot,
a backslash nor a hyphen. -/
theorem classSymbolLoop_total (S : List Char)
    (hS : ∀ c ∈ S, c ≠ '.' ∧ c ≠ '\\' ∧ c ≠ '-') :
    ∀ (fuel i : Nat) (Rolling : List String) (tb : Tables) (Out : InstructionSet),
      i ≤ S.length → S.length - i < fuel →
        (classSymbolLoop S fuel i Rolling tb Out).isSome = true := by
  intro fuel
  induction fuel with
  | zero => intro i Rolling tb Out _ h; omega
  | succ f ih =>
    intro i Rolling tb Out hi hf
    unfold classSymbolLoop
    by_cases e : i = S.length
    · rw [if_pos e]; rfl
    rw [if_neg e, if_neg (by omega)]
    have hlt : i < S.length := by omega
    have hc := hS _ (peek_mem S i hlt)
    have h1 : MunchCharClassSymbol S i S.length tb Out =
        some (MunchCharClassSymbol_plain S i S.length tb Out) := by
      unfold MunchCharClassSymbol
      rw [if_neg hc.1]
    have h2 : (MunchCharClassSymbol_plain S i S.length tb Out).iter = i := by
      unfold MunchCharClassSymbol_plain
      have hr : ((decide (i + 1 ≠ S.length) && decide (peek S (i + 1) = '-')) &&
          (decide (i + 2 ≠ S.length) && decide (peek S (i + 2) ≠ '[') &&
            decide (peek S (i + 2) ≠ '\\'))) = false := by
        by_cases e1 : i + 1 = S.length
        · simp [e1]
        · have := (hS _ (peek_mem S (i + 1) (by omega))).2.2
          simp [this]
      simp only [hr]
      cases tb.CCSymbsToInds.find [peek S i] <;> rfl
    simp only [hc.2.1, if_false, h1, h2]
    exact ih _ _ _ _ (by omega) (by omega)

/-- On the class of the line delimiters `MunchCharClass` always hands back a result. -/
theorem MunchCharClass_lineClass (f : Nat) (M : Modifiers) (tb : Tables) (Out : InstructionSet)
    (D : Int) :
    (MunchCharClass (f + 1) (lineClass M) 1 ((lineClass M).length - 1) tb Out M D).isSome = true := by
  have hscan : ∃ st, classScanLoop (lineClass M) ((lineClass M).length - 1)
      ((lineClass M).length + 2) ⟨1, [], [], []⟩ = some (.finished st) ∧ st.Types = [] ∧
      st.Stragglers ≠ [] ∧ ∀ c ∈ st.Stragglers, c ≠ '.' ∧ c ≠ '\\' ∧ c ≠ '-' := by
    unfold lineClass
    cases M.UnixLines
    · exact ⟨⟨5, [], [], LineChars⟩, by decide!, rfl, by decide, by decide⟩
    · exact ⟨⟨2, [], [], ['\n']⟩, by decide!, rfl, by decide, by decide⟩
  obtain ⟨st, h1, h2, h3, h4⟩ := hscan
  unfold MunchCharClass
  simp only
  split
  · rfl
  · split
    · rfl
    · rw [h1]
      simp only [h2, List.isEmpty_nil, not_true_eq_false, if_false]
      have h5 : st.Stragglers.isEmpty = false := by
        cases hs : st.Stragglers with
        | nil => exact absurd hs h3
        | cons a b => rfl
      simp only [h5, Bool.false_eq_true, not_false_eq_true, if_true]
      have := classSymbolLoop_total st.Stragglers h4 (st.Stragglers.length + 2)
        (if decide (peek st.Stragglers 0 = '^') = true then 1 else 0)
        [tf (decide (peek st.Stragglers 0 = '^')), tf M.CaseInsensitive] tb Out
        (by split <;> [(cases hs : st.Stragglers with
                        | nil => exact absurd hs h3
                        | cons a b => simp); omega]) (by omega)
      cases hl : classSymbolLoop st.Stragglers (st.Stragglers.length + 2)
        (if decide (peek st.Stragglers 0 = '^') = true then 1 else 0)
        [tf (decide (peek st.Stragglers 0 = '^')), tf M.CaseInsensitive] tb Out with
      | none => rw [hl] at this; exact absurd this (by simp)
      | some v => rfl

theorem MunchLiteral_last (s : List Char) (iter : Nat) (tb : Tables) (Out : InstructionSet)
    (M : Modifiers) :
    ∃ made idx, (MunchLiteral s iter tb Out M).2 = Out ++ made ++ [instr .Literal [idx]] := by
  unfold MunchLiteral
  cases hf : tb.CCsToInds.find [peek s iter] with
  | some ind => exact ⟨[], to_string ind, by simp [hf]⟩
  | none =>
    exact ⟨[instr .MakeCharClassSymbol [String.mk [peek s iter], String.mk [peek s iter]],
        instr .MakeLiteralCharClass ["f", tf M.CaseInsensitive,
          to_string (tb.CCSymbsToInds.assignNext [peek s iter]).NextIndex]],
      to_string (tb.CCsToInds.assignNext [peek s iter]).NextIndex, by simp [hf]⟩

/-- C31 (amended): in one round of the loop of `TranslateInternal` over the text `Infix` (the
whole pattern or the content of a group), with `Out` the instructions emitted so far for the
current alternative: a `^` emits a `StartCheck` on the class of the line delimiters iff it is
the first character of the text or nothing has been emitted yet, and otherwise emits the
literal of `MunchLiteral` for the character; a `$` emits an `EndCheck` iff it is the last
character of the text, and otherwise emits the literal.  In both cases the round counts one
node and goes on at the next character. -/
theorem C31_anchor_positions (fuel : Nat) (Infix : List Char) (MaxDepth : Int) (iter : Nat)
    (Out : InstructionSet) (NumNodes LastGroup PrevNumNodes : Int) (Modifs : Modifiers)
    (tb : Tables) (hlt : iter < Infix.length) :
    (peek Infix iter = '^' →
      ∃ g : GroupResult,
        TranslateLoop (fuel + 1) Infix MaxDepth iter Out NumNodes LastGroup PrevNumNodes Modifs tb =
          translateStepEnd fuel Infix MaxDepth PrevNumNodes (some (g, NumNodes + 1)) ∧
        g.iter = iter ∧
        ((Out = [] ∨ iter = 0) →
          ∃ r, MunchCharClass (MaxDepth.toNat + 1) (lineClass Modifs) 1
              ((lineClass Modifs).length - 1) tb Out Modifs MaxDepth = some r ∧
            g.tb = r.tb ∧
            g.Out = r.Out ++ [instr .StartCheck [tf Modifs.SingleLine, "f", r.ret]]) ∧
        (¬ (Out = [] ∨ iter = 0) →
          g.tb = (MunchLiteral Infix iter tb Out Modifs).1 ∧
          g.Out = (MunchLiteral Infix iter tb Out Modifs).2 ∧
          ∃ made idx, g.Out = Out ++ made ++ [instr .Literal [idx]])) ∧
    (peek Infix iter = '$' →
      ∃ g : GroupResult,
        TranslateLoop (fuel + 1) Infix MaxDepth iter Out NumNodes LastGroup PrevNumNodes Modifs tb =
          translateStepEnd fuel Infix MaxDepth PrevNumNodes (some (g, NumNodes + 1)) ∧
        g.iter = iter ∧
        (iter + 1 = Infix.length →
          ∃ r, MunchCharClass (MaxDepth.toNat + 1) (lineClass Modifs) 1
              ((lineClass Modifs).length - 1) tb Out Modifs MaxDepth = some r ∧
            g.tb = r.tb ∧
            g.Out = r.Out ++ [instr .EndCheck [tf Modifs.SingleLine, "f", r.ret]]) ∧
        (iter + 1 ≠ Infix.length →
          g.tb = (MunchLiteral Infix iter tb Out Modifs).1 ∧
          g.Out = (MunchLiteral Infix iter tb Out Modifs).2 ∧
          ∃ made idx, g.Out = Out ++ made ++ [instr .Literal [idx]])) := by
  have hne : ¬ iter = Infix.length := by omega
  have hgt : ¬ iter > Infix.length := by omega
  obtain ⟨r, hr⟩ := Option.isSome_iff_exists.mp
    (MunchCharClass_lineClass MaxDepth.toNat Modifs tb Out MaxDepth)
  constructor
  · intro hc
    have hsw : translateSwitch fuel Infix MaxDepth iter Out NumNodes LastGroup Modifs tb =
        if ¬ Out.isEmpty ∧ iter ≠ 0 then
          some (⟨iter, (MunchLiteral Infix iter tb Out Modifs).1,
            (MunchLiteral Infix iter tb Out Modifs).2, LastGroup, Modifs⟩, NumNodes + 1)
        else
          some (⟨iter, r.tb, r.Out ++ [instr .StartCheck [tf Modifs.SingleLine, "f", r.ret]],
            LastGroup, Modifs⟩, NumNodes + 1) := by
      unfold translateSwitch
      simp only [hc, hr, Option.map_some', show ¬ ('^' = '[') by decide,
        show ¬ ('^' = '\\') by decide, if_true, if_false]
    rw [TranslateLoop_succ, if_neg hne, if_neg hgt, if_neg (by rw [hc]; decide), hsw]
    by_cases hO : Out = [] ∨ iter = 0
    · have hcond : ¬ (¬ Out.isEmpty ∧ iter ≠ 0) := by
        rcases hO with h | h
        · simp [h]
        · simp [h]
      rw [if_neg hcond]
      exact ⟨_, rfl, rfl, fun _ => ⟨r, hr, rfl, rfl⟩, fun h => absurd hO h⟩
    · have hcond : ¬ Out.isEmpty ∧ iter ≠ 0 := by
        simp only [not_or] at hO
        exact ⟨by simpa [List.isEmpty_iff] using hO.1, hO.2⟩
      rw [if_pos hcond]
      exact ⟨_, rfl, rfl, fun h => absurd h hO,
        fun _ => ⟨rfl, rfl, MunchLiteral_last _ _ _ _ _⟩⟩
  · intro hc
    have hsw : translateSwitch fuel Infix MaxDepth iter Out NumNodes LastGroup Modifs tb =
        if iter + 1 ≠ Infix.length then
          some (⟨iter, (MunchLiteral Infix iter tb Out Modifs).1,
            (MunchLiteral Infix iter tb Out Modifs).2, LastGroup, Modifs⟩, NumNodes + 1)
        else
          some (⟨iter, r.tb, r.Out ++ [instr .EndCheck [tf Modifs.SingleLine, "f", r.ret]],
            LastGroup, Modifs⟩, NumNodes + 1) := by
      unfold translateSwitch
      simp only [hc, hr, Option.map_some', show ¬ ('$' = '[') by decide,
        show ¬ ('$' = '\\') by decide, show ¬ ('$' = '^') by decide, if_true, if_false]
    rw [TranslateLoop_succ, if_neg hne, if_neg hgt, if_neg (by rw [hc]; decide), hsw]
    by_cases hO : iter + 1 = Infix.length
    · rw [if_neg (not_not.mpr hO)]
      exact ⟨_, rfl, rfl, fun _ => ⟨r, hr, rfl, rfl⟩, fun h => absurd hO h⟩
    · rw [if_pos hO]
      exact ⟨_, rfl, rfl, fun h => absurd h hO,
        fun _ => ⟨rfl, rfl, MunchLiteral_last _ _ _ _ _⟩⟩

/-- The rounds of `(?i)^a` at the `^` (nothing emitted yet, after the modifier group) and of
`a$|b` at the `$` (not the last character of the text). -/
theorem C31_anchor_positions_witness :
    (4 < "(?i)^a".data.length ∧ peek "(?i)^a".data 4 = '^' ∧
      ∃ g : GroupResult,
        TranslateLoop (9 + 1) "(?i)^a".data 10 4 [] 0 0 0 { CaseInsensitive := true } {} =
          translateStepEnd 9 "(?i)^a".data 10 0 (some (g, 0 + 1)) ∧
        g.iter = 4 ∧
        ((([] : InstructionSet) = [] ∨ 4 = 0) →
          ∃ r, MunchCharClass ((10 : Int).toNat + 1) (lineClass { CaseInsensitive := true }) 1
              ((lineClass { CaseInsensitive := true }).length - 1) {} [] { CaseInsensitive := true }
              10 = some r ∧
            g.tb = r.tb ∧
            g.Out = r.Out ++
              [instr .StartCheck [tf ({ CaseInsensitive := true } : Modifiers).SingleLine, "f",
                r.ret]]) ∧
        (¬ (([] : InstructionSet) = [] ∨ 4 = 0) →
          g.tb = (MunchLiteral "(?i)^a".data 4 {} [] { CaseInsensitive := true }).1 ∧
          g.Out = (MunchLiteral "(?i)^a".data 4 {} [] { CaseInsensitive := true }).2 ∧
          ∃ made idx, g.Out = [] ++ made ++ [instr .Literal [idx]])) ∧
    (1 < "a$|b".data.length ∧ peek "a$|b".data 1 = '$' ∧
      ∃ g : GroupResult,
        TranslateLoop (9 + 1) "a$|b".data 10 1 (MunchLiteral "a$|b".data 0 {} [] {}).2 1 0 0 {}
            (MunchLiteral "a$|b".data 0 {} [] {}).1 =
          translateStepEnd 9 "a$|b".data 10 0 (some (g, 1 + 1)) ∧
        g.iter = 1 ∧
        (1 + 1 = "a$|b".data.length →
          ∃ r, MunchCharClass ((10 : Int).toNat + 1) (lineClass {}) 1 ((lineClass {}).length - 1)
              (MunchLiteral "a$|b".data 0 {} [] {}).1 (MunchLiteral "a$|b".data 0 {} [] {}).2 {}
              10 = some r ∧
            g.tb = r.tb ∧
            g.Out = r.Out ++ [instr .EndCheck [tf ({} : Modifiers).SingleLine, "f", r.ret]]) ∧
        (1 + 1 ≠ "a$|b".data.length →
          g.tb = (MunchLiteral "a$|b".data 1 (MunchLiteral "a$|b".data 0 {} [] {}).1
            (MunchLiteral "a$|b".data 0 {} [] {}).2 {}).1 ∧
          g.Out = (MunchLiteral "a$|b".data 1 (MunchLiteral "a$|b".data 0 {} [] {}).1
            (MunchLiteral "a$|b".data 0 {} [] {}).2 {}).2 ∧
          ∃ made idx, g.Out = (MunchLiteral "a$|b".data 0 {} [] {}).2 ++ made ++
            [instr .Literal [idx]])) :=
  ⟨⟨by decide, by decide,
      (C31_anchor_positions 9 "(?i)^a".data 10 4 [] 0 0 0 { CaseInsensitive := true } {}
        (by decide)).1 (by decide)⟩,
    ⟨by decide, by decide,
      (C31_anchor_positions 9 "a$|b".data 10 1 (MunchLiteral "a$|b".data 0 {} [] {}).2 1 0 0 {}
        (MunchLiteral "a$|b".data 0 {} [] {}).1 (by decide)).2 (by decide)⟩⟩

/-- C31, counterexample: in `(?i)^a` the `^` is the fifth character of the pattern and yet
emits a `StartCheck`; in `a|^b` the `^` opens the second alternative and emits a `StartCheck`,
while in `a$|b` the `$` closes the first alternative and emits the literal of the character
`$`: the alternatives count as subpatterns for `^` and not for `$`. -/
theorem C31_anchor_after_modifier_counterexample :
    Translate 50 "(?i)^a" 10 =
      some ([instr .MakeCharClassSymbol ["\r", "\r"], instr .MakeCharClassSymbol ["\n", "\n"],
        instr .MakeCharClassSymbol ["\x0b", "\x0b"], instr .MakeCharClassSymbol ["\x0c", "\x0c"],
        instr .MakeLiteralCharClass ["f", "t", "0", "1", "2", "3"],
        instr .StartCheck ["f", "f", "0"],
        instr .MakeCharClassSymbol ["a", "a"], instr .MakeLiteralCharClass ["f", "t", "4"],
        instr .Literal ["1"], instr .Concat []], "") ∧
    Translate 50 "a|^b" 10 =
      some ([instr .MakeCharClassSymbol ["a", "a"], instr .MakeLiteralCharClass ["f", "f", "0"],
        instr .Literal ["0"],
        instr .MakeCharClassSymbol ["\r", "\r"], instr .MakeCharClassSymbol ["\n", "\n"],
        instr .MakeCharClassSymbol ["\x0b", "\x0b"], instr .MakeCharClassSymbol ["\x0c", "\x0c"],
        instr .MakeLiteralCharClass ["f", "f", "1", "2", "3", "4"],
        instr .StartCheck ["f", "f", "1"],
        instr .MakeCharClassSymbol ["b", "b"], instr .MakeLiteralCharClass ["f", "f", "5"],
        instr .Literal ["2"], instr .Concat [], instr .Alternate []], "") ∧
    Translate 50 "a$|b" 10 =
      some ([instr .MakeCharClassSymbol ["a", "a"], instr .MakeLiteralCharClass ["f", "f", "0"],
        instr .Literal ["0"],
        instr .MakeCharClassSymbol ["$", "$"], instr .MakeLiteralCharClass ["f", "f", "1"],
        instr .Literal ["1"], instr .Concat [],
        instr .MakeCharClassSymbol ["b", "b"], instr .MakeLiteralCharClass ["f", "f", "2"],
        instr .Literal ["2"], instr .Alternate []], "") := by
  refine ⟨?_, ?_, ?_⟩ <;> decide!

/-! ## The calls of the matcher: propagation of a throw -/

/-- The `CanEnter` of a conditional node, with the condition read through
`conditionCapture`. -/
theorem CanEnter_conditional (fuel : Nat) (A : Regex) (text : List Char) (n : NodeId)
    (Input : Int) (Outers : Option (List NodeId)) (σ : MatchState) (nd : RegexNode)
    (Cond IfTrue : ChunkId) (IfFalse : Option ChunkId) (cchunk : RegexChunk)
    (hn : A.node n = .ok nd) (hk : nd.kind = .Conditional Cond IfTrue IfFalse)
    (hch : A.chunk Cond = .ok cchunk) :
    CanEnter (fuel + 1) A text n Input Outers σ =
      (conditionCapture A cchunk).bind (fun Cap =>
        (match Cap with
          | some cp => (σ.capture cp).map (fun (c : RegexCaptureBase) => (c.Succeeded, σ))
          | none =>
            (ChunkMatch fuel A text Input (cchunk.inPtrs Cond) (cchunk.outPtrs Cond) nd.LazyGroup
              (some (Outers.getD [] ++ [n])) false σ).map
                (fun (r : Bool × Int × MatchState) => (r.1, r.2.2)) : Run (Bool × MatchState)).bind
        (fun r =>
          if r.1 = true then conditionalBranch fuel A text n Input Outers nd.LazyGroup IfTrue r.2
          else
            IfFalse.elim (.ok (false, Input, r.2))
              (fun f => conditionalBranch fuel A text n Input Outers nd.LazyGroup f r.2))) := by
  unfold CanEnter conditionCapture conditionalBranch
  simp only [hn, hk, hch, bind, Except.bind, pure, Except.pure]
  cases IfFalse <;>
  (cases cchunk.Nodes with
   | nil => rfl
   | cons only rest =>
     cases rest with
     | nil =>
       simp only []
       cases A.node only with
       | error e => rfl
       | ok c =>
         simp only [Except.map]
         cases c.kind with
         | Backreference nm b => cases b <;> rfl
         | _ => rfl
     | cons b r => rfl)

theorem Run_map_error {α β : Type} {x : Run α} {f : α → β} {e : Interrupt}
    (h : x.map f = .error e) : x = .error e := by
  cases x with
  | error e1 => simpa [Except.map] using h
  | ok a => simp [Except.map] at h

theorem Run_error_map {α β : Type} {x : Run α} (f : α → β) {e : Interrupt}
    (h : x = .error e) : x.map f = .error e := by
  rw [h]; rfl

/-- A call that does not catch ends with the interrupt of a call it makes. -/
theorem Calls_raise (A : Regex) (text : List Char) {f g : Frame} {pre : List Frame}
    (h : Calls A text f pre g) (hin : f.catches = false) (e : Interrupt)
    (hg : g.result A text = .error e) : f.result A text = .error e := by
  cases h
  all_goals first
    | (simp [Frame.catches] at hin; done)
    | skip
  all_goals (simp only [Frame.result] at hg ⊢; have hg1 := Run_map_error hg; refine Run_error_map _ ?_)
  all_goals first
    | (unfold CanEnter; simp only [*, bind, Except.bind, pure, Except.pure, if_true, if_false, Except.map, Bool.false_eq_true]; done)
    | (unfold firstEnterable; simp only [*, bind, Except.bind, pure, Except.pure, if_true, if_false, Bool.false_eq_true]; done)
    | (unfold ChunkMatch; simp only [*, bind, Except.bind, pure, Except.pure, if_true, if_false]; done)
    | (unfold ChunkMatchLoop; simp only [*, bind, Except.bind, pure, Except.pure, if_true, if_false]; done)
    | (unfold TryAnyTakers; simp only [*, bind, Except.bind, pure, Except.pure, if_true, if_false, Bool.false_eq_true]; done)
    | (unfold takersOf; simp only [*, bind, Except.bind, pure, Except.pure, if_true, if_false, Bool.false_eq_true, ne_eq, not_false_eq_true, not_true_eq_false]; done)
    | (rw [CanEnter_conditional _ _ _ _ _ _ _ _ _ _ _ _ (by assumption) (by assumption) (by assumption)]
       unfold conditionalBranch
       simp only [*, bind, Except.bind, pure, Except.pure, if_true, if_false, Except.map,
         Bool.false_eq_true, Option.elim]
       done)

/-- A call that does not catch makes only calls that do not catch. -/
theorem Calls_catches (A : Regex) (text : List Char) {f g : Frame} {pre : List Frame}
    (h : Calls A text f pre g) (hin : f.catches = false) : g.catches = false := by
  cases h <;> first | rfl | (simp [Frame.catches] at hin; done)

/-- An interrupt passes every call between the call that ends with it and a call in whose
course that call is made, as long as none of them catches. -/
theorem Attempts_raise (A : Regex) (text : List Char) {f g : Frame}
    (h : Attempts A text f g) (hin : f.catches = false) (e : Interrupt)
    (hg : g.result A text = .error e) : f.result A text = .error e := by
  induction h with
  | here f => exact hg
  | step f g h pre hc _ ih =>
    exact Calls_raise A text hc hin e (ih (Calls_catches A text hc hin) hg)

theorem loopAdvance_matchLoop (fuel : Nat) (A : Regex) (text : List Char)
    (CurrentNexts : List NodeId) (FirstTime LastTime : Bool) (CurrNode : Option NodeId)
    (Iter : Int) (σ : MatchState) (cn : NodeId) (it : Int) (σ1 : MatchState)
    (nexts : List NodeId)
    (hgo : ¬ CurrentNexts.isEmpty = true ∧ (Iter ≠ text.length ∨ LastTime = true))
    (hr : firstEnterable fuel A text CurrentNexts Iter none σ = .ok (some cn, it, σ1))
    (hx : GetNexts A σ1 cn = .ok nexts) :
    MatchLoop (fuel + 1) A text CurrentNexts FirstTime LastTime CurrNode Iter σ =
      MatchLoop fuel A text nexts (loopAdvance A text FirstTime LastTime it).1
        (loopAdvance A text FirstTime LastTime it).2.1 (some cn)
        (loopAdvance A text FirstTime LastTime it).2.2 σ1 := by
  conv_lhs => unfold MatchLoop
  simp only [if_pos hgo, hr, hx]
  unfold loopAdvance
  split
  · split
    · rfl
    · split <;> rfl
  · rfl

theorem loopAdvance_matchFromLoop (fuel : Nat) (A : Regex) (text : List Char) (Offset : Int)
    (Out : List Char)
    (CurrentNexts : List NodeId) (FirstTime LastTime : Bool) (CurrNode : Option NodeId)
    (Iter : Int) (σ : MatchState) (cn : NodeId) (it : Int) (σ1 : MatchState)
    (nexts : List NodeId)
    (hgo : ¬ CurrentNexts.isEmpty = true ∧ (Iter ≠ text.length ∨ LastTime = true))
    (hr : firstEnterable fuel A text CurrentNexts Iter none σ = .ok (some cn, it, σ1))
    (hx : GetNexts A σ1 cn = .ok nexts) :
    MatchFromLoop (fuel + 1) A text Offset Out CurrentNexts FirstTime LastTime CurrNode Iter σ =
      MatchFromLoop fuel A text Offset Out nexts (loopAdvance A text FirstTime LastTime it).1
        (loopAdvance A text FirstTime LastTime it).2.1 (some cn)
        (loopAdvance A text FirstTime LastTime it).2.2 σ1 := by
  conv_lhs => unfold MatchFromLoop
  simp only [if_pos hgo, hr, hx]
  unfold loopAdvance
  split
  · split
    · rfl
    · split <;> rfl
  · rfl

/-- A runtime exception thrown by a call made in the course of the loop of `MatchInternal`
ends the loop with the answer false and the message added to `RuntimeErrors`. -/
theorem MatchLoop_attempt_raised (A : Regex) (text : List Char) {f g : Frame}
    (h : Attempts A text f g) (hg : g.catches = false) (msg : String) (σ1 : MatchState)
    (hr : g.result A text = .error (.runtime msg σ1)) :
    ∀ (fuel : Nat) (CurrentNexts : List NodeId) (FirstTime LastTime : Bool)
      (CurrNode : Option NodeId) (Iter : Int) (σ : MatchState),
      f = .matchLoop fuel CurrentNexts FirstTime LastTime CurrNode Iter σ →
      MatchLoop fuel A text CurrentNexts FirstTime LastTime CurrNode Iter σ =
        .returned false { A.withState σ1 with RuntimeErrors := A.RuntimeErrors ++ [msg] } := by
  induction h with
  | here f =>
    intro fuel CN ft lt cn it σ hf
    subst hf
    simp [Frame.catches] at hg
  | step f g h pre hc ha ih =>
    intro fuel CN ft lt cn it σ hf
    subst hf
    cases hc with
    | matchSearch fuel _ _ _ _ _ _ hgo =>
      have he := Attempts_raise A text ha rfl _ hr
      simp only [Frame.result] at he
      have he1 := Run_map_error he
      unfold MatchLoop
      simp only [if_pos hgo, he1]
    | matchNext fuel _ _ _ _ _ _ c it1 σ2 nexts hgo hr1 hx =>
      rw [loopAdvance_matchLoop fuel A text CN ft lt cn it σ c it1 σ2 nexts hgo hr1 hx]
      exact ih hg hr _ _ _ _ _ _ _ rfl

/-- The same for the loop of `MatchFromInternal`, which leaves the output as it was. -/
theorem MatchFromLoop_attempt_raised (A : Regex) (text : List Char) {f g : Frame}
    (h : Attempts A text f g) (hg : g.catches = false) (msg : String) (σ1 : MatchState)
    (hr : g.result A text = .error (.runtime msg σ1)) :
    ∀ (fuel : Nat) (Offset : Int) (Out : List Char) (CurrentNexts : List NodeId)
      (FirstTime LastTime : Bool) (CurrNode : Option NodeId) (Iter : Int) (σ : MatchState),
      f = .matchFromLoop fuel Offset Out CurrentNexts FirstTime LastTime CurrNode Iter σ →
      MatchFromLoop fuel A text Offset Out CurrentNexts FirstTime LastTime CurrNode Iter σ =
        .returned (false, Out)
          { A.withState σ1 with RuntimeErrors := A.RuntimeErrors ++ [msg] } := by
  induction h with
  | here f =>
    intro fuel Offset Out CN ft lt cn it σ hf
    subst hf
    simp [Frame.catches] at hg
  | step f g h pre hc ha ih =>
    intro fuel Offset Out CN ft lt cn it σ hf
    subst hf
    cases hc with
    | matchFromSearch fuel _ _ _ _ _ _ _ _ hgo =>
      have he := Attempts_raise A text ha rfl _ hr
      simp only [Frame.result] at he
      have he1 := Run_map_error he
      unfold MatchFromLoop
      simp only [if_pos hgo, he1]
    | matchFromNext fuel _ _ _ _ _ _ _ _ c it1 σ2 nexts hgo hr1 hx =>
      rw [loopAdvance_matchFromLoop fuel A text Offset Out CN ft lt cn it σ c it1 σ2 nexts hgo hr1
        hx]
      exact ih hg hr _ _ _ _ _ _ _ _ _ rfl

/-! ## The calls of the matcher: the `Succeeded` flag of a capture -/

theorem Attempts_trans (A : Regex) (text : List Char) {f g h : Frame}
    (h1 : Attempts A text f g) (h2 : Attempts A text g h) : Attempts A text f h := by
  induction h1 with
  | here f => exact h2
  | step f g1 g pre hc _ ih => exact .step f g1 h pre hc (ih h2)

theorem Attempts_one (A : Regex) (text : List Char) {f g : Frame} {pre : List Frame}
    (h : Calls A text f pre g) : Attempts A text f g :=
  .step f g g pre h (.here g)

theorem succeeded_setDepth (σ : MatchState) (n : NodeId) (d : Int) (cp : CapturePtr) :
    (σ.setDepth n d).succeeded? cp = σ.succeeded? cp := by
  cases cp <;> rfl

theorem succeeded_tickers (σ : MatchState) (t : List RegexTicker) (cp : CapturePtr) :
    ({ σ with Tickers := t } : MatchState).succeeded? cp = σ.succeeded? cp := by
  cases cp <;> rfl

theorem succeeded_setCapture_self (σ : MatchState) (cp : CapturePtr) (c : RegexCaptureBase) :
    (σ.setCapture cp c).succeeded? cp = (σ.succeeded? cp).map (fun _ => c.Succeeded) := by
  cases cp with
  | capture i =>
    simp only [MatchState.succeeded?, MatchState.capture, MatchState.setCapture, get?_setAt]
    by_cases hi : i < σ.Captures.length
    · simp only [hi, and_self, if_true, Run.toOption, Option.map_some']
      rw [List.get?_eq_getElem?, List.getElem?_eq_getElem hi]
      rfl
    · simp only [hi, and_false, if_false]
      rw [List.get?_eq_getElem?, List.getElem?_eq_none (by omega)]
      rfl
  | subroutine i =>
    simp only [MatchState.succeeded?, MatchState.capture, MatchState.setCapture, get?_setAt]
    by_cases hi : i < σ.DefinedSubroutines.length
    · simp only [hi, and_self, if_true, Run.toOption, Option.map_some']
      rw [List.get?_eq_getElem?, List.getElem?_eq_getElem hi]
      rfl
    · simp only [hi, and_false, if_false]
      rw [List.get?_eq_getElem?, List.getElem?_eq_none (by omega)]
      rfl

theorem succeeded_setCapture_other (σ : MatchState) (cp cq : CapturePtr) (c : RegexCaptureBase)
    (h : cq ≠ cp) : (σ.setCapture cp c).succeeded? cq = σ.succeeded? cq := by
  cases cp with
  | capture i =>
    cases cq with
    | capture j =>
      have hji : j ≠ i := fun e => h (by rw [e])
      simp only [MatchState.succeeded?, MatchState.capture, MatchState.setCapture, get?_setAt,
        hji, false_and, if_false]
    | subroutine j => rfl
  | subroutine i =>
    cases cq with
    | capture j => rfl
    | subroutine j =>
      have hji : j ≠ i := fun e => h (by rw [e])
      simp only [MatchState.succeeded?, MatchState.capture, MatchState.setCapture, get?_setAt,
        hji, false_and, if_false]

/-- Clearing the flag of a capture leaves every capture that was unset unset. -/
theorem unset_clear (σ : MatchState) (cp cq : CapturePtr) (cap : RegexCaptureBase)
    (h : σ.unset cq) : (σ.setCapture cp { cap with Succeeded := false }).unset cq := by
  unfold MatchState.unset at h ⊢
  by_cases e : cq = cp
  · subst e
    rw [succeeded_setCapture_self]
    cases σ.succeeded? cq <;> simp
  · rw [succeeded_setCapture_other _ _ _ _ e]
    exact h

theorem Run_map_ok {α β : Type} {x : Run α} {f : α → β} {b : β}
    (h : x.map f = .ok b) : ∃ a, x = .ok a ∧ f a = b := by
  cases x with
  | error e => simp [Except.map] at h
  | ok a => exact ⟨a, rfl, by simpa [Except.map] using h⟩

theorem UnsetOrEntered_call {A : Regex} {text : List Char} {cp : CapturePtr} {f g : Frame}
    {pre : List Frame} {σ1 : MatchState} (hc : Calls A text f pre g)
    (hq : UnsetOrEntered A text cp f g.state) (hk : Keeps A text cp g)
    (hr : g.result A text = .ok σ1) : UnsetOrEntered A text cp f σ1 := by
  rcases hq with hu | he
  · rcases hk hu σ1 hr with h1 | ⟨h, ha, hE⟩
    · exact Or.inl h1
    · exact Or.inr ⟨h, .step f g h pre hc ha, hE⟩
  · exact Or.inr he

theorem UnsetOrEntered_same {A : Regex} {text : List Char} {cp : CapturePtr} {f : Frame}
    {σ σ1 : MatchState} (hq : UnsetOrEntered A text cp f σ)
    (hs : σ1.succeeded? cp = σ.succeeded? cp) : UnsetOrEntered A text cp f σ1 := by
  rcases hq with hu | he
  · exact Or.inl (by unfold MatchState.unset at hu ⊢; rw [hs]; exact hu)
  · exact Or.inr he

theorem UnsetOrEntered_clear {A : Regex} {text : List Char} {cp : CapturePtr} {f : Frame}
    {σ : MatchState} (hq : UnsetOrEntered A text cp f σ) (cq : CapturePtr)
    (cap : RegexCaptureBase) :
    UnsetOrEntered A text cp f (σ.setCapture cq { cap with Succeeded := false }) := by
  rcases hq with hu | he
  · exact Or.inl (unset_clear σ cq cp cap hu)
  · exact Or.inr he

theorem keeps_firstEnterable (A : Regex) (text : List Char) (cp : CapturePtr) (k : Nat)
    (IH : ∀ g : Frame, g.fuel ≤ k → g.catches = false → Keeps A text cp g)
    (cands : List NodeId) (Input : Int) (Outers : Option (List NodeId)) (σ : MatchState) :
    Keeps A text cp (.firstEnterable (k + 1) cands Input Outers σ) := by
  intro hu σ' hres
  simp only [Frame.result] at hres
  obtain ⟨r, h, rfl⟩ := Run_map_ok hres
  cases cands with
  | nil =>
    unfold firstEnterable at h
    cases h
    exact Or.inl hu
  | cons c cs =>
    unfold firstEnterable at h
    simp only [bind, Except.bind] at h
    cases hc : CanEnter k A text c Input Outers σ with
    | error e => simp [hc] at h
    | ok r1 =>
      obtain ⟨b, i, σ1⟩ := r1
      have q1 : UnsetOrEntered A text cp (.firstEnterable (k + 1) (c :: cs) Input Outers σ) σ1 :=
        UnsetOrEntered_call (.candidate k c cs Input Outers σ) (Or.inl hu)
          (IH _ (Nat.le_refl _) rfl) (by simp only [Frame.result, hc]; rfl)
      simp only [hc] at h
      cases b with
      | true =>
        simp only [if_true, pure, Except.pure] at h
        cases h
        exact q1
      | false =>
        simp only [Bool.false_eq_true, if_false] at h
        exact UnsetOrEntered_call (.nextCandidate k c cs Input Outers σ i σ1 hc) q1
          (IH _ (Nat.le_refl _) rfl) (by simp only [Frame.result, h]; rfl)

theorem keeps_chunkMatch (A : Regex) (text : List Char) (cp : CapturePtr) (k : Nat)
    (IH : ∀ g : Frame, g.fuel ≤ k → g.catches = false → Keeps A text cp g)
    (Input : Int) (Ins Outs : List GhostPtr) (Lazy : Bool) (Outers : Option (List NodeId))
    (rev : Bool) (σ : MatchState) :
    Keeps A text cp (.chunkMatch (k + 1) Input Ins Outs Lazy Outers rev σ) := by
  intro hu σ' hres
  simp only [Frame.result] at hres
  obtain ⟨r, h, rfl⟩ := Run_map_ok hres
  unfold ChunkMatch at h
  simp only [bind, Except.bind] at h
  cases hs : startNexts A Ins with
  | error e => simp [hs] at h
  | ok CN =>
    simp only [hs] at h
    exact UnsetOrEntered_call (.chunkLoop k Input Ins Outs Lazy Outers rev σ CN hs) (Or.inl hu)
      (IH _ (Nat.le_refl _) rfl) (by simp only [Frame.result, h]; rfl)

theorem chunkMatchFinish_state (A : Regex) (Input : Int) (Outs : List GhostPtr) (rev : Bool)
    (cn : Option NodeId) (lm ome : Int) (σ : MatchState) (r : Bool × Int × MatchState)
    (h : chunkMatchFinish A Input Outs rev cn lm ome σ = .ok r) : r.2.2 = σ := by
  unfold chunkMatchFinish at h
  simp only [] at h
  repeat' split at h
  all_goals first
    | (cases h; rfl)
    | (cases h; done)

theorem keeps_chunkMatchLoop (A : Regex) (text : List Char) (cp : CapturePtr) (k : Nat)
    (IH : ∀ g : Frame, g.fuel ≤ k → g.catches = false → Keeps A text cp g)
    (Input : Int) (Outs : List GhostPtr) (Lazy : Bool) (Outers : Option (List NodeId))
    (rev : Bool) (CN : List NodeId) (CurrNode : Option NodeId) (lm ome : Int)
    (σ : MatchState) :
    Keeps A text cp (.chunkMatchLoop (k + 1) Input Outs Lazy Outers rev CN CurrNode lm ome σ) := by
  intro hu σ' hres
  simp only [Frame.result] at hres
  obtain ⟨r, h, rfl⟩ := Run_map_ok hres
  unfold ChunkMatchLoop at h
  simp only [bind, Except.bind] at h
  by_cases hgo : CN.isEmpty = true ∨
      (if rev then decide (ome = -1) else decide (ome = text.length)) = true
  · rw [if_pos hgo] at h
    rw [chunkMatchFinish_state _ _ _ _ _ _ _ _ _ h]
    exact Or.inl hu
  · rw [if_neg hgo] at h
    cases hf : firstEnterable k A text CN ome Outers σ with
    | error e => simp [hf] at h
    | ok r1 =>
      obtain ⟨found, pos, σ1⟩ := r1
      have q1 : UnsetOrEntered A text cp
          (.chunkMatchLoop (k + 1) Input Outs Lazy Outers rev CN CurrNode lm ome σ) σ1 :=
        UnsetOrEntered_call (.chunkSearch k Input Outs Lazy Outers rev CN CurrNode lm ome σ hgo)
          (Or.inl hu) (IH _ (Nat.le_refl _) rfl) (by simp only [Frame.result, hf]; rfl)
      simp only [hf] at h
      cases found with
      | none =>
        simp only [] at h
        rw [chunkMatchFinish_state _ _ _ _ _ _ _ _ _ h]
        exact q1
      | some cn =>
        simp only [] at h
        cases hx : GetNexts A σ1 cn with
        | error e => simp [hx] at h
        | ok nexts =>
          cases hcn : A.node cn with
          | error e => simp [hx, hcn] at h
          | ok cnode =>
            simp only [hx, hcn] at h
            by_cases hl : reachesOut cnode Outs = true ∧ Lazy = true
            · rw [if_pos hl] at h
              cases h
              exact q1
            · rw [if_neg hl] at h
              exact UnsetOrEntered_call
                (.chunkNext k Input Outs Lazy Outers rev CN CurrNode lm ome σ cn pos σ1 nexts cnode
                  hgo hf hx hcn hl) q1 (IH _ (Nat.le_refl _) rfl)
                (by simp only [Frame.result, h]; rfl)

theorem keeps_tryAnyTakers (A : Regex) (text : List Char) (cp : CapturePtr) (k : Nat)
    (IH : ∀ g : Frame, g.fuel ≤ k → g.catches = false → Keeps A text cp g)
    (self : NodeId) (Input : Int) (NC rem : List NodeId) (σ : MatchState) :
    Keeps A text cp (.tryAnyTakers (k + 1) self Input NC rem σ) := by
  intro hu σ' hres
  simp only [Frame.result] at hres
  obtain ⟨r, h, rfl⟩ := Run_map_ok hres
  cases rem with
  | nil =>
    unfold TryAnyTakers at h
    cases h
    exact Or.inl hu
  | cons c rest =>
    unfold TryAnyTakers at h
    simp only [bind, Except.bind] at h
    cases hx : GetNexts A σ c with
    | error e => simp [hx] at h
    | ok RN =>
      simp only [hx] at h
      cases ht : takersOf k A text self Input NC RN σ with
      | error e => simp [ht] at h
      | ok r1 =>
        obtain ⟨taken, σ1⟩ := r1
        have q1 : UnsetOrEntered A text cp (.tryAnyTakers (k + 1) self Input NC (c :: rest) σ) σ1 :=
          UnsetOrEntered_call (.takersRound k self Input NC c rest σ RN hx) (Or.inl hu)
            (IH _ (Nat.le_refl _) rfl) (by simp only [Frame.result, ht]; rfl)
        simp only [ht] at h
        cases taken with
        | true =>
          simp only [if_true, pure, Except.pure] at h
          cases h
          exact q1
        | false =>
          simp only [Bool.false_eq_true, if_false] at h
          exact UnsetOrEntered_call (.takersNext k self Input NC c rest σ RN σ1 hx ht) q1
            (IH _ (Nat.le_refl _) rfl) (by simp only [Frame.result, h]; rfl)

theorem keeps_takersOf (A : Regex) (text : List Char) (cp : CapturePtr) (k : Nat)
    (IH : ∀ g : Frame, g.fuel ≤ k → g.catches = false → Keeps A text cp g)
    (self : NodeId) (Input : Int) (NC rem : List NodeId) (σ : MatchState) :
    Keeps A text cp (.takersOf (k + 1) self Input NC rem σ) := by
  intro hu σ' hres
  simp only [Frame.result] at hres
  obtain ⟨r, h, rfl⟩ := Run_map_ok hres
  cases rem with
  | nil =>
    unfold takersOf at h
    cases h
    exact Or.inl hu
  | cons c rest =>
    unfold takersOf at h
    simp only [bind, Except.bind] at h
    by_cases hne : c ≠ self
    · rw [if_pos hne] at h
      cases hc : CanEnter k A text c Input (some NC) σ with
      | error e => simp [hc] at h
      | ok r1 =>
        obtain ⟨b, i, σ1⟩ := r1
        have q1 : UnsetOrEntered A text cp (.takersOf (k + 1) self Input NC (c :: rest) σ) σ1 :=
          UnsetOrEntered_call (.taker k self Input NC c rest σ hne) (Or.inl hu)
            (IH _ (Nat.le_refl _) rfl) (by simp only [Frame.result, hc]; rfl)
        simp only [hc] at h
        cases b with
        | true =>
          simp only [if_true, pure, Except.pure] at h
          cases h
          exact q1
        | false =>
          simp only [Bool.false_eq_true, if_false] at h
          exact UnsetOrEntered_call (.takerNext k self Input NC c rest σ i σ1 hne hc) q1
            (IH _ (Nat.le_refl _) rfl) (by simp only [Frame.result, h]; rfl)
    · rw [if_neg hne] at h
      have e : c = self := by simpa using hne
      subst e
      exact UnsetOrEntered_call (.takerSelf k c Input NC rest σ) (Or.inl hu)
        (IH _ (Nat.le_refl _) rfl) (by simp only [Frame.result, h]; rfl)

theorem captureNodeAt_of (A : Regex) (n : NodeId) (nd : RegexNode) (name : String)
    (b : Option CapturePtr) (hn : A.node n = .ok nd) (hk : nd.kind = .Capture name b) :
    A.captureNodeAt n = some b := by
  unfold Regex.captureNodeAt
  simp only [hn, Run.toOption, hk]

theorem keeps_canEnter (A : Regex) (text : List Char) (cp : CapturePtr) (k : Nat)
    (IH : ∀ g : Frame, g.fuel ≤ k → g.catches = false → Keeps A text cp g)
    (n : NodeId) (Input : Int) (Outers : Option (List NodeId)) (σ : MatchState) :
    Keeps A text cp (.canEnter (k + 1) n Input Outers σ) := by
  intro hu σ' hres
  simp only [Frame.result] at hres
  obtain ⟨r, h, rfl⟩ := Run_map_ok hres
  have h0 := h
  cases hn : A.node n with
  | error e =>
    unfold CanEnter at h
    simp [hn, bind, Except.bind] at h
  | ok nd =>
    cases hk : nd.kind with
    | Plain =>
      unfold CanEnter at h
      simp only [hn, hk, bind, Except.bind] at h
      cases hp : plainCanEnter A text nd.Comparators Input with
      | error e => simp [hp] at h
      | ok v =>
        simp only [hp, pure, Except.pure] at h
        cases h
        exact Or.inl hu
    | Backreference nm b =>
      unfold CanEnter at h
      simp only [hn, hk, bind, Except.bind, pure, Except.pure] at h
      repeat' split at h
      all_goals first
        | (cases h; exact Or.inl hu)
        | (cases h; done)
    | AtBeginning a b =>
      unfold CanEnter at h
      simp only [hn, hk, bind, Except.bind, pure, Except.pure] at h
      repeat' split at h
      all_goals first
        | (cases h; exact Or.inl hu)
        | (cases h; done)
    | AtEnd a b =>
      unfold CanEnter at h
      simp only [hn, hk, bind, Except.bind, pure, Except.pure] at h
      repeat' split at h
      all_goals first
        | (cases h; exact Or.inl hu)
        | (cases h; done)
    | WordBoundary a =>
      unfold CanEnter at h
      simp only [hn, hk, bind, Except.bind, pure, Except.pure] at h
      repeat' split at h
      all_goals first
        | (cases h; exact Or.inl hu)
        | (cases h; done)
    | CodeHook a b =>
      unfold CanEnter at h
      simp only [hn, hk, bind, Except.bind, pure, Except.pure] at h
      cases h
      exact Or.inl hu
    | Group =>
      unfold CanEnter at h
      simp only [hn, hk, bind, Except.bind, pure, Except.pure] at h
      cases hc : ChunkMatch k A text Input nd.Ins nd.Outs nd.LazyGroup
          (some (Outers.getD [] ++ [n])) false σ with
      | error e => simp [hc] at h
      | ok r1 =>
        obtain ⟨ok, Copy, σ1⟩ := r1
        have q1 := @UnsetOrEntered_call A text cp _ _ _ _ (.group k n Input Outers σ nd hn hk) (Or.inl hu)
          (IH _ (Nat.le_refl _) rfl) (by simp only [Frame.result, hc]; rfl)
        simp only [hc] at h
        cases ok <;> (cases h; exact q1)
    | LookAhead neg =>
      unfold CanEnter at h
      simp only [hn, hk, bind, Except.bind, pure, Except.pure] at h
      cases hc : ChunkMatch k A text Input nd.Ins nd.Outs nd.LazyGroup none false σ with
      | error e => simp [hc] at h
      | ok r1 =>
        obtain ⟨ok, Copy, σ1⟩ := r1
        have q1 := @UnsetOrEntered_call A text cp _ _ _ _ (.lookAhead k n Input Outers σ nd neg hn hk)
          (Or.inl hu) (IH _ (Nat.le_refl _) rfl) (by simp only [Frame.result, hc]; rfl)
        simp only [hc] at h
        cases h
        exact q1
    | LookBehind neg =>
      unfold CanEnter at h
      simp only [hn, hk, bind, Except.bind, pure, Except.pure] at h
      cases hc : ChunkMatch k A text (Input - 1) nd.Ins nd.Outs nd.LazyGroup (some []) true σ with
      | error e => simp [hc] at h
      | ok r1 =>
        obtain ⟨ok, Copy, σ1⟩ := r1
        have q1 := @UnsetOrEntered_call A text cp _ _ _ _ (.lookBehind k n Input Outers σ nd neg hn hk)
          (Or.inl hu) (IH _ (Nat.le_refl _) rfl) (by simp only [Frame.result, hc]; rfl)
        simp only [hc] at h
        cases h
        exact q1
    | Capture name b =>
      cases b with
      | none =>
        unfold CanEnter at h
        simp only [hn, hk, bind, Except.bind, pure, Except.pure] at h
        cases h
        exact Or.inl hu
      | some cq =>
        unfold CanEnter at h
        simp only [hn, hk, bind, Except.bind, pure, Except.pure] at h
        cases hcap : σ.capture cq with
        | error e => simp [hcap] at h
        | ok cap =>
          simp only [hcap] at h
          cases hc : ChunkMatch k A text Input nd.Ins nd.Outs nd.LazyGroup
              (some (Outers.getD [] ++ [n])) false
              (σ.setCapture cq { cap with Succeeded := false }) with
          | error e => simp [hc] at h
          | ok r1 =>
            obtain ⟨ok, Copy, σ1⟩ := r1
            have q1 := @UnsetOrEntered_call A text cp _ _ _ _
              (.capture k n Input Outers σ nd name cq cap hn hk hcap)
              (UnsetOrEntered_clear (Or.inl hu) cq cap)
              (IH _ (Nat.le_refl _) rfl) (by simp only [Frame.result, hc]; rfl)
            simp only [hc] at h
            cases ok with
            | false =>
              simp only [Bool.false_eq_true, if_false] at h
              cases h
              exact q1
            | true =>
              simp only [if_true] at h
              by_cases e : cq = cp
              · subst e
                cases hb : readRange text Input Copy with
                | error e => simp [hb] at h
                | ok body =>
                  simp only [hb] at h
                  repeat' split at h
                  all_goals first
                    | (cases h; done)
                    | (cases h
                       exact Or.inr ⟨_, .here _, k + 1, n, Input, Outers, σ, _, _, rfl,
                         captureNodeAt_of A n nd name _ hn hk, h0⟩)
              · cases hb : readRange text Input Copy with
                | error e => simp [hb] at h
                | ok body =>
                  simp only [hb] at h
                  repeat' split at h
                  all_goals first
                    | (cases h; done)
                    | (cases h
                       exact UnsetOrEntered_same q1
                         (succeeded_setCapture_other _ _ _ _ (fun x => e x.symm)))
    | NoneOrMore once lz =>
      unfold CanEnter at h
      simp only [hn, hk, bind, Except.bind, pure, Except.pure] at h
      cases hc : ChunkMatch k A text Input nd.Ins nd.Outs false
          (some (Outers.getD [] ++ [n])) false σ with
      | error e => simp [hc] at h
      | ok r1 =>
        obtain ⟨ok, Copy, σ1⟩ := r1
        have q1 := @UnsetOrEntered_call A text cp _ _ _ _ (.noneOrMore k n Input Outers σ nd once lz hn hk)
          (Or.inl hu) (IH _ (Nat.le_refl _) rfl) (by simp only [Frame.result, hc]; rfl)
        simp only [hc] at h
        by_cases hgo : ok = true ∧ ¬ lz = true
        · rw [if_pos hgo] at h
          cases h
          exact q1
        · rw [if_neg hgo] at h
          cases ht : TryAnyTakers k A text n Input (Outers.getD [] ++ [n])
              (Outers.getD [] ++ [n]).reverse σ1 with
          | error e => rw [ht] at h; cases h
          | ok r2 =>
            obtain ⟨taken, σ2⟩ := r2
            have q2 := @UnsetOrEntered_call A text cp _ _ _ _
              (.takers k n Input Outers σ nd once lz ok Copy σ1 hn hk hc hgo) q1
              (IH _ (Nat.le_refl _) rfl) (by simp only [Frame.result, ht]; rfl)
            simp only [ht] at h
            cases h
            exact q2
    | Loop bt lz =>
      cases bt with
      | none =>
        unfold CanEnter at h
        simp only [hn, hk, bind, Except.bind, pure, Except.pure, Bool.false_eq_true,
          if_false] at h
        cases hc : ChunkMatch k A text Input nd.Ins nd.Outs false
            (some (Outers.getD [] ++ [n])) false σ with
        | error e => simp [hc] at h
        | ok r1 =>
          obtain ⟨ok, Copy, σ1⟩ := r1
          have q1 := @UnsetOrEntered_call A text cp _ _ _ _ (.loopFree k n Input Outers σ nd lz hn hk)
            (Or.inl hu) (IH _ (Nat.le_refl _) rfl) (by simp only [Frame.result, hc]; rfl)
          simp only [hc] at h
          cases ok <;> (simp only [Bool.false_eq_true, if_false, if_true] at h; cases h; exact q1)
      | some p =>
        unfold CanEnter at h
        simp only [hn, hk, bind, Except.bind, pure, Except.pure] at h
        cases ht : σ.ticker A p with
        | error e => simp [ht, Except.map] at h
        | ok t =>
          simp only [ht, Except.map] at h
          cases he : t.IsExhausted with
          | true =>
            simp only [he, if_true] at h
            cases h
            exact Or.inl hu
          | false =>
            simp only [he, Bool.false_eq_true, if_false] at h
            cases hc : ChunkMatch k A text Input nd.Ins nd.Outs false
                (some (Outers.getD [] ++ [n])) false σ with
            | error e => simp [hc] at h
            | ok r1 =>
              obtain ⟨ok, Copy, σ1⟩ := r1
              have q1 := @UnsetOrEntered_call A text cp _ _ _ _
                (.loopTicked k n Input Outers σ nd p lz t hn hk ht he)
                (Or.inl hu) (IH _ (Nat.le_refl _) rfl) (by simp only [Frame.result, hc]; rfl)
              simp only [hc] at h
              cases ok with
              | false =>
                simp only [Bool.false_eq_true, if_false] at h
                cases h
                exact q1
              | true =>
                simp only [if_true] at h
                cases ht1 : σ1.ticker A p with
                | error e => simp [ht1] at h
                | ok t1 =>
                  simp only [ht1] at h
                  cases h
                  exact UnsetOrEntered_same q1 (succeeded_tickers _ _ _)
    | Recursion md =>
      unfold CanEnter at h
      simp only [hn, hk, bind, Except.bind, pure, Except.pure] at h
      by_cases hd : σ.depth n < md
      · rw [if_pos hd] at h
        cases hc : ChunkMatch k A text Input nd.Ins nd.Outs nd.LazyGroup
            (some (Outers.getD [] ++ [n])) false (σ.setDepth n (σ.depth n + 1)) with
        | error e => simp [hc] at h
        | ok r1 =>
          obtain ⟨ok, Copy, σ1⟩ := r1
          have q1 := @UnsetOrEntered_call A text cp _ _ _ _ (.recursion k n Input Outers σ nd md hn hk hd)
            (UnsetOrEntered_same (Or.inl hu) (succeeded_setDepth _ _ _ _))
            (IH _ (Nat.le_refl _) rfl) (by simp only [Frame.result, hc]; rfl)
          simp only [hc] at h
          cases ok with
          | false =>
            simp only [Bool.false_eq_true, if_false] at h
            cases h
            exact UnsetOrEntered_same q1 (succeeded_setDepth _ _ _ _)
          | true =>
            simp only [if_true] at h
            cases h
            exact q1
      · rw [if_neg hd] at h
        cases h
    | Subroutine md name b =>
      cases b with
      | none =>
        unfold CanEnter at h
        simp only [hn, hk, bind, Except.bind, pure, Except.pure] at h
        cases h
        exact Or.inl hu
      | some cq =>
        unfold CanEnter at h
        simp only [hn, hk, bind, Except.bind, pure, Except.pure] at h
        cases hcap : σ.capture cq with
        | error e => simp [hcap] at h
        | ok cap =>
          simp only [hcap] at h
          cases hl : cap.LastCapture with
          | none =>
            simp only [hl] at h
            cases h
            exact Or.inl hu
          | some target =>
            simp only [hl] at h
            by_cases hd : σ.depth n < md
            · rw [if_pos hd] at h
              exact @UnsetOrEntered_call A text cp _ _ _ _
                (.subroutine k n Input Outers σ nd md name cq cap target hn hk hcap hl hd)
                (UnsetOrEntered_same (Or.inl hu) (succeeded_setDepth _ _ _ _))
                (IH _ (Nat.le_refl _) rfl) (by simp only [Frame.result, h]; rfl)
            · rw [if_neg hd] at h
              cases h
    | Conditional Cond IfTrue IfFalse =>
      cases hch : A.chunk Cond with
      | error e =>
        unfold CanEnter at h
        simp [hn, hk, hch, bind, Except.bind] at h
      | ok cchunk =>
        rw [CanEnter_conditional k A text n Input Outers σ nd Cond IfTrue IfFalse cchunk hn hk
          hch] at h
        cases hcc : conditionCapture A cchunk with
        | error e => rw [hcc] at h; cases h
        | ok Cap =>
          rw [hcc] at h
          simp only [Except.bind] at h
          cases Cap with
          | some cq =>
            simp only [] at h
            cases hcap : σ.capture cq with
            | error e => rw [hcap] at h; cases h
            | ok c =>
              rw [hcap] at h
              simp only [Except.map, Except.bind] at h
              cases hs : c.Succeeded with
              | true =>
                simp only [hs, if_true] at h
                unfold conditionalBranch at h
                simp only [bind, Except.bind, pure, Except.pure] at h
                cases hb : A.chunk IfTrue with
                | error e => rw [hb] at h; cases h
                | ok bchunk =>
                  simp only [hb] at h
                  cases hc2 : ChunkMatch k A text Input (bchunk.inPtrs IfTrue) (bchunk.outPtrs IfTrue)
                      nd.LazyGroup (some (Outers.getD [] ++ [n])) false σ with
                  | error e => rw [hc2] at h; cases h
                  | ok r2 =>
                    obtain ⟨ok2, Copy2, σ2⟩ := r2
                    have q2 := @UnsetOrEntered_call A text cp _ _ _ _
                      (.thenByFlag k n Input Outers σ nd Cond IfTrue IfFalse cchunk bchunk cq c hn hk hch
                        hcc hcap hs hb) (Or.inl hu)
                      (IH _ (Nat.le_refl _) rfl) (by simp only [Frame.result, hc2]; rfl)
                    simp only [hc2] at h
                    cases ok2 <;>
                      (simp only [Bool.false_eq_true, if_false, if_true] at h; cases h; exact q2)
              | false =>
                simp only [hs, Bool.false_eq_true, if_false] at h
                cases IfFalse with
                | none =>
                  simp only [Option.elim] at h
                  cases h
                  exact Or.inl hu
                | some f =>
                  simp only [Option.elim] at h
                  unfold conditionalBranch at h
                  simp only [bind, Except.bind, pure, Except.pure] at h
                  cases hb : A.chunk f with
                  | error e => rw [hb] at h; cases h
                  | ok bchunk =>
                    simp only [hb] at h
                    cases hc2 : ChunkMatch k A text Input (bchunk.inPtrs f) (bchunk.outPtrs f)
                        nd.LazyGroup (some (Outers.getD [] ++ [n])) false σ with
                    | error e => rw [hc2] at h; cases h
                    | ok r2 =>
                      obtain ⟨ok2, Copy2, σ2⟩ := r2
                      have q2 := @UnsetOrEntered_call A text cp _ _ _ _
                        (.elseByFlag k n Input Outers σ nd Cond IfTrue f cchunk bchunk cq c hn hk hch hcc
                          hcap hs hb) (Or.inl hu)
                        (IH _ (Nat.le_refl _) rfl) (by simp only [Frame.result, hc2]; rfl)
                      simp only [hc2] at h
                      cases ok2 <;>
                        (simp only [Bool.false_eq_true, if_false, if_true] at h; cases h; exact q2)
          | none =>
            simp only [] at h
            cases hc : ChunkMatch k A text Input (cchunk.inPtrs Cond) (cchunk.outPtrs Cond)
                nd.LazyGroup (some (Outers.getD [] ++ [n])) false σ with
            | error e => rw [hc] at h; cases h
            | ok r1 =>
              obtain ⟨ok, Copy, σ1⟩ := r1
              have q1 := @UnsetOrEntered_call A text cp _ _ _ _
                (.condition k n Input Outers σ nd Cond IfTrue IfFalse cchunk hn hk hch hcc)
                (Or.inl hu) (IH _ (Nat.le_refl _) rfl) (by simp only [Frame.result, hc]; rfl)
              rw [hc] at h
              simp only [Except.map, Except.bind] at h
              cases ok with
              | true =>
                simp only [if_true] at h
                unfold conditionalBranch at h
                simp only [bind, Except.bind, pure, Except.pure] at h
                cases hb : A.chunk IfTrue with
                | error e => rw [hb] at h; cases h
                | ok bchunk =>
                  simp only [hb] at h
                  cases hc2 : ChunkMatch k A text Input (bchunk.inPtrs IfTrue) (bchunk.outPtrs IfTrue)
                      nd.LazyGroup (some (Outers.getD [] ++ [n])) false σ1 with
                  | error e => rw [hc2] at h; cases h
                  | ok r2 =>
                    obtain ⟨ok2, Copy2, σ2⟩ := r2
                    have q2 := @UnsetOrEntered_call A text cp _ _ _ _
                      (.thenByChunk k n Input Outers σ nd Cond IfTrue IfFalse cchunk bchunk Copy σ1 hn hk
                        hch hcc hc hb) q1
                      (IH _ (Nat.le_refl _) rfl) (by simp only [Frame.result, hc2]; rfl)
                    simp only [hc2] at h
                    cases ok2 <;>
                      (simp only [Bool.false_eq_true, if_false, if_true] at h; cases h; exact q2)
              | false =>
                simp only [Bool.false_eq_true, if_false] at h
                cases IfFalse with
                | none =>
                  simp only [Option.elim] at h
                  cases h
                  exact q1
                | some f =>
                  simp only [Option.elim] at h
                  unfold conditionalBranch at h
                  simp only [bind, Except.bind, pure, Except.pure] at h
                  cases hb : A.chunk f with
                  | error e => rw [hb] at h; cases h
                  | ok bchunk =>
                    simp only [hb] at h
                    cases hc2 : ChunkMatch k A text Input (bchunk.inPtrs f) (bchunk.outPtrs f)
                        nd.LazyGroup (some (Outers.getD [] ++ [n])) false σ1 with
                    | error e => rw [hc2] at h; cases h
                    | ok r2 =>
                      obtain ⟨ok2, Copy2, σ2⟩ := r2
                      have q2 := @UnsetOrEntered_call A text cp _ _ _ _
                        (.elseByChunk k n Input Outers σ nd Cond IfTrue f cchunk bchunk Copy σ1 hn hk hch
                          hcc hc hb) q1
                        (IH _ (Nat.le_refl _) rfl) (by simp only [Frame.result, hc2]; rfl)
                      simp only [hc2] at h
                      cases ok2 <;>
                        (simp only [Bool.false_eq_true, if_false, if_true] at h; cases h; exact q2)

/-- A call without fuel does not return. -/
theorem keeps_zero (A : Regex) (text : List Char) (cp : CapturePtr) (f : Frame)
    (hf : f.fuel = 0) (hc : f.catches = false) : Keeps A text cp f := by
  intro hu σ1 hr
  cases f <;> simp only [Frame.fuel] at hf <;> subst hf <;>
    simp only [Frame.catches, Bool.true_eq_false] at hc <;>
    (simp only [Frame.result] at hr
     first
       | (unfold CanEnter at hr; cases hr)
       | (unfold firstEnterable at hr; cases hr)
       | (unfold ChunkMatch at hr; cases hr)
       | (unfold ChunkMatchLoop at hr; cases hr)
       | (unfold TryAnyTakers at hr; cases hr)
       | (unfold takersOf at hr; cases hr))

/-- Every call of the matcher below the top loops keeps a capture unset unless the capturing
group is entered successfully in its course. -/
theorem keeps_all (A : Regex) (text : List Char) (cp : CapturePtr) :
    ∀ (N : Nat) (f : Frame), f.fuel ≤ N → f.catches = false → Keeps A text cp f := by
  intro N
  induction N with
  | zero =>
    intro f hf hc
    exact keeps_zero A text cp f (Nat.le_zero.mp hf) hc
  | succ N ih =>
    intro f hf hc
    cases f with
    | canEnter fuel n Input Outers σ =>
      cases fuel with
      | zero => exact keeps_zero A text cp _ rfl hc
      | succ k =>
        exact keeps_canEnter A text cp k
          (fun g hg hgc => ih g (Nat.le_trans hg (Nat.le_of_succ_le_succ hf)) hgc) n Input Outers σ
    | firstEnterable fuel cands Input Outers σ =>
      cases fuel with
      | zero => exact keeps_zero A text cp _ rfl hc
      | succ k =>
        exact keeps_firstEnterable A text cp k
          (fun g hg hgc => ih g (Nat.le_trans hg (Nat.le_of_succ_le_succ hf)) hgc) cands Input
          Outers σ
    | chunkMatch fuel Input Ins Outs Lazy Outers rev σ =>
      cases fuel with
      | zero => exact keeps_zero A text cp _ rfl hc
      | succ k =>
        exact keeps_chunkMatch A text cp k
          (fun g hg hgc => ih g (Nat.le_trans hg (Nat.le_of_succ_le_succ hf)) hgc) Input Ins Outs
          Lazy Outers rev σ
    | chunkMatchLoop fuel Input Outs Lazy Outers rev CN CurrNode lm ome σ =>
      cases fuel with
      | zero => exact keeps_zero A text cp _ rfl hc
      | succ k =>
        exact keeps_chunkMatchLoop A text cp k
          (fun g hg hgc => ih g (Nat.le_trans hg (Nat.le_of_succ_le_succ hf)) hgc) Input Outs
          Lazy Outers rev CN CurrNode lm ome σ
    | tryAnyTakers fuel self Input NC rem σ =>
      cases fuel with
      | zero => exact keeps_zero A text cp _ rfl hc
      | succ k =>
        exact keeps_tryAnyTakers A text cp k
          (fun g hg hgc => ih g (Nat.le_trans hg (Nat.le_of_succ_le_succ hf)) hgc) self Input NC
          rem σ
    | takersOf fuel self Input NC rem σ =>
      cases fuel with
      | zero => exact keeps_zero A text cp _ rfl hc
      | succ k =>
        exact keeps_takersOf A text cp k
          (fun g hg hgc => ih g (Nat.le_trans hg (Nat.le_of_succ_le_succ hf)) hgc) self Input NC
          rem σ
    | matchLoop fuel CN ft lt cn it σ => simp [Frame.catches] at hc
    | matchFromLoop fuel Offset Out CN ft lt cn it σ => simp [Frame.catches] at hc

/-- After a call below the top loops has returned, a capture that was unset when the call was
made is still unset, or the capturing group was entered successfully in the course of the
call. -/
theorem unset_after (A : Regex) (text : List Char) (cp : CapturePtr) (p : Frame)
    (hc : p.catches = false) (hu : p.state.unset cp) (σ1 : MatchState)
    (hr : p.result A text = .ok σ1) :
    σ1.unset cp ∨ ∃ q ∈ [p], ∃ h, Attempts A text q h ∧ CaptureEntered A text cp h := by
  rcases keeps_all A text cp p.fuel p (Nat.le_refl _) hc hu σ1 hr with h1 | ⟨h, ha, hE⟩
  · exact Or.inl h1
  · exact Or.inr ⟨p, List.mem_singleton.mpr rfl, h, ha, hE⟩

/-- When a call is made, a capture that was unset at the start of the calling function is
still unset, or the capturing group was entered successfully in the course of one of the calls
the function made before. -/
theorem Calls_unset (A : Regex) (text : List Char) (cp : CapturePtr) {f g : Frame}
    {pre : List Frame} (hc : Calls A text f pre g) (hu : f.state.unset cp) :
    g.state.unset cp ∨
      ∃ p ∈ pre, ∃ h, Attempts A text p h ∧ CaptureEntered A text cp h := by
  cases hc
  all_goals first
    | exact Or.inl hu
    | exact Or.inl (unset_clear _ _ _ _ hu)
    | (refine Or.inl ?_
       simpa only [Frame.state, MatchState.unset, succeeded_setDepth] using hu)
    | (refine unset_after A text cp _ ?_ ?_ _ ?_
       · rfl
       · exact hu
       · simp only [Frame.result, *]
         rfl)

/-- In the course of a call, a capture that was unset at the start is still unset when a later
call is made, unless the capturing group was entered successfully before. -/
theorem Attempts_unset (A : Regex) (text : List Char) (cp : CapturePtr) {f0 g : Frame}
    (ha : Attempts A text f0 g) (hu : f0.state.unset cp) :
    g.state.unset cp ∨ ∃ h, Before A text f0 h g ∧ CaptureEntered A text cp h := by
  induction ha with
  | here f => exact Or.inl hu
  | step f g1 g pre hc hrest ih =>
    rcases Calls_unset A text cp hc hu with h1 | ⟨p, hp, h, hph, hE⟩
    · rcases ih h1 with h2 | ⟨h, hb, hE⟩
      · exact Or.inl h2
      · obtain ⟨f1, pre1, g2, p1, a1, c1, m1, a2, a3⟩ := hb
        exact Or.inr ⟨h, ⟨f1, pre1, g2, p1, .step f g1 f1 pre hc a1, c1, m1, a2, a3⟩, hE⟩
    · exact Or.inr ⟨h, ⟨f, pre, g1, p, .here f, hc, hp, hph, hrest⟩, hE⟩

/-- A back-reference node whose capture is unset does not match: if its `CanEnter` returns, it
returns false with the iterator and the state as they were. -/
theorem CanEnter_backreference_not_set (fuel : Nat) (A : Regex) (text : List Char) (n : NodeId)
    (Input : Int) (Outers : Option (List NodeId)) (σ : MatchState) (cp : CapturePtr)
    (hn : A.backrefCaptureAt n = some (some cp)) (hu : σ.unset cp)
    (r : Bool × Int × MatchState) (hr : CanEnter fuel A text n Input Outers σ = .ok r) :
    r = (false, Input, σ) := by
  cases fuel with
  | zero => unfold CanEnter at hr; cases hr
  | succ k =>
    cases hs : σ.succeeded? cp with
    | none =>
      unfold MatchState.succeeded? at hs
      cases hc : σ.capture cp with
      | ok cap => simp [hc, Run.toOption] at hs
      | error e =>
        unfold Regex.backrefCaptureAt at hn
        cases hnd : A.node n with
        | error e => simp [hnd, Run.toOption] at hn
        | ok nd =>
          simp only [hnd, Run.toOption] at hn
          unfold CanEnter at hr
          simp only [hnd, bind, Except.bind] at hr
          cases hk : nd.kind <;> simp only [hk] at hn <;> try (cases hn)
          simp only [hk, hc] at hr
          cases hr
    | some v =>
      cases v with
      | true => exact absurd hs hu
      | false =>
        rw [CanEnter_backreference_unset k A text n Input Outers σ (some cp) hn
          (Or.inr ⟨cp, rfl, hs⟩)] at hr
        cases hr
        rfl

/-! ## The assembler leaves every capture unset -/

/-- A property that every step of a fold keeps holds at its end. -/
theorem foldOpt_keeps {α β : Type} (P : β → Prop) (f : β → α → Option β)
    (hf : ∀ x a y, f x a = some y → P x → P y) :
    ∀ (l : List α) (b b1 : β), foldOpt f l b = some b1 → P b → P b1 := by
  intro l
  induction l with
  | nil =>
    intro b b1 h hb
    simp only [foldOpt, Option.some.injEq] at h
    subst h
    exact hb
  | cons a as ih =>
    intro b b1 h hb
    simp only [foldOpt] at h
    cases hx : f b a with
    | none => simp [hx] at h
    | some y =>
      simp only [hx] at h
      exact ih y b1 h (hf b a y hx hb)

theorem fresh_modifyNode {A B : Regex} {n : NodeId} {f : RegexNode → RegexNode}
    (h : A.modifyNode n f = some B) (hA : A.fresh) : B.fresh := by
  simp only [Regex.modifyNode, Option.map_eq_some'] at h
  obtain ⟨nd, _, rfl⟩ := h
  exact hA

theorem fresh_modifyChunk {A B : Regex} {c : ChunkId} {f : RegexChunk → RegexChunk}
    (h : A.modifyChunk c f = some B) (hA : A.fresh) : B.fresh := by
  simp only [Regex.modifyChunk, Option.map_eq_some'] at h
  obtain ⟨nd, _, rfl⟩ := h
  exact hA

theorem fresh_modifyIn {A B : Regex} {g : GhostPtr} {f : RegexNodeGhostIn → RegexNodeGhostIn}
    (h : A.modifyIn g f = some B) (hA : A.fresh) : B.fresh := by
  unfold Regex.modifyIn at h
  split at h
  · cases h
  · exact fresh_modifyChunk h hA

theorem fresh_modifyOut {A B : Regex} {g : GhostPtr} {f : RegexNodeGhostOut → RegexNodeGhostOut}
    (h : A.modifyOut g f = some B) (hA : A.fresh) : B.fresh := by
  unfold Regex.modifyOut at h
  split at h
  · cases h
  · exact fresh_modifyChunk h hA

theorem fresh_deleteChunk {A B : Regex} {c : ChunkId}
    (h : A.deleteChunk c = some B) (hA : A.fresh) : B.fresh := by
  unfold Regex.deleteChunk at h
  split at h
  · cases h
  · cases h
    exact hA

theorem fresh_Wrap {A : Regex} {n : NodeId} {r : Regex × ChunkId}
    (h : A.Wrap n = some r) (hA : A.fresh) : r.1.fresh := by
  simp only [Regex.Wrap, Regex.allocChunk, Option.map_eq_some'] at h
  obtain ⟨A2, h2, rfl⟩ := h
  exact fresh_modifyNode h2 hA

theorem fresh_Literal {A : Regex} {cc : List Nat} {r : Regex × ChunkId}
    (h : A.Literal cc = some r) (hA : A.fresh) : r.1.fresh := by
  simp only [Regex.Literal, Regex.allocNode] at h
  exact fresh_Wrap h hA

theorem fresh_Concat {A : Regex} {lhs rhs : RegexChunkLooseEnds}
    {r : Regex × RegexChunkLooseEnds}
    (h : A.Concat lhs rhs = some r) (hA : A.fresh) : r.1.fresh := by
  unfold Regex.Concat at h
  split at h
  · split at h
    · cases h
    · rename_i A1 h1
      split at h
      · cases h
      · rename_i A2 h2
        cases h
        exact foldOpt_keeps Regex.fresh _ (fun x a y hf hx => fresh_modifyOut hf hx) _ _ _ h2
          (foldOpt_keeps Regex.fresh _ (fun x a y hf hx => fresh_modifyChunk hf hx) _ _ _ h1 hA)
  · cases h

theorem fresh_collapseInNext {nc : ChunkId} {currInd : Nat}
    {acc r : CollapseWork × List Nat × List Nat} {currNext : NodeId}
    (h : collapseInNext nc currInd acc currNext = some r) (hA : acc.1.A.fresh) :
    r.1.A.fresh := by
  obtain ⟨w, Segged, NextNodes⟩ := acc
  unfold collapseInNext at h
  simp only [] at h
  repeat' split at h
  all_goals try (cases h; done)
  simp only [Option.map_eq_some'] at h
  rename_i hmade _ _ _ _ _ _
  obtain ⟨a, ha, rfl⟩ := h
  refine fresh_modifyNode ha ?_
  split at hmade
  · cases hmade
    exact hA
  · split at hmade
    · cases hmade
    · simp only [Option.map_eq_some'] at hmade
      obtain ⟨A2, h2, he⟩ := hmade
      cases he
      exact fresh_modifyChunk h2 hA

theorem fresh_CollapseIns {nc : ChunkId} {w : CollapseWork} {CurrentIns : List Nat}
    {r : CollapseWork × List Nat}
    (h : CollapseIns nc w CurrentIns = some r) (hA : w.A.fresh) : r.1.A.fresh := by
  unfold CollapseIns at h
  refine foldOpt_keeps (fun (x : CollapseWork × List Nat) => x.1.A.fresh) _ ?_ _ _ _ h hA
  intro x a y hf hx
  simp only [] at hf
  repeat' split at hf
  all_goals try (cases hf; done)
  rename_i hin
  simp only [Option.map_eq_some'] at hf
  obtain ⟨A1, h1, rfl⟩ := hf
  refine fresh_modifyIn h1 ?_
  exact foldOpt_keeps (fun (x : CollapseWork × List Nat × List Nat) => x.1.A.fresh) _
    (fun x a y hf hx => fresh_collapseInNext hf hx) _ _ _ hin hx

theorem fresh_collapseNodeNext {nc : ChunkId} {chunkOuts : List GhostPtr} {currInd : Nat}
    {acc r : CollapseWork × Option Nat × List Nat} {currNext : GhostPtr}
    (h : collapseNodeNext nc chunkOuts currInd acc currNext = some r) (hA : acc.1.A.fresh) :
    r.1.A.fresh := by
  obtain ⟨w, ConstructedInd, NextOuts⟩ := acc
  unfold collapseNodeNext at h
  simp only [] at h
  repeat' split at h
  all_goals try (cases h; done)
  simp only [Option.map_eq_some'] at h
  rename_i hch
  obtain ⟨a, ha, rfl⟩ := h
  refine fresh_modifyOut ha ?_
  repeat' split at hch
  all_goals simp only [Option.map_eq_some', Option.some.injEq] at hch
  all_goals first
    | (cases hch; exact hA)
    | (obtain ⟨A1, h1, he⟩ := hch
       cases he
       exact fresh_modifyChunk h1 hA)

theorem fresh_CollapseNodes {nc : ChunkId} {chunkOuts : List GhostPtr} {w : CollapseWork}
    {CurrentNodes : List Nat} {r : CollapseWork × List Nat}
    (h : CollapseNodes nc chunkOuts w CurrentNodes = some r) (hA : w.A.fresh) :
    r.1.A.fresh := by
  unfold CollapseNodes at h
  refine foldOpt_keeps (fun (x : CollapseWork × List Nat) => x.1.A.fresh) _ ?_ _ _ _ h hA
  intro x a y hf hx
  simp only [] at hf
  repeat' split at hf
  all_goals try (cases hf; done)
  rename_i hin
  simp only [Option.map_eq_some'] at hf
  obtain ⟨A1, h1, rfl⟩ := hf
  refine fresh_modifyNode h1 ?_
  exact foldOpt_keeps (fun (x : CollapseWork × Option Nat × List Nat) => x.1.A.fresh) _
    (fun x a y hf hx => fresh_collapseNodeNext hf hx) _ _ _ hin hx

theorem fresh_collapseOutNext {nc : ChunkId} {currInd : Nat}
    {acc r : CollapseWork × Option Nat × List Nat} {currNext : GhostPtr}
    (h : collapseOutNext nc currInd acc currNext = some r) (hA : acc.1.A.fresh) :
    r.1.A.fresh := by
  obtain ⟨w, ConstructedInd, NextIns⟩ := acc
  unfold collapseOutNext at h
  simp only [] at h
  repeat' split at h
  all_goals try (cases h; done)
  simp only [Option.map_eq_some'] at h
  rename_i hch
  obtain ⟨a, ha, rfl⟩ := h
  refine fresh_modifyIn ha ?_
  repeat' split at hch
  all_goals simp only [Option.map_eq_some', Option.some.injEq] at hch
  all_goals first
    | (cases hch; exact hA)
    | (obtain ⟨A1, h1, he⟩ := hch
       cases he
       exact fresh_modifyChunk h1 hA)

theorem fresh_CollapseOuts {nc : ChunkId} {w : CollapseWork} {CurrentOuts : List Nat}
    {r : CollapseWork × List Nat}
    (h : CollapseOuts nc w CurrentOuts = some r) (hA : w.A.fresh) : r.1.A.fresh := by
  unfold CollapseOuts at h
  refine foldOpt_keeps (fun (x : CollapseWork × List Nat) => x.1.A.fresh) _ ?_ _ _ _ h hA
  intro x a y hf hx
  simp only [] at hf
  repeat' split at hf
  all_goals try (cases hf; done)
  rename_i hin
  simp only [Option.map_eq_some'] at hf
  obtain ⟨A1, h1, rfl⟩ := hf
  refine fresh_modifyOut h1 ?_
  exact foldOpt_keeps (fun (x : CollapseWork × Option Nat × List Nat) => x.1.A.fresh) _
    (fun x a y hf hx => fresh_collapseOutNext hf hx) _ _ _ hin hx

theorem fresh_collapseRounds (nc : ChunkId) (chunkOuts : List GhostPtr) :
    ∀ (fuel : Nat) (w : CollapseWork) (CurrIns : List Nat) (r : CollapseWork),
      collapseRounds nc chunkOuts fuel w CurrIns = some r → w.A.fresh → r.A.fresh := by
  intro fuel
  induction fuel with
  | zero => intro w c r h; simp [collapseRounds] at h
  | succ k ih =>
    intro w c r h hA
    unfold collapseRounds at h
    split at h
    · cases h
      exact hA
    · cases h1 : CollapseIns nc w c with
      | none => simp [h1] at h
      | some r1 =>
        obtain ⟨w1, n1⟩ := r1
        simp only [h1] at h
        cases h2 : CollapseNodes nc chunkOuts w1 n1 with
        | none => simp [h2] at h
        | some r2 =>
          obtain ⟨w2, n2⟩ := r2
          simp only [h2] at h
          cases h3 : CollapseOuts nc w2 n2 with
          | none => simp [h3] at h
          | some r3 =>
            obtain ⟨w3, n3⟩ := r3
            simp only [h3] at h
            exact ih w3 n3 r h
              (fresh_CollapseOuts h3 (fresh_CollapseNodes h2 (fresh_CollapseIns h1 hA)))

theorem fresh_collapseRewire {nc : ChunkId} {w : CollapseWork} {B : Regex}
    (h : collapseRewire nc w = some B) (hA : w.A.fresh) : B.fresh := by
  unfold collapseRewire at h
  simp only [] at h
  split at h
  · cases h
  · split at h
    · cases h
    · rename_i A1 h1
      split at h
      · cases h
      · rename_i A2 h2
        have f1 : A1.fresh := by
          refine foldOpt_keeps Regex.fresh _ ?_ _ _ _ h1 hA
          intro x a y hf hx
          simp only [] at hf
          split at hf
          · cases hf
          · exact fresh_modifyIn hf hx
        have f2 : A2.fresh := by
          refine foldOpt_keeps Regex.fresh _ ?_ _ _ _ h2 f1
          intro x a y hf hx
          simp only [] at hf
          repeat' split at hf
          all_goals first
            | (cases hf; done)
            | exact fresh_modifyNode hf hx
        refine foldOpt_keeps Regex.fresh _ ?_ _ _ _ h f2
        intro x a y hf hx
        simp only [] at hf
        repeat' split at hf
        all_goals first
          | (cases hf; done)
          | exact fresh_modifyOut hf hx

theorem fresh_Collapse {fuel : Nat} {A : Regex} {chunk : RegexChunkLooseEnds}
    {pk : CollapsePacket} {r : Regex × CollapsePacket × RegexChunkLooseEnds}
    (h : A.Collapse fuel chunk pk = some r) (hA : A.fresh) : r.1.fresh := by
  unfold Regex.Collapse at h
  simp only [Regex.allocChunk] at h
  split at h
  · cases h
  · rename_i A2 h2
    have f2 : A2.fresh := by
      refine foldOpt_keeps Regex.fresh _ ?_ _ _ _ h2 hA
      intro x a y hf hx
      simp only [] at hf
      split at hf
      · cases hf
      · exact fresh_modifyIn hf hx
    split at h
    · cases h
    · rename_i w hw
      have fw : w.A.fresh := fresh_collapseRounds _ _ _ _ _ _ hw f2
      split at h
      · rename_i A3 EndInd h3 _
        have f3 : A3.fresh := fresh_collapseRewire h3 fw
        split at h
        · cases h
        · rename_i A4 h4
          cases h
          refine foldOpt_keeps Regex.fresh _ ?_ _ _ _ h4 f3
          intro x a y hf hx
          simp only [] at hf
          split at hf
          · exact fresh_deleteChunk hf hx
          · cases hf
      · cases h

theorem fresh_pruneNode {Outs : List GhostPtr} {acc r : Regex × List NodeId} {currNode : NodeId}
    (h : pruneNode Outs acc currNode = some r) (hA : acc.1.fresh) : r.1.fresh := by
  unfold pruneNode at h
  simp only [] at h
  split at h
  · cases h
  · split at h
    · cases h
    · rename_i hv
      simp only [Option.map_eq_some'] at h
      obtain ⟨A2, h2, rfl⟩ := h
      refine fresh_modifyNode h2 ?_
      refine foldOpt_keeps (fun (x : Regex × List NodeId × List GhostPtr) => x.1.fresh) _ ?_ _ _ _
        hv hA
      intro x a y hf hx
      simp only [] at hf
      split at hf
      · cases hf
      · split at hf
        · cases hf
        · rename_i hin
          cases hf
          refine foldOpt_keeps (fun (x : Regex × List NodeId) => x.1.fresh) _ ?_ _ _ _ hin hx
          intro x a y hf hx
          simp only [] at hf
          split at hf
          · cases hf
          · simp only [Option.map_eq_some'] at hf
            obtain ⟨A1, h1, rfl⟩ := hf
            exact fresh_modifyNode h1 hx

theorem fresh_pruneRounds (Outs : List GhostPtr) :
    ∀ (fuel : Nat) (A : Regex) (Currs : List NodeId) (B : Regex),
      pruneRounds Outs fuel A Currs = some B → A.fresh → B.fresh := by
  intro fuel
  induction fuel with
  | zero => intro A c B h; simp [pruneRounds] at h
  | succ k ih =>
    intro A c B h hA
    unfold pruneRounds at h
    split at h
    · cases h
      exact hA
    · split at h
      · cases h
      · rename_i A1 Nexts h1
        exact ih A1 Nexts B h
          (foldOpt_keeps (fun (x : Regex × List NodeId) => x.1.fresh) _
            (fun x a y hf hx => fresh_pruneNode hf hx) _ _ _ h1 hA)

theorem fresh_PruneIntermediaryGhosts {fuel : Nat} {A B : Regex} {ToPrune : RegexChunkLooseEnds}
    (h : A.PruneIntermediaryGhosts fuel ToPrune = some B) (hA : A.fresh) : B.fresh := by
  unfold Regex.PruneIntermediaryGhosts at h
  split at h
  · cases h
  · exact fresh_pruneRounds _ _ _ _ _ h hA

theorem fresh_focusOn {A : Regex} {Collapsed : RegexChunkLooseEnds} {FocusNode : NodeId}
    {r : Regex × RegexChunkLooseEnds}
    (h : A.focusOn Collapsed FocusNode = some r) (hA : A.fresh) : r.1.fresh := by
  unfold Regex.focusOn at h
  split at h
  · cases h
  · rename_i A1 h1
    split at h
    · cases h
    · rename_i A2 NewChunk h2
      simp only [Option.map_eq_some'] at h
      obtain ⟨le, _, rfl⟩ := h
      exact fresh_Wrap h2 (fresh_modifyNode h1 hA)

theorem fresh_AssembleGroups {fuel : Nat} {A : Regex} {chunk : RegexChunkLooseEnds}
    {FocusNodes : List NodeId} {pk : CollapsePacket}
    {r : Regex × CollapsePacket × List RegexChunkLooseEnds}
    (h : A.AssembleGroups fuel chunk FocusNodes pk = some r) (hA : A.fresh) : r.1.fresh := by
  unfold Regex.AssembleGroups at h
  split at h
  · cases h
  · rename_i A1 pk1 Collapsed h1
    split at h
    · cases h
    · rename_i A2 h2
      simp only [Option.map_eq_some'] at h
      obtain ⟨q, hq, rfl⟩ := h
      refine foldOpt_keeps (fun (x : Regex × List RegexChunkLooseEnds) => x.1.fresh) _ ?_ _ _ _
        hq (fresh_PruneIntermediaryGhosts h2 (fresh_Collapse h1 hA))
      intro x a y hf hx
      simp only [Option.map_eq_some'] at hf
      obtain ⟨q1, hq1, rfl⟩ := hf
      exact fresh_focusOn hq1 hx

theorem fresh_AssembleGroup {fuel : Nat} {A : Regex} {chunk : RegexChunkLooseEnds}
    {FocusNode : NodeId} {pk : CollapsePacket}
    {r : Regex × CollapsePacket × RegexChunkLooseEnds}
    (h : A.AssembleGroup fuel chunk FocusNode pk = some r) (hA : A.fresh) : r.1.fresh := by
  unfold Regex.AssembleGroup at h
  split at h
  · rename_i A1 pk1 le h1
    cases h
    exact fresh_AssembleGroups h1 hA
  · cases h

theorem fresh_pushTicker (A : Regex) (Max : Int) (hA : A.fresh) : (A.pushTicker Max).1.fresh := by
  unfold Regex.pushTicker
  split <;> exact hA

theorem fresh_groupOf {fuel : Nat} {A : Regex} {chunk : RegexChunkLooseEnds} {nd : RegexNode}
    {pk : CollapsePacket} {r : Regex × CollapsePacket × RegexChunkLooseEnds × NodeId}
    (h : A.groupOf fuel chunk nd pk = some r) (hA : A.fresh) : r.1.fresh := by
  simp only [Regex.groupOf, Regex.allocNode, Option.map_eq_some'] at h
  obtain ⟨q, hq, rfl⟩ := h
  exact fresh_AssembleGroup hq hA

theorem fresh_OccurNoneOrOnce {fuel : Nat} {A : Regex} {chunk : RegexChunkLooseEnds}
    {pk : CollapsePacket} {Lazy : Bool} {r : Regex × CollapsePacket × RegexChunkLooseEnds}
    (h : A.OccurNoneOrOnce fuel chunk pk Lazy = some r) (hA : A.fresh) : r.1.fresh := by
  simp only [Regex.OccurNoneOrOnce, Option.map_eq_some'] at h
  obtain ⟨q, hq, rfl⟩ := h
  exact fresh_groupOf hq hA

theorem fresh_OccurNonePlus {fuel : Nat} {A : Regex} {chunk : RegexChunkLooseEnds}
    {pk : CollapsePacket} {Lazy : Bool} {r : Regex × CollapsePacket × RegexChunkLooseEnds}
    (h : A.OccurNonePlus fuel chunk pk Lazy = some r) (hA : A.fresh) : r.1.fresh := by
  simp only [Regex.OccurNonePlus, Option.map_eq_some'] at h
  obtain ⟨q, hq, rfl⟩ := h
  exact fresh_groupOf hq hA

theorem fresh_OccurOncePlus {fuel : Nat} {A : Regex} {chunk : RegexChunkLooseEnds}
    {pk : CollapsePacket} {Lazy : Bool} {r : Regex × CollapsePacket × RegexChunkLooseEnds}
    (h : A.OccurOncePlus fuel chunk pk Lazy = some r) (hA : A.fresh) : r.1.fresh := by
  simp only [Regex.OccurOncePlus, Option.map_eq_some'] at h
  obtain ⟨q, hq, rfl⟩ := h
  exact fresh_groupOf hq hA

theorem fresh_RepeatExact {fuel : Nat} {A : Regex} {chunk : RegexChunkLooseEnds} {Times : Int}
    {pk : CollapsePacket} {Lazy : Bool} {r : Regex × CollapsePacket × RegexChunkLooseEnds}
    (h : A.RepeatExact fuel chunk Times pk Lazy = some r) (hA : A.fresh) : r.1.fresh := by
  unfold Regex.RepeatExact at h
  split at h
  · cases h
    exact hA
  · simp only [Option.map_eq_some'] at h
    obtain ⟨q, hq, rfl⟩ := h
    exact fresh_groupOf hq (fresh_pushTicker A Times hA)

theorem fresh_twoLoops {fuel : Nat} {A : Regex} {chunk : RegexChunkLooseEnds}
    {LoopA LoopB : RegexNode} {pk : CollapsePacket}
    {r : Regex × CollapsePacket × RegexChunkLooseEnds}
    (h : A.twoLoops fuel chunk LoopA LoopB pk = some r) (hA : A.fresh) : r.1.fresh := by
  unfold Regex.twoLoops at h
  simp only [Regex.allocNode] at h
  split at h
  · rename_i A3 pk1 s0 s1 h3
    simp only [Option.map_eq_some'] at h
    obtain ⟨q, hq, rfl⟩ := h
    exact fresh_Concat hq (fresh_AssembleGroups h3 hA)
  · cases h

theorem fresh_RepeatMin {fuel : Nat} {A : Regex} {chunk : RegexChunkLooseEnds} {MinTimes : Int}
    {pk : CollapsePacket} {Lazy : Bool} {r : Regex × CollapsePacket × RegexChunkLooseEnds}
    (h : A.RepeatMin fuel chunk MinTimes pk Lazy = some r) (hA : A.fresh) : r.1.fresh := by
  unfold Regex.RepeatMin at h
  split at h
  · exact fresh_OccurOncePlus h hA
  · exact fresh_twoLoops h (fresh_pushTicker A (MinTimes - 1) hA)

theorem fresh_RepeatMinMax {fuel : Nat} {A : Regex} {chunk : RegexChunkLooseEnds}
    {MinTimes0 MaxTimes0 : Int} {pk : CollapsePacket} {Lazy : Bool}
    {r : Regex × CollapsePacket × RegexChunkLooseEnds}
    (h : A.RepeatMinMax fuel chunk MinTimes0 MaxTimes0 pk Lazy = some r) (hA : A.fresh) :
    r.1.fresh := by
  unfold Regex.RepeatMinMax at h
  simp only [] at h
  repeat' split at h
  all_goals first
    | (cases h; done)
    | exact fresh_RepeatExact h hA
    | exact fresh_twoLoops h (fresh_pushTicker _ _ (fresh_pushTicker A _ hA))

theorem fresh_asmMakeCapture {s : AsmState} {Data : List String} {inputs : CapturedInputs}
    {r : AsmStep} (h : asmMakeCapture s Data inputs = some r) (hA : s.A.fresh) : r.fresh := by
  unfold asmMakeCapture at h
  split at h
  · cases h
  · cases h
    refine ⟨?_, hA.2⟩
    intro c hc
    simp only [List.mem_append, List.mem_singleton] at hc
    rcases hc with hc | hc
    · exact hA.1 c hc
    · subst hc
      rfl

theorem fresh_asmPushClass {s : AsmState} {c : Option RegexCharacterClassBase}
    {r : AsmStep} (h : asmPushClass s c = some r) (hA : s.A.fresh) : r.fresh := by
  simp only [asmPushClass, Option.map_eq_some'] at h
  obtain ⟨cc, _, rfl⟩ := h
  exact hA

theorem fresh_asmWrapNew {s : AsmState} {nd : RegexNode} {r : AsmState × NodeId}
    (h : asmWrapNew s nd = some r) (hA : s.A.fresh) : r.1.A.fresh := by
  unfold asmWrapNew at h
  simp only [Regex.allocNode] at h
  split at h
  · cases h
  · rename_i A2 c h2
    split at h
    · cases h
    · cases h
      exact fresh_Wrap h2 hA

theorem fresh_asmGroup {fuel : Nat} {s : AsmState} {nd : RegexNode}
    {link : CollapsePacket → NodeId → CollapsePacket} {r : AsmStep}
    (h : asmGroup fuel s nd link = some r) (hA : s.A.fresh) : r.fresh := by
  unfold asmGroup at h
  simp only [Regex.allocNode] at h
  split at h
  · cases h
  · simp only [Option.map_eq_some'] at h
    obtain ⟨q, hq, rfl⟩ := h
    exact fresh_AssembleGroup hq hA

theorem fresh_asmQuantify {s : AsmState}
    {op : Regex → RegexChunkLooseEnds → CollapsePacket →
      Option (Regex × CollapsePacket × RegexChunkLooseEnds)} {r : AsmStep}
    (hop : ∀ A ch pk q, op A ch pk = some q → A.fresh → q.1.fresh)
    (h : asmQuantify s op = some r) (hA : s.A.fresh) : r.fresh := by
  unfold asmQuantify at h
  split at h
  · cases h
  · simp only [Option.map_eq_some'] at h
    obtain ⟨q, hq, rfl⟩ := h
    exact hop _ _ _ _ hq hA

theorem fresh_asmRepeat {fuel : Nat} {s : AsmState} {Data : List String} {Lazy : Bool}
    {r : AsmStep} (h : asmRepeat fuel s Data Lazy = some r) (hA : s.A.fresh) : r.fresh := by
  unfold asmRepeat at h
  split at h
  · repeat' split at h
    · simp only [Option.bind_eq_some] at h
      obtain ⟨n, _, hq⟩ := h
      exact fresh_asmQuantify (fun A ch pk q hq hx => fresh_RepeatExact hq hx) hq hA
    · simp only [Option.bind_eq_some] at h
      obtain ⟨n, _, hq⟩ := h
      exact fresh_asmQuantify (fun A ch pk q hq hx => fresh_RepeatMin hq hx) hq hA
    · simp only [Option.bind_eq_some] at h
      obtain ⟨n, _, m, _, hq⟩ := h
      exact fresh_asmQuantify (fun A ch pk q hq hx => fresh_RepeatMinMax hq hx) hq hA
    · cases h
      exact hA
  · cases h

theorem fresh_asmAnchor {s : AsmState} {Data : List String} {classAt : Nat} {kind : NodeKind}
    {flag : Regex → Regex} {r : AsmStep} (hflag : ∀ A, A.fresh → (flag A).fresh)
    (h : asmAnchor s Data classAt kind flag = some r) (hA : s.A.fresh) : r.fresh := by
  unfold asmAnchor at h
  split at h
  · cases h
  · simp only [Option.map_eq_some'] at h
    obtain ⟨q, hq, rfl⟩ := h
    exact hflag _ (fresh_asmWrapNew hq hA)

theorem fresh_asmConditional {s : AsmState} {Data : List String} {r : AsmStep}
    (h : asmConditional s Data = some r) (hA : s.A.fresh) : r.fresh := by
  unfold asmConditional at h
  simp only [] at h
  repeat' split at h
  all_goals first
    | (cases h; done)
    | (simp only [Option.map_eq_some'] at h
       obtain ⟨q, hq, rfl⟩ := h
       exact fresh_asmWrapNew hq hA)

theorem fresh_asmDefine {s : AsmState} {Data : List String} {r : AsmStep}
    (h : asmDefine s Data = some r) (hA : s.A.fresh) : r.fresh := by
  unfold asmDefine at h
  repeat' split at h
  all_goals first
    | (cases h; done)
    | (cases h
       refine ⟨hA.1, ?_⟩
       intro c hc
       simp only [List.mem_append, List.mem_singleton] at hc
       rcases hc with hc | hc
       · exact hA.2 c hc
       · subst hc
         rfl)

theorem fresh_asmStep {fuel : Nat} {Funcs : Option FuncMapType} {isLastTwo : Bool}
    {s : AsmState} {ins : RegexInstruction} {r : AsmStep}
    (h : asmStep fuel Funcs isLastTwo s ins = some r) (hA : s.A.fresh) : r.fresh := by
  unfold asmStep at h
  simp only [] at h
  split at h
  · exact fresh_asmMakeCapture h hA
  · exact fresh_asmMakeCapture h hA
  · split at h
    · cases h
      exact hA
    · cases h
  · cases h
    exact hA
  · split at h
    · exact fresh_asmPushClass h hA
    · cases h
  · exact fresh_asmPushClass h hA
  · exact fresh_asmPushClass h hA
  · exact fresh_asmPushClass h hA
  · split at h
    · cases h
    · simp only [Option.map_eq_some'] at h
      obtain ⟨q, hq, rfl⟩ := h
      exact fresh_asmWrapNew hq hA
  · split at h
    · refine fresh_asmAnchor ?_ h hA
      intro A hx
      exact hx
    · cases h
  · split at h
    · refine fresh_asmAnchor ?_ h hA
      intro A hx
      exact hx
    · cases h
  · split at h
    · refine fresh_asmAnchor ?_ h hA
      intro A hx
      split <;> exact hx
    · cases h
  · split at h
    · simp only [Option.map_eq_some'] at h
      obtain ⟨q, hq, rfl⟩ := h
      exact fresh_asmWrapNew hq hA
    · cases h
  · split at h
    · simp only [Option.map_eq_some'] at h
      obtain ⟨q, hq, rfl⟩ := h
      exact fresh_asmWrapNew hq hA
    · cases h
  · split at h
    · simp only [Option.map_eq_some'] at h
      obtain ⟨q, hq, rfl⟩ := h
      exact fresh_asmWrapNew hq hA
    · cases h
  · split at h
    · simp only [Option.map_eq_some'] at h
      obtain ⟨q, hq, rfl⟩ := h
      exact fresh_asmWrapNew hq hA
    · cases h
  · split at h
    · split at h
      · cases h
      · rename_i hw
        simp only [Option.map_eq_some'] at h
        obtain ⟨q, hq, rfl⟩ := h
        exact fresh_Wrap hw hA
    · cases h
  · split at h
    · exact fresh_asmGroup h hA
    · cases h
  · split at h
    · exact fresh_asmGroup h hA
    · cases h
  · simp only [Option.bind_eq_some] at h
    obtain ⟨q, _, hq⟩ := h
    exact fresh_asmGroup hq hA
  · split at h
    · exact fresh_asmGroup h hA
    · cases h
  · split at h
    · exact fresh_asmGroup h hA
    · cases h
  · exact fresh_asmDefine h hA
  · split at h
    · cases h
    · simp only [Option.map_eq_some'] at h
      obtain ⟨q, hq, rfl⟩ := h
      exact fresh_asmWrapNew hq hA
  · exact fresh_asmConditional h hA
  · exact fresh_asmQuantify (fun A ch pk q hq hx => fresh_OccurNoneOrOnce hq hx) h hA
  · exact fresh_asmQuantify (fun A ch pk q hq hx => fresh_OccurNoneOrOnce hq hx) h hA
  · exact fresh_asmQuantify (fun A ch pk q hq hx => fresh_OccurNonePlus hq hx) h hA
  · exact fresh_asmQuantify (fun A ch pk q hq hx => fresh_OccurNonePlus hq hx) h hA
  · exact fresh_asmQuantify (fun A ch pk q hq hx => fresh_OccurOncePlus hq hx) h hA
  · exact fresh_asmQuantify (fun A ch pk q hq hx => fresh_OccurOncePlus hq hx) h hA
  · exact fresh_asmRepeat h hA
  · exact fresh_asmRepeat h hA
  · split at h
    · cases h
    · split at h
      · cases h
      · simp only [Option.map_eq_some'] at h
        obtain ⟨q, hq, rfl⟩ := h
        exact fresh_Concat hq hA
  · split at h
    · cases h
    · split at h
      · cases h
      · cases h
        exact hA
  · cases h
    exact hA

theorem fresh_asmLoop (fuel : Nat) (Funcs : Option FuncMapType) (total : Nat) :
    ∀ (l : List RegexInstruction) (idx : Nat) (s : AsmState) (r : AsmStep),
      asmLoop fuel Funcs total l idx s = some r → s.A.fresh → r.fresh := by
  intro l
  induction l with
  | nil =>
    intro idx s r h hA
    simp only [asmLoop, Option.some.injEq] at h
    subst h
    exact hA
  | cons ins rest ih =>
    intro idx s r h hA
    simp only [asmLoop] at h
    split at h
    · cases h
    · rename_i A1 h1
      cases h
      exact fresh_asmStep h1 hA
    · rename_i s1 h1
      exact ih _ s1 r h (fresh_asmStep h1 hA)

theorem fresh_bindCapture {A B : Regex} {n : NodeId} {cp : CapturePtr}
    (h : A.bindCapture n cp = some B) (hA : A.fresh) : B.fresh :=
  fresh_modifyNode h hA

theorem mem_setAt {α : Type} (a x : α) : ∀ (l : List α) (i : Nat),
    a ∈ setAt l i x → a ∈ l ∨ a = x := by
  intro l
  induction l with
  | nil => intro i h; simp [setAt] at h
  | cons b bs ih =>
    intro i h
    cases i with
    | zero =>
      simp only [setAt, List.mem_cons] at h
      rcases h with h | h
      · exact Or.inr h
      · exact Or.inl (List.mem_cons_of_mem _ h)
    | succ j =>
      simp only [setAt, List.mem_cons] at h
      rcases h with h | h
      · exact Or.inl (by rw [h]; exact List.mem_cons_self _ _)
      · rcases ih j h with h1 | h1
        · exact Or.inl (List.mem_cons_of_mem _ h1)
        · exact Or.inr h1

theorem mem_of_get? {α : Type} (a : α) : ∀ (l : List α) (i : Nat), l.get? i = some a → a ∈ l := by
  intro l
  induction l with
  | nil => intro i h; simp at h
  | cons b bs ih =>
    intro i h
    cases i with
    | zero =>
      simp only [List.get?, Option.some.injEq] at h
      subst h
      exact List.mem_cons_self _ _
    | succ j => exact List.mem_cons_of_mem _ (ih j h)

theorem fresh_initCapture {A B : Regex} {cp : CapturePtr} {n : NodeId}
    (h : A.initCapture cp n = some B) (hA : A.fresh) : B.fresh := by
  unfold Regex.initCapture at h
  cases cp with
  | capture i =>
    simp only [Option.map_eq_some'] at h
    obtain ⟨c, hc, rfl⟩ := h
    refine ⟨?_, hA.2⟩
    intro d hd
    rcases mem_setAt _ _ _ _ hd with h1 | h1
    · exact hA.1 d h1
    · subst h1
      have := hA.1 c (mem_of_get? _ _ _ hc)
      split <;> exact this
  | subroutine i =>
    simp only [Option.map_eq_some'] at h
    obtain ⟨c, hc, rfl⟩ := h
    refine ⟨hA.1, ?_⟩
    intro d hd
    rcases mem_setAt _ _ _ _ hd with h1 | h1
    · exact hA.2 d h1
    · subst h1
      have := hA.2 c (mem_of_get? _ _ _ hc)
      split <;> exact this

theorem fresh_linkLoop {ν : Type} {resolve : Regex → ν → Option CapturePtr} {isSub : Bool}
    {pending : List (NodeId × ν)} {A B : Regex}
    (h : linkLoop resolve isSub pending A = some B) (hA : A.fresh) : B.fresh := by
  unfold linkLoop at h
  refine foldOpt_keeps Regex.fresh _ ?_ _ _ _ h hA
  intro x a y hf hx
  simp only [] at hf
  split at hf
  · cases hf
    exact hx
  · split at hf
    · cases hf
    · rename_i A2 hb
      have f2 : A2.fresh := fresh_bindCapture hb hx
      split at hf
      · exact fresh_initCapture hf f2
      · cases hf
        exact f2

theorem fresh_AssembleAutomaton {fuel : Nat} {Instructions : InstructionSet} {Automaton : Regex}
    {Funcs : Option FuncMapType} {B : Regex}
    (h : AssembleAutomaton fuel Instructions Automaton Funcs = some B) (hA : Automaton.fresh) :
    B.fresh := by
  unfold AssembleAutomaton at h
  simp only [] at h
  split at h
  · cases h
  · rename_i A1 h1
    cases h
    exact fresh_asmLoop _ _ _ _ _ _ _ h1 hA
  · rename_i s h1
    have fs : s.A.fresh := fresh_asmLoop _ _ _ _ _ _ _ h1 hA
    split at h
    · cases h
      exact fs
    · split at h
      · cases h
      · rename_i A6 h6
        simp only [Option.bind_eq_some] at h6
        obtain ⟨A1, l1, A2, l2, A3, l3, A4, l4, A5, l5, l6⟩ := h6
        have f6 : A6.fresh :=
          fresh_linkLoop l6 (fresh_linkLoop l5 (fresh_linkLoop l4 (fresh_linkLoop l3
            (fresh_linkLoop l2 (fresh_linkLoop l1 fs)))))
        split at h
        · cases h
        · rename_i A7 pk1 Final h7
          split at h
          · cases h
          · rename_i A8 h8
            simp only [Option.map_eq_some'] at h
            obtain ⟨A9, h9, rfl⟩ := h
            have f9 : A9.fresh :=
              foldOpt_keeps Regex.fresh _ (fun x a y hf hx => fresh_modifyNode hf hx) _ _ _ h9
                (fresh_PruneIntermediaryGhosts h8 (fresh_Collapse h7 f6))
            exact f9

theorem fresh_clearConnectedTos {A B : Regex} (h : A.clearConnectedTos = some B)
    (hA : A.fresh) : B.fresh := by
  unfold Regex.clearConnectedTos at h
  exact foldOpt_keeps Regex.fresh _ (fun x a y hf hx => fresh_modifyChunk hf hx) _ _ _ h hA

theorem fresh_empty (e : String) : ({ CompileError := e } : Regex).fresh :=
  ⟨fun c hc => (by cases hc), fun c hc => (by cases hc)⟩

theorem fresh_fromPattern {fuel : Nat} {c : String} {Funcs : Option FuncMapType}
    {MaxNestingDepth : Int} {PresetLastMatchEnd : Option Int}
    {r : Regex × Option InstructionSet}
    (h : Regex.fromPattern fuel c Funcs MaxNestingDepth PresetLastMatchEnd = some r) :
    r.1.fresh := by
  unfold Regex.fromPattern at h
  split at h
  · cases h
  · simp only [Option.bind_eq_some, Option.map_eq_some'] at h
    obtain ⟨q, hq, A, hc, rfl⟩ := h
    have fq : q.1.fresh := by
      split at hq
      · simp only [Option.map_eq_some'] at hq
        obtain ⟨A0, h0, rfl⟩ := hq
        exact fresh_AssembleAutomaton h0 (fresh_empty _)
      · cases hq
        exact fresh_empty _
    have fA : A.fresh := fresh_clearConnectedTos hc fq
    cases PresetLastMatchEnd <;> exact fA

theorem fresh_fromInstructions {fuel : Nat} {Instructions : InstructionSet}
    {Funcs : Option FuncMapType} {A : Regex}
    (h : Regex.fromInstructions fuel Instructions Funcs = some A) : A.fresh := by
  unfold Regex.fromInstructions at h
  split at h
  · cases h
    exact fresh_empty _
  · simp only [Option.bind_eq_some] at h
    obtain ⟨A0, h0, hc⟩ := h
    exact fresh_clearConnectedTos hc (fresh_AssembleAutomaton h0 (fresh_empty _))

/-- A compiled automaton is fresh: no capture is reported as succeeded. -/
theorem fresh_compile {fuel : Nat} {pattern : String} {Funcs : Option FuncMapType}
    {MaxNestingDepth : Int} {A : Regex}
    (h : compile fuel pattern Funcs MaxNestingDepth = some A) : A.fresh := by
  simp only [compile, Option.map_eq_some'] at h
  obtain ⟨r, hr, rfl⟩ := h
  exact fresh_fromPattern hr

/-- In a fresh automaton every capture is unset. -/
theorem fresh_unset {A : Regex} (hA : A.fresh) (cp : CapturePtr) : A.state.unset cp := by
  unfold MatchState.unset MatchState.succeeded?
  cases hc : A.state.capture cp with
  | error e => simp [Run.toOption]
  | ok c =>
    simp only [Run.toOption, Option.map_some', ne_eq, Option.some.injEq]
    have : c.Succeeded = false := by
      cases cp with
      | capture i =>
        simp only [MatchState.capture, Regex.state] at hc
        split at hc
        · rename_i hg
          cases hc
          exact hA.1 c (mem_of_get? _ _ _ hg)
        · cases hc
      | subroutine i =>
        simp only [MatchState.capture, Regex.state] at hc
        split at hc
        · rename_i hg
          cases hc
          exact hA.2 c (mem_of_get? _ _ _ hg)
        · cases hc
    rw [this]
    decide

/-! ## The depth cap, at any depth of nesting -/

/-- With no compile error, `MatchInternal` is its loop, started at the start nodes on the
automaton after the pre-match reset. -/
theorem MatchInternal_loop (fuel : Nat) (A : Regex) (text : List Char) (CN : List NodeId)
    (hc : A.CompileError = "") (hs : startNexts A.preMatch A.preMatch.StartNodes = .ok CN) :
    A.MatchInternal fuel text
      = MatchLoop fuel A.preMatch text CN true A.preMatch.EndsWithLineCheck none 0
          A.preMatch.state := by
  unfold Regex.MatchInternal
  rw [if_neg (fun h => h hc)]
  change (match startNexts A.preMatch A.preMatch.StartNodes with
    | .error _ => Outcome.invalidAccess
    | .ok CurrentNexts =>
      MatchLoop fuel A.preMatch text CurrentNexts true A.preMatch.EndsWithLineCheck none 0
        A.preMatch.state) = _
  rw [hs]

/-- With no compile error, `MatchFromInternal` is its loop, started at the start nodes on the
automaton after the pre-match reset. -/
theorem MatchFromInternal_loop (fuel : Nat) (A : Regex) (text : List Char) (Offset : Int)
    (Out : List Char) (CN : List NodeId)
    (hc : A.CompileError = "") (hs : startNexts A.preMatch A.preMatch.StartNodes = .ok CN) :
    A.MatchFromInternal fuel text Offset Out
      = MatchFromLoop fuel A.preMatch text Offset Out CN true A.preMatch.EndsWithLineCheck none
          Offset A.preMatch.state := by
  unfold Regex.MatchFromInternal
  rw [if_neg (fun h => h hc)]
  change (match startNexts A.preMatch A.preMatch.StartNodes with
    | .error _ => Outcome.invalidAccess
    | .ok CurrentNexts =>
      MatchFromLoop fuel A.preMatch text Offset Out CurrentNexts true A.preMatch.EndsWithLineCheck
        none Offset A.preMatch.state) = _
  rw [hs]

/-- C13, amended: for a recursion node, or a subroutine node whose bound capture has a last
capturing node, with cap `MaxDepth`: an entry attempted with the depth counter at or above the
cap throws the runtime error instead of entering, and the loops of `Match` and `MatchFrom`
that tried the node then return false with the message appended to `RuntimeErrors`; an entry
below the cap runs the body (the chunk of the recursion, the capturing node of the
subroutine) with the counter raised by one, which is at most `MaxDepth`.  The throw reaches the
loop from any depth of nesting: whenever the entry is attempted in the course of the loop of
`Match` or of `MatchFrom`, however deep inside groups, that loop returns false with the
message appended, and the enclosing call of `Match` or `MatchFrom` returns false with
`RuntimeErrors` holding exactly the message. -/
theorem C13_depth_cap (fuel : Nat) (A : Regex) (text : List Char) (n : NodeId) (Input : Int)
    (Outers : Option (List NodeId)) (σ : MatchState) (MaxDepth : Int)
    (hcap : A.depthCapAt σ n = some MaxDepth) :
    (MaxDepth ≤ σ.depth n →
      CanEnter (fuel + 1) A text n Input Outers σ
        = .error (.runtime depthExceeded (σ.setDepth n (σ.depth n + 1)))) ∧
    (MaxDepth ≤ σ.depth n → ∀ (rest : List NodeId) (ft lt : Bool) (cn : Option NodeId)
        (Offset : Int) (Out : List Char), (Input ≠ text.length ∨ lt = true) →
      MatchLoop (fuel + 3) A text (n :: rest) ft lt cn Input σ
        = .returned false { A.withState (σ.setDepth n (σ.depth n + 1)) with
            RuntimeErrors := A.RuntimeErrors ++ [depthExceeded] } ∧
      MatchFromLoop (fuel + 3) A text Offset Out (n :: rest) ft lt cn Input σ
        = .returned (false, Out) { A.withState (σ.setDepth n (σ.depth n + 1)) with
            RuntimeErrors := A.RuntimeErrors ++ [depthExceeded] }) ∧
    (σ.depth n < MaxDepth →
      (σ.setDepth n (σ.depth n + 1)).depth n ≤ MaxDepth ∧
      (∀ nd : RegexNode, A.node n = .ok nd → nd.kind = .Recursion MaxDepth →
        CanEnter (fuel + 1) A text n Input Outers σ
          = (ChunkMatch fuel A text Input nd.Ins nd.Outs nd.LazyGroup
              (some (Outers.getD [] ++ [n])) false (σ.setDepth n (σ.depth n + 1))).bind (fun r =>
                if r.1 then .ok (true, r.2.1, r.2.2)
                else .ok (false, Input, r.2.2.setDepth n (σ.depth n)))) ∧
      (∀ (nd : RegexNode) (name : String) (cp : CapturePtr) (cap : RegexCaptureBase)
          (target : NodeId), A.node n = .ok nd →
          nd.kind = .Subroutine MaxDepth name (some cp) → σ.capture cp = .ok cap →
          cap.LastCapture = some target →
        CanEnter (fuel + 1) A text n Input Outers σ
          = CanEnter fuel A text target Input Outers (σ.setDepth n (σ.depth n + 1)))) ∧
    (MaxDepth ≤ σ.depth n → ∀ (fuel0 : Nat) (CN : List NodeId) (ft lt : Bool)
        (cn : Option NodeId) (it : Int) (σ0 : MatchState) (Offset : Int) (Out : List Char),
      (Attempts A text (.matchLoop fuel0 CN ft lt cn it σ0)
          (.canEnter (fuel + 1) n Input Outers σ) →
        MatchLoop fuel0 A text CN ft lt cn it σ0
          = .returned false { A.withState (σ.setDepth n (σ.depth n + 1)) with
              RuntimeErrors := A.RuntimeErrors ++ [depthExceeded] }) ∧
      (Attempts A text (.matchFromLoop fuel0 Offset Out CN ft lt cn it σ0)
          (.canEnter (fuel + 1) n Input Outers σ) →
        MatchFromLoop fuel0 A text Offset Out CN ft lt cn it σ0
          = .returned (false, Out) { A.withState (σ.setDepth n (σ.depth n + 1)) with
              RuntimeErrors := A.RuntimeErrors ++ [depthExceeded] })) ∧
    (MaxDepth ≤ σ.depth n → ∀ (A0 : Regex) (T : String) (fuel0 : Nat) (CN : List NodeId)
        (Offset : Int) (Out : List Char),
        A0.preMatch = A → T.data = text → A0.CompileError = "" →
        startNexts A A.StartNodes = .ok CN →
      (Attempts A text (.matchLoop fuel0 CN true A.EndsWithLineCheck none 0 A.state)
          (.canEnter (fuel + 1) n Input Outers σ) →
        A0.Match fuel0 T
          = .returned false { A.withState (σ.setDepth n (σ.depth n + 1)) with
              RuntimeErrors := [depthExceeded] }) ∧
      (Attempts A text
          (.matchFromLoop fuel0 Offset Out CN true A.EndsWithLineCheck none Offset A.state)
          (.canEnter (fuel + 1) n Input Outers σ) →
        A0.MatchFrom fuel0 T Offset Out
          = .returned (false, Out) { A.withState (σ.setDepth n (σ.depth n + 1)) with
              RuntimeErrors := [depthExceeded] })) := by
  have raise : MaxDepth ≤ σ.depth n →
      (Frame.canEnter (fuel + 1) n Input Outers σ).result A text
        = .error (.runtime depthExceeded (σ.setDepth n (σ.depth n + 1))) := by
    intro hd
    simp only [Frame.result, CanEnter_at_cap fuel A text n Input Outers σ MaxDepth hcap hd]
    rfl
  refine ⟨fun hd => CanEnter_at_cap fuel A text n Input Outers σ MaxDepth hcap hd, ?_, ?_, ?_, ?_⟩
  · intro hd rest ft lt cn Offset Out hpos
    have h1 := CanEnter_at_cap fuel A text n Input none σ MaxDepth hcap hd
    have h2 := firstEnterable_raised (fuel + 1) A text n rest Input none σ _ h1
    have h3 : (firstEnterable (fuel + 2) A text (n :: rest) Input none σ).raised?
        = some (depthExceeded, σ.setDepth n (σ.depth n + 1)) := by
      rw [h2]; rfl
    exact ⟨MatchLoop_raised _ A text _ ft lt cn Input σ _ _ (by simp) hpos h3,
      MatchFromLoop_raised _ A text Offset Out _ ft lt cn Input σ _ _ (by simp) hpos h3⟩
  · intro hd
    refine ⟨?_, ?_, ?_⟩
    · rw [depth_setDepth]
      exact Int.add_one_le_of_lt hd
    · intro nd hn hk
      exact CanEnter_recursion_below_cap fuel A text n Input Outers σ MaxDepth nd hn hk hd
    · intro nd name cp cap target hn hk hc hl
      exact CanEnter_subroutine_below_cap fuel A text n Input Outers σ MaxDepth nd name cp cap
        target hn hk hc hl hd
  · intro hd fuel0 CN ft lt cn it σ0 Offset Out
    exact ⟨fun ha => MatchLoop_attempt_raised A text ha rfl _ _ (raise hd) _ _ _ _ _ _ _ rfl,
      fun ha => MatchFromLoop_attempt_raised A text ha rfl _ _ (raise hd) _ _ _ _ _ _ _ _ _ rfl⟩
  · intro hd A0 T fuel0 CN Offset Out hA hT hc hs
    subst hA
    subst hT
    refine ⟨fun ha => ?_, fun ha => ?_⟩
    · unfold Regex.Match
      rw [MatchInternal_loop fuel0 A0 T.data CN hc hs]
      exact MatchLoop_attempt_raised A0.preMatch T.data ha rfl _ _ (raise hd) _ _ _ _ _ _ _ rfl
    · unfold Regex.MatchFrom
      rw [MatchFromInternal_loop fuel0 A0 T.data Offset Out CN hc hs]
      exact MatchFromLoop_attempt_raised A0.preMatch T.data ha rfl _ _ (raise hd) _ _ _ _ _ _ _ _
        _ rfl

/-- C13, instance: the recursion node of `(a(?R)?b)` compiled with nesting limit 2 has cap 1;
entered with its counter at 1 it throws, and `Match("aabb")` returns false with the runtime
error recorded.  The recursion node of `(?R)` compiled with nesting limit 1 has cap 1: in
`Match("a")` the node is entered once, its body attempts it again with the counter at 1, and
the throw from inside the body makes `Match` return false with the runtime error recorded. -/
theorem C13_depth_cap_witness :
    (compiled 80 "(a(?R)?b)" none 2).depthCapAt
        ((compiled 80 "(a(?R)?b)" none 2).state.setDepth 3 1) 3 = some 1 ∧
    (1 : Int) ≤ ((compiled 80 "(a(?R)?b)" none 2).state.setDepth 3 1).depth 3 ∧
    CanEnter (0 + 1) (compiled 80 "(a(?R)?b)" none 2) "ab".data 3 1 none
        ((compiled 80 "(a(?R)?b)" none 2).state.setDepth 3 1)
      = .error (.runtime depthExceeded
          (((compiled 80 "(a(?R)?b)" none 2).state.setDepth 3 1).setDepth 3
            (((compiled 80 "(a(?R)?b)" none 2).state.setDepth 3 1).depth 3 + 1))) ∧
    ((compiled 80 "(a(?R)?b)" none 2).Match 80 "aabb").value? = some false ∧
    ((compiled 80 "(a(?R)?b)" none 2).Match 80 "aabb").after?.map (fun A => A.RuntimeErrors)
      = some [depthExceeded] ∧
    (compiled 80 "(?R)" none 1).preMatch.depthCapAt
        ((compiled 80 "(?R)" none 1).preMatch.state.setDepth 1
          ((compiled 80 "(?R)" none 1).preMatch.state.depth 1 + 1)) 1 = some 1 ∧
    Attempts (compiled 80 "(?R)" none 1).preMatch "a".data
      (.matchLoop 80 [1] true (compiled 80 "(?R)" none 1).preMatch.EndsWithLineCheck none 0
        (compiled 80 "(?R)" none 1).preMatch.state)
      (.canEnter (73 + 1) 1 0 (some [1])
        ((compiled 80 "(?R)" none 1).preMatch.state.setDepth 1
          ((compiled 80 "(?R)" none 1).preMatch.state.depth 1 + 1))) ∧
    (compiled 80 "(?R)" none 1).Match 80 "a"
      = .returned false
          { (compiled 80 "(?R)" none 1).preMatch.withState
              (((compiled 80 "(?R)" none 1).preMatch.state.setDepth 1
                  ((compiled 80 "(?R)" none 1).preMatch.state.depth 1 + 1)).setDepth 1
                (((compiled 80 "(?R)" none 1).preMatch.state.setDepth 1
                  ((compiled 80 "(?R)" none 1).preMatch.state.depth 1 + 1)).depth 1 + 1)) with
            RuntimeErrors := [depthExceeded] } := by
  have chain : Attempts (compiled 80 "(?R)" none 1).preMatch "a".data
      (.matchLoop 80 [1] true (compiled 80 "(?R)" none 1).preMatch.EndsWithLineCheck none 0
        (compiled 80 "(?R)" none 1).preMatch.state)
      (.canEnter (73 + 1) 1 0 (some [1])
        ((compiled 80 "(?R)" none 1).preMatch.state.setDepth 1
          ((compiled 80 "(?R)" none 1).preMatch.state.depth 1 + 1))) := by
    obtain ⟨nd, hn⟩ := isSome_ok
      (by decide! : ((compiled 80 "(?R)" none 1).preMatch.node 1).toOption.isSome = true)
    have hk : nd.kind = .Recursion 1 := by
      have h : (((compiled 80 "(?R)" none 1).preMatch.node 1).toOption.map
          (fun x => x.kind.sameAs (.Recursion 1))) = some true := by decide!
      rw [hn] at h
      exact NodeKind_sameAs_eq _ _ (Option.some.inj h)
    have hi : nd.Ins = [⟨1, 0⟩] := by
      have h : (((compiled 80 "(?R)" none 1).preMatch.node 1).toOption.map
          (fun x => x.Ins)) = some [⟨1, 0⟩] := by decide!
      rw [hn] at h
      exact Option.some.inj h
    have hs : startNexts (compiled 80 "(?R)" none 1).preMatch nd.Ins = .ok [1] := by
      rw [hi]
      exact toOption_some (by decide!)
    refine .step _ _ _ [] (.matchSearch 79 [1] true _ none 0 _ (by decide!)) ?_
    refine .step _ _ _ [] (.candidate 78 1 [] 0 none _) ?_
    refine .step _ _ _ [] (.recursion 77 1 0 none _ nd 1 hn hk (by decide!)) ?_
    refine .step _ _ _ [] (.chunkLoop 76 0 _ _ _ _ false _ [1] hs) ?_
    refine .step _ _ _ [] (.chunkSearch 75 0 _ _ _ false [1] none 0 0 _ (by decide)) ?_
    exact .step _ _ _ [] (.candidate 74 1 [] 0 _ _) (.here _)
  exact ⟨by decide!, by decide!,
   (C13_depth_cap 0 (compiled 80 "(a(?R)?b)" none 2) "ab".data 3 1 none
      ((compiled 80 "(a(?R)?b)" none 2).state.setDepth 3 1) 1 (by decide!)).1 (by decide!),
   by decide!, by decide!, by decide!, chain,
   ((C13_depth_cap 73 (compiled 80 "(?R)" none 1).preMatch "a".data 1 0 (some [1])
      ((compiled 80 "(?R)" none 1).preMatch.state.setDepth 1
        ((compiled 80 "(?R)" none 1).preMatch.state.depth 1 + 1)) 1 (by decide!)).2.2.2.2
      (by decide!) (compiled 80 "(?R)" none 1) "a" 80 [1] 0 [] rfl rfl (by decide!)
      (toOption_some (by decide!))).1 chain⟩

/-! ## A back-reference before its capturing group, within one match -/

/-- Every call is made with one unit of fuel less than the calling function has. -/
theorem Calls_fuel (A : Regex) (text : List Char) {f g : Frame} {pre : List Frame}
    (h : Calls A text f pre g) : g.fuel + 1 = f.fuel := by
  cases h <;> rfl

/-- A call made in the course of another call has less fuel. -/
theorem Attempts_fuel (A : Regex) (text : List Char) {f g : Frame}
    (h : Attempts A text f g) : f = g ∨ g.fuel < f.fuel := by
  induction h with
  | here f => exact Or.inl rfl
  | step f g1 g pre hc ha ih =>
    have := Calls_fuel A text hc
    rcases ih with h1 | h1
    · subst h1
      exact Or.inr (by omega)
    · exact Or.inr (by omega)

/-- The first candidate of the first round of the loop of `MatchInternal` is attempted before
any other call has returned. -/
theorem first_candidate_first (A : Regex) (text : List Char) (k : Nat) (c : NodeId)
    (cs : List NodeId) (ft lt : Bool) (cn : Option NodeId) (it : Int) (σ : MatchState)
    (h : Frame) :
    ¬ Before A text (.matchLoop (k + 2) (c :: cs) ft lt cn it σ) h (.canEnter k c it none σ) := by
  rintro ⟨f, pre, g1, p, a1, c1, m1, a2, a3⟩
  have hf1 := Calls_fuel A text c1
  have hg := Attempts_fuel A text a3
  cases a1 with
  | here _ =>
    cases c1 with
    | matchSearch => cases m1
    | matchNext =>
      cases a3 with
      | step _ y _ pre2 c2 a4 =>
        have hy := Attempts_fuel A text a4
        cases c2 <;>
          (rcases hy with hy | hy
           · cases hy
           · simp only [Frame.fuel] at hy
             omega)
  | step _ x _ pre1 c0 a0 =>
    have hx := Attempts_fuel A text a0
    have hx1 := Calls_fuel A text c0
    have hfx : x = f := by
      rcases hx with hx | hx
      · exact hx
      · rcases hg with hg | hg
        · subst hg
          simp only [Frame.fuel] at hf1 hx hx1
          omega
        · simp only [Frame.fuel] at hf1 hx hx1 hg
          omega
    subst hfx
    cases c0 with
    | matchSearch =>
      cases c1 with
      | candidate => cases m1
      | nextCandidate =>
        rcases hg with hg | hg
        · cases hg
        · simp only [Frame.fuel] at hg
          omega
    | matchNext =>
      cases c1 with
      | matchSearch => cases m1
      | matchNext =>
        rcases hg with hg | hg
        · cases hg
        · simp only [Frame.fuel] at hg
          omega

/-- The automaton of a pattern that compiles is the result of `compile`. -/
theorem compile_of_isSome (fuel : Nat) (pattern : String) (Funcs : Option FuncMapType)
    (limit : Int) (h : (compile fuel pattern Funcs limit).isSome = true) :
    compile fuel pattern Funcs limit = some (compiled fuel pattern Funcs limit) := by
  unfold compiled
  cases hc : compile fuel pattern Funcs limit with
  | none => simp [hc] at h
  | some A => rfl

/-- C17: for every back-reference node and every input position, `CanEnter` returns false and
leaves the iterator (and the state) unchanged when the node has no bound capture or the
`Succeeded` flag of its bound capture is false; the pre-match reset at the start of a match
does not set the flag, so on an automaton whose capture has not succeeded the back-reference
does not match when the match reaches it before the capturing group has set the flag.  In a
freshly compiled automaton no capture has the flag set, before and after the pre-match reset.
Within one match (the loop of `Match` or of `MatchFrom`, started on the automaton after the
pre-match reset) on an automaton whose flag is not set, and so on a freshly compiled one: when
the back-reference node is attempted, at any depth of nesting, and no `CanEnter` of a capture
node bound to its capture has returned true before in the course of the match, the flag is
still not set and the back-reference does not match: if its `CanEnter` returns, it returns
false with the iterator and the state unchanged. -/
theorem C17_backreference_before_capture (fuel : Nat) (A : Regex) (text : List Char)
    (n : NodeId) (Input : Int) (Outers : Option (List NodeId)) (b : Option CapturePtr)
    (hn : A.backrefCaptureAt n = some b) :
    (∀ σ : MatchState, (b = none ∨ ∃ cp, b = some cp ∧ σ.succeeded? cp = some false) →
      CanEnter (fuel + 1) A text n Input Outers σ = .ok (false, Input, σ)) ∧
    ((b = none ∨ ∃ cp, b = some cp ∧ A.state.succeeded? cp = some false) →
      CanEnter (fuel + 1) A.preMatch text n Input Outers A.preMatch.state
        = .ok (false, Input, A.preMatch.state)) ∧
    ((∃ (fuelc : Nat) (pattern : String) (Funcs : Option FuncMapType) (limit : Int),
        compile fuelc pattern Funcs limit = some A) →
      ∀ cp : CapturePtr, A.state.succeeded? cp ≠ some true ∧
        A.preMatch.state.succeeded? cp ≠ some true) ∧
    (∀ cp : CapturePtr, b = some cp → A.state.succeeded? cp ≠ some true →
      ∀ (fuel0 : Nat) (CN : List NodeId) (Offset : Int) (Out : List Char) (top : Frame),
        (top = .matchLoop fuel0 CN true A.preMatch.EndsWithLineCheck none 0 A.preMatch.state ∨
         top = .matchFromLoop fuel0 Offset Out CN true A.preMatch.EndsWithLineCheck none Offset
            A.preMatch.state) →
      ∀ (k : Nat) (i : Int) (Os : Option (List NodeId)) (σ : MatchState),
        Attempts A.preMatch text top (.canEnter k n i Os σ) →
        (¬ ∃ h, Before A.preMatch text top h (.canEnter k n i Os σ) ∧
            CaptureEntered A.preMatch text cp h) →
        σ.succeeded? cp ≠ some true ∧
        ∀ r, CanEnter k A.preMatch text n i Os σ = .ok r → r = (false, i, σ)) ∧
    ((∃ (fuelc : Nat) (pattern : String) (Funcs : Option FuncMapType) (limit : Int),
        compile fuelc pattern Funcs limit = some A) →
      ∀ cp : CapturePtr, b = some cp →
      ∀ (fuel0 : Nat) (CN : List NodeId) (Offset : Int) (Out : List Char) (top : Frame),
        (top = .matchLoop fuel0 CN true A.preMatch.EndsWithLineCheck none 0 A.preMatch.state ∨
         top = .matchFromLoop fuel0 Offset Out CN true A.preMatch.EndsWithLineCheck none Offset
            A.preMatch.state) →
      ∀ (k : Nat) (i : Int) (Os : Option (List NodeId)) (σ : MatchState),
        Attempts A.preMatch text top (.canEnter k n i Os σ) →
        (¬ ∃ h, Before A.preMatch text top h (.canEnter k n i Os σ) ∧
            CaptureEntered A.preMatch text cp h) →
        σ.succeeded? cp ≠ some true ∧
        ∀ r, CanEnter k A.preMatch text n i Os σ = .ok r → r = (false, i, σ)) := by
  have within : ∀ cp : CapturePtr, b = some cp → A.state.succeeded? cp ≠ some true →
      ∀ (fuel0 : Nat) (CN : List NodeId) (Offset : Int) (Out : List Char) (top : Frame),
        (top = .matchLoop fuel0 CN true A.preMatch.EndsWithLineCheck none 0 A.preMatch.state ∨
         top = .matchFromLoop fuel0 Offset Out CN true A.preMatch.EndsWithLineCheck none Offset
            A.preMatch.state) →
      ∀ (k : Nat) (i : Int) (Os : Option (List NodeId)) (σ : MatchState),
        Attempts A.preMatch text top (.canEnter k n i Os σ) →
        (¬ ∃ h, Before A.preMatch text top h (.canEnter k n i Os σ) ∧
            CaptureEntered A.preMatch text cp h) →
        σ.succeeded? cp ≠ some true ∧
        ∀ r, CanEnter k A.preMatch text n i Os σ = .ok r → r = (false, i, σ) := by
    intro cp hb hu fuel0 CN Offset Out top htop k i Os σ ha hno
    subst hb
    have hu0 : top.state.unset cp := by
      have : top.state = A.preMatch.state := by
        rcases htop with h | h <;> (subst h; rfl)
      rw [this]
      unfold MatchState.unset
      rw [preMatch_succeeded]
      exact hu
    rcases Attempts_unset A.preMatch text cp ha hu0 with h1 | h1
    · exact ⟨h1, fun r hr =>
        CanEnter_backreference_not_set k A.preMatch text n i Os σ cp hn h1 r hr⟩
    · exact absurd h1 hno
  have fresh : (∃ (fuelc : Nat) (pattern : String) (Funcs : Option FuncMapType) (limit : Int),
        compile fuelc pattern Funcs limit = some A) →
      ∀ cp : CapturePtr, A.state.succeeded? cp ≠ some true ∧
        A.preMatch.state.succeeded? cp ≠ some true := by
    rintro ⟨fuelc, pattern, Funcs, limit, hc⟩ cp
    have h1 := fresh_unset (fresh_compile hc) cp
    exact ⟨h1, by rw [preMatch_succeeded]; exact h1⟩
  refine ⟨fun σ hb => CanEnter_backreference_unset fuel A text n Input Outers σ b hn hb,
    fun hb => ?_, fresh, within, fun hc cp hb => within cp hb (fresh hc cp).1⟩
  refine CanEnter_backreference_unset fuel A.preMatch text n Input Outers _ b hn ?_
  rcases hb with hb | ⟨cp, hb, hs⟩
  · exact Or.inl hb
  · exact Or.inr ⟨cp, hb, by rw [preMatch_succeeded]; exact hs⟩

/-- C17, instance: in the freshly compiled automaton of `\1(a)` the back-reference is the
first node of the match and its capture has not succeeded: it cannot be entered, and
`Match("aa")` returns false, whereas `(a)\1` matches "aa".  In the match of "aa" the
back-reference is the first candidate of the first round: it is attempted, no call has
returned before it, and it does not match. -/
theorem C17_backreference_before_capture_witness :
    (compile 50 "\\1(a)").isSome = true ∧
    (compiled 50 "\\1(a)").backrefCaptureAt 4 = some (some (.capture 0)) ∧
    (startNexts (compiled 50 "\\1(a)") (compiled 50 "\\1(a)").StartNodes).toOption = some [4] ∧
    CanEnter (0 + 1) (compiled 50 "\\1(a)").preMatch "aa".data 4 0 none
        (compiled 50 "\\1(a)").preMatch.state
      = .ok (false, 0, (compiled 50 "\\1(a)").preMatch.state) ∧
    ((compiled 50 "\\1(a)").Match 50 "aa").value? = some false ∧
    ((compiled 50 "(a)\\1").Match 50 "aa").value? = some true ∧
    Attempts (compiled 50 "\\1(a)").preMatch "aa".data
      (.matchLoop 50 [4] true (compiled 50 "\\1(a)").preMatch.EndsWithLineCheck none 0
        (compiled 50 "\\1(a)").preMatch.state)
      (.canEnter 48 4 0 none (compiled 50 "\\1(a)").preMatch.state) ∧
    (¬ ∃ h, Before (compiled 50 "\\1(a)").preMatch "aa".data
        (.matchLoop 50 [4] true (compiled 50 "\\1(a)").preMatch.EndsWithLineCheck none 0
          (compiled 50 "\\1(a)").preMatch.state) h
        (.canEnter 48 4 0 none (compiled 50 "\\1(a)").preMatch.state) ∧
      CaptureEntered (compiled 50 "\\1(a)").preMatch "aa".data (.capture 0) h) ∧
    (compiled 50 "\\1(a)").preMatch.state.succeeded? (.capture 0) ≠ some true ∧
    (∀ r, CanEnter 48 (compiled 50 "\\1(a)").preMatch "aa".data 4 0 none
        (compiled 50 "\\1(a)").preMatch.state = .ok r →
      r = (false, 0, (compiled 50 "\\1(a)").preMatch.state)) := by
  have chain : Attempts (compiled 50 "\\1(a)").preMatch "aa".data
      (.matchLoop 50 [4] true (compiled 50 "\\1(a)").preMatch.EndsWithLineCheck none 0
        (compiled 50 "\\1(a)").preMatch.state)
      (.canEnter 48 4 0 none (compiled 50 "\\1(a)").preMatch.state) :=
    .step _ _ _ [] (.matchSearch 49 [4] true _ none 0 _ (by decide!))
      (.step _ _ _ [] (.candidate 48 4 [] 0 none _) (.here _))
  have nothingBefore : ¬ ∃ h, Before (compiled 50 "\\1(a)").preMatch "aa".data
        (.matchLoop 50 [4] true (compiled 50 "\\1(a)").preMatch.EndsWithLineCheck none 0
          (compiled 50 "\\1(a)").preMatch.state) h
        (.canEnter 48 4 0 none (compiled 50 "\\1(a)").preMatch.state) ∧
      CaptureEntered (compiled 50 "\\1(a)").preMatch "aa".data (.capture 0) h :=
    fun ⟨h, hb, _⟩ => first_candidate_first _ _ 48 4 [] _ _ _ _ _ h hb
  have used := (C17_backreference_before_capture 0 (compiled 50 "\\1(a)") "aa".data 4 0 none
      (some (.capture 0)) (by decide!)).2.2.2.2
      ⟨50, "\\1(a)", none, 100, compile_of_isSome 50 "\\1(a)" none 100 (by decide!)⟩
      (.capture 0) rfl 50 [4] 0 [] _ (Or.inl rfl) 48 0 none _ chain nothingBefore
  exact ⟨by decide!, by decide!, by decide!,
   (C17_backreference_before_capture 0 (compiled 50 "\\1(a)") "aa".data 4 0 none
      (some (.capture 0)) (by decide!)).2.1 (Or.inr ⟨.capture 0, rfl, by decide!⟩),
   by decide!, by decide!, chain, nothingBefore, used.1, used.2⟩

/-! ## The substrings of `MatchAll`, round by round -/

theorem matchAllRounds_succ (fuel : Nat) (T : List Char) :
    ∀ (k : Nat) (st : MatchAllLocals),
      matchAllRounds fuel T (k + 1) st =
        (matchAllRound fuel T st).bind (matchAllRounds fuel T k) := by
  intro k
  induction k with
  | zero =>
    intro st
    simp only [matchAllRounds, Option.some_bind]
    cases matchAllRound fuel T st <;> rfl
  | succ k ih =>
    intro st
    rw [matchAllRounds, ih]
    cases h : matchAllRound fuel T st with
    | none => rfl
    | some st1 => simp only [Option.some_bind, matchAllRounds]

/-- A round of the loop of `MatchAllLoop` is the round of `matchAllRound`. -/
theorem MatchAllLoop_round (rounds fuel : Nat) (T : List Char) (st st1 : MatchAllLocals)
    (h : matchAllRound fuel T st = some st1) :
    MatchAllLoop (rounds + 1) fuel st.1 T st.2.1 st.2.2 =
      MatchAllLoop rounds fuel st1.1 T st1.2.1 st1.2.2 := by
  obtain ⟨A, i, acc⟩ := st
  unfold matchAllRound at h
  conv_lhs => rw [MatchAllLoop]
  simp only at h ⊢
  split at h
  · rename_i hi
    rw [if_pos hi]
    split at h
    · rename_i s A1 hr
      cases h
      simp only [hr]
    · rename_i s A1 hr
      cases h
      simp only [hr]
    · cases h
  · cases h

/-- Every substring the loop of `MatchAllInternal` adds was produced by a successful call of
`MatchFromInternal` on the automaton, and at the offset, that the loop had after some number
of rounds. -/
theorem MatchAllLoop_produced (fuel : Nat) (T : List Char) (rounds : Nat) :
    ∀ (st : MatchAllLocals) (v : Bool × List (List Char)) (A2 : Regex),
      MatchAllLoop rounds fuel st.1 T st.2.1 st.2.2 = .returned v A2 →
      ∃ rest, v.2 = st.2.2 ++ rest ∧ ∀ (pre : List (List Char)) (s : List Char)
        (post : List (List Char)), rest = pre ++ s :: post →
        ∃ (k : Nat) (B B1 : Regex) (i : Nat),
          matchAllRounds fuel T k st = some (B, i, st.2.2 ++ pre) ∧ i < T.length ∧
          B.MatchFromInternal fuel T (toInt32 i) [] = .returned (true, s) B1 := by
  induction rounds with
  | zero => intro st v A2 h; cases h
  | succ n ih =>
    intro st v A2 h
    cases hr : matchAllRound fuel T st with
    | none =>
      obtain ⟨A, i, acc⟩ := st
      unfold matchAllRound at hr
      unfold MatchAllLoop at h
      simp only at h hr
      split at hr
      · rename_i hi
        rw [if_pos hi] at h
        split at hr
        · cases hr
        · cases hr
        · rename_i h1 h2
          split at h
          · rename_i s A1 hx; exact absurd hx (h1 s A1)
          · rename_i s A1 hx; exact absurd hx (h2 s A1)
          · cases h
          · cases h
          · cases h
      · rename_i hi
        rw [if_neg hi] at h
        cases h
        refine ⟨[], by simp, ?_⟩
        intro pre s post hp
        cases pre <;> cases hp
    | some st1 =>
      rw [MatchAllLoop_round n fuel T st st1 hr] at h
      obtain ⟨rest1, hv, hrest⟩ := ih st1 v A2 h
      obtain ⟨A, i, acc⟩ := st
      have hr0 := hr
      unfold matchAllRound at hr
      simp only at hr
      split at hr
      · rename_i hi
        split at hr
        · rename_i s0 A1 hx
          cases hr
          simp only at hv hrest
          refine ⟨s0 :: rest1, by rw [hv]; simp, ?_⟩
          intro pre s post hp
          cases pre with
          | nil =>
            simp only [List.nil_append, List.cons.injEq] at hp
            obtain ⟨rfl, _⟩ := hp
            exact ⟨0, A, A1, i, by simp [matchAllRounds], hi, hx⟩
          | cons p0 pre1 =>
            simp only [List.cons_append, List.cons.injEq] at hp
            obtain ⟨rfl, hp⟩ := hp
            obtain ⟨k, B, B1, j, hk, hj, hm⟩ := hrest pre1 s post hp
            refine ⟨k + 1, B, B1, j, ?_, hj, hm⟩
            rw [matchAllRounds_succ, hr0, Option.some_bind, hk]
            simp
        · rename_i s0 A1 hx
          cases hr
          simp only at hv hrest
          refine ⟨rest1, hv, ?_⟩
          intro pre s post hp
          obtain ⟨k, B, B1, j, hk, hj, hm⟩ := hrest pre s post hp
          refine ⟨k + 1, B, B1, j, ?_, hj, hm⟩
          rw [matchAllRounds_succ, hr0, Option.some_bind, hk]
        · cases hr
      · cases hr

/-- The rounds of the loop of `MatchAllInternal` leave the graph of the automaton as it is. -/
theorem matchAllRounds_sameGraph (fuel : Nat) (T : List Char) :
    ∀ (k : Nat) (st st1 : MatchAllLocals), matchAllRounds fuel T k st = some st1 →
      st.1.sameGraph st1.1 := by
  intro k
  induction k with
  | zero =>
    intro st st1 h
    cases h
    exact sameGraph_refl _
  | succ k ih =>
    intro st st1 h
    rw [matchAllRounds] at h
    cases hk : matchAllRounds fuel T k st with
    | none => rw [hk] at h; cases h
    | some st2 =>
      rw [hk, Option.some_bind] at h
      refine sameGraph_trans (ih st st2 hk) ?_
      obtain ⟨A, i, acc⟩ := st2
      unfold matchAllRound at h
      simp only at h
      split at h
      · split at h
        · rename_i s0 A1 hx
          cases h
          exact sameGraph_trans (MatchFromInternal_returned hx).2 (sameGraph_lastMatchEnd _ _)
        · rename_i s0 A1 hx
          cases h
          exact (MatchFromInternal_returned hx).2
        · cases h
      · cases h

/-- After `k` rounds, the loop of `MatchAllInternal` goes on from the locals the rounds
left. -/
theorem MatchAllLoop_after_rounds (fuel : Nat) (T : List Char) :
    ∀ (k rounds : Nat) (st st1 : MatchAllLocals), matchAllRounds fuel T k st = some st1 →
      MatchAllLoop (rounds + k) fuel st.1 T st.2.1 st.2.2 =
        MatchAllLoop rounds fuel st1.1 T st1.2.1 st1.2.2 := by
  intro k
  induction k with
  | zero =>
    intro rounds st st1 h
    cases h
    rfl
  | succ k ih =>
    intro rounds st st1 h
    rw [matchAllRounds_succ] at h
    cases hr : matchAllRound fuel T st with
    | none => rw [hr] at h; cases h
    | some st2 =>
      rw [hr, Option.some_bind] at h
      rw [← Nat.add_assoc, MatchAllLoop_round (rounds + k) fuel T st st2 hr]
      exact ih rounds st2 st1 h

/-- C10, amended: for every automaton and every text, every substring in the list that
`MatchAll(T)` produces is the substring that `MatchFrom(T, i)` produced with the result true, for
an offset `i` inside the text, on an automaton with the same graph (the automaton in the state
the earlier rounds left); it is a piece of the text, followed by its terminator, that starts
at `i`.  The automaton and the offset are the locals of the loop of `MatchAll` after some
number `k` of rounds, at which the list held the substrings before this one: the loop goes on
from these locals, and its next round adds the substring. -/
theorem C10_matchAll_substrings (rounds fuel : Nat) (A : Regex) (T : String) (b : Bool)
    (subs : List (List Char)) (h : (A.MatchAll rounds fuel T).value? = some (b, subs)) :
    (∀ s ∈ subs, ∃ (i : Nat) (B : Regex), i < T.data.length ∧ A.sameGraph B ∧
      (B.MatchFrom fuel T (toInt32 i)).value? = some (true, s) ∧
      s <+: (T.data ++ [NUL]).drop (toInt32 i).toNat) ∧
    (∀ (pre : List (List Char)) (s : List Char) (post : List (List Char)),
      subs = pre ++ s :: post →
      ∃ (k i : Nat) (B : Regex),
        matchAllRounds fuel T.data k (A, 0, []) = some (B, i, pre) ∧
        (∀ r : Nat, MatchAllLoop (r + k) fuel A T.data 0 [] = MatchAllLoop r fuel B T.data i pre) ∧
        (matchAllRounds fuel T.data (k + 1) (A, 0, [])).map (fun st => st.2.2)
          = some (pre ++ [s]) ∧
        i < T.data.length ∧ A.sameGraph B ∧
        (B.MatchFrom fuel T (toInt32 i)).value? = some (true, s) ∧
        s <+: (T.data ++ [NUL]).drop (toInt32 i).toNat) := by
  have main : ∀ (pre : List (List Char)) (s : List Char) (post : List (List Char)),
      subs = pre ++ s :: post →
      ∃ (k i : Nat) (B : Regex),
        matchAllRounds fuel T.data k (A, 0, []) = some (B, i, pre) ∧
        (∀ r : Nat, MatchAllLoop (r + k) fuel A T.data 0 [] = MatchAllLoop r fuel B T.data i pre) ∧
        (matchAllRounds fuel T.data (k + 1) (A, 0, [])).map (fun st => st.2.2)
          = some (pre ++ [s]) ∧
        i < T.data.length ∧ A.sameGraph B ∧
        (B.MatchFrom fuel T (toInt32 i)).value? = some (true, s) ∧
        s <+: (T.data ++ [NUL]).drop (toInt32 i).toNat := by
    intro pre s post hsub
    unfold Regex.MatchAll Regex.MatchAllInternal at h
    split at h
    · cases h
    · cases hm : MatchAllLoop rounds fuel A T.data 0 [] with
      | returned v A2 =>
        rw [hm] at h
        have hv : v = (b, subs) := by simpa [Outcome.value?] using h
        subst hv
        obtain ⟨rest, hrest, hall⟩ := MatchAllLoop_produced fuel T.data rounds (A, 0, []) _ A2 hm
        simp only [List.nil_append] at hrest hall
        obtain ⟨k, B, B1, i, hk, hi, hr⟩ := hall pre s post (hrest ▸ hsub)
        refine ⟨k, i, B, hk, fun r => MatchAllLoop_after_rounds fuel T.data k r _ _ hk, ?_, hi,
          matchAllRounds_sameGraph fuel T.data k _ _ hk, ?_, MatchFromInternal_segment hr⟩
        · rw [matchAllRounds, hk, Option.some_bind]
          unfold matchAllRound
          simp only [if_pos hi, hr]
          rfl
        · show (B.MatchFromInternal fuel T.data (toInt32 i) []).value? = some (true, s)
          rw [hr]
          rfl
      | threw w A1 => rw [hm] at h; cases h
      | outOfFuel => rw [hm] at h; cases h
      | invalidAccess => rw [hm] at h; cases h
  refine ⟨?_, main⟩
  intro s hs
  obtain ⟨pre, post, hp⟩ := List.append_of_mem hs
  obtain ⟨k, i, B, _, _, _, hi, hg, hm, hseg⟩ := main pre s post hp
  exact ⟨i, B, hi, hg, hm, hseg⟩

/-- C10, amended, at the automaton of `(?<=x)a` and the text "xa": `MatchAll` produces the list
["a"], whose element `MatchFrom("xa", i)` produced at an offset inside the text, on the
automaton the loop had after some number of rounds. -/
theorem C10_matchAll_substrings_witness :
    ((compiled 50 "(?<=x)a").MatchAll 50 50 "xa").value? = some (true, ["a".data]) ∧
    (∀ s ∈ ["a".data], ∃ (i : Nat) (B : Regex), i < "xa".data.length ∧
      (compiled 50 "(?<=x)a").sameGraph B ∧
      (B.MatchFrom 50 "xa" (toInt32 i)).value? = some (true, s) ∧
      s <+: ("xa".data ++ [NUL]).drop (toInt32 i).toNat) ∧
    (∃ (k i : Nat) (B : Regex),
      matchAllRounds 50 "xa".data k (compiled 50 "(?<=x)a", 0, []) = some (B, i, []) ∧
      (∀ r : Nat, MatchAllLoop (r + k) 50 (compiled 50 "(?<=x)a") "xa".data 0 []
        = MatchAllLoop r 50 B "xa".data i []) ∧
      (matchAllRounds 50 "xa".data (k + 1) (compiled 50 "(?<=x)a", 0, [])).map
        (fun st => st.2.2) = some ([] ++ ["a".data]) ∧
      i < "xa".data.length ∧ (compiled 50 "(?<=x)a").sameGraph B ∧
      (B.MatchFrom 50 "xa" (toInt32 i)).value? = some (true, "a".data) ∧
      "a".data <+: ("xa".data ++ [NUL]).drop (toInt32 i).toNat) ∧
    ((matchAllRounds 50 "xa".data 1 (compiled 50 "(?<=x)a", 0, [])).map
      (fun st => (st.2.1, st.2.2)) = some (1, [])) :=
  ⟨by decide!,
   (C10_matchAll_substrings 50 50 (compiled 50 "(?<=x)a") "xa" true ["a".data]
      (by decide!)).1,
   (C10_matchAll_substrings 50 50 (compiled 50 "(?<=x)a") "xa" true ["a".data]
      (by decide!)).2 [] "a".data [] rfl,
   by decide!⟩

end Evex
